import Mathlib

/-! # LinuxCamPAM: the authentication engine

A shallow embedding of `src/service/auth_engine.cpp` (class `AuthEngine`, with
`parse_ini` and `getModelVersion`) and of `cosine_similarity` of
`src/service/auth_engine.hpp`, of `Camera::captureHDR` of `src/service/camera.cpp`, of
the validators and the similarity function of the test suite (`tests/test_config.cpp`,
`tests/test_embeddings.cpp`, `tests/test_security.cpp`) and of the parts of the JSON
library the engine relies on, followed by the properties proved about them.

Conventions of the embedding.

* A `std::string` is a Lean `String` and `length()` is the number of its characters.
  C++ counts bytes; the two agree on ASCII strings, and the only place where the length
  matters, the identifier validator, rejects a string with a non-ASCII character
  whatever its length.
* A `float` or `double` is a value of `FloatV`: a rational number or NaN. The ordered
  comparisons are the IEEE ones (false as soon as one side is NaN). The floating-point
  routines of the vision library (cosine similarity, normalisation) are not computed:
  the `World` supplies their results. The function `cosine_similarity` itself is
  embedded over an abstract arithmetic (`Arith`), which is read in floating-point
  arithmetic by class (`Flt`: NaN, infinity or number) and in exact real arithmetic.
* A captured image is a `Frame`: its brightness and the feature vectors of the faces
  the detector finds in it. Capture, detection and feature extraction are external
  capabilities; a `Camera` says what a capture returns during one operation.
* A user document (`nlohmann::json`) is a value of `Json`. A JSON object is a list of
  fields kept in key order, as `std::map` keeps it. The file system maps a path to the
  document stored there; a file that does not parse as JSON is not modelled.
* A C++ exception is the `error` case of `Except Err`. The exceptions modelled are the
  type errors of the JSON library and the failures of the vision library's routines.
* `std::time(nullptr)` is the field `now` of the `World`, the same for all the calls of
  one operation; `std::chrono::steady_clock::now()` is its field `clock`, in
  nanoseconds.
* A configuration file is the list of its lines. The number conversions `std::stof` and
  `std::stoi` are supplied by the `World`; by default they read decimal notation and
  keep the number exact.
* Every operation returns, next to its result, the engine and the file system it
  leaves behind and the trace of the effects it performed (`Outcome`). Log output is
  not part of the trace.
-/

namespace LinuxCamPAM

/-! ## JSON documents -/

/-- The exceptions the engine can raise: a `nlohmann::json` type error (with its
numeric id), a failed OpenCV assertion, and the two exceptions of the number
conversions `std::stoi` and `std::stof`. -/
inductive Err where
  | type_error (id : Nat)
  | cv_assert
  | invalid_argument
  | out_of_range
  deriving DecidableEq, Repr

/-- A `nlohmann::json` value. Numbers are kept as rationals. -/
inductive Json where
  | null : Json
  | bool (b : Bool) : Json
  | num (q : ℚ) : Json
  | str (s : String) : Json
  | arr (elems : List Json) : Json
  | obj (fields : List (String × Json)) : Json
  deriving Inhabited

/-- The fields of a JSON object (`std::map<std::string, json>`). -/
abbrev Fields := List (String × Json)

/-- Lookup of a key (`std::map::find`). -/
def Fields.find : Fields → String → Option Json
  | [], _ => none
  | (k, v) :: rest, key => if k = key then some v else Fields.find rest key

/-- Overwrite the value of a key that is present, in place. -/
def Fields.replace : Fields → String → Json → Fields
  | [], _, _ => []
  | (k, w) :: rest, key, v =>
    if k = key then (key, v) :: rest else (k, w) :: Fields.replace rest key v

/-- Insert a key that is not present, at its place in the key order. -/
def Fields.insert : Fields → String → Json → Fields
  | [], key, v => [(key, v)]
  | (k, w) :: rest, key, v =>
    if key < k then (key, v) :: (k, w) :: rest else (k, w) :: Fields.insert rest key v

/-- Overwrite or insert a key (`map[key] = v`). -/
def Fields.set (fs : Fields) (key : String) (v : Json) : Fields :=
  if (Fields.find fs key).isSome then Fields.replace fs key v else Fields.insert fs key v

/-- Remove a key (`std::map::erase(key)`): no field with that key remains. -/
def Fields.erase (fs : Fields) (key : String) : Fields :=
  fs.filter fun kv => kv.1 != key

namespace Json

/-- Embeds `j.contains(key)`: true only for an object holding the key. -/
def contains : Json → String → Bool
  | obj fs, key => (Fields.find fs key).isSome
  | _, _ => false

/-- Embeds `j.is_array()`. -/
def is_array : Json → Bool
  | arr _ => true
  | _ => false

/-- Embeds `j[key]` on a const value, used by the engine only behind `contains(key)`:
the value under the key (null when there is none). -/
def getKey : Json → String → Json
  | obj fs, key => (Fields.find fs key).getD null
  | _, _ => null

/-- Embeds `j[key]` on a mutable value: null turns into an object, a missing key is inserted
with value null, and any other type raises type error 305. Returns the value under
the key and the container as the access leaves it. -/
def index : Json → String → Except Err (Json × Json)
  | null, key => .ok (null, obj [(key, null)])
  | obj fs, key =>
    match Fields.find fs key with
    | some v => .ok (v, obj fs)
    | none => .ok (null, obj (Fields.set fs key null))
  | _, _ => .error (.type_error 305)

/-- The assignment `j[key] = v`. -/
def assign : Json → String → Json → Except Err Json
  | null, key, v => .ok (obj [(key, v)])
  | obj fs, key, v => .ok (obj (Fields.set fs key v))
  | _, _, _ => .error (.type_error 305)

/-- Embeds `j.erase(key)`: defined on objects, type error 307 otherwise. -/
def erase : Json → String → Except Err Json
  | obj fs, key => .ok (obj (Fields.erase fs key))
  | _, _ => .error (.type_error 307)

/-- Embeds `j.size()`: 0 for null, the number of elements of an array or object, 1 for a
primitive value. -/
def size : Json → Nat
  | null => 0
  | arr l => l.length
  | obj fs => fs.length
  | _ => 1

/-- The values a range-based `for` visits: the elements of an array, the values of an
object, nothing for null, the value itself for a primitive. -/
def items : Json → List Json
  | null => []
  | arr l => l
  | obj fs => fs.map Prod.snd
  | j => [j]

/-- Embeds `j.push_back(v)`: null turns into an array, type error 308 on anything that is
not an array. -/
def push_back : Json → Json → Except Err Json
  | null, v => .ok (arr [v])
  | arr l, v => .ok (arr (l ++ [v]))
  | _, _ => .error (.type_error 308)

/-- Embeds `j.get<float>()`: numbers, and booleans as 0 or 1; type error 302 otherwise. -/
def getFloat : Json → Except Err ℚ
  | num q => .ok q
  | bool b => .ok (if b then 1 else 0)
  | _ => .error (.type_error 302)

/-- Embeds `j.get<std::vector<float>>()`: an array whose elements convert to float. -/
def getVec : Json → Except Err (List ℚ)
  | arr l => l.mapM getFloat
  | _ => .error (.type_error 302)

/-- Embeds `j.get<std::string>()`. -/
def getString : Json → Except Err String
  | str s => .ok s
  | _ => .error (.type_error 302)

/-- The comparison `j == s` of a JSON value with a string. -/
def eqStr : Json → String → Bool
  | str t, s => t = s
  | _, _ => false

/-- Embeds `j.value(key, dflt)` for an integer default (`std::time_t`): the value under the
key converted to an integer (a float is truncated), the default when the key is
missing; type error 306 when `j` is no object, 302 when the value is no number. -/
def valueInt : Json → String → Int → Except Err Int
  | obj fs, key, dflt =>
    match Fields.find fs key with
    | none => .ok dflt
    | some (num q) => .ok (Int.tdiv q.num q.den)
    | some _ => .error (.type_error 302)
  | _, _, _ => .error (.type_error 306)

/-- A vector of floats as the JSON array the library stores for it. -/
def ofVec (v : List ℚ) : Json := arr (v.map num)

end Json

/-! ## Identifier validation -/

/-- The bracket expression `[a-zA-Z0-9_\.-]` of the engine's regular expression. -/
def userReClass (c : Char) : Bool :=
  (decide ('a' ≤ c) && decide (c ≤ 'z')) || (decide ('A' ≤ c) && decide (c ≤ 'Z')) ||
  (decide ('0' ≤ c) && decide (c ≤ '9')) || c == '_' || c == '.' || c == '-'

/-- Embeds `std::regex_match(s, re)` for `re = "^[a-zA-Z0-9_\\.-]+$"`: the whole string is
one or more characters of the class. -/
def regex_match_user_re (s : String) : Bool :=
  !s.toList.isEmpty && s.toList.all userReClass

/-- Embeds `AuthEngine::isValidUsername` (auth_engine.cpp). -/
def isValidUsername (username : String) : Bool :=
  if username.length > 32 || username.isEmpty then false
  else regex_match_user_re username

namespace Tests

/-- Embeds `isValidUsername` of tests/test_config.cpp, the validator the test suite checks. -/
def isValidUsername (username : String) : Bool :=
  if username.isEmpty || username.length > 32 then false
  else if username = ".." || username = "." then false
  else regex_match_user_re username

/-- Embeds `std::isalnum` in the C locale. -/
def isalnum (c : Char) : Bool :=
  (decide ('a' ≤ c) && decide (c ≤ 'z')) || (decide ('A' ≤ c) && decide (c ≤ 'Z')) ||
  (decide ('0' ≤ c) && decide (c ≤ '9'))

/-- Embeds `isValidLabel` of tests/test_embeddings.cpp. -/
def isValidLabel (label : String) : Bool :=
  if label.isEmpty || label.length > 32 then false
  else label.toList.all (fun c => isalnum c || c == '_' || c == '-')

end Tests

/-! ## Data model of the engine -/

/-- A float as the engine's comparisons see it: NaN or an ordered value. -/
inductive FloatV where
  | nan : FloatV
  | val (q : ℚ) : FloatV
  deriving DecidableEq

/-- The comparison `a > b` on floats: false when a side is NaN. -/
def FloatV.gt : FloatV → FloatV → Bool
  | .val a, .val b => decide (b < a)
  | _, _ => false

/-- The comparison `a >= b` on floats: false when a side is NaN. -/
def FloatV.ge : FloatV → FloatV → Bool
  | .val a, .val b => decide (b ≤ a)
  | _, _ => false

/-- A feature vector (`std::vector<float>`, a one-row `cv::Mat`). -/
abbrev Vec := List ℚ

/-- Embeds `AuthEngine::AuthPolicy`. -/
inductive AuthPolicy where
  | STRICT_ALL
  | LENIENT_ANY
  | ADAPTIVE
  deriving DecidableEq, Repr

/-- Embeds `AuthEngine::CameraDefinition`. -/
structure CameraDefinition where
  id : String
  path : String
  type : String
  min_brightness : Int := 0
  mandatory : Bool := false
  enroll_hdr : String := ""
  enroll_averaging : String := ""
  enroll_average_frames : Int := 0

/-- A non-empty captured image, by what the engine reads off it: its mean brightness
(`calculateBrightness`) and, for every row of `detector->detect`, the feature vector
that `recognizer->alignCrop` and `recognizer->feature` give for that face. The
inference calls are an external capability and are taken to return normally. -/
structure Frame where
  brightness : ℚ
  faces : List Vec

/-- A `Camera` object, by what its device gives during one operation of the engine:
the image of `capture()`, of `captureAveraged(n)` and of the exposure series of
`captureHDR()`; `none` is the empty `cv::Mat`. -/
structure Camera where
  supports_manual_exposure_ : Bool := false
  capture : Option Frame
  captureAveraged : Int → Option Frame := fun _ => none
  mergeExposures : Option Frame := none

/-- Embeds `Camera::captureHDR`: without manual exposure it falls back to
`captureAveraged(5)`; otherwise it returns the image that the three exposures give
(the fused image, the last frame when fewer than two exposures were read, or the
empty image), here `mergeExposures`. -/
def Camera.captureHDR (c : Camera) : Option Frame :=
  if !c.supports_manual_exposure_ then c.captureAveraged 5
  else c.mergeExposures

/-- Embeds `AuthEngine::ActiveCamera`. -/
structure ActiveCamera where
  cam : Camera
  config : CameraDefinition

/-- Embeds `AuthEngine::Config`, with the defaults of the header. -/
structure Config where
  threshold : FloatV := .val (363 / 1000)
  detection_threshold : FloatV := .val (9 / 10)
  timeout_ms : Int := 3000
  max_embeddings : Int := 5
  policy : AuthPolicy := .ADAPTIVE
  camera_defs : List CameraDefinition := []
  save_success : Bool := false
  save_fail : Bool := false
  log_dir : String := "/var/log/linuxcampam/"
  provider_priority : List String := []
  model_keep_alive_sec : Int := 0
  enroll_hdr : String := "auto"
  enroll_averaging : Bool := true
  enroll_average_frames : Int := 5
  verify_averaging : Bool := false
  verify_average_frames : Int := 3
  users_dir : String := "/etc/linuxcampam/users"
  models_dir : String := "/etc/linuxcampam/models"
  ir_emitter_path : String := "/usr/local/bin/linux-enable-ir-emitter"

/-- The state of an `AuthEngine` object. The two model handles are kept as flags:
`true` for a loaded model, `false` for a null pointer. -/
structure AuthEngine where
  config : Config
  detector : Bool := false
  recognizer : Bool := false
  detection_model_path : String := ""
  recognition_model_path : String := ""
  active_cameras : List ActiveCamera := []
  last_activity_ : Int := 0

/-- The test `std::isspace` in the C locale. -/
def isSpace (c : Char) : Bool :=
  c == ' ' || (9 ≤ c.toNat && c.toNat ≤ 13)

/-- The number a string of decimal digits denotes. -/
def digitsValue (ds : List Char) : Nat :=
  ds.foldl (fun n c => 10 * n + (c.toNat - 48)) 0

/-- An optional sign in front of a number: whether it is a minus, and what follows. -/
def readSign : List Char → Bool × List Char
  | '-' :: rest => (true, rest)
  | '+' :: rest => (false, rest)
  | l => (false, l)

/-- The conversion `std::stoi` in the C locale: leading white space, an optional sign
and the longest run of decimal digits; what follows is ignored. Without a digit it
raises `std::invalid_argument`, outside the range of `int` `std::out_of_range`. -/
def readInt (s : String) : Except Err Int :=
  let signed := readSign (s.toList.dropWhile isSpace)
  let ds := signed.2.takeWhile Char.isDigit
  if ds.isEmpty then .error .invalid_argument
  else
    let v : Int := if signed.1 then -(digitsValue ds : Int) else (digitsValue ds : Int)
    if v < -2147483648 ∨ 2147483647 < v then .error .out_of_range else .ok v

/-- The exponent that follows the mantissa of a decimal number, if there is one: the
letter e, an optional sign and at least one digit. Returns whether the exponent is
negative, and its absolute value. -/
def readExponent : List Char → Option (Bool × Nat)
  | [] => none
  | c :: rest =>
    if c = 'e' ∨ c = 'E' then
      let signed := readSign rest
      let es := signed.2.takeWhile Char.isDigit
      if es.isEmpty then none else some (signed.1, digitsValue es)
    else none

/-- A mantissa scaled by a power of ten. -/
def scaleByExponent (v : ℚ) : Option (Bool × Nat) → ℚ
  | none => v
  | some (true, n) => v / (10 ^ n : ℚ)
  | some (false, n) => v * (10 ^ n : ℚ)

/-- The conversion `std::stof` in the C locale on decimal notation: leading white
space, an optional sign, digits with an optional fraction, and an optional exponent;
what follows is ignored. Without a digit in the mantissa it raises
`std::invalid_argument`. As every float of this embedding the number is kept exact,
where `std::stof` rounds it to the nearest `float`; hexadecimal notation, infinities,
NaN and the range error of `std::stof` are not covered by this reader. -/
def readFloat (s : String) : Except Err FloatV :=
  let signed := readSign (s.toList.dropWhile isSpace)
  let ds := signed.2.takeWhile Char.isDigit
  let after := signed.2.dropWhile Char.isDigit
  let fs := match after with
    | '.' :: rest => rest.takeWhile Char.isDigit
    | _ => []
  let tail := match after with
    | '.' :: rest => rest.dropWhile Char.isDigit
    | _ => after
  if ds.isEmpty && fs.isEmpty then .error .invalid_argument
  else
    let v : ℚ := scaleByExponent
      ((digitsValue ds : ℚ) + (digitsValue fs : ℚ) / (10 ^ fs.length : ℚ)) (readExponent tail)
    .ok (.val (if signed.1 then -v else v))

/-- Embeds `cv::dnn` backend identifiers. -/
inductive Backend where
  | DNN_BACKEND_OPENCV
  | DNN_BACKEND_CUDA
  | DNN_BACKEND_INFERENCE_ENGINE
  deriving DecidableEq, Repr

/-- Embeds `cv::dnn` target identifiers. -/
inductive Target where
  | DNN_TARGET_CPU
  | DNN_TARGET_CUDA
  | DNN_TARGET_OPENCL
  deriving DecidableEq, Repr

/-- What the engine observes of its environment during one operation: the clocks,
the host's compute capabilities, whether creating a model succeeds, the `Camera`
object a device path gives, the floating-point routines of the vision library
(the value they return, or the exception they raise), the number conversions of the
standard library (by default the readers above) and the video devices that
`enumerateCameras` finds, each with its classified type. -/
structure World where
  now : Int
  clock : Int
  cudaDeviceCount : Int := 0
  haveOpenCL : Bool := false
  createDetector : Backend → Target → Bool := fun _ _ => true
  createRecognizer : Backend → Target → Bool := fun _ _ => true
  newCamera : String → Bool → String → Camera := fun _ _ _ => { capture := none }
  cosine_similarity : Vec → Vec → Except Err FloatV
  normalizedSum : Vec → Vec → Except Err Vec
  stof : String → Except Err FloatV := readFloat
  stoi : String → Except Err Int := readInt
  enumerateCameras : List (String × String) := []

/-- The file system: the JSON document stored under each path, if any. -/
abbrev FS := String → Option Json

/-- Writing a document to a path. -/
def FS.write (fs : FS) (path : String) (j : Json) : FS :=
  fun p => if p = path then some j else fs p

/-- The effects an operation performs, in the order it performs them. -/
inductive Effect where
  | fsExists (path : String)
  | fsRead (path : String)
  | fsWrite (path : String)
  | mkdirs (path : String)
  | capture (camera : String)
  | captureAveraged (camera : String) (frames : Int)
  | captureHDR (camera : String)
  | imwrite (path : String)
  deriving DecidableEq, Repr

/-- Is the effect a camera capture of any kind. -/
def Effect.isCapture : Effect → Bool
  | .capture _ => true
  | .captureAveraged _ _ => true
  | .captureHDR _ => true
  | _ => false

/-- What an operation of the engine leaves behind: the value it returns (or the
exception that escapes it), the engine state, the file system and the effects. -/
structure Outcome (α : Type) where
  result : Except Err α
  engine : AuthEngine
  fs : FS
  log : List Effect

/-! ## Model lifecycle -/

/-- The backend selection loop of `AuthEngine::loadModels`. -/
def selectBackend (w : World) : List String → Backend × Target
  | [] => (.DNN_BACKEND_OPENCV, .DNN_TARGET_CPU)
  | prov :: rest =>
    if prov = "CUDA" then
      if w.cudaDeviceCount > 0 then (.DNN_BACKEND_CUDA, .DNN_TARGET_CUDA)
      else selectBackend w rest
    else if prov = "OpenVINO" then (.DNN_BACKEND_INFERENCE_ENGINE, .DNN_TARGET_CPU)
    else if prov = "OpenCL" then
      if w.haveOpenCL then (.DNN_BACKEND_OPENCV, .DNN_TARGET_OPENCL)
      else (.DNN_BACKEND_OPENCV, .DNN_TARGET_CPU)
    else selectBackend w rest

/-- Embeds `AuthEngine::loadModels`: the result and the engine afterwards. A model whose
creation raises `cv::Exception` leaves the handles assigned so far in place. -/
def loadModels (e : AuthEngine) (w : World) : Bool × AuthEngine :=
  if e.detector && e.recognizer then (true, e)
  else
    let sel := selectBackend w e.config.provider_priority
    if !w.createDetector sel.1 sel.2 then (false, e)
    else if !w.createRecognizer sel.1 sel.2 then (false, { e with detector := true })
    else
      let cams :=
        if e.active_cameras.isEmpty then
          e.config.camera_defs.map fun d =>
            { cam := w.newCamera d.path (d.type == "ir") e.config.ir_emitter_path,
              config := d : ActiveCamera }
        else e.active_cameras
      (true, { e with detector := true, recognizer := true, active_cameras := cams,
                      last_activity_ := w.clock })

/-- Embeds `AuthEngine::ensureModelsLoaded`. -/
def ensureModelsLoaded (e : AuthEngine) (w : World) : Bool × AuthEngine :=
  if !e.detector then loadModels e w
  else (true, { e with last_activity_ := w.clock })

/-- The path of a user's document: `users_dir + "/" + username + ".json"`. -/
def userFile (cfg : Config) (username : String) : String :=
  cfg.users_dir ++ "/" ++ username ++ ".json"

/-! ## Verification -/

/-- The loop of `verifyUser` over an `embeddings_<type>` array: the `data` of every
entry that has one, in order. -/
def collectData : List Json → Except Err (List Vec)
  | [] => .ok []
  | entry :: rest =>
    if entry.contains "data" then
      match (entry.getKey "data").getVec with
      | .error err => .error err
      | .ok v =>
        match collectData rest with
        | .error err => .error err
        | .ok vs => .ok (v :: vs)
    else collectData rest

/-- The step "Load embeddings (multi-format first, then legacy)": the vector `all_embeddings`
that `verifyUser` builds for a camera type. -/
def loadEmbeddings (j : Json) (type : String) : Except Err (List Vec) :=
  let emb_array_key := "embeddings_" ++ type
  let emb_key := "embedding_" ++ type
  if j.contains emb_array_key && (j.getKey emb_array_key).is_array then
    collectData (j.getKey emb_array_key).items
  else if j.contains emb_key then
    match (j.getKey emb_key).getVec with
    | .error err => .error err
    | .ok v => .ok [v]
  else .ok []

/-- The inner loop of the face comparison: one face against every stored vector,
raising `best_score` whenever `score > best_score`. -/
def bestOverStored (w : World) (curr_emb : Vec) : List Vec → FloatV → Except Err FloatV
  | [], best_score => .ok best_score
  | stored_vec :: rest, best_score =>
    match w.cosine_similarity curr_emb stored_vec with
    | .error err => .error err
    | .ok score =>
      bestOverStored w curr_emb rest (if score.gt best_score then score else best_score)

/-- The outer loop of the face comparison: every detected face in turn. -/
def bestOverFaces (w : World) (all_embeddings : List Vec) :
    List Vec → FloatV → Except Err FloatV
  | [], best_score => .ok best_score
  | face :: rest, best_score =>
    match bestOverStored w face all_embeddings best_score with
    | .error err => .error err
    | .ok best => bestOverFaces w all_embeddings rest best

/-- The value of `match` that `verifyUser` computes for a participating camera with
stored embeddings: with at least one face, `best_score` starts at 0.0, is raised over
all pairs, and the camera matches when `best_score >= config.threshold`. -/
def cameraMatch (cfg : Config) (w : World) (faces : List Vec) (all_embeddings : List Vec) :
    Except Err Bool :=
  if faces.length ≥ 1 then
    match bestOverFaces w all_embeddings faces (.val 0) with
    | .error err => .error err
    | .ok best_score => .ok (best_score.ge cfg.threshold)
  else .ok false

/-- The counters of `verifyUser` and the effects performed so far. -/
structure VerifyState where
  participants : Nat := 0
  successes : Nat := 0
  failures : Nat := 0
  log : List Effect := []

/-- How the camera loop of `verifyUser` ends: it runs through every camera, executes
a `return` inside the loop, or lets an exception escape. -/
inductive LoopEnd where
  | finished (st : VerifyState)
  | returned (b : Bool) (st : VerifyState)
  | thrown (err : Err) (st : VerifyState)

/-- The state in which the loop ended. -/
def LoopEnd.state : LoopEnd → VerifyState
  | .finished st => st
  | .returned _ st => st
  | .thrown _ st => st

/-- Append an effect to the trace. -/
def VerifyState.emit (st : VerifyState) (eff : Effect) : VerifyState :=
  { st with log := st.log ++ [eff] }

/-- Append an effect to the trace when the flag is set. -/
def VerifyState.emitIf (st : VerifyState) (flag : Bool) (eff : Effect) : VerifyState :=
  if flag then st.emit eff else st

/-- The body of the loop `for (auto &ac : active_cameras)` of `AuthEngine::verifyUser`
for one camera: `finished` when control reaches the next iteration (by `continue` or
at the end of the body), `returned` for a `return` inside the body. -/
def verifyCamera (cfg : Config) (w : World) (j : Json) (username : String)
    (ac : ActiveCamera) (st0 : VerifyState) : LoopEnd :=
  let id := ac.config.id
  let st := st0.emit (.capture id)
  match ac.cam.capture with
  | none =>
    if cfg.policy = .STRICT_ALL then .returned false st
    else if cfg.policy = .ADAPTIVE && ac.config.mandatory then .returned false st
    else .finished st
  | some frame =>
    if ac.config.min_brightness > 0 && decide (frame.brightness < ac.config.min_brightness) then
      if cfg.policy = .ADAPTIVE && ac.config.mandatory then .returned false st
      else .finished st
    else
      let st1 := { st with participants := st.participants + 1 }
      match loadEmbeddings j ac.config.type with
      | .error err => .thrown err st1
      | .ok all_embeddings =>
        if all_embeddings.isEmpty then
          .finished ({ st1 with failures := st1.failures + 1 }.emitIf cfg.save_fail
            (.imwrite (cfg.log_dir ++ "fail_missing_" ++ id ++ "_" ++ username ++ ".jpg")))
        else
          match cameraMatch cfg w frame.faces all_embeddings with
          | .error err => .thrown err st1
          | .ok true =>
            .finished ({ st1 with successes := st1.successes + 1 }.emitIf cfg.save_success
              (.imwrite (cfg.log_dir ++ "success_" ++ id ++ "_" ++ username ++ ".jpg")))
          | .ok false =>
            .finished ({ st1 with failures := st1.failures + 1 }.emitIf cfg.save_fail
              (.imwrite (cfg.log_dir ++ "fail_" ++ id ++ "_" ++ username ++ ".jpg")))

/-- The loop `for (auto &ac : active_cameras)` of `AuthEngine::verifyUser`. -/
def verifyLoop (cfg : Config) (w : World) (j : Json) (username : String) :
    List ActiveCamera → VerifyState → LoopEnd
  | [], st => .finished st
  | ac :: rest, st =>
    match verifyCamera cfg w j username ac st with
    | .finished st1 => verifyLoop cfg w j username rest st1
    | .returned b st1 => .returned b st1
    | .thrown err st1 => .thrown err st1

/-- The verdict after the loop: no participant gives false, otherwise the policy rule. -/
def verdict (cfg : Config) (st : VerifyState) : Bool :=
  if st.participants == 0 then false
  else if cfg.policy = .STRICT_ALL then st.failures == 0
  else if cfg.policy = .LENIENT_ANY then decide (st.successes > 0)
  else st.failures == 0

/-- Embeds `AuthEngine::verifyUser`. -/
def verifyUser (e : AuthEngine) (w : World) (fs : FS) (username : String) : Outcome Bool :=
  let loaded := ensureModelsLoaded e w
  let e1 := loaded.2
  if !loaded.1 then { result := .ok false, engine := e1, fs := fs, log := [] }
  else if !isValidUsername username then
    { result := .ok false, engine := e1, fs := fs, log := [] }
  else
    let user_file := userFile e1.config username
    match fs user_file with
    | none => { result := .ok false, engine := e1, fs := fs, log := [.fsExists user_file] }
    | some j =>
      match verifyLoop e1.config w j username e1.active_cameras
          { log := [.fsExists user_file, .fsRead user_file] } with
      | .returned b st => { result := .ok b, engine := e1, fs := fs, log := st.log }
      | .thrown err st => { result := .error err, engine := e1, fs := fs, log := st.log }
      | .finished st =>
        { result := .ok (verdict e1.config st), engine := e1, fs := fs, log := st.log }

/-! ## Model version -/

/-- Embeds `fs::path::filename()`: what follows the last directory separator. -/
def pathFilename (path : String) : List Char :=
  (path.toList.reverse.takeWhile (fun c => c != '/')).reverse

/-- Embeds `fs::path::stem()`: the file name itself when it is "." or ".." or has no period
other than a leading one, otherwise the file name up to its last period. -/
def pathStem (path : String) : List Char :=
  let f := pathFilename path
  if f = ['.'] ∨ f = ['.', '.'] then f
  else if !(f.drop 1).contains '.' then f
  else ((f.reverse.dropWhile (fun c => c != '.')).drop 1).reverse

/-- Embeds `getModelVersion`: the stem of the model file without "face_recognition_". -/
def getModelVersion (model_path : String) : String :=
  let filename := pathStem model_path
  let pfx := "face_recognition_".toList
  if pfx.isPrefixOf filename then String.mk (filename.drop pfx.length)
  else String.mk filename

/-! ## Enrollment -/

/-- How a camera loop that builds a document ends: it runs through every camera with
the document `j`, executes `return r`, or lets an exception escape. -/
inductive DocLoopEnd (ρ : Type) where
  | finished (j : Json) (log : List Effect)
  | returned (r : ρ) (log : List Effect)
  | thrown (err : Err) (log : List Effect)

/-- The capture `enrollUser` performs on a camera, with the effect it leaves:
HDR when `use_hdr` is "on", or "auto" on a camera with manual exposure; else averaged
capture when averaging is on; else a single capture. The camera's own settings take
precedence over the global ones when they are set. -/
def enrollCapture (cfg : Config) (ac : ActiveCamera) : Option Frame × Effect :=
  let use_hdr := if !ac.config.enroll_hdr.isEmpty then ac.config.enroll_hdr else cfg.enroll_hdr
  let use_averaging :=
    if !ac.config.enroll_averaging.isEmpty then ac.config.enroll_averaging == "on"
    else cfg.enroll_averaging
  let avg_frames :=
    if ac.config.enroll_average_frames > 0 then ac.config.enroll_average_frames
    else cfg.enroll_average_frames
  if use_hdr == "on" || (use_hdr == "auto" && ac.cam.supports_manual_exposure_) then
    (ac.cam.captureHDR, .captureHDR ac.config.id)
  else if use_averaging then
    (ac.cam.captureAveraged avg_frames, .captureAveraged ac.config.id avg_frames)
  else (ac.cam.capture, .capture ac.config.id)

/-- The loop `for (auto &ac : active_cameras)` of `AuthEngine::enrollUser`. -/
def enrollLoop (cfg : Config) (username : String) :
    List ActiveCamera → Json → List Effect → DocLoopEnd (Bool × String)
  | [], j, log => .finished j log
  | ac :: rest, j, log0 =>
    let id := ac.config.id
    let cap := enrollCapture cfg ac
    let log := log0 ++ [cap.2]
    match cap.1 with
    | none => .returned (false, "Camera " ++ id ++ " failed (empty frame).") log
    | some frame =>
      match frame.faces with
      | [face] =>
        match j.assign ("_pending_" ++ ac.config.type) (Json.ofVec face) with
        | .error err => .thrown err log
        | .ok j1 => enrollLoop cfg username rest j1 log
      | faces =>
        .returned (false, "Found " ++ toString faces.length ++ " faces in " ++ id ++
            ". Expecting exactly 1.")
          (if cfg.save_fail then
            log ++ [.imwrite (cfg.log_dir ++ "failed_enroll_" ++ id ++ "_" ++ username ++ ".jpg")]
          else log)

/-- Embeds `AuthEngine::enrollUser`. -/
def enrollUser (e : AuthEngine) (w : World) (fs : FS) (username : String) :
    Outcome (Bool × String) :=
  let loaded := ensureModelsLoaded e w
  let e1 := loaded.2
  if !loaded.1 then
    { result := .ok (false, "Failed to load AI models."), engine := e1, fs := fs, log := [] }
  else if !isValidUsername username then
    { result := .ok (false, "Invalid username (security restriction)."), engine := e1,
      fs := fs, log := [] }
  else
    let user_file := userFile e1.config username
    let start : Json × List Effect :=
      match fs user_file with
      | some j => (j, [.fsExists user_file, .fsRead user_file])
      | none =>
        (.obj (Fields.set (Fields.set [] "username" (.str username)) "created" (.num w.now)),
         [.fsExists user_file])
    match enrollLoop e1.config username e1.active_cameras start.1 start.2 with
    | .returned r log => { result := .ok r, engine := e1, fs := fs, log := log }
    | .thrown err log => { result := .error err, engine := e1, fs := fs, log := log }
    | .finished j log =>
      { result := .ok (true, "Success"), engine := e1, fs := fs.write user_file j,
        log := log ++ [.mkdirs e1.config.users_dir, .fsWrite user_file] }

/-! ## Labelled entries -/

/-- The test `entry["label"] == label` on a mutable entry: the access inserts a null
label into an entry that has none. Returns the outcome of the comparison and the entry
as the access leaves it. -/
def entryLabelIs (entry : Json) (label : String) : Except Err (Bool × Json) :=
  match entry.index "label" with
  | .error err => .error err
  | .ok (v, entry1) => .ok (v.eqStr label, entry1)

/-- The loop "find the entry with this label, update it, break" over the elements a
container yields: the flag `found` and the elements afterwards. -/
def updateFirstLabelled (label : String) (upd : Json → Except Err Json) :
    List Json → Except Err (Bool × List Json)
  | [] => .ok (false, [])
  | entry :: rest =>
    match entryLabelIs entry label with
    | .error err => .error err
    | .ok (true, entry1) =>
      match upd entry1 with
      | .error err => .error err
      | .ok entry2 => .ok (true, entry2 :: rest)
    | .ok (false, entry1) =>
      match updateFirstLabelled label upd rest with
      | .error err => .error err
      | .ok (found, rest1) => .ok (found, entry1 :: rest1)

/-- The same loop on the JSON value stored under `embeddings_<type>`: over the
elements of an array or the values of an object; null yields nothing, and on a
primitive value the label access raises type error 305. -/
def findAndUpdate (label : String) (upd : Json → Except Err Json) :
    Json → Except Err (Bool × Json)
  | .null => .ok (false, .null)
  | .arr l =>
    match updateFirstLabelled label upd l with
    | .error err => .error err
    | .ok (found, l1) => .ok (found, .arr l1)
  | .obj fs =>
    match updateFirstLabelled label upd (fs.map Prod.snd) with
    | .error err => .error err
    | .ok (found, vs) => .ok (found, .obj ((fs.map Prod.fst).zip vs))
  | _ => .error (.type_error 305)

/-- The entry the legacy migration creates (keys in the order of the object):
`label` "default", the legacy vector as `data`, and the document's `created`. -/
def legacyEntry (data : Json) (created : Int) : Json :=
  .obj [("created", .num created), ("data", data), ("label", .str "default")]

/-- The step "Initialize array if not exists", with the migration of the legacy field: when the
document has no `embeddings_<type>`, set it to an empty array and move a legacy
`embedding_<type>` vector into it. -/
def initArray (j : Json) (now : Int) (type : String) : Except Err Json :=
  let emb_array_key := "embeddings_" ++ type
  let old_key := "embedding_" ++ type
  if j.contains emb_array_key then .ok j
  else
    match j.assign emb_array_key (.arr []) with
    | .error err => .error err
    | .ok j1 =>
      if j1.contains old_key then
        match j1.valueInt "created" now with
        | .error err => .error err
        | .ok created =>
          match (j1.getKey emb_array_key).push_back (legacyEntry (j1.getKey old_key) created) with
          | .error err => .error err
          | .ok a =>
            match j1.assign emb_array_key a with
            | .error err => .error err
            | .ok j2 => j2.erase old_key
      else .ok j1

/-! ## Committing a label -/

/-- How a camera loop that updates the stored document ends: it runs through every
camera with the document `j` and the flag `updated`, executes `return b`, or lets an
exception escape. -/
inductive StoreLoopEnd where
  | finished (j : Json) (updated : Bool) (log : List Effect)
  | returned (b : Bool) (log : List Effect)
  | thrown (err : Err) (log : List Effect)

/-- The update `setLabel` applies to the entry that carries the label: new `data`,
`created` and `model_version`. -/
def overwriteEntry (embedding_data : Json) (now : Int) (ver : String) (entry : Json) :
    Except Err Json :=
  match entry.assign "data" embedding_data with
  | .error err => .error err
  | .ok e1 =>
    match e1.assign "created" (.num now) with
    | .error err => .error err
    | .ok e2 => e2.assign "model_version" (.str ver)

/-- The entry `setLabel` appends for a new label (keys in the order of the object). -/
def newLabelledEntry (label : String) (embedding_data : Json) (now : Int) (ver : String) :
    Json :=
  .obj [("created", .num now), ("data", embedding_data), ("label", .str label),
        ("model_version", .str ver)]

/-- The end of a commit for one camera type: store the array back under
`embeddings_<type>` and erase `_pending_<type>`. -/
def finishCommit (j : Json) (type : String) (a : Json) : Except Err Json :=
  match j.assign ("embeddings_" ++ type) a with
  | .error err => .error err
  | .ok j1 => j1.erase ("_pending_" ++ type)

/-- The loop `for (auto &ac : active_cameras)` of `AuthEngine::setLabel`. -/
def setLabelLoop (cfg : Config) (now : Int) (ver : String) (label : String) :
    List ActiveCamera → Json → Bool → StoreLoopEnd
  | [], j, updated => .finished j updated []
  | ac :: rest, j, updated =>
    let pending_key := "_pending_" ++ ac.config.type
    let emb_array_key := "embeddings_" ++ ac.config.type
    if j.contains pending_key then
      let embedding_data := j.getKey pending_key
      match initArray j now ac.config.type with
      | .error err => .thrown err []
      | .ok j1 =>
        let a := j1.getKey emb_array_key
        if cfg.max_embeddings > 0 && decide (a.size ≥ cfg.max_embeddings.toNat) then
          match findAndUpdate label (overwriteEntry embedding_data now ver) a with
          | .error err => .thrown err []
          | .ok (false, _) => .returned false []
          | .ok (true, a1) =>
            match finishCommit j1 ac.config.type a1 with
            | .error err => .thrown err []
            | .ok j2 => setLabelLoop cfg now ver label rest j2 true
        else
          match findAndUpdate label (overwriteEntry embedding_data now ver) a with
          | .error err => .thrown err []
          | .ok (true, a1) =>
            match finishCommit j1 ac.config.type a1 with
            | .error err => .thrown err []
            | .ok j2 => setLabelLoop cfg now ver label rest j2 true
          | .ok (false, a1) =>
            match a1.push_back (newLabelledEntry label embedding_data now ver) with
            | .error err => .thrown err []
            | .ok a2 =>
              match finishCommit j1 ac.config.type a2 with
              | .error err => .thrown err []
              | .ok j2 => setLabelLoop cfg now ver label rest j2 true
    else setLabelLoop cfg now ver label rest j updated

/-- Embeds `AuthEngine::setLabel`. -/
def setLabel (e : AuthEngine) (w : World) (fs : FS) (username label : String) :
    Outcome Bool :=
  if !isValidUsername username then { result := .ok false, engine := e, fs := fs, log := [] }
  else
    let user_file := userFile e.config username
    match fs user_file with
    | none => { result := .ok false, engine := e, fs := fs, log := [.fsExists user_file] }
    | some j =>
      let log := [Effect.fsExists user_file, Effect.fsRead user_file]
      match setLabelLoop e.config w.now (getModelVersion e.recognition_model_path) label
          e.active_cameras j false with
      | .returned b _ => { result := .ok b, engine := e, fs := fs, log := log }
      | .thrown err _ => { result := .error err, engine := e, fs := fs, log := log }
      | .finished j1 updated _ =>
        if updated then
          { result := .ok true, engine := e, fs := fs.write user_file j1,
            log := log ++ [.fsWrite user_file] }
        else { result := .ok false, engine := e, fs := fs, log := log }

/-! ## Training -/

/-- The entry `trainUser` appends (keys in the order of the object). -/
def trainedEntry (label : String) (new_vec : Vec) (now : Int) : Json :=
  .obj [("created", .num now), ("data", Json.ofVec new_vec), ("label", .str label)]

/-- The update `trainUser` applies in refine mode to the entry that carries the label:
its `data` becomes the normalized sum of the old and the new vector. -/
def refineEntry (w : World) (new_vec : Vec) (entry : Json) : Except Err Json :=
  match entry.index "data" with
  | .error err => .error err
  | .ok (d, entry1) =>
    match d.getVec with
    | .error err => .error err
    | .ok old_vec =>
      match w.normalizedSum old_vec new_vec with
      | .error err => .error err
      | .ok avg_vec =>
        match entry1.assign "data" (Json.ofVec avg_vec) with
        | .error err => .error err
        | .ok e2 => e2.assign "created" (.num w.now)

/-- The loop `for (auto &ac : active_cameras)` of `AuthEngine::trainUser`. -/
def trainLoop (cfg : Config) (w : World) (label : String) (create_new : Bool) :
    List ActiveCamera → Json → Bool → List Effect → StoreLoopEnd
  | [], j, updated_any, log => .finished j updated_any log
  | ac :: rest, j, updated_any, log0 =>
    let emb_array_key := "embeddings_" ++ ac.config.type
    let log := log0 ++ [.capture ac.config.id]
    match ac.cam.capture with
    | none => trainLoop cfg w label create_new rest j updated_any log
    | some frame =>
      match frame.faces with
      | [new_vec] =>
        match initArray j w.now ac.config.type with
        | .error err => .thrown err log
        | .ok j1 =>
          let a := j1.getKey emb_array_key
          if create_new then
            if cfg.max_embeddings > 0 && decide (a.size ≥ cfg.max_embeddings.toNat) then
              .returned false log
            else
              let entry := trainedEntry
                (if label.isEmpty then "trained_" ++ toString w.now else label) new_vec w.now
              match a.push_back entry with
              | .error err => .thrown err log
              | .ok a1 =>
                match j1.assign emb_array_key a1 with
                | .error err => .thrown err log
                | .ok j2 => trainLoop cfg w label create_new rest j2 true log
          else
            match findAndUpdate label (refineEntry w new_vec) a with
            | .error err => .thrown err log
            | .ok (true, a1) =>
              match j1.assign emb_array_key a1 with
              | .error err => .thrown err log
              | .ok j2 => trainLoop cfg w label create_new rest j2 true log
            | .ok (false, a1) =>
              match a1.push_back (trainedEntry label new_vec w.now) with
              | .error err => .thrown err log
              | .ok a2 =>
                match j1.assign emb_array_key a2 with
                | .error err => .thrown err log
                | .ok j2 => trainLoop cfg w label create_new rest j2 true log
      | _ => trainLoop cfg w label create_new rest j updated_any log

/-- Embeds `AuthEngine::trainUser`. -/
def trainUser (e : AuthEngine) (w : World) (fs : FS) (username label : String)
    (create_new : Bool) : Outcome Bool :=
  let loaded := ensureModelsLoaded e w
  let e1 := loaded.2
  if !loaded.1 then { result := .ok false, engine := e1, fs := fs, log := [] }
  else if !isValidUsername username then
    { result := .ok false, engine := e1, fs := fs, log := [] }
  else
    let user_file := userFile e1.config username
    match fs user_file with
    | none => { result := .ok false, engine := e1, fs := fs, log := [.fsExists user_file] }
    | some j =>
      match trainLoop e1.config w label create_new e1.active_cameras j false
          [.fsExists user_file, .fsRead user_file] with
      | .returned b log => { result := .ok b, engine := e1, fs := fs, log := log }
      | .thrown err log => { result := .error err, engine := e1, fs := fs, log := log }
      | .finished j1 updated_any log =>
        if updated_any then
          { result := .ok true, engine := e1, fs := fs.write user_file j1,
            log := log ++ [.fsWrite user_file] }
        else { result := .ok false, engine := e1, fs := fs, log := log }

/-! ## Listing and removing -/

/-- The loop of `listEmbeddings` over an `embeddings_<type>` array: every label that
is not yet in `labels` is appended. -/
def collectLabels : List Json → List String → Except Err (List String)
  | [], labels => .ok labels
  | entry :: rest, labels =>
    if entry.contains "label" then
      match (entry.getKey "label").getString with
      | .error err => .error err
      | .ok lbl => collectLabels rest (if labels.contains lbl then labels else labels ++ [lbl])
    else collectLabels rest labels

/-- The loop `for (auto &ac : active_cameras)` of `AuthEngine::listEmbeddings`. -/
def listLoop (j : Json) : List ActiveCamera → List String → Except Err (List String)
  | [], labels => .ok labels
  | ac :: rest, labels =>
    let emb_array_key := "embeddings_" ++ ac.config.type
    let emb_key := "embedding_" ++ ac.config.type
    let fromArray :=
      if j.contains emb_array_key && (j.getKey emb_array_key).is_array then
        collectLabels (j.getKey emb_array_key).items labels
      else .ok labels
    match fromArray with
    | .error err => .error err
    | .ok labels1 =>
      if j.contains emb_key then
        if labels1.contains "default" then listLoop j rest labels1
        else listLoop j rest (labels1 ++ ["default (legacy)"])
      else listLoop j rest labels1

/-- Embeds `AuthEngine::listEmbeddings`. -/
def listEmbeddings (e : AuthEngine) (fs : FS) (username : String) : Outcome (List String) :=
  if !isValidUsername username then { result := .ok [], engine := e, fs := fs, log := [] }
  else
    let user_file := userFile e.config username
    match fs user_file with
    | none => { result := .ok [], engine := e, fs := fs, log := [.fsExists user_file] }
    | some j =>
      { result := listLoop j e.active_cameras [], engine := e, fs := fs,
        log := [.fsExists user_file, .fsRead user_file] }

/-- The test of `removeEmbedding` on an entry:
`(*it).contains("label") && (*it)["label"] == label`. -/
def entryHasLabel (label : String) (entry : Json) : Bool :=
  entry.contains "label" && (entry.getKey "label").eqStr label

/-- Overwrite the value under a key of an object in place (a reference `j[key]` to an
existing key that is then modified). -/
def Json.replaceKey : Json → String → Json → Json
  | .obj fs, key, v => .obj (Fields.set fs key v)
  | j, _, _ => j

/-- The loop `for (auto &ac : active_cameras)` of `AuthEngine::removeEmbedding`: the
document and the flag `removed` afterwards. -/
def removeLoop (label : String) : List ActiveCamera → Json → Bool → Json × Bool
  | [], j, removed => (j, removed)
  | ac :: rest, j, removed =>
    let emb_array_key := "embeddings_" ++ ac.config.type
    if j.contains emb_array_key && (j.getKey emb_array_key).is_array then
      let l := (j.getKey emb_array_key).items
      removeLoop label rest
        (j.replaceKey emb_array_key (.arr (l.filter fun entry => !entryHasLabel label entry)))
        (removed || l.any (entryHasLabel label))
    else removeLoop label rest j removed

/-- Embeds `AuthEngine::removeEmbedding`. -/
def removeEmbedding (e : AuthEngine) (fs : FS) (username label : String) : Outcome Bool :=
  if !isValidUsername username then { result := .ok false, engine := e, fs := fs, log := [] }
  else
    let user_file := userFile e.config username
    match fs user_file with
    | none => { result := .ok false, engine := e, fs := fs, log := [.fsExists user_file] }
    | some j =>
      let log := [Effect.fsExists user_file, Effect.fsRead user_file]
      let r := removeLoop label e.active_cameras j false
      if r.2 then
        { result := .ok true, engine := e, fs := fs.write user_file r.1,
          log := log ++ [.fsWrite user_file] }
      else { result := .ok false, engine := e, fs := fs, log := log }

/-! ## The body of the store loops -/

/-- What one pass of the loop of `setLabel` or `trainUser` does: it passes the camera
over (`continue`, or no pending vector), changes the document and raises the flag,
executes `return b`, or lets an exception escape. -/
inductive StoreStep where
  | skip
  | update (j : Json)
  | stop (b : Bool)
  | raise (err : Err)

/-- The body of the loop of `AuthEngine::setLabel` for a camera of the given type. -/
def setLabelBody (cfg : Config) (now : Int) (ver : String) (label : String)
    (type : String) (j : Json) : StoreStep :=
  let pending_key := "_pending_" ++ type
  let emb_array_key := "embeddings_" ++ type
  if j.contains pending_key then
    let embedding_data := j.getKey pending_key
    match initArray j now type with
    | .error err => .raise err
    | .ok j1 =>
      let a := j1.getKey emb_array_key
      if cfg.max_embeddings > 0 && decide (a.size ≥ cfg.max_embeddings.toNat) then
        match findAndUpdate label (overwriteEntry embedding_data now ver) a with
        | .error err => .raise err
        | .ok (false, _) => .stop false
        | .ok (true, a1) =>
          match finishCommit j1 type a1 with
          | .error err => .raise err
          | .ok j2 => .update j2
      else
        match findAndUpdate label (overwriteEntry embedding_data now ver) a with
        | .error err => .raise err
        | .ok (true, a1) =>
          match finishCommit j1 type a1 with
          | .error err => .raise err
          | .ok j2 => .update j2
        | .ok (false, a1) =>
          match a1.push_back (newLabelledEntry label embedding_data now ver) with
          | .error err => .raise err
          | .ok a2 =>
            match finishCommit j1 type a2 with
            | .error err => .raise err
            | .ok j2 => .update j2
  else .skip

/-- The body of the loop of `AuthEngine::trainUser` for one camera, after its capture. -/
def trainBody (cfg : Config) (w : World) (label : String) (create_new : Bool)
    (ac : ActiveCamera) (j : Json) : StoreStep :=
  let emb_array_key := "embeddings_" ++ ac.config.type
  match ac.cam.capture with
  | none => .skip
  | some frame =>
    match frame.faces with
    | [new_vec] =>
      match initArray j w.now ac.config.type with
      | .error err => .raise err
      | .ok j1 =>
        let a := j1.getKey emb_array_key
        if create_new then
          if cfg.max_embeddings > 0 && decide (a.size ≥ cfg.max_embeddings.toNat) then
            .stop false
          else
            let entry := trainedEntry
              (if label.isEmpty then "trained_" ++ toString w.now else label) new_vec w.now
            match a.push_back entry with
            | .error err => .raise err
            | .ok a1 =>
              match j1.assign emb_array_key a1 with
              | .error err => .raise err
              | .ok j2 => .update j2
        else
          match findAndUpdate label (refineEntry w new_vec) a with
          | .error err => .raise err
          | .ok (true, a1) =>
            match j1.assign emb_array_key a1 with
            | .error err => .raise err
            | .ok j2 => .update j2
          | .ok (false, a1) =>
            match a1.push_back (trainedEntry label new_vec w.now) with
            | .error err => .raise err
            | .ok a2 =>
              match j1.assign emb_array_key a2 with
              | .error err => .raise err
              | .ok j2 => .update j2
    | _ => .skip


/-! ## Verification with details -/

/-- Embeds `AuthResult`, with the values `verifyUserWithDetails` starts from. -/
structure AuthResult where
  success : Bool := false
  reason : String := ""
  best_score : FloatV := .val 0

/-- A number rounded to the nearest integer, ties to even. -/
def roundHalfEven (q : ℚ) : Int :=
  let f := Rat.floor q
  let r := q - f
  if r < 1 / 2 then f else if 1 / 2 < r then f + 1 else if f % 2 = 0 then f else f + 1

/-- The text `std::fixed << std::setprecision(2)` gives for a score; the engine prints
positive scores only. -/
def fixed2 : FloatV → String
  | .nan => "nan"
  | .val q =>
    let n := roundHalfEven (q * 100)
    let a := n.natAbs
    (if n < 0 then "-" else "") ++ toString (a / 100) ++ "." ++
      (if a % 100 < 10 then "0" else "") ++ toString (a % 100)

/-- The counters and flags of `verifyUserWithDetails` and the effects performed so
far. -/
structure DetailState where
  participants : Nat := 0
  successes : Nat := 0
  failures : Nat := 0
  any_no_face : Bool := false
  overall_best_score : FloatV := .val 0
  log : List Effect := []

/-- How the camera loop of `verifyUserWithDetails` ends: it runs through every camera,
executes `return result` inside the loop, or lets an exception escape. -/
inductive DetailEnd where
  | finished (st : DetailState)
  | returned (r : AuthResult) (st : DetailState)
  | thrown (err : Err) (st : DetailState)

/-- The body of the loop `for (auto &ac : active_cameras)` of
`AuthEngine::verifyUserWithDetails` for one camera. -/
def detailCamera (cfg : Config) (w : World) (j : Json) (ac : ActiveCamera)
    (st0 : DetailState) : DetailEnd :=
  let id := ac.config.id
  let st := { st0 with log := st0.log ++ [.capture id] }
  match ac.cam.capture with
  | none =>
    if cfg.policy = .STRICT_ALL || (cfg.policy = .ADAPTIVE && ac.config.mandatory) then
      .returned { reason := "Camera " ++ id ++ " failed to capture" } st
    else .finished st
  | some frame =>
    let st1 := { st with participants := st.participants + 1 }
    match loadEmbeddings j ac.config.type with
    | .error err => .thrown err st1
    | .ok all_embeddings =>
      if all_embeddings.isEmpty then .finished { st1 with failures := st1.failures + 1 }
      else if frame.faces.length ≥ 1 then
        match bestOverFaces w all_embeddings frame.faces (.val 0) with
        | .error err => .thrown err st1
        | .ok best_score =>
          let st2 :=
            if best_score.gt st1.overall_best_score then
              { st1 with overall_best_score := best_score }
            else st1
          if best_score.ge cfg.threshold then
            .finished { st2 with successes := st2.successes + 1 }
          else .finished { st2 with failures := st2.failures + 1 }
      else .finished { st1 with any_no_face := true, failures := st1.failures + 1 }

/-- The loop `for (auto &ac : active_cameras)` of `AuthEngine::verifyUserWithDetails`. -/
def detailLoop (cfg : Config) (w : World) (j : Json) :
    List ActiveCamera → DetailState → DetailEnd
  | [], st => .finished st
  | ac :: rest, st =>
    match detailCamera cfg w j ac st with
    | .finished st1 => detailLoop cfg w j rest st1
    | .returned r st1 => .returned r st1
    | .thrown err st1 => .thrown err st1

/-- The result after the loop: the verdict of the policy, the best score over all
cameras and, for a refusal, the reason. -/
def detailVerdict (cfg : Config) (st : DetailState) : AuthResult :=
  if st.participants == 0 then
    { best_score := st.overall_best_score, reason := "No cameras participated" }
  else
    let auth_ok :=
      if cfg.policy = .STRICT_ALL then st.failures == 0
      else if cfg.policy = .LENIENT_ANY then decide (st.successes > 0)
      else st.failures == 0
    if auth_ok then { success := true, best_score := st.overall_best_score }
    else if st.any_no_face then
      { best_score := st.overall_best_score, reason := "No face detected" }
    else if st.overall_best_score.gt (.val 0) then
      { best_score := st.overall_best_score,
        reason := "Face mismatch (score: " ++ fixed2 st.overall_best_score ++ ")" }
    else { best_score := st.overall_best_score, reason := "Authentication failed" }

/-- Embeds `AuthEngine::verifyUserWithDetails`. -/
def verifyUserWithDetails (e : AuthEngine) (w : World) (fs : FS) (username : String) :
    Outcome AuthResult :=
  let loaded := ensureModelsLoaded e w
  let e1 := loaded.2
  if !loaded.1 then
    { result := .ok { reason := "Failed to load models" }, engine := e1, fs := fs, log := [] }
  else if !isValidUsername username then
    { result := .ok { reason := "Invalid username" }, engine := e1, fs := fs, log := [] }
  else
    let user_file := userFile e1.config username
    match fs user_file with
    | none =>
      { result := .ok { reason := "User not enrolled" }, engine := e1, fs := fs,
        log := [.fsExists user_file] }
    | some j =>
      match detailLoop e1.config w j e1.active_cameras
          { log := [.fsExists user_file, .fsRead user_file] } with
      | .returned r st => { result := .ok r, engine := e1, fs := fs, log := st.log }
      | .thrown err st => { result := .error err, engine := e1, fs := fs, log := st.log }
      | .finished st =>
        { result := .ok (detailVerdict e1.config st), engine := e1, fs := fs, log := st.log }


/-! ## Cosine similarity -/

/-- The arithmetic a similarity is computed in: its zero, sum, product, quotient and
square root. The routines below are written against it, so that they can be read in
floating-point arithmetic and in exact arithmetic. -/
structure Arith (α : Type) where
  zero : α
  add : α → α → α
  mul : α → α → α
  div : α → α → α
  sqrt : α → α

namespace Arith

/-- The running sum `s += a[i] * b[i]` over two vectors, from a starting value. -/
def dotFrom (A : Arith α) : α → List α → List α → α
  | acc, a :: as, b :: bs => dotFrom A (A.add acc (A.mul a b)) as bs
  | acc, _, _ => acc

/-- Embeds `a.dot(b)` of `cv::Mat` on two vectors of the same length: the sum of the
products of their components (an empty sum is zero). -/
def dot (A : Arith α) (a b : List α) : α := A.dotFrom A.zero a b

/-- Embeds `cv::norm(a)` with its default norm type `NORM_L2`: the square root of the
sum of the squares. -/
def norm (A : Arith α) (a : List α) : α := A.sqrt (A.dot a a)

/-- The exact arithmetic of a field, with a given square root. -/
def ofField {K : Type} [Field K] (sqrt : K → K) : Arith K :=
  { zero := 0, add := fun x y => x + y, mul := fun x y => x * y, div := fun x y => x / y,
    sqrt := sqrt }

end Arith

/-- Embeds `cosine_similarity` of `auth_engine.hpp`:
`a.dot(b) / (cv::norm(a) * cv::norm(b))`. `cv::Mat::dot` asserts that its two operands
have the same size and raises `cv::Exception` otherwise. -/
def cosine_similarity (A : Arith α) (a b : List α) : Except Err α :=
  if a.length = b.length then .ok (A.div (A.dot a b) (A.mul (A.norm a) (A.norm b)))
  else .error .cv_assert

/-- Embeds `cosine_similarity` of `test_security.cpp`, "copy for testing": it returns
zero for vectors of different sizes, for empty vectors and for a zero denominator;
`isZero` is the comparison `denom == 0.0f`. -/
def Tests.cosine_similarity (A : Arith α) (isZero : α → Bool) (a b : List α) : α :=
  if a.length != b.length || a.isEmpty then A.zero
  else
    let dot := A.dot a b
    let norm_a := A.dot a a
    let norm_b := A.dot b b
    let denom := A.mul (A.sqrt norm_a) (A.sqrt norm_b)
    if isZero denom then A.zero else A.div dot denom

/-- A floating-point value as far as its class matters: NaN, an infinity, or a number.
Rounding, signed zeros and overflow are not modelled. -/
inductive Flt where
  | nan
  | inf (negative : Bool)
  | num (q : ℚ)

namespace Flt

/-- IEEE 754 addition: NaN propagates, and the sum of opposite infinities is NaN. -/
def add : Flt → Flt → Flt
  | nan, _ => nan
  | _, nan => nan
  | inf s, inf t => if s = t then inf s else nan
  | inf s, num _ => inf s
  | num _, inf t => inf t
  | num x, num y => num (x + y)

/-- IEEE 754 multiplication: NaN propagates, and infinity times zero is NaN. -/
def mul : Flt → Flt → Flt
  | nan, _ => nan
  | _, nan => nan
  | inf s, inf t => inf (s != t)
  | inf s, num y => if y = 0 then nan else inf (s != decide (y < 0))
  | num x, inf t => if x = 0 then nan else inf (t != decide (x < 0))
  | num x, num y => num (x * y)

/-- IEEE 754 division: NaN propagates, zero by zero and infinity by infinity are NaN,
and a non-zero number by zero is an infinity. -/
def div : Flt → Flt → Flt
  | nan, _ => nan
  | _, nan => nan
  | inf _, inf _ => nan
  | inf s, num y => inf (s != decide (y < 0))
  | num _, inf _ => num 0
  | num x, num y =>
    if y = 0 then (if x = 0 then nan else inf (decide (x < 0))) else num (x / y)

/-- IEEE 754 square root, from a root function on the non-negative numbers. -/
def sqrt (root : ℚ → ℚ) : Flt → Flt
  | nan => nan
  | inf s => if s then nan else inf false
  | num x => if x < 0 then nan else num (root x)

/-- The comparison `x == 0.0f`. -/
def isZero : Flt → Bool
  | num x => decide (x = 0)
  | _ => false

end Flt

/-- Floating-point arithmetic by class, with a given root function. -/
def ieee (root : ℚ → ℚ) : Arith Flt :=
  { zero := .num 0, add := Flt.add, mul := Flt.mul, div := Flt.div, sqrt := Flt.sqrt root }


/-! ## Maintenance -/

/-- The number of ticks of `std::chrono::steady_clock` in one second: the clock counts
nanoseconds. -/
def steadyTicksPerSecond : Int := 1000000000

/-- Embeds `AuthEngine::unloadModels`: with a detector loaded, both handles are
released. -/
def unloadModels (e : AuthEngine) : AuthEngine :=
  if e.detector then { e with detector := false, recognizer := false } else e

/-- Embeds `AuthEngine::performMaintenance`: the result and the engine afterwards.
`elapsed` is the time since the last activity in whole seconds (`duration_cast`
truncates toward zero). -/
def performMaintenance (e : AuthEngine) (w : World) : Bool × AuthEngine :=
  if e.config.model_keep_alive_sec > 0 && e.detector then
    let elapsed := (w.clock - e.last_activity_).tdiv steadyTicksPerSecond
    if elapsed > e.config.model_keep_alive_sec then (true, unloadModels e)
    else (false, e)
  else (false, e)


/-! ## Configuration -/

/-- A blank for the trimming of `parse_ini` and `init`: a space or a tab. -/
def isBlank (c : Char) : Bool := c == ' ' || c.toNat == 9

/-- The step `s.erase(0, s.find_first_not_of(" \t"))`: leading blanks are dropped. -/
def trimLeft (s : List Char) : List Char := s.dropWhile isBlank

/-- The step `s.erase(s.find_last_not_of(" \t") + 1)`: trailing blanks are dropped. -/
def trimRight (s : List Char) : List Char := (s.reverse.dropWhile isBlank).reverse

/-- The table `parse_ini` returns (`std::unordered_map<std::string, std::string>`):
its bindings, the latest assignment first. -/
abbrev Ini := List (String × String)

/-- The lookup `ini.find(key)`. -/
def Ini.find : Ini → String → Option String
  | [], _ => none
  | (k, v) :: rest, key => if k = key then some v else Ini.find rest key

/-- The lambda `get` of `AuthEngine::init`: the value of the key, or the default. -/
def Ini.get (ini : Ini) (key : String) (dflt : String) : String :=
  match ini.find key with
  | some v => v
  | none => dflt

/-- The body of the loop of `parse_ini` for one line: the table and the current section
afterwards. -/
def parseLine (st : Ini × String) (line : String) : Ini × String :=
  match trimLeft line.toList with
  | [] => st
  | c :: rest =>
    if c = ';' then st
    else
      let l := trimRight (c :: rest)
      if c = '[' ∧ l.getLast? = some ']' then
        (st.1, String.mk ((l.drop 1).take (l.length - 2)))
      else if l.contains '=' then
        let key := trimRight (l.takeWhile fun x => x != '=')
        let val := trimLeft ((l.dropWhile fun x => x != '=').drop 1)
        ((st.2 ++ "." ++ String.mk key, String.mk val) :: st.1, st.2)
      else st

/-- Embeds `parse_ini`, on the lines of the file; `none` is a file that cannot be
opened. -/
def parse_ini (file : Option (List String)) : Ini :=
  match file with
  | none => []
  | some lines => (lines.foldl parseLine ([], "")).1

/-- The loop `while (std::getline(ss, segment, ','))`: the segments between the
delimiters; after the last delimiter an empty rest yields no segment. `acc` holds the
characters of the current segment, the latest first. -/
def getlines (delim : Char) : List Char → List Char → List (List Char)
  | [], acc => if acc.isEmpty then [] else [acc.reverse]
  | c :: rest, acc =>
    if c = delim then acc.reverse :: getlines delim rest []
    else getlines delim rest (c :: acc)

/-- The loop of `init` over the names of `Cameras.names`: one definition for every
name that is not empty once trimmed. -/
def namedCameras (w : World) (ini : Ini) :
    List (List Char) → List CameraDefinition → Except Err (List CameraDefinition)
  | [], defs => .ok defs
  | seg :: rest, defs =>
    let id := String.mk (trimRight (trimLeft seg))
    if id.isEmpty then namedCameras w ini rest defs
    else
      match w.stoi (ini.get ("Camera." ++ id ++ ".min_brightness") "0") with
      | .error err => .error err
      | .ok min_brightness =>
        match w.stoi (ini.get ("Camera." ++ id ++ ".enroll_average_frames") "0") with
        | .error err => .error err
        | .ok frames =>
          namedCameras w ini rest (defs ++ [
            { id := id,
              path := ini.get ("Camera." ++ id ++ ".path") "/dev/video0",
              type := ini.get ("Camera." ++ id ++ ".type") "generic",
              min_brightness := min_brightness,
              mandatory := ini.get ("Camera." ++ id ++ ".mandatory") "false" == "true",
              enroll_hdr := ini.get ("Camera." ++ id ++ ".enroll_hdr") "",
              enroll_averaging := ini.get ("Camera." ++ id ++ ".enroll_averaging") "",
              enroll_average_frames := frames }])

/-- The loop of `init` over the detected devices: the path of the first infrared
camera and of the first color or generic camera. -/
def classifyDetected : List (String × String) → String × String → String × String
  | [], paths => paths
  | (path, type) :: rest, (ir_path, rgb_path) =>
    if type = "ir" ∧ ir_path.isEmpty then classifyDetected rest (path, rgb_path)
    else if (type = "rgb" ∨ type = "generic") ∧ rgb_path.isEmpty then
      classifyDetected rest (ir_path, path)
    else classifyDetected rest (ir_path, rgb_path)

/-- The branch "No config at all: Auto-detect using V4L2" of `init`: the definitions it
appends. -/
def detectedCameras (w : World) : List CameraDefinition :=
  match w.enumerateCameras with
  | [] => []
  | first :: more =>
    let paths := classifyDetected (first :: more) ("", "")
    if !paths.1.isEmpty && !paths.2.isEmpty then
      [{ id := "ir", path := paths.1, type := "ir", min_brightness := 0, mandatory := true },
       { id := "rgb", path := paths.2, type := "rgb", min_brightness := 40,
         mandatory := false }]
    else if !paths.2.isEmpty then
      [{ id := "rgb", path := paths.2, type := "rgb", min_brightness := 0, mandatory := true }]
    else if !paths.1.isEmpty then
      [{ id := "ir", path := paths.1, type := "ir", min_brightness := 0, mandatory := true }]
    else
      [{ id := "cam0", path := first.1, type := "generic", min_brightness := 0,
         mandatory := true }]

/-- The step "Parse Cameras" of `init`: the camera definitions it appends to
`config.camera_defs`. -/
def parseCameras (w : World) (ini : Ini) : Except Err (List CameraDefinition) :=
  let cam_names := ini.get "Cameras.names" ""
  if !cam_names.isEmpty then namedCameras w ini (getlines ',' cam_names.toList []) []
  else
    let path_ir := ini.get "Hardware.camera_path_ir" ""
    let path_rgb := ini.get "Hardware.camera_path_rgb" ""
    if !path_ir.isEmpty || !path_rgb.isEmpty then
      let ir : List CameraDefinition :=
        if !path_ir.isEmpty then
          [{ id := "ir", path := path_ir, type := "ir", min_brightness := 0,
             mandatory := true }]
        else []
      if !path_rgb.isEmpty then
        match w.stoi (ini.get "Hardware.min_brightness" "40") with
        | .error err => .error err
        | .ok min_brightness =>
          .ok (ir ++ [{ id := "rgb", path := path_rgb, type := "rgb",
                        min_brightness := min_brightness, mandatory := false }])
      else .ok ir
    else .ok (detectedCameras w)

/-- The loop of `init` over `Hardware.provider_priority`: every segment without its
leading blanks, unless that leaves it empty. -/
def parseProviders (priority_str : String) : List String :=
  ((getlines ',' priority_str.toList []).map fun seg => String.mk (trimLeft seg)).filter
    fun segment => !segment.isEmpty

/-- The policy `init` reads from `Auth.policy`. -/
def parsePolicy (policy_str : String) : AuthPolicy :=
  if policy_str = "strict" then .STRICT_ALL
  else if policy_str = "lenient" then .LENIENT_ANY
  else .ADAPTIVE

/-- Embeds `AuthEngine::init`, on the lines of the configuration file: the result and
the engine afterwards, or the exception of a number conversion, which escapes. -/
def init (e : AuthEngine) (w : World) (file : Option (List String)) :
    Except Err (Bool × AuthEngine) := do
  let ini := parse_ini file
  let threshold ← w.stof (ini.get "Auth.threshold" "0.4")
  let detection_threshold ← w.stof (ini.get "Auth.detection_threshold" "0.6")
  let timeout_ms ← w.stoi (ini.get "Auth.timeout_ms" "3000")
  let policy := parsePolicy (ini.get "Auth.policy" "adaptive")
  let max_embeddings ← w.stoi (ini.get "Auth.max_embeddings" "5")
  let enroll_hdr := ini.get "Capture.enroll_hdr" "auto"
  let enroll_averaging := ini.get "Capture.enroll_averaging" "on" == "on"
  let enroll_average_frames ← w.stoi (ini.get "Capture.enroll_average_frames" "5")
  let verify_averaging := ini.get "Capture.verify_averaging" "off" == "on"
  let verify_average_frames ← w.stoi (ini.get "Capture.verify_average_frames" "3")
  let users_dir := ini.get "Paths.users_dir" e.config.users_dir
  let models_dir := ini.get "Paths.models_dir" "/etc/linuxcampam/models"
  let ir_emitter_path :=
    ini.get "Paths.ir_emitter_path" "/usr/local/bin/linux-enable-ir-emitter"
  let cameras ← parseCameras w ini
  let listed := e.config.provider_priority ++
    parseProviders (ini.get "Hardware.provider_priority" "")
  let provider_priority :=
    if listed.isEmpty then ["OpenCL", "OpenVINO", "CUDA", "CPU"] else listed
  let save_success := ini.get "Storage.save_success_images" "" == "true"
  let save_fail := ini.get "Storage.save_fail_images" "" == "true"
  let model_keep_alive_sec ← w.stoi (ini.get "Performance.model_keep_alive_sec" "0")
  let config : Config :=
    { e.config with
      threshold := threshold, detection_threshold := detection_threshold,
      timeout_ms := timeout_ms, policy := policy, max_embeddings := max_embeddings,
      enroll_hdr := enroll_hdr, enroll_averaging := enroll_averaging,
      enroll_average_frames := enroll_average_frames,
      verify_averaging := verify_averaging,
      verify_average_frames := verify_average_frames,
      users_dir := users_dir, models_dir := models_dir,
      ir_emitter_path := ir_emitter_path,
      camera_defs := e.config.camera_defs ++ cameras,
      provider_priority := provider_priority,
      save_success := save_success, save_fail := save_fail,
      model_keep_alive_sec := model_keep_alive_sec }
  pure (loadModels
    { e with
      config := config,
      detection_model_path := models_dir ++ "/face_detection_yunet_2022mar.onnx",
      recognition_model_path := models_dir ++ "/face_recognition_sface_2021dec.onnx",
      last_activity_ := w.clock } w)


/-! ## Vocabulary of the properties -/

/-- The cameras an operation works with: the active cameras once
`ensureModelsLoaded` has run. -/
def camerasInUse (e : AuthEngine) (w : World) : List ActiveCamera :=
  (ensureModelsLoaded e w).2.active_cameras

/-- The camera's capture returns an empty frame. -/
def CaptureFails (ac : ActiveCamera) : Prop := ac.cam.capture = none

/-- The camera captures a frame that is below its brightness floor. -/
def TooDark (ac : ActiveCamera) : Prop :=
  ∃ frame, ac.cam.capture = some frame ∧
    0 < ac.config.min_brightness ∧ frame.brightness < ac.config.min_brightness

/-- The camera participates with the given frame: it captures it and the frame passes
the brightness floor, if one is configured. -/
def Participates (ac : ActiveCamera) (frame : Frame) : Prop :=
  ac.cam.capture = some frame ∧
    ¬ (0 < ac.config.min_brightness ∧ frame.brightness < ac.config.min_brightness)

/-- The stored embeddings of the camera's type can be read and compared: they are
arrays of numbers, and the similarity of every detected face with every one of them is
computed without an exception. -/
def Readable (w : World) (j : Json) (ac : ActiveCamera) : Prop :=
  ∃ embs, loadEmbeddings j ac.config.type = .ok embs ∧
    ∀ frame, ac.cam.capture = some frame →
      ∀ f ∈ frame.faces, ∀ s ∈ embs, ∃ x, w.cosine_similarity f s = .ok x

/-- The camera participates and fails: it has no stored embedding for its type, or
detects no face, or its best score is not at or above the threshold. -/
def FailsAsParticipant (cfg : Config) (w : World) (j : Json) (ac : ActiveCamera) : Prop :=
  ∃ frame, Participates ac frame ∧
    ∃ embs, loadEmbeddings j ac.config.type = .ok embs ∧
      (embs = [] ∨ frame.faces = [] ∨
        ∃ best, bestOverFaces w embs frame.faces (.val 0) = .ok best ∧
          best.ge cfg.threshold = false)

/-- The camera participates and matches: it has a stored embedding, detects a face and
reaches a best score at or above the threshold. -/
def Matches (cfg : Config) (w : World) (j : Json) (ac : ActiveCamera) : Prop :=
  ∃ frame, Participates ac frame ∧
    ∃ embs, loadEmbeddings j ac.config.type = .ok embs ∧ embs ≠ [] ∧ frame.faces ≠ [] ∧
      ∃ best, bestOverFaces w embs frame.faces (.val 0) = .ok best ∧
        best.ge cfg.threshold = true

/-- The camera has one of the outcomes a verification distinguishes: its capture
fails, it is skipped for insufficient brightness, it participates and fails, or it
participates and matches. -/
def HasOutcome (cfg : Config) (w : World) (j : Json) (ac : ActiveCamera) : Prop :=
  CaptureFails ac ∨ TooDark ac ∨ FailsAsParticipant cfg w j ac ∨ Matches cfg w j ac

/-- The capture calls of a pass over the given cameras, one for each, in order. -/
def captureTrace (cams : List ActiveCamera) : List Effect :=
  cams.map fun ac => Effect.capture ac.config.id

/-- The camera captures of a trace, in order. -/
def captures (log : List Effect) : List Effect := log.filter Effect.isCapture

/-- How the state after one camera relates to the state before it: the camera's
capture is the one capture added to the trace, and the camera is skipped, counted as a
success or counted as a failure. -/
def StepOf (id : String) (st st1 : VerifyState) : Prop :=
  captures st1.log = captures st.log ++ [.capture id] ∧
  ((st1.participants = st.participants ∧ st1.successes = st.successes ∧
      st1.failures = st.failures) ∨
   (st1.participants = st.participants + 1 ∧ st1.successes = st.successes + 1 ∧
      st1.failures = st.failures) ∨
   (st1.participants = st.participants + 1 ∧ st1.successes = st.successes ∧
      st1.failures = st.failures + 1))

/-- The similarities of one face with the stored vectors, in the order of the loop;
only the numbers are listed (a NaN never raises `best_score`). -/
def numericScores (w : World) (f : Vec) : List Vec → List ℚ
  | [] => []
  | s :: rest =>
    match w.cosine_similarity f s with
    | .ok (.val q) => q :: numericScores w f rest
    | _ => numericScores w f rest

/-- The similarities of all (detected face, stored embedding) pairs. -/
def pairScores (w : World) (embs : List Vec) : List Vec → List ℚ
  | [] => []
  | f :: rest => numericScores w f embs ++ pairScores w embs rest

/-- The maximum similarity over all (detected face, stored embedding) pairs is at or
above the configured threshold. -/
def MaxScoreReaches (cfg : Config) (w : World) (faces embs : List Vec) : Prop :=
  ∃ t, cfg.threshold = .val t ∧ (t : WithBot ℚ) ≤ (pairScores w embs faces).maximum

/-- The body of the loop counts the camera as a match: it moves on to the next camera
with `successes` raised by one. -/
def CountsAsMatch (cfg : Config) (w : World) (j : Json) (u : String) (ac : ActiveCamera)
    (st : VerifyState) : Prop :=
  ∃ st1, verifyCamera cfg w j u ac st = .finished st1 ∧ st1.successes = st.successes + 1

/-- The entry is an object whose `label` is the given string. -/
def IsLabelled (entry : Json) (s : String) : Prop :=
  ∃ fs, entry = .obj fs ∧ Fields.find fs "label" = some (.str s)

/-- Every label stored in the `embeddings_<type>` arrays of the configured camera
types is a valid identifier. -/
def StoredLabelsValid (j : Json) (cams : List ActiveCamera) : Prop :=
  ∀ ac ∈ cams, ∀ entry ∈ (j.getKey ("embeddings_" ++ ac.config.type)).items,
    ∀ s, entry.getKey "label" = .str s → isValidUsername s = true

/-- No entry of an `embeddings_<type>` array of a configured camera type carries the
label. -/
def LabelAbsent (label : String) (j : Json) (cams : List ActiveCamera) : Prop :=
  ∀ ac ∈ cams, ∀ l, j.getKey ("embeddings_" ++ ac.config.type) = .arr l →
    ∀ entry ∈ l, ¬ IsLabelled entry label

/-- The capture of `enrollUser` on the camera gives a frame with exactly one face. -/
def EnrollsOneFace (cfg : Config) (ac : ActiveCamera) : Prop :=
  ∃ frame face, (enrollCapture cfg ac).1 = some frame ∧ frame.faces = [face]

/-- The capture of `enrollUser` on the camera gives an empty frame, or a frame in which
the number of detected faces is not one; `reason` is the message the engine composes
for that case. -/
def EnrollFailsWith (cfg : Config) (ac : ActiveCamera) (reason : String) : Prop :=
  ((enrollCapture cfg ac).1 = none ∧
    reason = "Camera " ++ ac.config.id ++ " failed (empty frame).") ∨
  ∃ frame, (enrollCapture cfg ac).1 = some frame ∧ frame.faces.length ≠ 1 ∧
    reason = "Found " ++ toString frame.faces.length ++ " faces in " ++ ac.config.id ++
      ". Expecting exactly 1."

/-- The document can take a new key: it is an object, or null. -/
def IsObjectOrNull (j : Json) : Prop := j = .null ∨ ∃ fields, j = .obj fields

/-- A stored value once every entry carrying the label is taken out: an array loses
those entries and keeps the others in their order, any other value stays as it is. -/
def withoutLabel (label : String) : Json → Json
  | .arr l => .arr (l.filter fun entry => !entryHasLabel label entry)
  | v => v

/-- The array stored under the key holds an entry carrying the label. -/
def HoldsLabel (label : String) (fs : Fields) (key : String) : Prop :=
  ∃ l, Fields.find fs key = some (.arr l) ∧ ∃ entry ∈ l, entryHasLabel label entry = true

/-- The document is an object that has the legacy field `embedding_<type>`, holding
`legacy`, and no `embeddings_<type>` array. -/
def HasLegacy (t : String) (legacy : Json) (j : Json) : Prop :=
  ∃ fs, j = .obj fs ∧ Fields.find fs ("embeddings_" ++ t) = none ∧
    Fields.find fs ("embedding_" ++ t) = some legacy

/-- The document is migrated for the type: it has no field `embedding_<type>`, and its
`embeddings_<type>` array starts with the migrated entry, which has the label "default"
and the legacy vector as its data; when `once` holds, no other entry of the array is
labelled "default". -/
def IsMigrated (t : String) (legacy : Json) (once : Prop) (j : Json) : Prop :=
  ∃ fs c rest, j = .obj fs ∧ Fields.find fs ("embedding_" ++ t) = none ∧
    Fields.find fs ("embeddings_" ++ t) = some (.arr (legacyEntry legacy c :: rest)) ∧
    (once → ∀ en ∈ rest, ¬ IsLabelled en "default")

/-- A document in the course of its first commit: it has no legacy field, and for every
type either no array yet, or an array whose one entry carries the label and no pending
vector any more. -/
def FreshFor (label : String) (f : Fields) : Prop :=
  ∀ t, Fields.find f ("embedding_" ++ t) = none ∧
    (Fields.find f ("embeddings_" ++ t) = none ∨
      (Fields.find f ("_pending_" ++ t) = none ∧
        ∃ en, Fields.find f ("embeddings_" ++ t) = some (.arr [en]) ∧ IsLabelled en label))

/-- The counters of the two verification loops agree. -/
def SameCounters (st : VerifyState) (dst : DetailState) : Prop :=
  dst.participants = st.participants ∧ dst.successes = st.successes ∧
    dst.failures = st.failures

/-- The two verification loops end alike: both run on with the same counters, both
return with the same decision, or both raise the same exception. -/
def EndsAlike : LoopEnd → DetailEnd → Prop
  | .finished st, .finished dst => SameCounters st dst
  | .returned b _, .returned r _ => r.success = b
  | .thrown err _, .thrown err1 _ => err1 = err
  | _, _ => False

/-- The sum of the squares of the components of a vector. -/
def sumSquares {K : Type} [Field K] (v : List K) : K := (v.map fun x => x * x).sum

/-- The arithmetic computes, with relative error at most `ε`, what the similarity of
`v` with itself needs: the dot product and the norm of `v`, every product and every
quotient by a non-zero number (the standard model of floating-point arithmetic away
from overflow and underflow). -/
def AccurateOn (A : Arith ℝ) (ε : ℝ) (v : List ℝ) : Prop :=
  |A.dot v v - sumSquares v| ≤ ε * sumSquares v ∧
  |A.norm v - Real.sqrt (sumSquares v)| ≤ ε * Real.sqrt (sumSquares v) ∧
  (∀ x y, |A.mul x y - x * y| ≤ ε * |x * y|) ∧
  (∀ x y, y ≠ 0 → |A.div x y - x / y| ≤ ε * |x / y|)

/-- Every `embeddings_<type>` array of the document has at most `m` entries. -/
def WithinCapacity (m : Nat) (j : Json) : Prop :=
  ∀ t l, j.getKey ("embeddings_" ++ t) = .arr l → l.length ≤ m

/-- The host can run the listed backend: a CUDA device is present for "CUDA", OpenCL is
detected for "OpenCL"; "OpenVINO" and "CPU" need no device. An unknown name is not
available. -/
def BackendAvailable (w : World) (prov : String) : Bool :=
  (prov == "CUDA" && decide (0 < w.cudaDeviceCount)) || prov == "OpenVINO" ||
    (prov == "OpenCL" && w.haveOpenCL) || prov == "CPU"

/-- The backend and target a name of the priority list stands for. -/
def backendOf (prov : String) : Backend × Target :=
  if prov = "CUDA" then (.DNN_BACKEND_CUDA, .DNN_TARGET_CUDA)
  else if prov = "OpenVINO" then (.DNN_BACKEND_INFERENCE_ENGINE, .DNN_TARGET_CPU)
  else if prov = "OpenCL" then (.DNN_BACKEND_OPENCV, .DNN_TARGET_OPENCL)
  else (.DNN_BACKEND_OPENCV, .DNN_TARGET_CPU)

/-- The selection as a walk that passes over every unavailable entry: the backend of
the first available entry of the list, and the CPU backend when there is none. -/
def firstAvailable (w : World) (priority : List String) : Backend × Target :=
  match priority.find? (BackendAvailable w) with
  | some prov => backendOf prov
  | none => (.DNN_BACKEND_OPENCV, .DNN_TARGET_CPU)

/-- The entry ends the walk of `loadModels`: "OpenVINO" and "OpenCL" always do, "CUDA"
does when a CUDA device is present; every other entry is passed over. -/
def EndsWalk (w : World) (prov : String) : Prop :=
  prov = "OpenVINO" ∨ prov = "OpenCL" ∨ (prov = "CUDA" ∧ 0 < w.cudaDeviceCount)

/-- The selection the entry that ends the walk makes: its own backend, except that
"OpenCL" on a host without OpenCL selects the CPU backend. -/
def chosenBy (w : World) (prov : String) : Backend × Target :=
  if prov = "OpenCL" ∧ w.haveOpenCL = false then (.DNN_BACKEND_OPENCV, .DNN_TARGET_CPU)
  else backendOf prov


/-- The capture routines of a camera device: a single frame, the average of a number
of frames, or the fusion of an exposure series. -/
inductive CaptureMode where
  | single
  | averaged (frames : Int)
  | fused
  deriving DecidableEq, Repr

/-- The image the device gives in a capture mode. -/
def CaptureMode.run (c : Camera) : CaptureMode → Option Frame
  | .single => c.capture
  | .averaged n => c.captureAveraged n
  | .fused => c.mergeExposures

/-- The effective HDR setting of a camera: its own when it is not empty, the global
one otherwise. -/
def effectiveHdr (cfg : Config) (ac : ActiveCamera) : String :=
  if ac.config.enroll_hdr = "" then cfg.enroll_hdr else ac.config.enroll_hdr

/-- The effective averaging setting of a camera: its own ("on" or not) when it is not
empty, the global one otherwise. -/
def effectiveAveraging (cfg : Config) (ac : ActiveCamera) : Bool :=
  if ac.config.enroll_averaging = "" then cfg.enroll_averaging
  else ac.config.enroll_averaging == "on"

/-- The effective frame count of a camera in the wording of C26: its own when it is
not zero, the global one otherwise. -/
def effectiveFramesNonZero (cfg : Config) (ac : ActiveCamera) : Int :=
  if ac.config.enroll_average_frames = 0 then cfg.enroll_average_frames
  else ac.config.enroll_average_frames

/-- The effective frame count of a camera as the engine takes it: its own when it is
positive, the global one otherwise. -/
def effectiveFrames (cfg : Config) (ac : ActiveCamera) : Int :=
  if 0 < ac.config.enroll_average_frames then ac.config.enroll_average_frames
  else cfg.enroll_average_frames

/-- HDR is enabled for the camera: the effective setting is "on" or "auto". -/
def HdrEnabled (cfg : Config) (ac : ActiveCamera) : Prop :=
  effectiveHdr cfg ac = "on" ∨ effectiveHdr cfg ac = "auto"

instance (cfg : Config) (ac : ActiveCamera) : Decidable (HdrEnabled cfg ac) := by
  unfold HdrEnabled; infer_instance

/-- The capture mode in the wording of C26: fused when HDR is enabled and the
camera supports manual exposure, otherwise averaged with the effective frame count
when averaging is enabled, otherwise single. -/
def statedMode (cfg : Config) (ac : ActiveCamera) : CaptureMode :=
  if HdrEnabled cfg ac ∧ ac.cam.supports_manual_exposure_ = true then .fused
  else if effectiveAveraging cfg ac then .averaged (effectiveFramesNonZero cfg ac)
  else .single

/-- The capture mode the enrollment ends up using: with the setting "on" on a camera
without manual exposure, the average of 5 frames; otherwise fused when HDR is enabled
and supported, otherwise averaged with the effective frame count when averaging is
enabled, otherwise single. -/
def usedMode (cfg : Config) (ac : ActiveCamera) : CaptureMode :=
  if HdrEnabled cfg ac ∧ ac.cam.supports_manual_exposure_ = true then .fused
  else if effectiveHdr cfg ac = "on" then .averaged 5
  else if effectiveAveraging cfg ac then .averaged (effectiveFrames cfg ac)
  else .single


/-- Both models of the engine are loaded. -/
def ModelsLoaded (e : AuthEngine) : Prop := e.detector = true ∧ e.recognizer = true

/-- The time since the last activity of the engine, in clock ticks. -/
def idleTicks (e : AuthEngine) (w : World) : Int := w.clock - e.last_activity_

/-- The configured idle timeout has elapsed since the last activity: the idle time is
at least `model_keep_alive_sec` seconds. -/
def TimeoutElapsed (e : AuthEngine) (w : World) : Prop :=
  e.config.model_keep_alive_sec * steadyTicksPerSecond ≤ idleTicks e w

/-- More than the configured idle timeout in whole seconds has elapsed since the last
activity: the idle time is at least `model_keep_alive_sec + 1` seconds. -/
def TimeoutExceeded (e : AuthEngine) (w : World) : Prop :=
  (e.config.model_keep_alive_sec + 1) * steadyTicksPerSecond ≤ idleTicks e w

/-- The engine with both model handles released. -/
def unloaded (e : AuthEngine) : AuthEngine := { e with detector := false, recognizer := false }


/-- What the body of the loop of `verifyUser` does with a camera when it starts from
counters at zero. -/
def cameraStep (cfg : Config) (w : World) (j : Json) (u : String) (ac : ActiveCamera) :
    LoopEnd :=
  verifyCamera cfg w j u ac {}

/-- Two runs of the loop body or of the loop, started from the states `st` and `st1`,
end alike: both move on having added the same to each counter, both return the same
value, or both raise the same exception. -/
def EndsShifted (st st1 : VerifyState) : LoopEnd → LoopEnd → Prop
  | .finished s, .finished s1 =>
    s.participants + st1.participants = s1.participants + st.participants ∧
    s.successes + st1.successes = s1.successes + st.successes ∧
    s.failures + st1.failures = s1.failures + st.failures
  | .returned b _, .returned b1 _ => b = b1
  | .thrown err _, .thrown err1 _ => err = err1
  | _, _ => False


/-- The camera's capture gives a frame with exactly one face. -/
def CapturesOneFace (ac : ActiveCamera) : Prop :=
  ∃ frame v, ac.cam.capture = some frame ∧ frame.faces = [v]

/-- An entry that training can refine: an object whose `data` is an array of numbers. -/
def EntryReadable (en : Json) : Prop :=
  ∃ efs d vec, en = .obj efs ∧ Fields.find efs "data" = some d ∧ d.getVec = .ok vec

/-- The stored document is well formed: it is an object, its `created`, when present,
is a number, every `embeddings_<type>` key holds an array of entries that can be
refined, and every legacy `embedding_<type>` key holds an array of numbers. -/
def StoreWellFormed (j : Json) : Prop :=
  ∃ fs, j = .obj fs ∧
    (Fields.find fs "created" = none ∨ ∃ c, Fields.find fs "created" = some (.num c)) ∧
    (∀ t v, Fields.find fs ("embeddings_" ++ t) = some v →
      ∃ l, v = .arr l ∧ ∀ en ∈ l, EntryReadable en) ∧
    (∀ t v, Fields.find fs ("embedding_" ++ t) = some v → ∃ vec, v.getVec = .ok vec)

/-- The routine that adds and normalizes two vectors returns normally on every pair. -/
def SumsNormalize (w : World) : Prop := ∀ a b, ∃ r, w.normalizedSum a b = .ok r

/-- The array of the camera's type, after the migration of a legacy field, is full:
`max_embeddings` is positive and the array has at least that many entries. -/
def ArrayFull (cfg : Config) (now : Int) (ac : ActiveCamera) (j : Json) : Prop :=
  0 < cfg.max_embeddings ∧ ∃ j1, initArray j now ac.config.type = .ok j1 ∧
    cfg.max_embeddings.toNat ≤ (j1.getKey ("embeddings_" ++ ac.config.type)).size


/-- The camera type takes the label at a commit: the document has no pending vector of
the type, or the `embeddings_<type>` array consists of labelled entries and holds the
label or is not full. -/
def TakesLabel (cfg : Config) (label : String) (fields : Fields) (t : String) : Prop :=
  Fields.find fields ("_pending_" ++ t) = none ∨
  ∃ l, Fields.find fields ("embeddings_" ++ t) = some (.arr l) ∧
    (∀ en ∈ l, ∃ s, IsLabelled en s) ∧
    ((∃ en ∈ l, IsLabelled en label) ∨
      ¬ (0 < cfg.max_embeddings ∧ cfg.max_embeddings.toNat ≤ l.length))

/-- The camera type refuses the label at a commit: the document has a pending vector of
the type, and the `embeddings_<type>` array is full and consists of entries with other
labels. -/
def RefusesLabel (cfg : Config) (label : String) (fields : Fields) (t : String) : Prop :=
  (∃ p, Fields.find fields ("_pending_" ++ t) = some p) ∧
  ∃ l, Fields.find fields ("embeddings_" ++ t) = some (.arr l) ∧
    (∀ en ∈ l, ∃ s, IsLabelled en s ∧ s ≠ label) ∧
    0 < cfg.max_embeddings ∧ cfg.max_embeddings.toNat ≤ l.length


/-! ## Concrete scenarios -/

namespace Scenario

/-- A world whose similarity routine gives 1 for two vectors of the same length and 0
otherwise. -/
def world : World :=
  { now := 1700000000, clock := 100,
    cosine_similarity := fun a b => .ok (.val (if a.length = b.length then 1 else 0)),
    normalizedSum := fun a _ => .ok a }

/-- A mandatory infrared camera whose capture fails. -/
def irFailing : ActiveCamera :=
  { cam := { capture := none },
    config := { id := "ir", path := "/dev/video2", type := "ir", mandatory := true } }

/-- A color camera with a brightness floor of 40 that captures a bright frame showing
one face. -/
def rgbMatching : ActiveCamera :=
  { cam := { capture := some { brightness := 100, faces := [[1]] } },
    config := { id := "rgb", path := "/dev/video0", type := "rgb", min_brightness := 40 } }

/-- A color camera with a brightness floor of 40 whose frame is too dark. -/
def rgbDark : ActiveCamera :=
  { cam := { capture := some { brightness := 10, faces := [[1]] } },
    config := { id := "rgb", path := "/dev/video0", type := "rgb", min_brightness := 40 } }

/-- A user document with one labelled embedding for the type "rgb". -/
def doc : Json :=
  .obj [("created", .num 1700000000),
        ("embeddings_rgb",
          .arr [.obj [("created", .num 1700000000), ("data", .arr [.num 1]),
                      ("label", .str "default")]]),
        ("username", .str "vlad")]

/-- A file system holding the document of user "vlad". -/
def files : FS := fun p => if p = "/etc/linuxcampam/users/vlad.json" then some doc else none

/-- A loaded engine with the given policy and cameras. -/
def engine (policy : AuthPolicy) (cams : List ActiveCamera) : AuthEngine :=
  { config := { policy := policy }, detector := true, recognizer := true,
    active_cameras := cams }

/-- A world in which every pair of vectors has similarity -1. -/
def opposedWorld : World :=
  { now := 1700000000, clock := 100,
    cosine_similarity := fun _ _ => .ok (.val (-1)),
    normalizedSum := fun a _ => .ok a }

/-- A configuration with threshold 0. -/
def zeroThreshold : Config := { threshold := .val 0 }

/-- A stored entry with the given label and a one-component vector. -/
def entry (label : String) (x : ℚ) : Json :=
  .obj [("created", .num 1700000000), ("data", .arr [.num x]), ("label", .str label)]

/-- The fields of a user document whose `embeddings_rgb` array holds the two labels
"default" and "glasses" and that has a pending vector for the type "rgb". -/
def fullFields : Fields :=
  [("_pending_rgb", .arr [.num 7]),
   ("created", .num 1700000000),
   ("embeddings_rgb", .arr [entry "default" 1, entry "glasses" 2]),
   ("username", .str "vlad")]

/-- A file system holding that document for user "vlad". -/
def fullFiles : FS :=
  fun p => if p = "/etc/linuxcampam/users/vlad.json" then some (.obj fullFields) else none

/-- An engine with `max_embeddings = 2` and one color camera. -/
def smallEngine : AuthEngine :=
  { config := { max_embeddings := 2 }, detector := true, recognizer := true,
    recognition_model_path := "/etc/linuxcampam/models/face_recognition_sface_2021dec.onnx",
    active_cameras := [rgbMatching] }

/-- The fields of the document `doc`. -/
def docFields : Fields :=
  [("created", .num 1700000000),
   ("embeddings_rgb", .arr [entry "default" 1]),
   ("username", .str "vlad")]

/-- A user document in the legacy format: one singular embedding for the type "ir" and
one for the type "rgb". -/
def legacyDoc : Json :=
  .obj [("created", .num 1700000000),
        ("embedding_ir", .arr [.num 1]),
        ("embedding_rgb", .arr [.num 2]),
        ("username", .str "vlad")]

/-- A file system holding the legacy document for user "vlad". -/
def legacyFiles : FS :=
  fun p => if p = "/etc/linuxcampam/users/vlad.json" then some legacyDoc else none


/-- A frame showing one face. -/
def oneFace : Frame := { brightness := 100, faces := [[1]] }

/-- A color camera all of whose capture modes give a frame showing one face. -/
def rgbEnroll : ActiveCamera :=
  { cam := { capture := some oneFace, captureAveraged := fun _ => some oneFace,
             mergeExposures := some oneFace },
    config := { id := "rgb", path := "/dev/video0", type := "rgb" } }

/-- An infrared camera all of whose capture modes give a frame showing one face. -/
def irEnroll : ActiveCamera :=
  { cam := { capture := some { brightness := 90, faces := [[3]] },
             captureAveraged := fun _ => some { brightness := 90, faces := [[3]] },
             mergeExposures := some { brightness := 90, faces := [[3]] } },
    config := { id := "ir", path := "/dev/video2", type := "ir" } }

/-- An infrared camera all of whose capture modes give a frame showing two faces. -/
def irTwoFaces : ActiveCamera :=
  { cam := { capture := some { brightness := 90, faces := [[3], [4]] },
             captureAveraged := fun _ => some { brightness := 90, faces := [[3], [4]] },
             mergeExposures := some { brightness := 90, faces := [[3], [4]] } },
    config := { id := "ir", path := "/dev/video2", type := "ir" } }


/-- The fields of a user document that stores the label "A" for the types "ir" and
"rgb", and the label "B" for the type "rgb". -/
def twoTypeFields : Fields :=
  [("created", .num 1700000000),
   ("embeddings_ir", .arr [entry "A" 3]),
   ("embeddings_rgb", .arr [entry "A" 1, entry "B" 2]),
   ("username", .str "vlad")]

/-- A file system holding that document for user "vlad". -/
def twoTypeFiles : FS :=
  fun p => if p = "/etc/linuxcampam/users/vlad.json" then some (.obj twoTypeFields) else none


/-- The fields of a legacy document that has a pending vector for the type "rgb". -/
def legacyPendingFields : Fields :=
  [("_pending_rgb", .arr [.num 7]),
   ("created", .num 1600000000),
   ("embedding_rgb", .arr [.num 2]),
   ("username", .str "vlad")]

/-- A file system holding that document for user "vlad". -/
def legacyPendingFiles : FS :=
  fun p => if p = "/etc/linuxcampam/users/vlad.json" then some (.obj legacyPendingFields)
    else none


/-- A file system without any user document. -/
def noFiles : FS := fun _ => none


/-- A root function for the concrete computations: exact on the squares of
rational numbers, rounded down in numerator and denominator otherwise. -/
def root (q : ℚ) : ℚ := (Nat.sqrt q.num.toNat : ℚ) / (Nat.sqrt q.den : ℚ)


/-- A host with one CUDA device and without OpenCL, on which the models can only be
created for the CUDA backend. -/
def cudaHost : World :=
  { now := 1700000000, clock := 100, cudaDeviceCount := 1, haveOpenCL := false,
    createDetector := fun b _ => b == .DNN_BACKEND_CUDA,
    createRecognizer := fun b _ => b == .DNN_BACKEND_CUDA,
    cosine_similarity := fun _ _ => .ok (.val 0),
    normalizedSum := fun a _ => .ok a }

/-- An engine whose models are not loaded, with the given priority list. -/
def coldEngine (priority : List String) : AuthEngine :=
  { config := { provider_priority := priority } }


/-- A color camera without manual exposure whose own settings force HDR and switch
averaging off; the single capture shows one face, an averaged capture shows none. -/
def rgbForcedHdr : ActiveCamera :=
  { cam := { supports_manual_exposure_ := false,
             capture := some oneFace,
             captureAveraged := fun _ => some { brightness := 100, faces := [] } },
    config := { id := "rgb", path := "/dev/video0", type := "rgb",
                enroll_hdr := "on", enroll_averaging := "off" } }

/-- A color camera with manual exposure and the settings of the global configuration. -/
def rgbManual : ActiveCamera :=
  { cam := { supports_manual_exposure_ := true, capture := none,
             mergeExposures := some oneFace },
    config := { id := "rgb", path := "/dev/video0", type := "rgb" } }


/-- A loaded engine with an idle timeout of one second whose last activity was at
tick 0. -/
def idleEngine : AuthEngine :=
  { config := { model_keep_alive_sec := 1 }, detector := true, recognizer := true,
    last_activity_ := 0 }

/-- The world at the given reading of the steady clock. -/
def worldAt (clock : Int) : World :=
  { now := 1700000000, clock := clock,
    cosine_similarity := fun _ _ => .ok (.val 0),
    normalizedSum := fun a _ => .ok a }


/-- A newly constructed engine: the configuration has the defaults of the header and no
model is loaded. -/
def freshEngine : AuthEngine := { config := {} }

/-- A configuration file that chooses the strict policy and sets nothing else. -/
def policyOnly : List String := ["[Auth]", "policy = strict"]

/-- A configuration file that sets the threshold. -/
def thresholdSet : List String := ["[Auth]", "threshold = 0.363"]


/-- A stored entry that also records the model version. -/
def versionedEntry (label : String) (x : ℚ) : Json :=
  .obj [("created", .num 1700000000), ("data", .arr [.num x]), ("label", .str label),
        ("model_version", .str "sface_2021dec")]

/-- The fields of a user document with a pending vector for the types "ir" and "rgb";
the array of "ir" holds one label, the array of "rgb" the two labels "default" and
"glasses". -/
def twoPendingFields : Fields :=
  [("_pending_ir", .arr [.num 3]),
   ("_pending_rgb", .arr [.num 7]),
   ("created", .num 1700000000),
   ("embeddings_ir", .arr [versionedEntry "default" 1]),
   ("embeddings_rgb", .arr [versionedEntry "default" 1, versionedEntry "glasses" 2]),
   ("username", .str "vlad")]

/-- A file system holding that document for user "vlad". -/
def twoPendingFiles : FS :=
  fun p => if p = "/etc/linuxcampam/users/vlad.json" then some (.obj twoPendingFields)
    else none

/-- An engine with `max_embeddings = 2`, an infrared and a color camera. -/
def twoTypeEngine : AuthEngine :=
  { config := { max_embeddings := 2 }, detector := true, recognizer := true,
    recognition_model_path := "/etc/linuxcampam/models/face_recognition_sface_2021dec.onnx",
    active_cameras := [irEnroll, rgbMatching] }


/-- The fields of a user document with a pending vector for the types "ir" and "rgb"
whose arrays are both full for `max_embeddings = 2`: "ir" holds the labels "default"
and "hat", "rgb" the labels "default" and "glasses". -/
def twoFullFields : Fields :=
  [("_pending_ir", .arr [.num 3]),
   ("_pending_rgb", .arr [.num 7]),
   ("created", .num 1700000000),
   ("embeddings_ir", .arr [versionedEntry "default" 1, versionedEntry "hat" 4]),
   ("embeddings_rgb", .arr [versionedEntry "default" 1, versionedEntry "glasses" 2]),
   ("username", .str "vlad")]

/-- A file system holding that document for user "vlad". -/
def twoFullFiles : FS :=
  fun p => if p = "/etc/linuxcampam/users/vlad.json" then some (.obj twoFullFields)
    else none


end Scenario

/-! # Properties -/

/-! ## Identifier validation -/

theorem userReClass_iff (c : Char) :
    userReClass c = true ↔
      (c.isAlpha = true ∨ c.isDigit = true ∨ c = '_' ∨ c = '.' ∨ c = '-') := by
  have ea : ('a' : Char).val = 97 := rfl
  have ez : ('z' : Char).val = 122 := rfl
  have eA : ('A' : Char).val = 65 := rfl
  have eZ : ('Z' : Char).val = 90 := rfl
  have e0 : ('0' : Char).val = 48 := rfl
  have e9 : ('9' : Char).val = 57 := rfl
  simp only [userReClass, Char.isAlpha, Char.isUpper, Char.isLower, Char.isDigit,
    Bool.or_eq_true, Bool.and_eq_true, decide_eq_true_eq, beq_iff_eq, ge_iff_le,
    Char.le_def, ea, ez, eA, eZ, e0, e9]
  tauto

theorem regex_match_user_re_iff (s : String) :
    regex_match_user_re s = true ↔ s.toList ≠ [] ∧ ∀ c ∈ s.toList, userReClass c = true := by
  simp [regex_match_user_re, List.all_eq_true]

theorem string_length_pos_iff (s : String) : 1 ≤ s.length ↔ s ≠ "" := by
  rcases s with ⟨l⟩
  cases l <;> simp [String.length, String.ext_iff]

theorem isValidUsername_eq_true (s : String) :
    isValidUsername s = true ↔
      1 ≤ s.length ∧ s.length ≤ 32 ∧ ∀ c ∈ s.toList, userReClass c = true := by
  have hne : s.toList ≠ [] ↔ s ≠ "" := by
    rcases s with ⟨l⟩
    cases l <;> simp [String.toList, String.ext_iff]
  have hlen : 1 ≤ s.length ↔ s ≠ "" := string_length_pos_iff s
  unfold isValidUsername
  by_cases h1 : s.length > 32
  · simp only [h1, decide_True, Bool.true_or, if_true, Bool.false_eq_true, false_iff]
    omega
  · by_cases h2 : s = ""
    · subst h2
      constructor
      · intro h; exact absurd h (by decide)
      · intro h; exact absurd h.1 (by decide)
    · have h3 : s.isEmpty = false := by
        cases h : s.isEmpty
        · rfl
        · exact absurd ((String.isEmpty_iff s).1 h) h2
      simp only [h1, h3, decide_False, Bool.or_self, Bool.false_eq_true, if_false,
        regex_match_user_re_iff, hne]
      constructor
      · intro h; exact ⟨hlen.2 h2, by omega, h.2⟩
      · intro h; exact ⟨h2, h.2.2⟩

/-- C6. `AuthEngine::isValidUsername` accepts exactly the strings of 1 to 32
characters that are all ASCII letters, ASCII digits, underscore, period or hyphen. In
particular it rejects the empty string, every string of 33 or more characters, and
every string containing a slash, a backslash, whitespace, a NUL character or one of
the shell metacharacters ; $ backquote | & ( ) { } ! @. -/
theorem C6_isValidUsername_language :
    (∀ s : String, isValidUsername s = true ↔
      (1 ≤ s.length ∧ s.length ≤ 32 ∧
        ∀ c ∈ s.toList, c.isAlpha = true ∨ c.isDigit = true ∨ c = '_' ∨ c = '.' ∨ c = '-')) ∧
    isValidUsername "" = false ∧
    (∀ s : String, 33 ≤ s.length → isValidUsername s = false) ∧
    (∀ (s : String) (c : Char), c ∈ s.toList →
      c ∈ ['/', '\\', ' ', '\t', '\n', '\r', Char.ofNat 0, ';', '$', Char.ofNat 96, '|', '&',
           '(', ')', '{', '}', '!', '@'] →
      isValidUsername s = false) := by
  have key : ∀ s : String, isValidUsername s = true ↔
      (1 ≤ s.length ∧ s.length ≤ 32 ∧
        ∀ c ∈ s.toList, c.isAlpha = true ∨ c.isDigit = true ∨ c = '_' ∨ c = '.' ∨ c = '-') := by
    intro s
    rw [isValidUsername_eq_true]
    simp only [userReClass_iff]
  refine ⟨key, by decide, ?_, ?_⟩
  · intro s hs
    cases h : isValidUsername s
    · rfl
    · have := (key s).1 h
      omega
  · intro s c hc hbad
    cases h : isValidUsername s
    · rfl
    · exfalso
      have hcl := ((isValidUsername_eq_true s).1 h).2.2 c hc
      revert hcl
      simp only [List.mem_cons, List.mem_singleton, List.not_mem_nil, or_false] at hbad
      rcases hbad with h | h | h | h | h | h | h | h | h | h | h | h | h | h | h | h | h | h <;>
        subst h <;> decide

/-- C7 (the code at the failing inputs). The engine's validator accepts the names "."
and "..", which the test suite's validator rejects; the two validators agree on
every other string. -/
theorem C7_isValidUsername_dot_names :
    isValidUsername "." = true ∧ isValidUsername ".." = true ∧
    Tests.isValidUsername "." = false ∧ Tests.isValidUsername ".." = false ∧
    (∀ s : String, s ≠ "." → s ≠ ".." → isValidUsername s = Tests.isValidUsername s) := by
  refine ⟨by decide, by decide, by decide, by decide, ?_⟩
  intro s h1 h2
  simp only [isValidUsername, Tests.isValidUsername, h1, h2, Bool.or_comm, decide_False,
    Bool.or_self, Bool.false_eq_true, if_false]

/-! ## The camera loop of verification -/

theorem captures_append (l1 l2 : List Effect) :
    captures (l1 ++ l2) = captures l1 ++ captures l2 := by
  simp [captures]

theorem emit_participants (st : VerifyState) (eff : Effect) :
    (st.emit eff).participants = st.participants := rfl

theorem emit_successes (st : VerifyState) (eff : Effect) :
    (st.emit eff).successes = st.successes := rfl

theorem emit_failures (st : VerifyState) (eff : Effect) :
    (st.emit eff).failures = st.failures := rfl

theorem emitIf_participants (st : VerifyState) (b : Bool) (eff : Effect) :
    (st.emitIf b eff).participants = st.participants := by
  cases b <;> rfl

theorem emitIf_successes (st : VerifyState) (b : Bool) (eff : Effect) :
    (st.emitIf b eff).successes = st.successes := by
  cases b <;> rfl

theorem emitIf_failures (st : VerifyState) (b : Bool) (eff : Effect) :
    (st.emitIf b eff).failures = st.failures := by
  cases b <;> rfl

theorem captures_emit_capture (st : VerifyState) (id : String) :
    captures (st.emit (.capture id)).log = captures st.log ++ [.capture id] := by
  simp [VerifyState.emit, captures, Effect.isCapture]

theorem captures_emitIf_imwrite (st : VerifyState) (b : Bool) (path : String) :
    captures (st.emitIf b (.imwrite path)).log = captures st.log := by
  cases b <;> simp [VerifyState.emitIf, VerifyState.emit, captures, Effect.isCapture]

/-- The body of the loop on a camera whose capture fails. -/
theorem verifyCamera_captureFails (cfg : Config) (w : World) (j : Json) (u : String)
    (ac : ActiveCamera) (st : VerifyState) (h : CaptureFails ac) :
    verifyCamera cfg w j u ac st =
      if cfg.policy = .STRICT_ALL then .returned false (st.emit (.capture ac.config.id))
      else if cfg.policy = .ADAPTIVE ∧ ac.config.mandatory = true then
        .returned false (st.emit (.capture ac.config.id))
      else .finished (st.emit (.capture ac.config.id)) := by
  unfold CaptureFails at h
  simp only [verifyCamera, h]
  by_cases h1 : cfg.policy = .STRICT_ALL
  · simp [h1]
  · by_cases h2 : cfg.policy = .ADAPTIVE <;> cases hm : ac.config.mandatory <;> simp [h1, h2, hm]

/-- The body of the loop on a camera whose frame is below the brightness floor. -/
theorem verifyCamera_tooDark (cfg : Config) (w : World) (j : Json) (u : String)
    (ac : ActiveCamera) (st : VerifyState) (h : TooDark ac) :
    verifyCamera cfg w j u ac st =
      if cfg.policy = .ADAPTIVE ∧ ac.config.mandatory = true then
        .returned false (st.emit (.capture ac.config.id))
      else .finished (st.emit (.capture ac.config.id)) := by
  obtain ⟨frame, hc, hb1, hb2⟩ := h
  simp only [verifyCamera, hc]
  by_cases h2 : cfg.policy = .ADAPTIVE <;> cases hm : ac.config.mandatory <;>
    simp [h2, hm, hb1, hb2]

/-- The body of the loop on a participating camera: what remains is the lookup of the
stored embeddings and the comparison. -/
theorem verifyCamera_participates (cfg : Config) (w : World) (j : Json) (u : String)
    (ac : ActiveCamera) (st : VerifyState) (frame : Frame) (h : Participates ac frame) :
    verifyCamera cfg w j u ac st =
      match loadEmbeddings j ac.config.type with
      | .error err =>
        .thrown err { st.emit (.capture ac.config.id) with participants := st.participants + 1 }
      | .ok all_embeddings =>
        if all_embeddings.isEmpty then
          .finished ({ st.emit (.capture ac.config.id) with
              participants := st.participants + 1, failures := st.failures + 1 }.emitIf
            cfg.save_fail
            (.imwrite (cfg.log_dir ++ "fail_missing_" ++ ac.config.id ++ "_" ++ u ++ ".jpg")))
        else
          match cameraMatch cfg w frame.faces all_embeddings with
          | .error err =>
            .thrown err
              { st.emit (.capture ac.config.id) with participants := st.participants + 1 }
          | .ok true =>
            .finished ({ st.emit (.capture ac.config.id) with
                participants := st.participants + 1, successes := st.successes + 1 }.emitIf
              cfg.save_success
              (.imwrite (cfg.log_dir ++ "success_" ++ ac.config.id ++ "_" ++ u ++ ".jpg")))
          | .ok false =>
            .finished ({ st.emit (.capture ac.config.id) with
                participants := st.participants + 1, failures := st.failures + 1 }.emitIf
              cfg.save_fail
              (.imwrite (cfg.log_dir ++ "fail_" ++ ac.config.id ++ "_" ++ u ++ ".jpg"))) := by
  obtain ⟨hc, hb⟩ := h
  have hb' : (decide (ac.config.min_brightness > 0) &&
      decide (frame.brightness < ac.config.min_brightness)) = false := by
    by_contra hne
    simp only [Bool.not_eq_false, Bool.and_eq_true, decide_eq_true_eq] at hne
    exact hb ⟨hne.1, hne.2⟩
  simp only [verifyCamera, hc, hb']
  rfl

/-- Every camera either fails to capture, is too dark, or participates. -/
theorem camera_cases (ac : ActiveCamera) :
    CaptureFails ac ∨ TooDark ac ∨ ∃ frame, Participates ac frame := by
  cases hc : ac.cam.capture with
  | none => exact Or.inl hc
  | some frame =>
    by_cases hb : 0 < ac.config.min_brightness ∧ frame.brightness < ac.config.min_brightness
    · exact Or.inr (Or.inl ⟨frame, hc, hb.1, hb.2⟩)
    · exact Or.inr (Or.inr ⟨frame, hc, hb⟩)

theorem bestOverStored_ok (w : World) (f : Vec) (embs : List Vec) (best : FloatV)
    (h : ∀ s ∈ embs, ∃ x, w.cosine_similarity f s = .ok x) :
    ∃ b, bestOverStored w f embs best = .ok b := by
  induction embs generalizing best with
  | nil => exact ⟨best, rfl⟩
  | cons s rest ih =>
    obtain ⟨x, hx⟩ := h s (List.mem_cons_self _ _)
    simp only [bestOverStored, hx]
    exact ih _ (fun s' hs' => h s' (List.mem_cons_of_mem _ hs'))

theorem bestOverFaces_ok (w : World) (embs : List Vec) (faces : List Vec) (best : FloatV)
    (h : ∀ f ∈ faces, ∀ s ∈ embs, ∃ x, w.cosine_similarity f s = .ok x) :
    ∃ b, bestOverFaces w embs faces best = .ok b := by
  induction faces generalizing best with
  | nil => exact ⟨best, rfl⟩
  | cons f rest ih =>
    obtain ⟨b, hb⟩ := bestOverStored_ok w f embs best (h f (List.mem_cons_self _ _))
    simp only [bestOverFaces, hb]
    exact ih _ (fun f' hf' => h f' (List.mem_cons_of_mem _ hf'))

theorem cameraMatch_nil (cfg : Config) (w : World) (embs : List Vec) :
    cameraMatch cfg w [] embs = .ok false := by
  simp [cameraMatch]

theorem cameraMatch_of_best (cfg : Config) (w : World) (faces embs : List Vec)
    (best : FloatV) (hf : faces ≠ [])
    (hb : bestOverFaces w embs faces (.val 0) = .ok best) :
    cameraMatch cfg w faces embs = .ok (best.ge cfg.threshold) := by
  have hl : faces.length ≥ 1 := by
    cases faces with
    | nil => exact absurd rfl hf
    | cons a l => simp
  simp only [cameraMatch, hl, if_true, hb]

theorem cameraMatch_ok (cfg : Config) (w : World) (faces embs : List Vec)
    (h : ∀ f ∈ faces, ∀ s ∈ embs, ∃ x, w.cosine_similarity f s = .ok x) :
    ∃ m, cameraMatch cfg w faces embs = .ok m := by
  by_cases hf : faces = []
  · subst hf
    exact ⟨false, cameraMatch_nil cfg w embs⟩
  · obtain ⟨b, hb⟩ := bestOverFaces_ok w embs faces (.val 0) h
    exact ⟨_, cameraMatch_of_best cfg w faces embs b hf hb⟩

/-- Whatever the body of the loop does with a camera, the state it ends in has the
camera's capture as the one capture added to the trace. -/
theorem verifyCamera_captures (cfg : Config) (w : World) (j : Json) (u : String)
    (ac : ActiveCamera) (st : VerifyState) :
    captures (verifyCamera cfg w j u ac st).state.log =
      captures st.log ++ [.capture ac.config.id] := by
  rcases camera_cases ac with h | h | ⟨frame, h⟩
  · rw [verifyCamera_captureFails cfg w j u ac st h]
    split_ifs <;> exact captures_emit_capture st _
  · rw [verifyCamera_tooDark cfg w j u ac st h]
    split_ifs <;> exact captures_emit_capture st _
  · rw [verifyCamera_participates cfg w j u ac st frame h]
    split
    · exact captures_emit_capture st _
    · split_ifs
      · simp only [LoopEnd.state, captures_emitIf_imwrite]
        exact captures_emit_capture st _
      · split
        · exact captures_emit_capture st _
        · simp only [LoopEnd.state, captures_emitIf_imwrite]
          exact captures_emit_capture st _
        · simp only [LoopEnd.state, captures_emitIf_imwrite]
          exact captures_emit_capture st _

/-- A camera that participates and fails is counted as a participant and a failure. -/
theorem verifyCamera_fails (cfg : Config) (w : World) (j : Json) (u : String)
    (ac : ActiveCamera) (st : VerifyState) (h : FailsAsParticipant cfg w j ac) :
    ∃ st1, verifyCamera cfg w j u ac st = .finished st1 ∧
      st1.participants = st.participants + 1 ∧ st1.successes = st.successes ∧
      st1.failures = st.failures + 1 := by
  obtain ⟨frame, hp, embs, hl, hcase⟩ := h
  rw [verifyCamera_participates cfg w j u ac st frame hp]
  simp only [hl]
  by_cases he : embs = []
  · subst he
    simp only [List.isEmpty_nil, if_true]
    exact ⟨_, rfl, by simp [emitIf_participants], by simp [emitIf_successes, emit_successes],
      by simp [emitIf_failures]⟩
  · have hne : embs.isEmpty = false := by
      cases embs with
      | nil => exact absurd rfl he
      | cons a l => rfl
    have hm : cameraMatch cfg w frame.faces embs = .ok false := by
      rcases hcase with h1 | h1 | ⟨best, hb, hge⟩
      · exact absurd h1 he
      · rw [h1]; exact cameraMatch_nil cfg w embs
      · by_cases hf : frame.faces = []
        · rw [hf]; exact cameraMatch_nil cfg w embs
        · rw [cameraMatch_of_best cfg w frame.faces embs best hf hb, hge]
    simp only [hne, hm, Bool.false_eq_true, if_false]
    exact ⟨_, rfl, by simp [emitIf_participants], by simp [emitIf_successes, emit_successes],
      by simp [emitIf_failures]⟩

/-- A camera that participates and matches is counted as a participant and a success. -/
theorem verifyCamera_matches (cfg : Config) (w : World) (j : Json) (u : String)
    (ac : ActiveCamera) (st : VerifyState) (h : Matches cfg w j ac) :
    ∃ st1, verifyCamera cfg w j u ac st = .finished st1 ∧
      st1.participants = st.participants + 1 ∧ st1.successes = st.successes + 1 ∧
      st1.failures = st.failures := by
  obtain ⟨frame, hp, embs, hl, he, hf, best, hb, hge⟩ := h
  rw [verifyCamera_participates cfg w j u ac st frame hp]
  have hne : embs.isEmpty = false := by
    cases embs with
    | nil => exact absurd rfl he
    | cons a l => rfl
  have hm : cameraMatch cfg w frame.faces embs = .ok true := by
    rw [cameraMatch_of_best cfg w frame.faces embs best hf hb, hge]
  simp only [hl, hne, hm, Bool.false_eq_true, if_false]
  exact ⟨_, rfl, by simp [emitIf_participants], by simp [emitIf_successes],
    by simp [emitIf_failures, emit_failures]⟩

/-- A camera whose stored embeddings are readable has one of the four outcomes. -/
theorem hasOutcome_of_readable (cfg : Config) (w : World) (j : Json) (ac : ActiveCamera)
    (hr : Readable w j ac) : HasOutcome cfg w j ac := by
  rcases camera_cases ac with h | h | ⟨frame, h⟩
  · exact Or.inl h
  · exact Or.inr (Or.inl h)
  · obtain ⟨embs, hl, hcos⟩ := hr
    by_cases he : embs = []
    · exact Or.inr (Or.inr (Or.inl ⟨frame, h, embs, hl, Or.inl he⟩))
    · by_cases hf : frame.faces = []
      · exact Or.inr (Or.inr (Or.inl ⟨frame, h, embs, hl, Or.inr (Or.inl hf)⟩))
      · obtain ⟨b, hb⟩ := bestOverFaces_ok w embs frame.faces (.val 0) (hcos frame h.1)
        cases hge : b.ge cfg.threshold
        · exact Or.inr (Or.inr (Or.inl ⟨frame, h, embs, hl, Or.inr (Or.inr ⟨b, hb, hge⟩)⟩))
        · exact Or.inr (Or.inr (Or.inr ⟨frame, h, embs, hl, he, hf, b, hb, hge⟩))

/-- On a camera with one of the four outcomes, the body of the loop either returns
false or moves on with the camera skipped or counted once. -/
theorem verifyCamera_outcome (cfg : Config) (w : World) (j : Json) (u : String)
    (ac : ActiveCamera) (st : VerifyState) (ho : HasOutcome cfg w j ac) :
    ∃ st1, captures st1.log = captures st.log ++ [.capture ac.config.id] ∧
      (verifyCamera cfg w j u ac st = .returned false st1 ∨
       (verifyCamera cfg w j u ac st = .finished st1 ∧ StepOf ac.config.id st st1)) := by
  have hcap := verifyCamera_captures cfg w j u ac st
  rcases ho with h | h | h | h
  · rw [verifyCamera_captureFails cfg w j u ac st h] at hcap ⊢
    split_ifs at hcap ⊢
    · exact ⟨_, hcap, Or.inl rfl⟩
    · exact ⟨_, hcap, Or.inl rfl⟩
    · exact ⟨_, hcap, Or.inr ⟨rfl, hcap, Or.inl ⟨rfl, rfl, rfl⟩⟩⟩
  · rw [verifyCamera_tooDark cfg w j u ac st h] at hcap ⊢
    split_ifs at hcap ⊢
    · exact ⟨_, hcap, Or.inl rfl⟩
    · exact ⟨_, hcap, Or.inr ⟨rfl, hcap, Or.inl ⟨rfl, rfl, rfl⟩⟩⟩
  · obtain ⟨st1, h1, hp, hs, hf⟩ := verifyCamera_fails cfg w j u ac st h
    rw [h1] at hcap
    exact ⟨st1, hcap, Or.inr ⟨h1, hcap, Or.inr (Or.inr ⟨hp, hs, hf⟩)⟩⟩
  · obtain ⟨st1, h1, hp, hs, hf⟩ := verifyCamera_matches cfg w j u ac st h
    rw [h1] at hcap
    exact ⟨st1, hcap, Or.inr ⟨h1, hcap, Or.inr (Or.inl ⟨hp, hs, hf⟩)⟩⟩

/-- The body of the loop returns only false, and only on a failed capture under
STRICT_ALL or on a failed or too dark mandatory camera under ADAPTIVE. -/
theorem verifyCamera_returned (cfg : Config) (w : World) (j : Json) (u : String)
    (ac : ActiveCamera) (st st1 : VerifyState) (b : Bool)
    (h : verifyCamera cfg w j u ac st = .returned b st1) :
    b = false ∧ ((cfg.policy = .STRICT_ALL ∧ CaptureFails ac) ∨
      (cfg.policy = .ADAPTIVE ∧ ac.config.mandatory = true ∧ (CaptureFails ac ∨ TooDark ac))) := by
  rcases camera_cases ac with hc | hc | ⟨frame, hc⟩
  · rw [verifyCamera_captureFails cfg w j u ac st hc] at h
    split_ifs at h with h1 h2
    · injection h with hb _
      exact ⟨hb.symm, Or.inl ⟨h1, hc⟩⟩
    · injection h with hb _
      exact ⟨hb.symm, Or.inr ⟨h2.1, h2.2, Or.inl hc⟩⟩
  · rw [verifyCamera_tooDark cfg w j u ac st hc] at h
    split_ifs at h with h2
    injection h with hb _
    exact ⟨hb.symm, Or.inr ⟨h2.1, h2.2, Or.inr hc⟩⟩
  · rw [verifyCamera_participates cfg w j u ac st frame hc] at h
    split at h
    · exact LoopEnd.noConfusion h
    · split_ifs at h
      split at h <;> exact LoopEnd.noConfusion h

/-- With every camera showing one of the four outcomes, the loop returns false or
runs to its end with counters that have not decreased. -/
theorem verifyLoop_outcome (cfg : Config) (w : World) (j : Json) (u : String)
    (cams : List ActiveCamera) (st : VerifyState)
    (ho : ∀ ac ∈ cams, HasOutcome cfg w j ac) :
    ∃ st1, verifyLoop cfg w j u cams st = .returned false st1 ∨
      (verifyLoop cfg w j u cams st = .finished st1 ∧
        st.participants ≤ st1.participants ∧ st.successes ≤ st1.successes ∧
        st.failures ≤ st1.failures) := by
  induction cams generalizing st with
  | nil => exact ⟨st, Or.inr ⟨rfl, le_refl _, le_refl _, le_refl _⟩⟩
  | cons ac rest ih =>
    obtain ⟨st1, -, h1 | ⟨h1, -, hstep⟩⟩ :=
      verifyCamera_outcome cfg w j u ac st (ho ac (List.mem_cons_self _ _))
    · exact ⟨st1, Or.inl (by simp only [verifyLoop, h1])⟩
    · obtain ⟨st2, h2 | ⟨h2, hp, hs, hf⟩⟩ :=
        ih st1 (fun a ha => ho a (List.mem_cons_of_mem _ ha))
      · exact ⟨st2, Or.inl (by simp only [verifyLoop, h1, h2])⟩
      · refine ⟨st2, Or.inr ⟨by simp only [verifyLoop, h1, h2], ?_, ?_, ?_⟩⟩ <;>
          rcases hstep with ⟨a, b, c⟩ | ⟨a, b, c⟩ | ⟨a, b, c⟩ <;> omega

theorem verifyLoop_strict_failure (cfg : Config) (w : World) (j : Json) (u : String)
    (cams : List ActiveCamera) (st : VerifyState) (hpol : cfg.policy = .STRICT_ALL)
    (ho : ∀ ac ∈ cams, HasOutcome cfg w j ac)
    (hfail : ∃ ac ∈ cams, CaptureFails ac ∨ FailsAsParticipant cfg w j ac) :
    ∃ st1, verifyLoop cfg w j u cams st = .returned false st1 ∨
      (verifyLoop cfg w j u cams st = .finished st1 ∧
        1 ≤ st1.participants ∧ 1 ≤ st1.failures) := by
  induction cams generalizing st with
  | nil =>
    obtain ⟨ac, hmem, -⟩ := hfail
    exact absurd hmem (List.not_mem_nil _)
  | cons ac rest ih =>
    have horest : ∀ a ∈ rest, HasOutcome cfg w j a :=
      fun a ha => ho a (List.mem_cons_of_mem _ ha)
    obtain ⟨a, hmem, ha⟩ := hfail
    rcases List.mem_cons.1 hmem with heq | hin
    · subst heq
      rcases ha with hc | hf
      · refine ⟨st.emit (.capture a.config.id), Or.inl ?_⟩
        simp only [verifyLoop, verifyCamera_captureFails cfg w j u a st hc, hpol, if_true]
      · obtain ⟨st1, h1, hp, -, hfl⟩ := verifyCamera_fails cfg w j u a st hf
        obtain ⟨st2, h2 | ⟨h2, hp2, -, hf2⟩⟩ := verifyLoop_outcome cfg w j u rest st1 horest
        · exact ⟨st2, Or.inl (by simp only [verifyLoop, h1, h2])⟩
        · exact ⟨st2, Or.inr ⟨by simp only [verifyLoop, h1, h2], by omega, by omega⟩⟩
    · obtain ⟨st1, -, h1 | ⟨h1, -⟩⟩ :=
        verifyCamera_outcome cfg w j u ac st (ho ac (List.mem_cons_self _ _))
      · exact ⟨st1, Or.inl (by simp only [verifyLoop, h1])⟩
      · obtain ⟨st2, h2 | ⟨h2, hp2, hf2⟩⟩ := ih st1 horest ⟨a, hin, ha⟩
        · exact ⟨st2, Or.inl (by simp only [verifyLoop, h1, h2])⟩
        · exact ⟨st2, Or.inr ⟨by simp only [verifyLoop, h1, h2], hp2, hf2⟩⟩

theorem verifyLoop_lenient (cfg : Config) (w : World) (j : Json) (u : String)
    (cams : List ActiveCamera) (st : VerifyState) (hpol : cfg.policy = .LENIENT_ANY)
    (ho : ∀ ac ∈ cams, HasOutcome cfg w j ac) :
    ∃ st1, verifyLoop cfg w j u cams st = .finished st1 ∧
      st.participants ≤ st1.participants ∧ st.successes ≤ st1.successes := by
  induction cams generalizing st with
  | nil => exact ⟨st, rfl, le_refl _, le_refl _⟩
  | cons ac rest ih =>
    obtain ⟨st1, -, h1 | ⟨h1, -, hstep⟩⟩ :=
      verifyCamera_outcome cfg w j u ac st (ho ac (List.mem_cons_self _ _))
    · obtain ⟨-, hr⟩ := verifyCamera_returned cfg w j u ac st st1 false h1
      rw [hpol] at hr
      rcases hr with ⟨hr, -⟩ | ⟨hr, -⟩ <;> exact absurd hr (by decide)
    · obtain ⟨st2, h2, hp, hs⟩ := ih st1 (fun a ha => ho a (List.mem_cons_of_mem _ ha))
      refine ⟨st2, by simp only [verifyLoop, h1, h2], ?_, ?_⟩ <;>
        rcases hstep with ⟨a, b, c⟩ | ⟨a, b, c⟩ | ⟨a, b, c⟩ <;> omega

theorem verifyLoop_lenient_match (cfg : Config) (w : World) (j : Json) (u : String)
    (cams : List ActiveCamera) (st : VerifyState) (hpol : cfg.policy = .LENIENT_ANY)
    (ho : ∀ ac ∈ cams, HasOutcome cfg w j ac) (hm : ∃ ac ∈ cams, Matches cfg w j ac) :
    ∃ st1, verifyLoop cfg w j u cams st = .finished st1 ∧
      1 ≤ st1.participants ∧ 1 ≤ st1.successes := by
  induction cams generalizing st with
  | nil =>
    obtain ⟨ac, hmem, -⟩ := hm
    exact absurd hmem (List.not_mem_nil _)
  | cons ac rest ih =>
    have horest : ∀ a ∈ rest, HasOutcome cfg w j a :=
      fun a ha => ho a (List.mem_cons_of_mem _ ha)
    obtain ⟨a, hmem, ha⟩ := hm
    rcases List.mem_cons.1 hmem with heq | hin
    · subst heq
      obtain ⟨st1, h1, hp, hs, -⟩ := verifyCamera_matches cfg w j u a st ha
      obtain ⟨st2, h2, hp2, hs2⟩ := verifyLoop_lenient cfg w j u rest st1 hpol horest
      exact ⟨st2, by simp only [verifyLoop, h1, h2], by omega, by omega⟩
    · obtain ⟨st1, h1, -⟩ := verifyLoop_lenient cfg w j u [ac] st hpol
        (fun x hx => ho x (by rw [List.mem_singleton.1 hx]; exact List.mem_cons_self _ _))
      have h1' : verifyCamera cfg w j u ac st = .finished st1 := by
        simp only [verifyLoop] at h1
        split at h1
        · rename_i s hs; rw [hs]; exact h1
        · exact LoopEnd.noConfusion h1
        · exact LoopEnd.noConfusion h1
      obtain ⟨st2, h2, hp2, hs2⟩ := ih st1 horest ⟨a, hin, ha⟩
      exact ⟨st2, by simp only [verifyLoop, h1', h2], hp2, hs2⟩

theorem verifyLoop_no_participant (cfg : Config) (w : World) (j : Json) (u : String)
    (cams : List ActiveCamera) (st : VerifyState)
    (hnone : ∀ ac ∈ cams, CaptureFails ac ∨ TooDark ac) :
    ∃ st1, (verifyLoop cfg w j u cams st = .returned false st1 ∨
        verifyLoop cfg w j u cams st = .finished st1) ∧
      st1.participants = st.participants := by
  induction cams generalizing st with
  | nil => exact ⟨st, Or.inr rfl, rfl⟩
  | cons ac rest ih =>
    have hhead : verifyCamera cfg w j u ac st = .returned false (st.emit (.capture ac.config.id)) ∨
        verifyCamera cfg w j u ac st = .finished (st.emit (.capture ac.config.id)) := by
      rcases hnone ac (List.mem_cons_self _ _) with h | h
      · rw [verifyCamera_captureFails cfg w j u ac st h]
        split_ifs
        · exact Or.inl rfl
        · exact Or.inl rfl
        · exact Or.inr rfl
      · rw [verifyCamera_tooDark cfg w j u ac st h]
        split_ifs
        · exact Or.inl rfl
        · exact Or.inr rfl
    rcases hhead with h1 | h1
    · exact ⟨st.emit (.capture ac.config.id), Or.inl (by simp only [verifyLoop, h1]), rfl⟩
    · obtain ⟨st2, h2, hp⟩ := ih (st.emit (.capture ac.config.id))
        (fun a ha => hnone a (List.mem_cons_of_mem _ ha))
      refine ⟨st2, ?_, by rw [hp]; rfl⟩
      rcases h2 with h2 | h2
      · exact Or.inl (by simp only [verifyLoop, h1, h2])
      · exact Or.inr (by simp only [verifyLoop, h1, h2])

theorem ensureModelsLoaded_config (e : AuthEngine) (w : World) :
    (ensureModelsLoaded e w).2.config = e.config := by
  unfold ensureModelsLoaded loadModels
  dsimp only
  split_ifs <;> rfl

/-! ## The decision policies -/

/-- C1. Under STRICT_ALL, whatever the list of cameras and whatever outcome each of
them has, if some camera fails (its capture returns an empty frame, or it participates
and has no stored embedding for its type, detects no face or has a best score below
the threshold) then `verifyUser` returns false. -/
theorem C1_strict_all_any_failure (e : AuthEngine) (w : World) (fs : FS) (u : String)
    (j : Json) (hpol : e.config.policy = .STRICT_ALL)
    (hj : fs (userFile e.config u) = some j)
    (ho : ∀ ac ∈ camerasInUse e w, HasOutcome e.config w j ac)
    (hfail : ∃ ac ∈ camerasInUse e w,
      CaptureFails ac ∨ FailsAsParticipant e.config w j ac) :
    (verifyUser e w fs u).result = .ok false := by
  have hcfg := ensureModelsLoaded_config e w
  unfold verifyUser
  dsimp only
  cases hl : (ensureModelsLoaded e w).1
  · rfl
  · cases hv : isValidUsername u
    · rfl
    · simp only [Bool.not_true, Bool.false_eq_true, if_false, hcfg, hj]
      obtain ⟨st1, h1 | ⟨h1, hp, hf⟩⟩ := verifyLoop_strict_failure e.config w j u
        (camerasInUse e w) { log := [.fsExists (userFile e.config u),
          .fsRead (userFile e.config u)] } hpol ho hfail
      · unfold camerasInUse at h1
        rw [h1]
      · unfold camerasInUse at h1
        rw [h1]
        have h0 : (st1.participants == 0) = false := by
          rw [beq_eq_false_iff_ne]; omega
        have hf0 : (st1.failures == 0) = false := by
          rw [beq_eq_false_iff_ne]; omega
        simp only [verdict, h0, hpol, hf0, Bool.false_eq_true, if_false, if_true]

/-- C1 at a concrete input: under STRICT_ALL a matching color camera followed by a
failing infrared camera gives false. -/
theorem C1_strict_all_any_failure_witness :
    (verifyUser (Scenario.engine .STRICT_ALL [Scenario.rgbMatching, Scenario.irFailing])
      Scenario.world Scenario.files "vlad").result = .ok false := by
  have hm : Matches (Scenario.engine .STRICT_ALL [Scenario.rgbMatching, Scenario.irFailing]).config
      Scenario.world Scenario.doc Scenario.rgbMatching :=
    ⟨{ brightness := 100, faces := [[1]] }, ⟨rfl, by norm_num [Scenario.rgbMatching]⟩,
      [[1]], rfl, by simp, by simp, .val 1, rfl, by norm_num [FloatV.ge, Scenario.engine]⟩
  refine C1_strict_all_any_failure _ Scenario.world Scenario.files "vlad" Scenario.doc rfl rfl
    ?_ ⟨Scenario.irFailing, ?_, Or.inl rfl⟩
  · intro ac hac
    have hac' : ac = Scenario.rgbMatching ∨ ac = Scenario.irFailing := by
      simpa [camerasInUse, ensureModelsLoaded, Scenario.engine] using hac
    rcases hac' with h | h
    · rw [h]; exact Or.inr (Or.inr (Or.inr hm))
    · rw [h]; exact Or.inl rfl
  · simp [camerasInUse, ensureModelsLoaded, Scenario.engine]

/-- C2. Under LENIENT_ANY, if at least one camera captures a frame, passes its
brightness floor and reaches a best score at or above the threshold, then `verifyUser`
returns true, whatever the other cameras do among failing to capture, being skipped,
having no stored embedding, detecting no face and scoring below the threshold. -/
theorem C2_lenient_any_one_match (e : AuthEngine) (w : World) (fs : FS) (u : String)
    (j : Json) (hpol : e.config.policy = .LENIENT_ANY)
    (hload : (ensureModelsLoaded e w).1 = true) (hvalid : isValidUsername u = true)
    (hj : fs (userFile e.config u) = some j)
    (ho : ∀ ac ∈ camerasInUse e w, HasOutcome e.config w j ac)
    (hm : ∃ ac ∈ camerasInUse e w, Matches e.config w j ac) :
    (verifyUser e w fs u).result = .ok true := by
  have hcfg := ensureModelsLoaded_config e w
  unfold verifyUser
  dsimp only
  simp only [hload, hvalid, Bool.not_true, Bool.false_eq_true, if_false, hcfg, hj]
  obtain ⟨st1, h1, hp, hs⟩ := verifyLoop_lenient_match e.config w j u
    (camerasInUse e w) { log := [.fsExists (userFile e.config u),
      .fsRead (userFile e.config u)] } hpol ho hm
  unfold camerasInUse at h1
  rw [h1]
  have h0 : (st1.participants == 0) = false := by
    rw [beq_eq_false_iff_ne]; omega
  have hs0 : 0 < st1.successes := by omega
  simp [verdict, h0, hpol, hs0]

/-- C2 at a concrete input: under LENIENT_ANY a failing infrared camera and a matching
color camera give true. -/
theorem C2_lenient_any_one_match_witness :
    (verifyUser (Scenario.engine .LENIENT_ANY [Scenario.irFailing, Scenario.rgbMatching])
      Scenario.world Scenario.files "vlad").result = .ok true := by
  have hm : Matches (Scenario.engine .LENIENT_ANY [Scenario.irFailing, Scenario.rgbMatching]).config
      Scenario.world Scenario.doc Scenario.rgbMatching :=
    ⟨{ brightness := 100, faces := [[1]] }, ⟨rfl, by norm_num [Scenario.rgbMatching]⟩,
      [[1]], rfl, by simp, by simp, .val 1, rfl, by norm_num [FloatV.ge, Scenario.engine]⟩
  refine C2_lenient_any_one_match _ Scenario.world Scenario.files "vlad" Scenario.doc rfl rfl
    (by decide) rfl ?_ ⟨Scenario.rgbMatching, ?_, hm⟩
  · intro ac hac
    have hac' : ac = Scenario.irFailing ∨ ac = Scenario.rgbMatching := by
      simpa [camerasInUse, ensureModelsLoaded, Scenario.engine] using hac
    rcases hac' with h | h
    · rw [h]; exact Or.inl rfl
    · rw [h]; exact Or.inr (Or.inr (Or.inr hm))
  · simp [camerasInUse, ensureModelsLoaded, Scenario.engine]

/-- C4. Under each of the three policies, if no camera participates (no camera is
configured, or every camera fails to capture or is skipped for insufficient
brightness) then `verifyUser` returns false. -/
theorem C4_no_participant (e : AuthEngine) (w : World) (fs : FS) (u : String)
    (hnone : ∀ ac ∈ camerasInUse e w, CaptureFails ac ∨ TooDark ac) :
    (verifyUser e w fs u).result = .ok false := by
  unfold verifyUser
  dsimp only
  cases hl : (ensureModelsLoaded e w).1
  · rfl
  · cases hv : isValidUsername u
    · rfl
    · simp only [Bool.not_true, Bool.false_eq_true, if_false]
      cases hj : fs (userFile (ensureModelsLoaded e w).2.config u) with
      | none => rfl
      | some j =>
        obtain ⟨st1, h1, hp⟩ := verifyLoop_no_participant (ensureModelsLoaded e w).2.config
          w j u (camerasInUse e w) { log := [.fsExists
            (userFile (ensureModelsLoaded e w).2.config u),
            .fsRead (userFile (ensureModelsLoaded e w).2.config u)] } hnone
        unfold camerasInUse at h1
        rcases h1 with h1 | h1
        · simp only [h1]
        · simp only [h1, verdict, hp]
          rfl

/-- C4 at concrete inputs: a failing camera with a too dark one, and no camera at all,
give false. -/
theorem C4_no_participant_witness :
    (verifyUser (Scenario.engine .LENIENT_ANY [Scenario.irFailing, Scenario.rgbDark])
        Scenario.world Scenario.files "vlad").result = .ok false ∧
    (verifyUser (Scenario.engine .STRICT_ALL []) Scenario.world Scenario.files "vlad").result
      = .ok false := by
  refine ⟨C4_no_participant _ _ _ _ ?_, C4_no_participant _ _ _ _ ?_⟩
  · intro ac hac
    have hac' : ac = Scenario.irFailing ∨ ac = Scenario.rgbDark := by
      simpa [camerasInUse, ensureModelsLoaded, Scenario.engine] using hac
    rcases hac' with h | h
    · rw [h]; exact Or.inl rfl
    · rw [h]
      exact Or.inr ⟨{ brightness := 10, faces := [[1]] }, rfl,
        by norm_num [Scenario.rgbDark], by norm_num [Scenario.rgbDark]⟩
  · intro ac hac
    simp [camerasInUse, ensureModelsLoaded, Scenario.engine] at hac

theorem verifyLoop_adaptive_abort (cfg : Config) (w : World) (j : Json) (u : String)
    (pre post : List ActiveCamera) (ac : ActiveCamera) (st : VerifyState)
    (hpol : cfg.policy = .ADAPTIVE) (hpre : ∀ a ∈ pre, HasOutcome cfg w j a)
    (hmand : ac.config.mandatory = true) (hfail : CaptureFails ac) :
    ∃ st1, verifyLoop cfg w j u (pre ++ ac :: post) st = .returned false st1 ∧
      ∃ k, k ≤ pre.length ∧
        captures st1.log = captures st.log ++ captureTrace ((pre ++ [ac]).take (k + 1)) := by
  induction pre generalizing st with
  | nil =>
    refine ⟨st.emit (.capture ac.config.id), ?_, 0, le_refl _, ?_⟩
    · simp only [List.nil_append, verifyLoop, verifyCamera_captureFails cfg w j u ac st hfail,
        hpol, hmand]
      simp
    · simp [captureTrace, captures_emit_capture]
  | cons p pre ih =>
    obtain ⟨st1, hcap, h1 | ⟨h1, -⟩⟩ :=
      verifyCamera_outcome cfg w j u p st (hpre p (List.mem_cons_self _ _))
    · refine ⟨st1, by simp only [List.cons_append, verifyLoop, h1], 0, Nat.zero_le _, ?_⟩
      simp [captureTrace, hcap]
    · obtain ⟨st2, h2, k, hk, hc2⟩ := ih st1 (fun a ha => hpre a (List.mem_cons_of_mem _ ha))
      have hloop : verifyLoop cfg w j u (p :: pre ++ ac :: post) st = .returned false st2 := by
        rw [List.cons_append]
        simp only [verifyLoop, h1]
        exact h2
      refine ⟨st2, hloop, k + 1, by simp; omega, ?_⟩
      rw [hc2, hcap]
      simp [captureTrace]

/-- C3. Under ADAPTIVE, when the capture of a mandatory camera returns an empty frame,
`verifyUser` returns false, whatever the cameras listed before it did (also when one of
them matched), and no camera listed after it is captured: the captures performed are
those of an initial segment of the list that ends at the failing camera at the latest.
With the failing mandatory camera first in the list, exactly one capture is made. -/
theorem C3_adaptive_mandatory_capture_failure (e : AuthEngine) (w : World) (fs : FS)
    (u : String) (j : Json) (pre post : List ActiveCamera) (ac : ActiveCamera)
    (hpol : e.config.policy = .ADAPTIVE)
    (hload : (ensureModelsLoaded e w).1 = true) (hvalid : isValidUsername u = true)
    (hj : fs (userFile e.config u) = some j)
    (hcams : camerasInUse e w = pre ++ ac :: post)
    (hpre : ∀ a ∈ pre, HasOutcome e.config w j a)
    (hmand : ac.config.mandatory = true) (hfail : CaptureFails ac) :
    (verifyUser e w fs u).result = .ok false ∧
    (∃ k, k ≤ pre.length ∧
      captures (verifyUser e w fs u).log = captureTrace ((pre ++ [ac]).take (k + 1))) ∧
    (pre = [] → captures (verifyUser e w fs u).log = [.capture ac.config.id]) := by
  have hcfg := ensureModelsLoaded_config e w
  obtain ⟨st1, h1, k, hk, hc⟩ := verifyLoop_adaptive_abort e.config w j u pre post ac
    { log := [.fsExists (userFile e.config u), .fsRead (userFile e.config u)] }
    hpol hpre hmand hfail
  have hc' : captures st1.log = captureTrace ((pre ++ [ac]).take (k + 1)) := by
    rw [hc]
    simp [captures, Effect.isCapture]
  have hrun : verifyUser e w fs u =
      { result := .ok false, engine := (ensureModelsLoaded e w).2, fs := fs, log := st1.log } := by
    unfold verifyUser
    dsimp only
    simp only [hload, hvalid, Bool.not_true, Bool.false_eq_true, if_false, hcfg, hj]
    unfold camerasInUse at hcams
    rw [hcams, h1]
  rw [hrun]
  refine ⟨rfl, ⟨k, hk, hc'⟩, ?_⟩
  intro hnil
  subst hnil
  have hk0 : k = 0 := by simpa using hk
  subst hk0
  simpa [captureTrace] using hc'

/-- C3 at concrete inputs: a failing mandatory infrared camera listed first gives false
with the one capture "ir"; listed after a color camera that has matched, it still gives
false. -/
theorem C3_adaptive_mandatory_capture_failure_witness :
    ((verifyUser (Scenario.engine .ADAPTIVE [Scenario.irFailing, Scenario.rgbMatching])
        Scenario.world Scenario.files "vlad").result = .ok false ∧
     captures (verifyUser (Scenario.engine .ADAPTIVE [Scenario.irFailing, Scenario.rgbMatching])
        Scenario.world Scenario.files "vlad").log = [.capture "ir"]) ∧
    (Matches (Scenario.engine .ADAPTIVE [Scenario.rgbMatching, Scenario.irFailing]).config
        Scenario.world Scenario.doc Scenario.rgbMatching ∧
     (verifyUser (Scenario.engine .ADAPTIVE [Scenario.rgbMatching, Scenario.irFailing])
        Scenario.world Scenario.files "vlad").result = .ok false) := by
  have h := C3_adaptive_mandatory_capture_failure
    (Scenario.engine .ADAPTIVE [Scenario.irFailing, Scenario.rgbMatching])
    Scenario.world Scenario.files "vlad" Scenario.doc [] [Scenario.rgbMatching]
    Scenario.irFailing rfl rfl (by decide) rfl rfl
    (fun a ha => absurd ha (List.not_mem_nil _)) rfl rfl
  have hm : Matches (Scenario.engine .ADAPTIVE [Scenario.rgbMatching, Scenario.irFailing]).config
      Scenario.world Scenario.doc Scenario.rgbMatching :=
    ⟨{ brightness := 100, faces := [[1]] }, ⟨rfl, by norm_num [Scenario.rgbMatching]⟩,
      [[1]], rfl, by simp, by simp, .val 1, rfl, by norm_num [FloatV.ge, Scenario.engine]⟩
  have h2 := C3_adaptive_mandatory_capture_failure
    (Scenario.engine .ADAPTIVE [Scenario.rgbMatching, Scenario.irFailing])
    Scenario.world Scenario.files "vlad" Scenario.doc [Scenario.rgbMatching] []
    Scenario.irFailing rfl rfl (by decide) rfl rfl
    (fun a ha => by
      rw [List.mem_singleton.1 ha]
      exact Or.inr (Or.inr (Or.inr hm))) rfl rfl
  exact ⟨⟨h.1, h.2.2 rfl⟩, hm, h2.1⟩

/-! ## The match rule of a camera -/

theorem le_foldl_max_iff (t b : ℚ) (l : List ℚ) :
    t ≤ l.foldl max b ↔ t ≤ b ∨ ∃ s ∈ l, t ≤ s := by
  induction l generalizing b with
  | nil => simp
  | cons q rest ih =>
    rw [List.foldl_cons, ih, le_max_iff]
    constructor
    · rintro ((h | h) | ⟨s, hs, h⟩)
      · exact Or.inl h
      · exact Or.inr ⟨q, List.mem_cons_self _ _, h⟩
      · exact Or.inr ⟨s, List.mem_cons_of_mem _ hs, h⟩
    · rintro (h | ⟨s, hs, h⟩)
      · exact Or.inl (Or.inl h)
      · rcases List.mem_cons.1 hs with heq | hin
        · subst heq; exact Or.inl (Or.inr h)
        · exact Or.inr ⟨s, hin, h⟩

theorem coe_le_maximum_iff (t : ℚ) (l : List ℚ) :
    (t : WithBot ℚ) ≤ l.maximum ↔ ∃ s ∈ l, t ≤ s := by
  constructor
  · intro h
    cases hm : l.maximum with
    | bot =>
      rw [hm] at h
      exact absurd h (WithBot.not_coe_le_bot t)
    | coe m =>
      rw [hm] at h
      exact ⟨m, List.maximum_mem hm, WithBot.coe_le_coe.1 h⟩
  · rintro ⟨s, hs, h⟩
    exact le_trans (WithBot.coe_le_coe.2 h) (List.le_maximum_of_mem' hs)

theorem bestOverStored_eq (w : World) (f : Vec) (embs : List Vec) (b : ℚ)
    (h : ∀ s ∈ embs, ∃ x, w.cosine_similarity f s = .ok x) :
    bestOverStored w f embs (.val b) = .ok (.val ((numericScores w f embs).foldl max b)) := by
  induction embs generalizing b with
  | nil => rfl
  | cons s rest ih =>
    have hrest : ∀ s' ∈ rest, ∃ x, w.cosine_similarity f s' = .ok x :=
      fun s' hs' => h s' (List.mem_cons_of_mem _ hs')
    obtain ⟨x, hx⟩ := h s (List.mem_cons_self _ _)
    cases x with
    | nan =>
      simp only [bestOverStored, numericScores, hx, FloatV.gt, Bool.false_eq_true, if_false]
      exact ih b hrest
    | val q =>
      simp only [bestOverStored, numericScores, hx, FloatV.gt, decide_eq_true_eq,
        List.foldl_cons]
      by_cases hlt : b < q
      · rw [if_pos hlt, max_eq_right (le_of_lt hlt)]
        exact ih q hrest
      · rw [if_neg hlt, max_eq_left (not_lt.1 hlt)]
        exact ih b hrest

theorem bestOverFaces_eq (w : World) (embs faces : List Vec) (b : ℚ)
    (h : ∀ f ∈ faces, ∀ s ∈ embs, ∃ x, w.cosine_similarity f s = .ok x) :
    bestOverFaces w embs faces (.val b) = .ok (.val ((pairScores w embs faces).foldl max b)) := by
  induction faces generalizing b with
  | nil => rfl
  | cons f rest ih =>
    simp only [bestOverFaces, pairScores, List.foldl_append,
      bestOverStored_eq w f embs b (h f (List.mem_cons_self _ _))]
    exact ih _ (fun f' hf' => h f' (List.mem_cons_of_mem _ hf'))

/-- The value of `match` for a camera: with a threshold `t`, the camera matches when a
face was detected and `t` is at most 0 or at most the similarity of some pair. -/
theorem cameraMatch_eq_true_iff (cfg : Config) (w : World) (faces embs : List Vec) (t : ℚ)
    (ht : cfg.threshold = .val t)
    (h : ∀ f ∈ faces, ∀ s ∈ embs, ∃ x, w.cosine_similarity f s = .ok x) :
    cameraMatch cfg w faces embs = .ok true ↔
      faces ≠ [] ∧ (t ≤ 0 ∨ ∃ s ∈ pairScores w embs faces, t ≤ s) := by
  by_cases hf : faces = []
  · subst hf
    simp [cameraMatch_nil]
  · rw [cameraMatch_of_best cfg w faces embs _ hf (bestOverFaces_eq w embs faces 0 h), ht]
    simp only [FloatV.ge, Except.ok.injEq, decide_eq_true_eq, le_foldl_max_iff, ne_eq, hf,
      not_false_eq_true, true_and]

/-- C5 (amended). For a participating camera with at least one stored embedding and at
least one detected face, for every configured threshold above 0 and with the
similarity of every pair computed, `verifyUser` counts the camera as a match if and
only if the maximum similarity over all (detected face, stored embedding) pairs is at
or above the threshold. -/
theorem C5_match_iff_max_reaches_threshold (cfg : Config) (w : World) (j : Json)
    (u : String) (ac : ActiveCamera) (st : VerifyState) (frame : Frame) (embs : List Vec)
    (t : ℚ) (hp : Participates ac frame)
    (hl : loadEmbeddings j ac.config.type = .ok embs) (he : embs ≠ [])
    (hf : frame.faces ≠ []) (ht : cfg.threshold = .val t) (hpos : 0 < t)
    (hcos : ∀ f ∈ frame.faces, ∀ s ∈ embs, ∃ x, w.cosine_similarity f s = .ok x) :
    CountsAsMatch cfg w j u ac st ↔ MaxScoreReaches cfg w frame.faces embs := by
  have hne : embs.isEmpty = false := by
    cases embs with
    | nil => exact absurd rfl he
    | cons a l => rfl
  have hiff := cameraMatch_eq_true_iff cfg w frame.faces embs t ht hcos
  have hmax : MaxScoreReaches cfg w frame.faces embs ↔
      ∃ s ∈ pairScores w embs frame.faces, t ≤ s := by
    unfold MaxScoreReaches
    constructor
    · rintro ⟨t1, ht1, hle⟩
      rw [ht] at ht1
      injection ht1 with ht1
      subst ht1
      exact (coe_le_maximum_iff _ _).1 hle
    · intro h
      exact ⟨t, ht, (coe_le_maximum_iff _ _).2 h⟩
  obtain ⟨m, hm⟩ := cameraMatch_ok cfg w frame.faces embs hcos
  unfold CountsAsMatch
  rw [verifyCamera_participates cfg w j u ac st frame hp, hmax]
  simp only [hl, hne, Bool.false_eq_true, if_false, hm]
  cases m with
  | true =>
    constructor
    · intro _
      rcases (hiff.1 hm).2 with h0 | hs
      · exact absurd h0 (not_le.2 hpos)
      · exact hs
    · intro _
      exact ⟨_, rfl, by simp [emitIf_successes]⟩
  | false =>
    constructor
    · rintro ⟨st1, h1, hs1⟩
      injection h1 with h1
      rw [← h1] at hs1
      simp [emitIf_successes, emit_successes] at hs1
    · intro hs
      have := hiff.2 ⟨hf, Or.inr hs⟩
      rw [hm] at this
      injection this with this
      exact absurd this (by decide)

/-- C5 (amended) at a concrete input, with the default threshold 0.363. -/
theorem C5_match_iff_max_reaches_threshold_witness :
    CountsAsMatch (Scenario.engine .ADAPTIVE []).config Scenario.world Scenario.doc "vlad"
        Scenario.rgbMatching {} ↔
      MaxScoreReaches (Scenario.engine .ADAPTIVE []).config Scenario.world [[1]] [[1]] :=
  C5_match_iff_max_reaches_threshold (Scenario.engine .ADAPTIVE []).config Scenario.world
    Scenario.doc "vlad" Scenario.rgbMatching {} { brightness := 100, faces := [[1]] } [[1]]
    (363 / 1000) ⟨rfl, by norm_num [Scenario.rgbMatching]⟩ rfl (by simp) (by simp) rfl
    (by norm_num) (fun _ _ _ _ => ⟨_, rfl⟩)

/-- C5 (counterexample). With threshold 0, a participating camera with one stored
embedding and one detected face whose similarity is -1 is counted as a match, although
the maximum similarity over all pairs, -1, is below the threshold. -/
theorem C5_counterexample_zero_threshold :
    Participates Scenario.rgbMatching { brightness := 100, faces := [[1]] } ∧
    loadEmbeddings Scenario.doc Scenario.rgbMatching.config.type = .ok [[1]] ∧
    CountsAsMatch Scenario.zeroThreshold Scenario.opposedWorld Scenario.doc "vlad"
      Scenario.rgbMatching {} ∧
    ¬ MaxScoreReaches Scenario.zeroThreshold Scenario.opposedWorld [[1]] [[1]] := by
  have hp : Participates Scenario.rgbMatching { brightness := 100, faces := [[1]] } :=
    ⟨rfl, by norm_num [Scenario.rgbMatching]⟩
  refine ⟨hp, rfl, ?_, ?_⟩
  · unfold CountsAsMatch
    rw [verifyCamera_participates _ _ _ _ _ _ _ hp]
    have hl : loadEmbeddings Scenario.doc Scenario.rgbMatching.config.type = .ok [[1]] := rfl
    have hm : cameraMatch Scenario.zeroThreshold Scenario.opposedWorld [[1]] [[1]] = .ok true := by
      norm_num [cameraMatch, bestOverFaces, bestOverStored, Scenario.opposedWorld,
        Scenario.zeroThreshold, FloatV.gt, FloatV.ge]
    simp only [hl, hm]
    exact ⟨_, rfl, by simp [emitIf_successes]⟩
  · rintro ⟨t, ht, hle⟩
    obtain ⟨s, hs, hts⟩ := (coe_le_maximum_iff _ _).1 hle
    have ht0 : t = 0 := by
      simp only [Scenario.zeroThreshold] at ht
      injection ht with ht
      exact ht.symm
    have hs1 : s = -1 := by
      simpa [pairScores, numericScores, Scenario.opposedWorld] using hs
    rw [ht0, hs1] at hts
    norm_num at hts

/-! ## Invalid usernames -/

/-- C8. For a username that fails identifier validation and any label, `setLabel` and
`removeEmbedding` return false, `listEmbeddings` returns the empty list, `verifyUser`
and `trainUser` (in either mode) return false and `enrollUser` returns false with a
reason; in each case the file system is left as it was and the operation performs no
effect at all: no user document is tested for existence, read or written and no camera
is captured. -/
theorem C8_invalid_username_rejected (e : AuthEngine) (w : World) (fs : FS)
    (u l : String) (create_new : Bool) (hinv : isValidUsername u = false) :
    ((setLabel e w fs u l).result = .ok false ∧ (setLabel e w fs u l).fs = fs ∧
      (setLabel e w fs u l).log = []) ∧
    ((removeEmbedding e fs u l).result = .ok false ∧ (removeEmbedding e fs u l).fs = fs ∧
      (removeEmbedding e fs u l).log = []) ∧
    ((listEmbeddings e fs u).result = .ok [] ∧ (listEmbeddings e fs u).fs = fs ∧
      (listEmbeddings e fs u).log = []) ∧
    ((verifyUser e w fs u).result = .ok false ∧ (verifyUser e w fs u).fs = fs ∧
      (verifyUser e w fs u).log = []) ∧
    ((trainUser e w fs u l create_new).result = .ok false ∧
      (trainUser e w fs u l create_new).fs = fs ∧
      (trainUser e w fs u l create_new).log = []) ∧
    ((∃ reason, reason ≠ "" ∧ (enrollUser e w fs u).result = .ok (false, reason)) ∧
      (enrollUser e w fs u).fs = fs ∧ (enrollUser e w fs u).log = []) := by
  refine ⟨?_, ?_, ?_, ?_, ?_, ?_⟩
  · simp [setLabel, hinv]
  · simp [removeEmbedding, hinv]
  · simp [listEmbeddings, hinv]
  · unfold verifyUser
    dsimp only
    cases (ensureModelsLoaded e w).1 <;> simp [hinv]
  · unfold trainUser
    dsimp only
    cases (ensureModelsLoaded e w).1 <;> simp [hinv]
  · unfold enrollUser
    dsimp only
    cases (ensureModelsLoaded e w).1
    · exact ⟨⟨_, by decide, rfl⟩, rfl, rfl⟩
    · rw [hinv]
      exact ⟨⟨_, by decide, rfl⟩, rfl, rfl⟩

/-- C8 at the concrete username "../vlad". -/
theorem C8_invalid_username_rejected_witness :
    (verifyUser (Scenario.engine .ADAPTIVE [Scenario.rgbMatching]) Scenario.world
        Scenario.files "../vlad").result = .ok false ∧
    (setLabel (Scenario.engine .ADAPTIVE [Scenario.rgbMatching]) Scenario.world
        Scenario.files "../vlad" "default").log = [] := by
  have h := C8_invalid_username_rejected (Scenario.engine .ADAPTIVE [Scenario.rgbMatching])
    Scenario.world Scenario.files "../vlad" "default" false (by decide)
  exact ⟨h.2.2.2.1.1, h.1.2.2⟩

/-! ## Objects and keys -/

theorem Fields.find_replace_eq (fs : Fields) (key : String) (v : Json)
    (h : (Fields.find fs key).isSome = true) :
    Fields.find (Fields.replace fs key v) key = some v := by
  induction fs with
  | nil => simp [Fields.find] at h
  | cons kv rest ih =>
    obtain ⟨k, x⟩ := kv
    by_cases h1 : k = key
    · simp [Fields.replace, Fields.find, h1]
    · simp only [Fields.find, h1, if_false] at h
      simp [Fields.replace, Fields.find, h1, ih h]

theorem Fields.find_replace_ne (fs : Fields) (key k : String) (v : Json) (h : k ≠ key) :
    Fields.find (Fields.replace fs key v) k = Fields.find fs k := by
  have h' : ¬ key = k := fun hk => h hk.symm
  induction fs with
  | nil => rfl
  | cons kv rest ih =>
    obtain ⟨k1, x⟩ := kv
    by_cases h1 : k1 = key
    · subst h1
      simp [Fields.replace, Fields.find, h']
    · by_cases h3 : k1 = k
      · subst h3
        simp [Fields.replace, Fields.find, h1]
      · simp [Fields.replace, Fields.find, h1, h3, ih]

theorem Fields.find_insert_eq (fs : Fields) (key : String) (v : Json) :
    Fields.find (Fields.insert fs key v) key = some v ∨
      (Fields.find fs key).isSome = true := by
  induction fs with
  | nil => simp [Fields.insert, Fields.find]
  | cons kv rest ih =>
    obtain ⟨k, x⟩ := kv
    by_cases h1 : k = key
    · right; simp [Fields.find, h1]
    · by_cases h2 : key < k
      · left; simp [Fields.insert, Fields.find, h2]
      · rcases ih with h | h
        · left; simp [Fields.insert, Fields.find, h1, h2, h]
        · right; simp [Fields.find, h1, h]

theorem Fields.find_insert_ne (fs : Fields) (key k : String) (v : Json) (h : k ≠ key) :
    Fields.find (Fields.insert fs key v) k = Fields.find fs k := by
  have h' : ¬ key = k := fun hk => h hk.symm
  induction fs with
  | nil => simp [Fields.insert, Fields.find, h']
  | cons kv rest ih =>
    obtain ⟨k1, x⟩ := kv
    by_cases h2 : key < k1
    · simp [Fields.insert, Fields.find, h2, h']
    · by_cases h3 : k1 = k
      · subst h3
        simp [Fields.insert, Fields.find, h2]
      · simp [Fields.insert, Fields.find, h2, h3, ih]

theorem Fields.find_set_eq (fs : Fields) (key : String) (v : Json) :
    Fields.find (Fields.set fs key v) key = some v := by
  unfold Fields.set
  by_cases h : (Fields.find fs key).isSome = true
  · rw [if_pos h]
    exact Fields.find_replace_eq fs key v h
  · rw [if_neg h]
    rcases Fields.find_insert_eq fs key v with h1 | h1
    · exact h1
    · exact absurd h1 h

theorem Fields.find_set_ne (fs : Fields) (key k : String) (v : Json) (h : k ≠ key) :
    Fields.find (Fields.set fs key v) k = Fields.find fs k := by
  unfold Fields.set
  split_ifs
  · exact Fields.find_replace_ne fs key k v h
  · exact Fields.find_insert_ne fs key k v h

/-- Storing under a key the value it already has leaves the object as it is. -/
theorem Fields.set_of_find (fs : Fields) (key : String) (v : Json)
    (h : Fields.find fs key = some v) : Fields.set fs key v = fs := by
  unfold Fields.set
  rw [h]
  simp only [Option.isSome_some, if_true]
  induction fs with
  | nil => rfl
  | cons kv rest ih =>
    obtain ⟨k, x⟩ := kv
    by_cases h1 : k = key
    · subst h1
      simp only [Fields.find, if_true, Option.some.injEq] at h
      simp [Fields.replace, h]
    · simp only [Fields.find, h1, if_false] at h
      simp [Fields.replace, h1, ih h]

theorem Fields.find_erase_eq (fs : Fields) (key : String) :
    Fields.find (Fields.erase fs key) key = none := by
  induction fs with
  | nil => rfl
  | cons kv rest ih =>
    obtain ⟨k, x⟩ := kv
    by_cases h1 : k = key
    · simpa [Fields.erase, List.filter_cons, h1] using ih
    · have : Fields.find (List.filter (fun kv => kv.1 != key) rest) key = none := ih
      simp [Fields.erase, List.filter_cons, h1, Fields.find, this]

theorem Fields.find_erase_ne (fs : Fields) (key k : String) (h : k ≠ key) :
    Fields.find (Fields.erase fs key) k = Fields.find fs k := by
  induction fs with
  | nil => rfl
  | cons kv rest ih =>
    obtain ⟨k1, x⟩ := kv
    have ih' : Fields.find (List.filter (fun kv => kv.1 != key) rest) k = Fields.find rest k := ih
    by_cases h1 : k1 = key
    · subst h1
      have hk : ¬ k1 = k := fun hk => h hk.symm
      simp [Fields.erase, List.filter_cons, Fields.find, hk, ih']
    · by_cases h3 : k1 = k
      · subst h3
        simp [Fields.erase, List.filter_cons, h1, Fields.find]
      · simp [Fields.erase, List.filter_cons, h1, Fields.find, h3, ih']

theorem key_append_inj (p a b : String) (h : p ++ a = p ++ b) : a = b := by
  have := congrArg String.data h
  simp only [String.data_append] at this
  exact String.ext (List.append_cancel_left this)

theorem pending_ne_embeddings (a b : String) : "_pending_" ++ a ≠ "embeddings_" ++ b := by
  intro h
  have := congrArg String.data h
  simp [String.data_append] at this

theorem embedding_ne_embeddings (a b : String) : "embedding_" ++ a ≠ "embeddings_" ++ b := by
  intro h
  have := congrArg String.data h
  simp [String.data_append] at this

theorem Json.contains_obj (fs : Fields) (key : String) :
    (Json.obj fs).contains key = (Fields.find fs key).isSome := rfl

theorem Json.getKey_obj (fs : Fields) (key : String) :
    (Json.obj fs).getKey key = (Fields.find fs key).getD .null := rfl

/-! ## Committing a label at capacity -/

theorem entryLabelIs_labelled (entry : Json) (s label : String) (h : IsLabelled entry s) :
    entryLabelIs entry label = .ok (decide (s = label), entry) := by
  obtain ⟨fs, rfl, hf⟩ := h
  simp [entryLabelIs, Json.index, hf, Json.eqStr]

theorem updateFirstLabelled_absent (label : String) (upd : Json → Except Err Json)
    (entries : List Json)
    (h : ∀ en ∈ entries, ∃ s, IsLabelled en s ∧ s ≠ label) :
    updateFirstLabelled label upd entries = .ok (false, entries) := by
  induction entries with
  | nil => rfl
  | cons en rest ih =>
    obtain ⟨s, hs, hne⟩ := h en (List.mem_cons_self _ _)
    simp only [updateFirstLabelled, entryLabelIs_labelled en s label hs, hne, decide_False,
      ih (fun e he => h e (List.mem_cons_of_mem _ he))]

theorem updateFirstLabelled_found (label : String) (upd : Json → Except Err Json)
    (pre post : List Json) (en en1 : Json)
    (hpre : ∀ e ∈ pre, ∃ s, IsLabelled e s ∧ s ≠ label)
    (hen : IsLabelled en label) (hupd : upd en = .ok en1) :
    updateFirstLabelled label upd (pre ++ en :: post) = .ok (true, pre ++ en1 :: post) := by
  induction pre with
  | nil =>
    simp only [List.nil_append, updateFirstLabelled, entryLabelIs_labelled en label label hen,
      decide_True, hupd]
  | cons e rest ih =>
    obtain ⟨s, hs, hne⟩ := hpre e (List.mem_cons_self _ _)
    have ih1 := ih (fun x hx => hpre x (List.mem_cons_of_mem _ hx))
    rw [List.cons_append]
    simp only [updateFirstLabelled, entryLabelIs_labelled e s label hs, hne, decide_False]
    rw [ih1]
    rfl

theorem overwriteEntry_obj (p : Json) (now : Int) (ver : String) (fs : Fields) :
    overwriteEntry p now ver (.obj fs) =
      .ok (.obj (Fields.set (Fields.set (Fields.set fs "data" p) "created" (.num now))
        "model_version" (.str ver))) := rfl

theorem overwriteEntry_labelled (p : Json) (now : Int) (ver : String) (en : Json)
    (label : String) (h : IsLabelled en label) :
    ∃ en1, overwriteEntry p now ver en = .ok en1 ∧ IsLabelled en1 label ∧
      en1.getKey "data" = p := by
  obtain ⟨fs, rfl, hf⟩ := h
  refine ⟨_, overwriteEntry_obj p now ver fs, ⟨_, rfl, ?_⟩, ?_⟩
  · rw [Fields.find_set_ne _ _ _ _ (by decide), Fields.find_set_ne _ _ _ _ (by decide),
      Fields.find_set_ne _ _ _ _ (by decide), hf]
  · rw [Json.getKey_obj, Fields.find_set_ne _ _ _ _ (by decide),
      Fields.find_set_ne _ _ _ _ (by decide), Fields.find_set_eq]
    rfl

theorem setLabelLoop_skip (cfg : Config) (now : Int) (ver label : String)
    (ac : ActiveCamera) (rest : List ActiveCamera) (j : Json) (updated : Bool)
    (h : j.contains ("_pending_" ++ ac.config.type) = false) :
    setLabelLoop cfg now ver label (ac :: rest) j updated =
      setLabelLoop cfg now ver label rest j updated := by
  simp only [setLabelLoop, h, Bool.false_eq_true, if_false]

theorem setLabelLoop_no_pending (cfg : Config) (now : Int) (ver label : String)
    (cams : List ActiveCamera) (j : Json) (updated : Bool)
    (h : ∀ ac ∈ cams, j.contains ("_pending_" ++ ac.config.type) = false) :
    setLabelLoop cfg now ver label cams j updated = .finished j updated [] := by
  induction cams with
  | nil => rfl
  | cons ac rest ih =>
    rw [setLabelLoop_skip cfg now ver label ac rest j updated (h ac (List.mem_cons_self _ _))]
    exact ih (fun a ha => h a (List.mem_cons_of_mem _ ha))

theorem initArray_present (j : Json) (now : Int) (type : String)
    (h : j.contains ("embeddings_" ++ type) = true) : initArray j now type = .ok j := by
  simp only [initArray, h, if_true]

theorem capacity_reached (cfg : Config) (m : Nat) (entries : List Json)
    (hmax : cfg.max_embeddings = (m : Int)) (hpos : 0 < m) (hlen : entries.length = m) :
    (decide (cfg.max_embeddings > 0) &&
      decide ((Json.arr entries).size ≥ cfg.max_embeddings.toNat)) = true := by
  have h1 : cfg.max_embeddings > 0 := by rw [hmax]; exact_mod_cast hpos
  have h2 : cfg.max_embeddings.toNat = m := by rw [hmax]; exact Int.toNat_natCast m
  simp [h1, h2, Json.size, hlen]

theorem getKey_label_of_isLabelled (en : Json) (s : String) (h : IsLabelled en s) :
    en.getKey "label" = .str s := by
  obtain ⟨fs, rfl, hf⟩ := h
  rw [Json.getKey_obj, hf]
  rfl

theorem isLabelled_unique (en : Json) (s1 s2 : String) (h1 : IsLabelled en s1)
    (h2 : IsLabelled en s2) : s1 = s2 := by
  have := (getKey_label_of_isLabelled en s1 h1).symm.trans (getKey_label_of_isLabelled en s2 h2)
  injection this

/-! ## Labels -/

theorem entryHasLabel_getKey (label : String) (entry : Json)
    (h : entryHasLabel label entry = true) : entry.getKey "label" = .str label := by
  simp only [entryHasLabel, Bool.and_eq_true] at h
  obtain ⟨-, h2⟩ := h
  cases hk : entry.getKey "label" with
  | str s =>
    rw [hk] at h2
    simp only [Json.eqStr, decide_eq_true_eq] at h2
    rw [h2]
  | null => rw [hk] at h2; exact absurd h2 (by simp [Json.eqStr])
  | bool b => rw [hk] at h2; exact absurd h2 (by simp [Json.eqStr])
  | num q => rw [hk] at h2; exact absurd h2 (by simp [Json.eqStr])
  | arr l => rw [hk] at h2; exact absurd h2 (by simp [Json.eqStr])
  | obj fs => rw [hk] at h2; exact absurd h2 (by simp [Json.eqStr])

/-- When no entry of a configured camera type carries the label, the loop of
`removeEmbedding` leaves the document and the flag `removed` as they were. -/
theorem removeLoop_absent (label : String) (cams : List ActiveCamera) (j : Json)
    (removed : Bool)
    (h : ∀ ac ∈ cams, ∀ entry ∈ (j.getKey ("embeddings_" ++ ac.config.type)).items,
      entryHasLabel label entry = false) :
    removeLoop label cams j removed = (j, removed) := by
  induction cams with
  | nil => rfl
  | cons ac rest ih =>
    have ih1 := ih (fun a ha => h a (List.mem_cons_of_mem _ ha))
    simp only [removeLoop]
    split_ifs with hc
    · have hnone : ((j.getKey ("embeddings_" ++ ac.config.type)).items.any
          (entryHasLabel label)) = false := by
        rw [List.any_eq_false]
        intro entry hentry
        rw [h ac (List.mem_cons_self _ _) entry hentry]
        exact Bool.false_ne_true
      have hfilter : (j.getKey ("embeddings_" ++ ac.config.type)).items.filter
          (fun entry => !entryHasLabel label entry) =
          (j.getKey ("embeddings_" ++ ac.config.type)).items := by
        rw [List.filter_eq_self]
        intro entry hentry
        rw [h ac (List.mem_cons_self _ _) entry hentry]
        rfl
      have hj : j.replaceKey ("embeddings_" ++ ac.config.type)
          (.arr (j.getKey ("embeddings_" ++ ac.config.type)).items) = j := by
        simp only [Bool.and_eq_true] at hc
        obtain ⟨hc1, hc2⟩ := hc
        cases j with
        | obj fs =>
          rw [Json.contains_obj] at hc1
          cases hf : Fields.find fs ("embeddings_" ++ ac.config.type) with
          | none => rw [hf] at hc1; exact absurd hc1 (by simp)
          | some v =>
            rw [Json.getKey_obj, hf] at hc2 ⊢
            cases v with
            | arr l =>
              simp only [Option.getD_some, Json.items, Json.replaceKey]
              rw [Fields.set_of_find fs _ _ hf]
            | null => exact absurd hc2 (by simp [Json.is_array])
            | bool b => exact absurd hc2 (by simp [Json.is_array])
            | num q => exact absurd hc2 (by simp [Json.is_array])
            | str t => exact absurd hc2 (by simp [Json.is_array])
            | obj fs2 => exact absurd hc2 (by simp [Json.is_array])
        | null => exact absurd hc1 (by simp [Json.contains])
        | bool b => exact absurd hc1 (by simp [Json.contains])
        | num q => exact absurd hc1 (by simp [Json.contains])
        | str t => exact absurd hc1 (by simp [Json.contains])
        | arr l => exact absurd hc1 (by simp [Json.contains])
      rw [hfilter, hj, hnone, Bool.or_false]
      exact ih1
    · exact ih1

/-- Create-new training with one camera that captures exactly one face, on a document
whose array for the camera's type has room: the operation succeeds and appends one
entry, labelled with the given label or, for the empty label, with a generated one. -/
theorem trainUser_create_new_single (e : AuthEngine) (w : World) (fs : FS)
    (u label : String) (ac : ActiveCamera) (frame : Frame) (vec : Vec) (fields : Fields)
    (entries : List Json)
    (hload : (ensureModelsLoaded e w).1 = true) (hvalid : isValidUsername u = true)
    (hj : fs (userFile e.config u) = some (.obj fields))
    (hcams : camerasInUse e w = [ac])
    (hcap : ac.cam.capture = some frame) (hface : frame.faces = [vec])
    (hA : Fields.find fields ("embeddings_" ++ ac.config.type) = some (.arr entries))
    (hroom : e.config.max_embeddings ≤ 0 ∨ entries.length < e.config.max_embeddings.toNat) :
    (trainUser e w fs u label true).result = .ok true ∧
    (trainUser e w fs u label true).fs = fs.write (userFile e.config u)
      (.obj (Fields.set fields ("embeddings_" ++ ac.config.type)
        (.arr (entries ++ [trainedEntry
          (if label.isEmpty then "trained_" ++ toString w.now else label) vec w.now])))) := by
  have hcfg := ensureModelsLoaded_config e w
  have hi : initArray (.obj fields) w.now ac.config.type = .ok (.obj fields) :=
    initArray_present _ _ _ (by rw [Json.contains_obj, hA]; rfl)
  have hg : (Json.obj fields).getKey ("embeddings_" ++ ac.config.type) = .arr entries := by
    rw [Json.getKey_obj, hA]; rfl
  have hcond : (decide (e.config.max_embeddings > 0) &&
      decide ((Json.arr entries).size ≥ e.config.max_embeddings.toNat)) = false := by
    rcases hroom with h | h
    · have : ¬ e.config.max_embeddings > 0 := not_lt.2 h
      simp [this]
    · have : ¬ (Json.arr entries).size ≥ e.config.max_embeddings.toNat := by
        simp only [Json.size]; omega
      simp [this]
  have hloop : trainLoop e.config w label true [ac] (.obj fields) false
      [.fsExists (userFile e.config u), .fsRead (userFile e.config u)] =
      .finished (.obj (Fields.set fields ("embeddings_" ++ ac.config.type)
        (.arr (entries ++ [trainedEntry
          (if label.isEmpty then "trained_" ++ toString w.now else label) vec w.now])))) true
        ([.fsExists (userFile e.config u), .fsRead (userFile e.config u)] ++
          [.capture ac.config.id]) := by
    simp only [trainLoop, hcap, hface, hi, hg, hcond, Json.push_back, Json.assign, if_true,
      Bool.false_eq_true, if_false]
  unfold camerasInUse at hcams
  unfold trainUser
  dsimp only
  simp only [hload, hvalid, Bool.not_true, Bool.false_eq_true, if_false, hcfg, hj, hcams, hloop,
    if_true]
  exact ⟨trivial, trivial⟩

/-- C9 (amended). The engine applies no identifier validation to a label. For a label
that is not a valid identifier, `removeEmbedding` returns false and leaves the file
system unchanged whenever every label stored in the user's document is a valid
identifier. The empty label is not rejected by create-new training: with one camera
that captures exactly one face and an array with room, `trainUser` returns true and
appends an entry under the generated label "trained_" followed by the time. -/
theorem C9_invalid_label :
    (∀ (e : AuthEngine) (fs : FS) (u l : String) (j : Json),
      fs (userFile e.config u) = some j → isValidUsername l = false →
      StoredLabelsValid j e.active_cameras →
      (removeEmbedding e fs u l).result = .ok false ∧ (removeEmbedding e fs u l).fs = fs) ∧
    (∀ (e : AuthEngine) (w : World) (fs : FS) (u : String) (ac : ActiveCamera)
      (frame : Frame) (vec : Vec) (fields : Fields) (entries : List Json),
      (ensureModelsLoaded e w).1 = true → isValidUsername u = true →
      fs (userFile e.config u) = some (.obj fields) → camerasInUse e w = [ac] →
      ac.cam.capture = some frame → frame.faces = [vec] →
      Fields.find fields ("embeddings_" ++ ac.config.type) = some (.arr entries) →
      (e.config.max_embeddings ≤ 0 ∨ entries.length < e.config.max_embeddings.toNat) →
      (trainUser e w fs u "" true).result = .ok true ∧
      ∃ j1, (trainUser e w fs u "" true).fs = fs.write (userFile e.config u) j1 ∧
        j1.getKey ("embeddings_" ++ ac.config.type) =
          .arr (entries ++ [trainedEntry ("trained_" ++ toString w.now) vec w.now])) := by
  constructor
  · intro e fs u l j hj hl hstored
    have habs : ∀ ac ∈ e.active_cameras,
        ∀ entry ∈ (j.getKey ("embeddings_" ++ ac.config.type)).items,
          entryHasLabel l entry = false := by
      intro ac hac entry hentry
      cases hh : entryHasLabel l entry
      · rfl
      · have := hstored ac hac entry hentry l (entryHasLabel_getKey l entry hh)
        rw [hl] at this
        exact absurd this (by decide)
    unfold removeEmbedding
    cases hv : isValidUsername u
    · exact ⟨rfl, rfl⟩
    · have hr := removeLoop_absent l e.active_cameras j false habs
      constructor <;> simp [hj, hr]
  · intro e w fs u ac frame vec fields entries hload hvalid hj hcams hcap hface hA hroom
    obtain ⟨h1, h2⟩ := trainUser_create_new_single e w fs u "" ac frame vec fields entries
      hload hvalid hj hcams hcap hface hA hroom
    refine ⟨h1, _, h2, ?_⟩
    rw [Json.getKey_obj, Fields.find_set_eq]
    rfl

/-- C9 (amended) at concrete inputs: the removal of a label with a blank and an
exclamation mark, and create-new training with the empty label. -/
theorem C9_invalid_label_witness :
    (removeEmbedding (Scenario.engine .ADAPTIVE [Scenario.rgbMatching]) Scenario.files "vlad"
        "no such label!").result = .ok false ∧
    (trainUser (Scenario.engine .ADAPTIVE [Scenario.rgbMatching]) Scenario.world
        Scenario.files "vlad" "" true).result = .ok true := by
  refine ⟨(C9_invalid_label.1 (Scenario.engine .ADAPTIVE [Scenario.rgbMatching])
      Scenario.files "vlad" "no such label!" Scenario.doc rfl (by decide) ?_).1,
    (C9_invalid_label.2 (Scenario.engine .ADAPTIVE [Scenario.rgbMatching]) Scenario.world
      Scenario.files "vlad" Scenario.rgbMatching { brightness := 100, faces := [[1]] } [1]
      Scenario.docFields [Scenario.entry "default" 1] rfl (by decide) rfl rfl rfl rfl rfl
      (Or.inr (by decide))).1⟩
  intro ac hac entry hentry s hs
  rw [List.mem_singleton.1 hac] at hentry
  have he : entry = Scenario.entry "default" 1 := by
    simpa [Scenario.doc, Scenario.rgbMatching, Json.getKey, Fields.find, Json.items,
      Scenario.entry] using hentry
  rw [he] at hs
  have : s = "default" := by
    simp only [Scenario.entry, Json.getKey, Fields.find] at hs
    simpa using hs.symm
  rw [this]
  decide

/-- C9 (counterexample). For the valid, enrolled user "vlad" and the empty label, which
is not a valid identifier (for the engine's validator as for the label validator of the
test suite), create-new training does not fail: it returns true and the stored document
changes, its array growing from one entry to two. -/
theorem C9_counterexample_empty_label :
    isValidUsername "vlad" = true ∧
    Scenario.files (userFile (Scenario.engine .ADAPTIVE [Scenario.rgbMatching]).config "vlad")
      = some Scenario.doc ∧
    isValidUsername "" = false ∧ Tests.isValidLabel "" = false ∧
    (trainUser (Scenario.engine .ADAPTIVE [Scenario.rgbMatching]) Scenario.world
      Scenario.files "vlad" "" true).result = .ok true ∧
    (trainUser (Scenario.engine .ADAPTIVE [Scenario.rgbMatching]) Scenario.world
      Scenario.files "vlad" "" true).fs
        (userFile (Scenario.engine .ADAPTIVE [Scenario.rgbMatching]).config "vlad")
      ≠ some Scenario.doc := by
  obtain ⟨h1, h2⟩ := trainUser_create_new_single
    (Scenario.engine .ADAPTIVE [Scenario.rgbMatching]) Scenario.world Scenario.files "vlad" ""
    Scenario.rgbMatching { brightness := 100, faces := [[1]] } [1] Scenario.docFields
    [Scenario.entry "default" 1] rfl (by decide) rfl rfl rfl rfl rfl (Or.inr (by decide))
  refine ⟨by decide, rfl, by decide, by decide, h1, ?_⟩
  rw [h2]
  intro h
  simp only [FS.write, if_true, Option.some.injEq] at h
  have hk := congrArg
    (fun d => (d.getKey ("embeddings_" ++ Scenario.rgbMatching.config.type)).size) h
  have hr : (Scenario.doc.getKey ("embeddings_" ++ Scenario.rgbMatching.config.type)).size
      = 1 := rfl
  simp only [Json.getKey_obj, Fields.find_set_eq, hr] at hk
  simp [Json.size] at hk

/-! ## Removing a label -/

/-- The test of `removeEmbedding` on an entry holds exactly for the entries that carry
the label. -/
theorem entryHasLabel_iff (label : String) (entry : Json) :
    entryHasLabel label entry = true ↔ IsLabelled entry label := by
  constructor
  · intro h
    have hk := entryHasLabel_getKey label entry h
    cases entry with
    | obj fs =>
      refine ⟨fs, rfl, ?_⟩
      rw [Json.getKey_obj] at hk
      cases hf : Fields.find fs "label" with
      | none => rw [hf] at hk; exact absurd hk (by simp)
      | some v => rw [hf] at hk; simp only [Option.getD_some] at hk; rw [hk]
    | null => exact absurd h (by simp [entryHasLabel, Json.contains])
    | bool b => exact absurd h (by simp [entryHasLabel, Json.contains])
    | num q => exact absurd h (by simp [entryHasLabel, Json.contains])
    | str t => exact absurd h (by simp [entryHasLabel, Json.contains])
    | arr l => exact absurd h (by simp [entryHasLabel, Json.contains])
  · rintro ⟨fs, rfl, hf⟩
    simp [entryHasLabel, Json.contains, Json.getKey, hf, Json.eqStr]

/-- A value that is present under a key and is an array. -/
theorem array_of_contains (j : Json) (key : String)
    (hc : (j.contains key && (j.getKey key).is_array) = true) :
    ∃ fs l, j = .obj fs ∧ Fields.find fs key = some (.arr l) := by
  simp only [Bool.and_eq_true] at hc
  obtain ⟨hc1, hc2⟩ := hc
  cases j with
  | obj fs =>
    rw [Json.contains_obj] at hc1
    cases hf : Fields.find fs key with
    | none => rw [hf] at hc1; exact absurd hc1 (by simp)
    | some v =>
      rw [Json.getKey_obj, hf] at hc2
      cases v with
      | arr l => exact ⟨fs, l, rfl, hf⟩
      | null => exact absurd hc2 (by simp [Json.is_array])
      | bool b => exact absurd hc2 (by simp [Json.is_array])
      | num q => exact absurd hc2 (by simp [Json.is_array])
      | str t => exact absurd hc2 (by simp [Json.is_array])
      | obj fs2 => exact absurd hc2 (by simp [Json.is_array])
  | null => exact absurd hc1 (by simp [Json.contains])
  | bool b => exact absurd hc1 (by simp [Json.contains])
  | num q => exact absurd hc1 (by simp [Json.contains])
  | str t => exact absurd hc1 (by simp [Json.contains])
  | arr l => exact absurd hc1 (by simp [Json.contains])

/-- When the label is absent from the arrays of the configured camera types, the loop
of `removeEmbedding` leaves the document and the flag `removed` as they were. -/
theorem removeLoop_labelAbsent (label : String) (cams : List ActiveCamera) (j : Json)
    (removed : Bool) (h : LabelAbsent label j cams) :
    removeLoop label cams j removed = (j, removed) := by
  induction cams with
  | nil => rfl
  | cons ac rest ih =>
    have ih1 := ih (fun a ha => h a (List.mem_cons_of_mem _ ha))
    simp only [removeLoop]
    split_ifs with hc
    · obtain ⟨fs, l, rfl, hf⟩ := array_of_contains _ _ hc
      have hl : ∀ entry ∈ l, entryHasLabel label entry = false := by
        intro entry hentry
        have := h ac (List.mem_cons_self _ _) l (by rw [Json.getKey_obj, hf]; rfl)
          entry hentry
        rw [← entryHasLabel_iff] at this
        exact Bool.eq_false_iff.2 this
      have hnone : l.any (entryHasLabel label) = false := by
        rw [List.any_eq_false]
        intro entry hentry
        rw [hl entry hentry]
        exact Bool.false_ne_true
      have hfilter : l.filter (fun entry => !entryHasLabel label entry) = l := by
        rw [List.filter_eq_self]
        intro entry hentry
        rw [hl entry hentry]
        rfl
      simp only [Json.getKey_obj, hf, Option.getD_some, Json.items, hfilter, hnone,
        Bool.or_false, Json.replaceKey]
      rw [Fields.set_of_find fs _ _ hf]
      exact ih1
    · exact ih1

/-- C13: for every user document and every label that occurs in no
`embeddings_<type>` array of a configured camera type, `removeEmbedding` returns false
and does not write the document: the file system is the one it started with and the
trace has no write. -/
theorem C13_removeEmbedding_absent_label (e : AuthEngine) (fs : FS) (u label : String)
    (h : ∀ j, fs (userFile e.config u) = some j → LabelAbsent label j e.active_cameras) :
    (removeEmbedding e fs u label).result = .ok false ∧
    (removeEmbedding e fs u label).fs = fs ∧
    ∀ p, Effect.fsWrite p ∉ (removeEmbedding e fs u label).log := by
  unfold removeEmbedding
  split_ifs with hv
  · exact ⟨rfl, rfl, fun p hp => by simp at hp⟩
  · dsimp only
    cases hj : fs (userFile e.config u) with
    | none => exact ⟨rfl, rfl, fun p hp => by simp at hp⟩
    | some j =>
      simp only [removeLoop_labelAbsent label _ j false (h j hj)]
      exact ⟨rfl, rfl, fun p hp => by simp at hp⟩

/-- C13 at a concrete input: the stored document has the label "default" only and the
label "glasses" is removed. -/
theorem C13_removeEmbedding_absent_label_witness :
    (removeEmbedding (Scenario.engine .ADAPTIVE [Scenario.rgbMatching]) Scenario.files
      "vlad" "glasses").result = .ok false ∧
    (removeEmbedding (Scenario.engine .ADAPTIVE [Scenario.rgbMatching]) Scenario.files
      "vlad" "glasses").fs = Scenario.files ∧
    ∀ p, Effect.fsWrite p ∉ (removeEmbedding (Scenario.engine .ADAPTIVE
      [Scenario.rgbMatching]) Scenario.files "vlad" "glasses").log :=
  C13_removeEmbedding_absent_label (Scenario.engine .ADAPTIVE [Scenario.rgbMatching])
    Scenario.files "vlad" "glasses" (by
      intro j hj ac hac l hl entry hentry hlab
      have hj2 : j = Scenario.doc := by
        have : Scenario.files "/etc/linuxcampam/users/vlad.json" = some j := hj
        simp only [Scenario.files, if_true, Option.some.injEq] at this
        exact this.symm
      subst hj2
      have hac2 : ac = Scenario.rgbMatching := by
        simpa [Scenario.engine] using hac
      subst hac2
      have hl2 : l = [Scenario.entry "default" 1] := by
        have : Json.arr [Scenario.entry "default" 1] = Json.arr l := hl
        simp only [Json.arr.injEq] at this
        exact this.symm
      subst hl2
      rw [List.mem_singleton.1 hentry] at hlab
      exact absurd (isLabelled_unique _ _ _ hlab ⟨_, rfl, rfl⟩) (by decide))

/-! ## Listing labels -/

theorem collectLabels_nodup (entries : List Json) (labels out : List String)
    (hn : labels.Nodup) (h : collectLabels entries labels = .ok out) : out.Nodup := by
  induction entries generalizing labels with
  | nil =>
    simp only [collectLabels, Except.ok.injEq] at h
    rw [← h]
    exact hn
  | cons entry rest ih =>
    simp only [collectLabels] at h
    split_ifs at h with hc
    · cases hs : (entry.getKey "label").getString with
      | error err => rw [hs] at h; exact absurd h (by simp)
      | ok lbl =>
        rw [hs] at h
        simp only at h
        refine ih _ ?_ h
        split_ifs with hm
        · exact hn
        · rw [List.nodup_append]
          refine ⟨hn, List.nodup_singleton _, ?_⟩
          intro a ha hb
          rw [List.mem_singleton.1 hb] at ha
          exact hm (by simpa using ha)
    · exact ih _ hn h

/-- Without a legacy field of a configured camera type, the labels that
`listEmbeddings` collects stay free of duplicates. -/
theorem listLoop_nodup (j : Json) (cams : List ActiveCamera) (labels out : List String)
    (hlegacy : ∀ ac ∈ cams, j.contains ("embedding_" ++ ac.config.type) = false)
    (hn : labels.Nodup) (h : listLoop j cams labels = .ok out) : out.Nodup := by
  induction cams generalizing labels with
  | nil =>
    simp only [listLoop, Except.ok.injEq] at h
    rw [← h]
    exact hn
  | cons ac rest ih =>
    have ih1 := fun l => ih l (fun a ha => hlegacy a (List.mem_cons_of_mem _ ha))
    simp only [listLoop, hlegacy ac (List.mem_cons_self _ _), Bool.false_eq_true,
      if_false] at h
    split_ifs at h with hc
    · cases hs : collectLabels
          (j.getKey ("embeddings_" ++ ac.config.type)).items labels with
      | error err => rw [hs] at h; exact absurd h (by simp)
      | ok labels1 =>
        rw [hs] at h
        exact ih1 labels1 (collectLabels_nodup _ _ _ hn hs) h
    · exact ih1 labels hn h

/-- C16, evaluated: with an "ir" and an "rgb" camera configured and a document that has
the legacy fields `embedding_ir` and `embedding_rgb`, `listEmbeddings` returns
"default (legacy)" twice, so the returned list is not deduplicated. Without a legacy
field of a configured type the returned list has no duplicate. -/
theorem C16_listEmbeddings_legacy_duplicate :
    (listEmbeddings (Scenario.engine .ADAPTIVE [Scenario.irFailing, Scenario.rgbMatching])
      Scenario.legacyFiles "vlad").result = .ok ["default (legacy)", "default (legacy)"] ∧
    ¬ (["default (legacy)", "default (legacy)"] : List String).Nodup ∧
    ∀ (e : AuthEngine) (fs : FS) (u : String) (out : List String),
      (∀ j, fs (userFile e.config u) = some j →
        ∀ ac ∈ e.active_cameras, j.contains ("embedding_" ++ ac.config.type) = false) →
      (listEmbeddings e fs u).result = .ok out → out.Nodup := by
  refine ⟨by rfl, by decide, ?_⟩
  intro e fs u out hlegacy h
  unfold listEmbeddings at h
  split_ifs at h with hv
  · simp only [Except.ok.injEq] at h
    rw [← h]
    exact List.nodup_nil
  · dsimp only at h
    cases hj : fs (userFile e.config u) with
    | none =>
      rw [hj] at h
      simp only [Except.ok.injEq] at h
      rw [← h]
      exact List.nodup_nil
    | some j =>
      rw [hj] at h
      exact listLoop_nodup j _ [] out (hlegacy j hj) List.nodup_nil h

/-! ## Enrollment that fails -/

theorem enrollCapture_not_write (cfg : Config) (ac : ActiveCamera) (p : String) :
    (enrollCapture cfg ac).2 ≠ .fsWrite p := by
  unfold enrollCapture
  dsimp only
  split_ifs <;> simp

theorem enrollFailsWith_names (cfg : Config) (ac : ActiveCamera) (reason : String)
    (h : EnrollFailsWith cfg ac reason) :
    reason ≠ "" ∧ ∃ a b, reason = a ++ ac.config.id ++ b := by
  rcases h with ⟨-, hr⟩ | ⟨frame, -, -, hr⟩
  · refine ⟨?_, "Camera ", " failed (empty frame).", hr⟩
    intro h0
    have := congrArg String.length (hr.symm.trans h0)
    simp [String.length_append] at this
    exact absurd this.1.1 (by decide)
  · refine ⟨?_, "Found " ++ toString frame.faces.length ++ " faces in ",
      ". Expecting exactly 1.", ?_⟩
    · intro h0
      have := congrArg String.length (hr.symm.trans h0)
      simp [String.length_append] at this
      exact absurd this.1.1.1.1 (by decide)
    · rw [hr]

/-- The loop of `enrollUser` stops at the first camera that does not give exactly one
face: it returns false with the message for that camera, and its trace has no write. -/
theorem enrollLoop_fails (cfg : Config) (u : String) (pre post : List ActiveCamera)
    (ac : ActiveCamera) (reason : String) (j : Json) (log : List Effect)
    (hpre : ∀ a ∈ pre, EnrollsOneFace cfg a) (hfail : EnrollFailsWith cfg ac reason)
    (hj : IsObjectOrNull j) (hlog : ∀ p, Effect.fsWrite p ∉ log) :
    ∃ log1, enrollLoop cfg u (pre ++ ac :: post) j log = .returned (false, reason) log1 ∧
      ∀ p, Effect.fsWrite p ∉ log1 := by
  induction pre generalizing j log with
  | nil =>
    have hlog1 : ∀ p, Effect.fsWrite p ∉ log ++ [(enrollCapture cfg ac).2] := by
      intro p hp
      rcases List.mem_append.1 hp with h | h
      · exact hlog p h
      · exact enrollCapture_not_write cfg ac p (List.mem_singleton.1 h).symm
    rcases hfail with ⟨hc, hr⟩ | ⟨frame, hc, hn, hr⟩
    · refine ⟨log ++ [(enrollCapture cfg ac).2], ?_, hlog1⟩
      simp only [List.nil_append, enrollLoop, hc, hr]
    · simp only [List.nil_append, enrollLoop, hc]
      cases hf : frame.faces with
      | nil =>
        rw [hf] at hr
        refine ⟨_, by rw [hr], ?_⟩
        intro p hp
        split_ifs at hp
        · rcases List.mem_append.1 hp with h | h
          · exact hlog1 p h
          · simp at h
        · exact hlog1 p hp
      | cons f1 tl =>
        cases tl with
        | nil => rw [hf] at hn; exact absurd rfl hn
        | cons f2 tl2 =>
          rw [hf] at hr
          refine ⟨_, by rw [hr], ?_⟩
          intro p hp
          split_ifs at hp
          · rcases List.mem_append.1 hp with h | h
            · exact hlog1 p h
            · simp at h
          · exact hlog1 p hp
  | cons a rest ih =>
    obtain ⟨frame, face, hc, hf⟩ := hpre a (List.mem_cons_self _ _)
    have hlog1 : ∀ p, Effect.fsWrite p ∉ log ++ [(enrollCapture cfg a).2] := by
      intro p hp
      rcases List.mem_append.1 hp with h | h
      · exact hlog p h
      · exact enrollCapture_not_write cfg a p (List.mem_singleton.1 h).symm
    have hrest := fun j1 hj1 => ih j1 (log ++ [(enrollCapture cfg a).2])
      (fun b hb => hpre b (List.mem_cons_of_mem _ hb)) hj1 hlog1
    simp only [List.cons_append, enrollLoop, hc, hf]
    rcases hj with rfl | ⟨fields, rfl⟩
    · simp only [Json.assign]
      exact hrest _ (Or.inr ⟨_, rfl⟩)
    · simp only [Json.assign]
      exact hrest _ (Or.inr ⟨_, rfl⟩)

/-- When the cameras before `ac` each give exactly one face and `ac` gives an
empty frame or a number of faces other than one, `enrollUser` returns false with a
non-empty reason that contains the identifier of `ac`, and the file system is left as
it was: nothing is written, also not the pending entries of the cameras before `ac`. -/
theorem enrollUser_fails_at (e : AuthEngine) (w : World) (fs : FS)
    (u : String) (pre post : List ActiveCamera) (ac : ActiveCamera) (reason : String)
    (hload : (ensureModelsLoaded e w).1 = true) (hvalid : isValidUsername u = true)
    (hcams : camerasInUse e w = pre ++ ac :: post)
    (hpre : ∀ a ∈ pre, EnrollsOneFace e.config a)
    (hfail : EnrollFailsWith e.config ac reason)
    (hdoc : ∀ j, fs (userFile e.config u) = some j → IsObjectOrNull j) :
    (enrollUser e w fs u).result = .ok (false, reason) ∧
    reason ≠ "" ∧ (∃ a b, reason = a ++ ac.config.id ++ b) ∧
    (enrollUser e w fs u).fs = fs ∧
    ∀ p, Effect.fsWrite p ∉ (enrollUser e w fs u).log := by
  have hnames := enrollFailsWith_names e.config ac reason hfail
  refine ⟨?_, hnames.1, hnames.2, ?_⟩
  all_goals
    unfold enrollUser
    unfold camerasInUse at hcams
    simp only [hload, hvalid, Bool.not_true, Bool.false_eq_true, if_false,
      ensureModelsLoaded_config, hcams]
    cases hj : fs (userFile e.config u) with
    | none =>
      obtain ⟨log1, hl, hw⟩ := enrollLoop_fails e.config u pre post ac reason
        (.obj (Fields.set (Fields.set [] "username" (.str u)) "created" (.num w.now)))
        [.fsExists (userFile e.config u)] hpre hfail (Or.inr ⟨_, rfl⟩)
        (fun p hp => by simp at hp)
      simp only [hl, true_and]
      try exact hw
    | some j =>
      obtain ⟨log1, hl, hw⟩ := enrollLoop_fails e.config u pre post ac reason j
        [.fsExists (userFile e.config u), .fsRead (userFile e.config u)] hpre hfail
        (hdoc j hj) (fun p hp => by simp at hp)
      simp only [hl, true_and]
      try exact hw

theorem not_enrollsOneFace (cfg : Config) (ac : ActiveCamera)
    (h : ¬ EnrollsOneFace cfg ac) : ∃ reason, EnrollFailsWith cfg ac reason := by
  cases hc : (enrollCapture cfg ac).1 with
  | none => exact ⟨_, Or.inl ⟨hc, rfl⟩⟩
  | some frame =>
    refine ⟨_, Or.inr ⟨frame, hc, ?_, rfl⟩⟩
    intro hlen
    obtain ⟨face, hface⟩ := List.length_eq_one.1 hlen
    exact h ⟨frame, face, hc, hface⟩

theorem first_failing {α : Type} (P : α → Prop) (l : List α) (h : ∃ a ∈ l, ¬ P a) :
    ∃ pre ac post, l = pre ++ ac :: post ∧ (∀ a ∈ pre, P a) ∧ ¬ P ac := by
  induction l with
  | nil =>
    obtain ⟨a, ha, -⟩ := h
    exact absurd ha (List.not_mem_nil _)
  | cons x rest ih =>
    by_cases hx : P x
    · obtain ⟨a, ha, hna⟩ := h
      rcases List.mem_cons.1 ha with heq | hin
      · exact absurd (heq ▸ hx) hna
      · obtain ⟨pre, ac, post, hl, hpre, hac⟩ := ih ⟨a, hin, hna⟩
        refine ⟨x :: pre, ac, post, by rw [hl]; rfl, ?_, hac⟩
        intro b hb
        rcases List.mem_cons.1 hb with h1 | h1
        · exact h1 ▸ hx
        · exact hpre b h1
    · exact ⟨[], x, rest, rfl, fun a ha => absurd ha (List.not_mem_nil _), hx⟩

/-- C20: if the enrollment capture of a configured camera does not give exactly one
face (an empty frame, no face, or more than one face), `enrollUser` stops at the first
such camera `ac`: it returns false with the reason the engine composes for that
camera, which is non-empty and contains the identifier of `ac`, and the file system is
left as it was: nothing is written, also not the pending entries of the cameras before
`ac`, which had succeeded. The engine loads its models, the username is valid, and
the stored document, if there is one, is a JSON object or null. -/
theorem C20_enrollUser_requires_one_face (e : AuthEngine) (w : World) (fs : FS)
    (u : String)
    (hload : (ensureModelsLoaded e w).1 = true) (hvalid : isValidUsername u = true)
    (hdoc : ∀ j, fs (userFile e.config u) = some j → IsObjectOrNull j)
    (hany : ∃ a ∈ camerasInUse e w, ¬ EnrollsOneFace e.config a) :
    ∃ pre ac post reason, camerasInUse e w = pre ++ ac :: post ∧
      (∀ a ∈ pre, EnrollsOneFace e.config a) ∧ EnrollFailsWith e.config ac reason ∧
      (enrollUser e w fs u).result = .ok (false, reason) ∧
      reason ≠ "" ∧ (∃ a b, reason = a ++ ac.config.id ++ b) ∧
      (enrollUser e w fs u).fs = fs ∧
      ∀ p, Effect.fsWrite p ∉ (enrollUser e w fs u).log := by
  obtain ⟨pre, ac, post, hcams, hpre, hac⟩ :=
    first_failing (EnrollsOneFace e.config) (camerasInUse e w) hany
  obtain ⟨reason, hfail⟩ := not_enrollsOneFace e.config ac hac
  exact ⟨pre, ac, post, reason, hcams, hpre, hfail,
    enrollUser_fails_at e w fs u pre post ac reason hload hvalid hcams hpre hfail hdoc⟩

/-- C20 at a concrete input: the color camera gives one face, the infrared camera two,
and the stored document of the user stays as it is. -/
theorem C20_enrollUser_requires_one_face_witness :
    ∃ pre ac post reason,
      camerasInUse (Scenario.engine .ADAPTIVE [Scenario.rgbEnroll, Scenario.irTwoFaces])
        Scenario.world = pre ++ ac :: post ∧
      (∀ a ∈ pre, EnrollsOneFace
        (Scenario.engine .ADAPTIVE [Scenario.rgbEnroll, Scenario.irTwoFaces]).config a) ∧
      EnrollFailsWith
        (Scenario.engine .ADAPTIVE [Scenario.rgbEnroll, Scenario.irTwoFaces]).config ac
        reason ∧
      (enrollUser (Scenario.engine .ADAPTIVE [Scenario.rgbEnroll, Scenario.irTwoFaces])
        Scenario.world Scenario.files "vlad").result = .ok (false, reason) ∧
      reason ≠ "" ∧ (∃ a b, reason = a ++ ac.config.id ++ b) ∧
      (enrollUser (Scenario.engine .ADAPTIVE [Scenario.rgbEnroll, Scenario.irTwoFaces])
        Scenario.world Scenario.files "vlad").fs = Scenario.files ∧
      ∀ p, Effect.fsWrite p ∉
        (enrollUser (Scenario.engine .ADAPTIVE [Scenario.rgbEnroll, Scenario.irTwoFaces])
          Scenario.world Scenario.files "vlad").log :=
  C20_enrollUser_requires_one_face
    (Scenario.engine .ADAPTIVE [Scenario.rgbEnroll, Scenario.irTwoFaces])
    Scenario.world Scenario.files "vlad" rfl (by decide)
    (by
      intro j hj
      have : Scenario.files "/etc/linuxcampam/users/vlad.json" = some j := hj
      simp only [Scenario.files, if_true, Option.some.injEq] at this
      exact Or.inr ⟨_, this.symm⟩)
    ⟨Scenario.irTwoFaces, List.mem_cons_of_mem _ (List.mem_cons_self _ _), by
      rintro ⟨frame, face, hc, hf⟩
      have hc2 : some ({ brightness := 90, faces := [[3], [4]] } : Frame) = some frame := hc
      simp only [Option.some.injEq] at hc2
      rw [← hc2] at hf
      simp at hf⟩

/-! ## What removing a label leaves -/

theorem Fields.keys_replace (fs : Fields) (key : String) (v : Json) :
    (Fields.replace fs key v).map Prod.fst = fs.map Prod.fst := by
  induction fs with
  | nil => rfl
  | cons kv rest ih =>
    obtain ⟨k, w⟩ := kv
    simp only [Fields.replace]
    split_ifs with h
    · simp only [List.map_cons, h]
    · simp only [List.map_cons, ih]

theorem Fields.keys_set_present (fs : Fields) (key : String) (v x : Json)
    (h : Fields.find fs key = some x) :
    (Fields.set fs key v).map Prod.fst = fs.map Prod.fst := by
  simp only [Fields.set, h, Option.isSome_some, if_true]
  exact Fields.keys_replace fs key v

theorem withoutLabel_idem (label : String) (v : Json) :
    withoutLabel label (withoutLabel label v) = withoutLabel label v := by
  cases v <;> simp [withoutLabel, List.filter_filter]

theorem withoutLabel_of_not_arr (label : String) (v : Json) (h : ∀ l, v ≠ .arr l) :
    withoutLabel label v = v := by
  cases v with
  | arr l => exact absurd rfl (h l)
  | _ => rfl

/-- One pass of the loop of `removeEmbedding`: what it leaves under every key. -/
theorem removeLoop_step (label : String) (fs : Fields) (akey : String) :
    ∃ fs1, (if (Json.obj fs).contains akey && ((Json.obj fs).getKey akey).is_array then
        (Json.obj fs).replaceKey akey
          (.arr (((Json.obj fs).getKey akey).items.filter
            fun entry => !entryHasLabel label entry))
      else Json.obj fs) = .obj fs1 ∧
      fs1.map Prod.fst = fs.map Prod.fst ∧
      ∀ key, Fields.find fs1 key =
        if key = akey then (Fields.find fs key).map (withoutLabel label)
        else Fields.find fs key := by
  split_ifs with hc
  · obtain ⟨fs0, l, h0, hf⟩ := array_of_contains _ _ hc
    simp only [Json.obj.injEq] at h0
    subst h0
    refine ⟨Fields.set fs akey (.arr (l.filter fun entry => !entryHasLabel label entry)),
      ?_, Fields.keys_set_present fs akey _ _ hf, ?_⟩
    · simp only [Json.getKey_obj, hf, Option.getD_some, Json.items, Json.replaceKey]
    · intro key
      split_ifs with hk
      · rw [hk, Fields.find_set_eq, hf]
        rfl
      · exact Fields.find_set_ne fs akey key _ hk
  · refine ⟨fs, rfl, rfl, ?_⟩
    intro key
    split_ifs with hk
    · subst hk
      cases hf : Fields.find fs key with
      | none => rfl
      | some v =>
        have hv : ∀ l, v ≠ .arr l := by
          rintro l rfl
          apply hc
          simp [Json.contains, Json.getKey, hf, Json.is_array]
        simp only [Option.map_some', withoutLabel_of_not_arr label v hv]
    · rfl

theorem removeLoop_step_flag (label : String) (fs : Fields) (akey : String)
    (removed : Bool) :
    (if (Json.obj fs).contains akey && ((Json.obj fs).getKey akey).is_array then
        removed || ((Json.obj fs).getKey akey).items.any (entryHasLabel label)
      else removed) = true ↔ removed = true ∨ HoldsLabel label fs akey := by
  split_ifs with hc
  · obtain ⟨fs0, l, h0, hf⟩ := array_of_contains _ _ hc
    simp only [Json.obj.injEq] at h0
    subst h0
    simp only [Json.getKey_obj, hf, Option.getD_some, Json.items, Bool.or_eq_true,
      List.any_eq_true, HoldsLabel, Option.some.injEq, Json.arr.injEq, exists_eq_left']
  · constructor
    · exact Or.inl
    · rintro (h | ⟨l, hf, -⟩)
      · exact h
      · exact absurd (by simp [Json.contains, Json.getKey, hf, Json.is_array]) hc

theorem removeLoop_cons (label : String) (ac : ActiveCamera) (rest : List ActiveCamera)
    (j : Json) (removed : Bool) :
    removeLoop label (ac :: rest) j removed =
      removeLoop label rest
        (if j.contains ("embeddings_" ++ ac.config.type) &&
            (j.getKey ("embeddings_" ++ ac.config.type)).is_array then
          j.replaceKey ("embeddings_" ++ ac.config.type)
            (.arr ((j.getKey ("embeddings_" ++ ac.config.type)).items.filter
              fun entry => !entryHasLabel label entry))
        else j)
        (if j.contains ("embeddings_" ++ ac.config.type) &&
            (j.getKey ("embeddings_" ++ ac.config.type)).is_array then
          removed || (j.getKey ("embeddings_" ++ ac.config.type)).items.any
            (entryHasLabel label)
        else removed) := by
  simp only [removeLoop]
  split_ifs <;> rfl

theorem holdsLabel_of_find (label : String) (fs fs1 : Fields) (akey key : String)
    (h : ∀ key, Fields.find fs1 key =
      if key = akey then (Fields.find fs key).map (withoutLabel label)
      else Fields.find fs key) :
    HoldsLabel label fs1 key ↔ key ≠ akey ∧ HoldsLabel label fs key := by
  by_cases hk : key = akey
  · subst hk
    simp only [ne_eq, not_true_eq_false, false_and, iff_false]
    rintro ⟨l, hf, en, hen, hlab⟩
    rw [h key, if_pos rfl] at hf
    cases hv : Fields.find fs key with
    | none => rw [hv] at hf; exact absurd hf (by simp)
    | some v =>
      rw [hv] at hf
      simp only [Option.map_some', Option.some.injEq] at hf
      cases v with
      | arr l0 =>
        simp only [withoutLabel, Json.arr.injEq] at hf
        rw [← hf, List.mem_filter] at hen
        rw [hlab] at hen
        exact absurd hen.2 (by simp)
      | null => exact absurd hf (by simp [withoutLabel])
      | bool b => exact absurd hf (by simp [withoutLabel])
      | num q => exact absurd hf (by simp [withoutLabel])
      | str t => exact absurd hf (by simp [withoutLabel])
      | obj fs2 => exact absurd hf (by simp [withoutLabel])
  · have hf := h key
    rw [if_neg hk] at hf
    simp only [HoldsLabel, hf, ne_eq, hk, not_false_eq_true, true_and]

/-- The loop of `removeEmbedding` on an object: the keys stay as they are, the value
under the array key of every configured camera type loses the entries that carry the
label, every other value is kept, and the flag `removed` is raised exactly when one of
those arrays held the label. -/
theorem removeLoop_spec (label : String) (cams : List ActiveCamera) (fs : Fields)
    (removed : Bool) :
    ∃ fs1 r, removeLoop label cams (.obj fs) removed = (.obj fs1, r) ∧
      fs1.map Prod.fst = fs.map Prod.fst ∧
      (∀ key, (∃ ac ∈ cams, key = "embeddings_" ++ ac.config.type) →
        Fields.find fs1 key = (Fields.find fs key).map (withoutLabel label)) ∧
      (∀ key, (∀ ac ∈ cams, key ≠ "embeddings_" ++ ac.config.type) →
        Fields.find fs1 key = Fields.find fs key) ∧
      (r = true ↔ removed = true ∨
        ∃ ac ∈ cams, HoldsLabel label fs ("embeddings_" ++ ac.config.type)) := by
  induction cams generalizing fs removed with
  | nil =>
    refine ⟨fs, removed, rfl, rfl, ?_, fun _ _ => rfl, ?_⟩
    · rintro key ⟨ac, hac, -⟩
      exact absurd hac (List.not_mem_nil _)
    · simp
  | cons ac rest ih =>
    obtain ⟨fs0, h0, hkeys0, hfind0⟩ :=
      removeLoop_step label fs ("embeddings_" ++ ac.config.type)
    have hflag0 := removeLoop_step_flag label fs ("embeddings_" ++ ac.config.type) removed
    rw [removeLoop_cons, h0]
    obtain ⟨fs1, r, h1, hkeys1, hin1, hout1, hflag1⟩ := ih fs0 _
    refine ⟨fs1, r, h1, hkeys1.trans hkeys0, ?_, ?_, ?_⟩
    · rintro key ⟨a, ha, hk⟩
      by_cases hrest : ∃ a1 ∈ rest, key = "embeddings_" ++ a1.config.type
      · rw [hin1 key hrest, hfind0 key]
        split_ifs
        · rw [Option.map_map]
          congr 1
          funext v
          exact withoutLabel_idem label v
        · rfl
      · have hne : ∀ a1 ∈ rest, key ≠ "embeddings_" ++ a1.config.type :=
          fun a1 h1 h2 => hrest ⟨a1, h1, h2⟩
        rcases List.mem_cons.1 ha with h | h
        · rw [hout1 key hne, hfind0 key, hk, h, if_pos rfl]
        · exact absurd hk (hne a h)
    · intro key hne
      rw [hout1 key (fun a1 h1 => hne a1 (List.mem_cons_of_mem _ h1)), hfind0 key,
        if_neg (hne ac (List.mem_cons_self _ _))]
    · rw [hflag1, hflag0]
      constructor
      · rintro ((h | h) | ⟨a, ha, h⟩)
        · exact Or.inl h
        · exact Or.inr ⟨ac, List.mem_cons_self _ _, h⟩
        · exact Or.inr ⟨a, List.mem_cons_of_mem _ ha,
            ((holdsLabel_of_find label fs fs0 _ _ hfind0).1 h).2⟩
      · rintro (h | ⟨a, ha, h⟩)
        · exact Or.inl (Or.inl h)
        · by_cases hk : "embeddings_" ++ a.config.type = "embeddings_" ++ ac.config.type
          · rw [hk] at h
            exact Or.inl (Or.inr h)
          · rcases List.mem_cons.1 ha with h2 | h2
            · rw [h2] at hk
              exact absurd rfl hk
            · exact Or.inr ⟨a, h2, (holdsLabel_of_find label fs fs0 _ _ hfind0).2 ⟨hk, h⟩⟩

/-- C14, with the camera types restricted to the configured ones: if
`removeEmbedding(u, l)` returns true, the document was an object and is written with
the same keys in the same order; under `embeddings_<type>` of every configured camera
type an array keeps exactly its entries that do not carry `l`, in their order, so none
of these arrays has an entry labelled `l`; every other value is unchanged. -/
theorem C14_removeEmbedding_frame (e : AuthEngine) (fs : FS) (u label : String)
    (h : (removeEmbedding e fs u label).result = .ok true) :
    ∃ fields fields1, fs (userFile e.config u) = some (.obj fields) ∧
      (removeEmbedding e fs u label).fs = fs.write (userFile e.config u) (.obj fields1) ∧
      fields1.map Prod.fst = fields.map Prod.fst ∧
      (∀ ac ∈ e.active_cameras, ∀ l,
        Fields.find fields ("embeddings_" ++ ac.config.type) = some (.arr l) →
        Fields.find fields1 ("embeddings_" ++ ac.config.type) =
          some (.arr (l.filter fun entry => !entryHasLabel label entry))) ∧
      (∀ ac ∈ e.active_cameras, ∀ l,
        Fields.find fields1 ("embeddings_" ++ ac.config.type) = some (.arr l) →
        ∀ entry ∈ l, ¬ IsLabelled entry label) ∧
      (∀ key, (∀ ac ∈ e.active_cameras, key = "embeddings_" ++ ac.config.type →
          ∀ l, Fields.find fields key ≠ some (.arr l)) →
        Fields.find fields1 key = Fields.find fields key) := by
  unfold removeEmbedding at h ⊢
  split_ifs at h ⊢ with hv
  · exact absurd h (by simp)
  · dsimp only at h ⊢
    cases hj : fs (userFile e.config u) with
    | none => rw [hj] at h; exact absurd h (by simp)
    | some j =>
      rw [hj] at h
      simp only at h ⊢
      have hobj : ∃ fields, j = .obj fields := by
        cases j with
        | obj fields => exact ⟨fields, rfl⟩
        | _ =>
          rw [removeLoop_labelAbsent label _ _ false
            (fun ac _ l hl => absurd hl (by simp [Json.getKey]))] at h
          exact absurd h (by simp)
      obtain ⟨fields, rfl⟩ := hobj
      obtain ⟨fields1, r, hloop, hkeys, hin, hout, -⟩ :=
        removeLoop_spec label e.active_cameras fields false
      rw [hloop] at h ⊢
      have hr : r = true := by
        by_contra hr
        simp only [hr, Bool.false_eq_true, if_false] at h
        exact absurd h (by simp)
      simp only [hr, if_true]
      refine ⟨fields, fields1, rfl, rfl, hkeys, ?_, ?_, ?_⟩
      · intro ac hac l hl
        rw [hin _ ⟨ac, hac, rfl⟩, hl]
        rfl
      · intro ac hac l hl entry hentry hlab
        rw [hin _ ⟨ac, hac, rfl⟩] at hl
        cases hf : Fields.find fields ("embeddings_" ++ ac.config.type) with
        | none => rw [hf] at hl; exact absurd hl (by simp)
        | some v =>
          rw [hf] at hl
          simp only [Option.map_some', Option.some.injEq] at hl
          cases v with
          | arr l0 =>
            simp only [withoutLabel, Json.arr.injEq] at hl
            rw [← hl, List.mem_filter] at hentry
            rw [(entryHasLabel_iff label entry).2 hlab] at hentry
            exact absurd hentry.2 (by simp)
          | null => exact absurd hl (by simp [withoutLabel])
          | bool b => exact absurd hl (by simp [withoutLabel])
          | num q => exact absurd hl (by simp [withoutLabel])
          | str t => exact absurd hl (by simp [withoutLabel])
          | obj fs2 => exact absurd hl (by simp [withoutLabel])
      · intro key hkey
        by_cases hc : ∃ ac ∈ e.active_cameras, key = "embeddings_" ++ ac.config.type
        · obtain ⟨ac, hac, hk⟩ := hc
          rw [hin key ⟨ac, hac, hk⟩]
          cases hf : Fields.find fields key with
          | none => rfl
          | some v =>
            have hv : ∀ l, v ≠ .arr l := by
              rintro l rfl
              exact hkey ac hac hk l hf
            simp only [Option.map_some', withoutLabel_of_not_arr label v hv]
        · exact hout key (fun ac hac hk => hc ⟨ac, hac, hk⟩)

/-- C14 at a concrete input: with one color camera configured, removing the label "A"
from a document that stores "A" and "B" for the type "rgb". -/
theorem C14_removeEmbedding_frame_witness :
    ∃ fields fields1, Scenario.twoTypeFiles
        (userFile (Scenario.engine .ADAPTIVE [Scenario.rgbMatching]).config "vlad") =
        some (.obj fields) ∧
      (removeEmbedding (Scenario.engine .ADAPTIVE [Scenario.rgbMatching])
        Scenario.twoTypeFiles "vlad" "A").fs =
        Scenario.twoTypeFiles.write
          (userFile (Scenario.engine .ADAPTIVE [Scenario.rgbMatching]).config "vlad")
          (.obj fields1) ∧
      fields1.map Prod.fst = fields.map Prod.fst ∧
      (∀ ac ∈ (Scenario.engine .ADAPTIVE [Scenario.rgbMatching]).active_cameras, ∀ l,
        Fields.find fields ("embeddings_" ++ ac.config.type) = some (.arr l) →
        Fields.find fields1 ("embeddings_" ++ ac.config.type) =
          some (.arr (l.filter fun entry => !entryHasLabel "A" entry))) ∧
      (∀ ac ∈ (Scenario.engine .ADAPTIVE [Scenario.rgbMatching]).active_cameras, ∀ l,
        Fields.find fields1 ("embeddings_" ++ ac.config.type) = some (.arr l) →
        ∀ entry ∈ l, ¬ IsLabelled entry "A") ∧
      (∀ key, (∀ ac ∈ (Scenario.engine .ADAPTIVE [Scenario.rgbMatching]).active_cameras,
          key = "embeddings_" ++ ac.config.type →
          ∀ l, Fields.find fields key ≠ some (.arr l)) →
        Fields.find fields1 key = Fields.find fields key) :=
  C14_removeEmbedding_frame (Scenario.engine .ADAPTIVE [Scenario.rgbMatching])
    Scenario.twoTypeFiles "vlad" "A" (by rfl)

/-- C14 as stated fails for a camera type that is not configured: with only a color
camera configured, `removeEmbedding` returns true for the label "A", and the array
`embeddings_ir` of the written document still holds its entry labelled "A". -/
theorem C14_counterexample_unconfigured_type :
    (removeEmbedding (Scenario.engine .ADAPTIVE [Scenario.rgbMatching])
      Scenario.twoTypeFiles "vlad" "A").result = .ok true ∧
    ∃ j1, (removeEmbedding (Scenario.engine .ADAPTIVE [Scenario.rgbMatching])
        Scenario.twoTypeFiles "vlad" "A").fs "/etc/linuxcampam/users/vlad.json" = some j1 ∧
      j1.getKey "embeddings_rgb" = .arr [Scenario.entry "B" 2] ∧
      j1.getKey "embeddings_ir" = .arr [Scenario.entry "A" 3] ∧
      IsLabelled (Scenario.entry "A" 3) "A" :=
  ⟨by rfl, _, by rfl, by rfl, by rfl, _, rfl, rfl⟩

/-! ## The store loops, one camera at a time -/

theorem setLabelLoop_cons (cfg : Config) (now : Int) (ver label : String)
    (ac : ActiveCamera) (rest : List ActiveCamera) (j : Json) (updated : Bool) :
    setLabelLoop cfg now ver label (ac :: rest) j updated =
      match setLabelBody cfg now ver label ac.config.type j with
      | .skip => setLabelLoop cfg now ver label rest j updated
      | .update j2 => setLabelLoop cfg now ver label rest j2 true
      | .stop b => .returned b []
      | .raise err => .thrown err [] := by
  simp only [setLabelLoop, setLabelBody]
  repeat' split
  all_goals first | rfl | simp_all

theorem trainLoop_cons (cfg : Config) (w : World) (label : String) (create_new : Bool)
    (ac : ActiveCamera) (rest : List ActiveCamera) (j : Json) (updated : Bool)
    (log : List Effect) :
    trainLoop cfg w label create_new (ac :: rest) j updated log =
      match trainBody cfg w label create_new ac j with
      | .skip => trainLoop cfg w label create_new rest j updated
          (log ++ [.capture ac.config.id])
      | .update j2 => trainLoop cfg w label create_new rest j2 true
          (log ++ [.capture ac.config.id])
      | .stop b => .returned b (log ++ [.capture ac.config.id])
      | .raise err => .thrown err (log ++ [.capture ac.config.id]) := by
  simp only [trainLoop, trainBody]
  repeat' split
  all_goals first | rfl | simp_all

/-! ## The legacy migration -/

theorem pending_ne_embedding (a b : String) : "_pending_" ++ a ≠ "embedding_" ++ b := by
  intro h
  have := congrArg String.data h
  simp [String.data_append] at this

theorem created_ne_embeddings (a : String) : "created" ≠ "embeddings_" ++ a := by
  intro h
  have := congrArg String.data h
  simp [String.data_append] at this

theorem created_ne_embedding (a : String) : "created" ≠ "embedding_" ++ a := by
  intro h
  have := congrArg String.data h
  simp [String.data_append] at this

theorem embeddings_inj (a b : String) (h : a ≠ b) : "embeddings_" ++ a ≠ "embeddings_" ++ b :=
  fun he => h (key_append_inj _ _ _ he)

theorem embedding_inj (a b : String) (h : a ≠ b) : "embedding_" ++ a ≠ "embedding_" ++ b :=
  fun he => h (key_append_inj _ _ _ he)

theorem pending_inj (a b : String) (h : a ≠ b) : "_pending_" ++ a ≠ "_pending_" ++ b :=
  fun he => h (key_append_inj _ _ _ he)

/-- Without an array and without a legacy field, the initialisation stores an empty
array. -/
theorem initArray_fresh (fs : Fields) (now : Int) (t : String)
    (hA : Fields.find fs ("embeddings_" ++ t) = none)
    (hL : Fields.find fs ("embedding_" ++ t) = none) :
    initArray (.obj fs) now t = .ok (.obj (Fields.set fs ("embeddings_" ++ t) (.arr []))) := by
  have h1 : Fields.find (Fields.set fs ("embeddings_" ++ t) (.arr [])) ("embedding_" ++ t)
      = none := by
    rw [Fields.find_set_ne _ _ _ _ (embedding_ne_embeddings t t), hL]
  simp [initArray, Json.contains, hA, Json.assign, h1]

/-- Without an array and with a legacy field, the initialisation stores an array whose
one entry is the migrated legacy vector, and erases the legacy field; it raises the
exception of reading `created` when that is no number. -/
theorem initArray_legacy (fs : Fields) (now : Int) (t : String) (legacy : Json)
    (hA : Fields.find fs ("embeddings_" ++ t) = none)
    (hL : Fields.find fs ("embedding_" ++ t) = some legacy) :
    initArray (.obj fs) now t =
      match (Json.obj fs).valueInt "created" now with
      | .error err => .error err
      | .ok c =>
        .ok (.obj (Fields.erase
          (Fields.set (Fields.set fs ("embeddings_" ++ t) (.arr [])) ("embeddings_" ++ t)
            (.arr [legacyEntry legacy c])) ("embedding_" ++ t))) := by
  have h1 : Fields.find (Fields.set fs ("embeddings_" ++ t) (.arr [])) ("embedding_" ++ t)
      = some legacy := by
    rw [Fields.find_set_ne _ _ _ _ (embedding_ne_embeddings t t), hL]
  have h2 : Fields.find (Fields.set fs ("embeddings_" ++ t) (.arr [])) "created"
      = Fields.find fs "created" :=
    Fields.find_set_ne _ _ _ _ (created_ne_embeddings t)
  have h3 : (Json.obj (Fields.set fs ("embeddings_" ++ t) (.arr []))).valueInt "created" now
      = (Json.obj fs).valueInt "created" now := by
    simp only [Json.valueInt, h2]
  simp only [initArray, Json.contains, hA, Option.isSome_none, Bool.false_eq_true, if_false,
    Json.assign, h1, Option.isSome_some, if_true, h3]
  cases (Json.obj fs).valueInt "created" now with
  | error err => rfl
  | ok c =>
    simp only [Json.getKey, Fields.find_set_eq, Option.getD_some, Json.push_back,
      List.nil_append, h1, Json.erase]

/-- What the initialisation of the array leaves under every key of an object. -/
theorem initArray_inv (fs : Fields) (now : Int) (t : String) (j1 : Json)
    (h : initArray (.obj fs) now t = .ok j1) :
    ∃ fs1, j1 = .obj fs1 ∧
      (∀ k, k ≠ "embeddings_" ++ t → k ≠ "embedding_" ++ t →
        Fields.find fs1 k = Fields.find fs k) ∧
      ((Fields.find fs ("embeddings_" ++ t)).isSome = true → fs1 = fs) ∧
      (Fields.find fs ("embeddings_" ++ t) = none →
        Fields.find fs1 ("embedding_" ++ t) = none ∧
        ((Fields.find fs ("embedding_" ++ t) = none ∧
            Fields.find fs1 ("embeddings_" ++ t) = some (.arr [])) ∨
          ∃ legacy c, Fields.find fs ("embedding_" ++ t) = some legacy ∧
            Fields.find fs1 ("embeddings_" ++ t) = some (.arr [legacyEntry legacy c]))) := by
  cases hA : Fields.find fs ("embeddings_" ++ t) with
  | some a =>
    rw [initArray_present _ _ _ (by rw [Json.contains_obj, hA]; rfl)] at h
    simp only [Except.ok.injEq] at h
    exact ⟨fs, h.symm, fun _ _ _ => rfl, fun _ => rfl, fun h0 => absurd h0 (by simp)⟩
  | none =>
    cases hL : Fields.find fs ("embedding_" ++ t) with
    | none =>
      rw [initArray_fresh fs now t hA hL] at h
      simp only [Except.ok.injEq] at h
      refine ⟨_, h.symm, ?_, fun h0 => absurd h0 (by simp), fun _ => ⟨?_, Or.inl ⟨rfl, ?_⟩⟩⟩
      · intro k hk _
        exact Fields.find_set_ne _ _ _ _ hk
      · rw [Fields.find_set_ne _ _ _ _ (embedding_ne_embeddings t t), hL]
      · exact Fields.find_set_eq _ _ _
    | some legacy =>
      rw [initArray_legacy fs now t legacy hA hL] at h
      cases hc : (Json.obj fs).valueInt "created" now with
      | error err => rw [hc] at h; exact absurd h (by simp)
      | ok c =>
        rw [hc] at h
        simp only [Except.ok.injEq] at h
        refine ⟨_, h.symm, ?_, fun h0 => absurd h0 (by simp),
          fun _ => ⟨Fields.find_erase_eq _ _, Or.inr ⟨legacy, c, rfl, ?_⟩⟩⟩
        · intro k hk hk2
          rw [Fields.find_erase_ne _ _ _ hk2, Fields.find_set_ne _ _ _ _ hk,
            Fields.find_set_ne _ _ _ _ hk]
        · rw [Fields.find_erase_ne _ _ _ (embedding_ne_embeddings t t).symm,
            Fields.find_set_eq]

theorem entryLabelIs_hasLabel (en en1 : Json) (label s : String) (b : Bool)
    (h : entryLabelIs en label = .ok (b, en1)) :
    entryHasLabel s en1 = entryHasLabel s en := by
  cases en with
  | null =>
    simp only [entryLabelIs, Json.index, Except.ok.injEq, Prod.mk.injEq] at h
    rw [← h.2]
    rfl
  | obj fs =>
    cases hf : Fields.find fs "label" with
    | some v =>
      simp only [entryLabelIs, Json.index, hf, Except.ok.injEq, Prod.mk.injEq] at h
      rw [← h.2]
    | none =>
      simp only [entryLabelIs, Json.index, hf, Except.ok.injEq, Prod.mk.injEq] at h
      rw [← h.2]
      simp [entryHasLabel, Json.contains, Json.getKey, hf, Fields.find_set_eq, Json.eqStr]
  | bool x => exact absurd h (by simp [entryLabelIs, Json.index])
  | num x => exact absurd h (by simp [entryLabelIs, Json.index])
  | str x => exact absurd h (by simp [entryLabelIs, Json.index])
  | arr x => exact absurd h (by simp [entryLabelIs, Json.index])

theorem assign_hasLabel (en en1 : Json) (key s : String) (v : Json) (hk : "label" ≠ key)
    (h : en.assign key v = .ok en1) : entryHasLabel s en1 = entryHasLabel s en := by
  cases en with
  | null =>
    simp only [Json.assign, Except.ok.injEq] at h
    rw [← h]
    simp [entryHasLabel, Json.contains, Fields.find, hk.symm]
  | obj fs =>
    simp only [Json.assign, Except.ok.injEq] at h
    rw [← h]
    simp only [entryHasLabel, Json.contains, Json.getKey, Fields.find_set_ne _ _ _ _ hk]
  | bool x => exact absurd h (by simp [Json.assign])
  | num x => exact absurd h (by simp [Json.assign])
  | str x => exact absurd h (by simp [Json.assign])
  | arr x => exact absurd h (by simp [Json.assign])

theorem overwriteEntry_hasLabel (p : Json) (now : Int) (ver s : String) (en en2 : Json)
    (h : overwriteEntry p now ver en = .ok en2) :
    entryHasLabel s en2 = entryHasLabel s en := by
  unfold overwriteEntry at h
  cases h1 : en.assign "data" p with
  | error err => rw [h1] at h; exact absurd h (by simp)
  | ok e1 =>
    rw [h1] at h
    simp only at h
    cases h2 : e1.assign "created" (.num now) with
    | error err => rw [h2] at h; exact absurd h (by simp)
    | ok e2 =>
      rw [h2] at h
      simp only at h
      rw [assign_hasLabel e2 en2 _ s _ (by decide) h, assign_hasLabel e1 e2 _ s _ (by decide) h2,
        assign_hasLabel en e1 _ s _ (by decide) h1]

theorem index_hasLabel (en en1 v : Json) (key s : String) (hk : "label" ≠ key)
    (h : en.index key = .ok (v, en1)) : entryHasLabel s en1 = entryHasLabel s en := by
  cases en with
  | null =>
    simp only [Json.index, Except.ok.injEq, Prod.mk.injEq] at h
    rw [← h.2]
    simp [entryHasLabel, Json.contains, Fields.find, hk.symm]
  | obj fs =>
    cases hf : Fields.find fs key with
    | some x =>
      simp only [Json.index, hf, Except.ok.injEq, Prod.mk.injEq] at h
      rw [← h.2]
    | none =>
      simp only [Json.index, hf, Except.ok.injEq, Prod.mk.injEq] at h
      rw [← h.2]
      simp only [entryHasLabel, Json.contains, Json.getKey, Fields.find_set_ne _ _ _ _ hk]
  | bool x => exact absurd h (by simp [Json.index])
  | num x => exact absurd h (by simp [Json.index])
  | str x => exact absurd h (by simp [Json.index])
  | arr x => exact absurd h (by simp [Json.index])

theorem refineEntry_hasLabel (w : World) (new_vec : Vec) (s : String) (en en2 : Json)
    (h : refineEntry w new_vec en = .ok en2) :
    entryHasLabel s en2 = entryHasLabel s en := by
  unfold refineEntry at h
  cases h1 : en.index "data" with
  | error err => rw [h1] at h; exact absurd h (by simp)
  | ok r =>
    obtain ⟨d, e1⟩ := r
    rw [h1] at h
    simp only at h
    cases h2 : d.getVec with
    | error err => rw [h2] at h; exact absurd h (by simp)
    | ok old_vec =>
      rw [h2] at h
      simp only at h
      cases h3 : w.normalizedSum old_vec new_vec with
      | error err => rw [h3] at h; exact absurd h (by simp)
      | ok avg =>
        rw [h3] at h
        simp only at h
        cases h4 : e1.assign "data" (Json.ofVec avg) with
        | error err => rw [h4] at h; exact absurd h (by simp)
        | ok e2 =>
          rw [h4] at h
          simp only at h
          rw [assign_hasLabel e2 en2 _ s _ (by decide) h,
            assign_hasLabel e1 e2 _ s _ (by decide) h4,
            index_hasLabel en e1 d _ s (by decide) h1]

/-- The search for the entry to update keeps the number of entries, and keeps for every
label which entries carry it, provided the update keeps the label of an entry. -/
theorem updateFirstLabelled_inv (label s : String) (upd : Json → Except Err Json)
    (hupd : ∀ en en2, upd en = .ok en2 → entryHasLabel s en2 = entryHasLabel s en)
    (l l1 : List Json) (b : Bool) (h : updateFirstLabelled label upd l = .ok (b, l1)) :
    l1.length = l.length ∧ l1.map (entryHasLabel s) = l.map (entryHasLabel s) := by
  induction l generalizing l1 b with
  | nil =>
    simp only [updateFirstLabelled, Except.ok.injEq, Prod.mk.injEq] at h
    rw [← h.2]
    exact ⟨rfl, rfl⟩
  | cons en rest ih =>
    simp only [updateFirstLabelled] at h
    cases h1 : entryLabelIs en label with
    | error err => rw [h1] at h; exact absurd h (by simp)
    | ok r =>
      obtain ⟨c, en1⟩ := r
      have hen1 := entryLabelIs_hasLabel en en1 label s c h1
      rw [h1] at h
      cases c with
      | true =>
        simp only at h
        cases h2 : upd en1 with
        | error err => rw [h2] at h; exact absurd h (by simp)
        | ok en2 =>
          rw [h2] at h
          simp only [Except.ok.injEq, Prod.mk.injEq] at h
          rw [← h.2]
          simp only [List.length_cons, List.map_cons, hupd en1 en2 h2, hen1, and_self]
      | false =>
        simp only at h
        cases h2 : updateFirstLabelled label upd rest with
        | error err => rw [h2] at h; exact absurd h (by simp)
        | ok r2 =>
          obtain ⟨found, rest1⟩ := r2
          rw [h2] at h
          simp only [Except.ok.injEq, Prod.mk.injEq] at h
          obtain ⟨ihl, ihm⟩ := ih rest1 found h2
          rw [← h.2]
          simp only [List.length_cons, List.map_cons, ihl, ihm, hen1, and_self]

/-- What a pass of the loop of `trainUser` that changes the document has done: the
camera gave one face, the array was initialised, and the augmented or refined array
was stored back under `embeddings_<type>`. -/
theorem trainBody_update_inv (cfg : Config) (w : World) (label : String) (create_new : Bool)
    (ac : ActiveCamera) (j j2 : Json)
    (h : trainBody cfg w label create_new ac j = .update j2) :
    ∃ frame new_vec j1 a1, ac.cam.capture = some frame ∧ frame.faces = [new_vec] ∧
      initArray j w.now ac.config.type = .ok j1 ∧
      j1.assign ("embeddings_" ++ ac.config.type) a1 = .ok j2 ∧
      ((create_new = true ∧
          ¬ (cfg.max_embeddings > 0 ∧
            (j1.getKey ("embeddings_" ++ ac.config.type)).size ≥ cfg.max_embeddings.toNat) ∧
          (j1.getKey ("embeddings_" ++ ac.config.type)).push_back
            (trainedEntry (if label.isEmpty then "trained_" ++ toString w.now else label)
              new_vec w.now) = .ok a1) ∨
        (create_new = false ∧
          findAndUpdate label (refineEntry w new_vec)
            (j1.getKey ("embeddings_" ++ ac.config.type)) = .ok (true, a1)) ∨
        (create_new = false ∧ ∃ a0,
          findAndUpdate label (refineEntry w new_vec)
            (j1.getKey ("embeddings_" ++ ac.config.type)) = .ok (false, a0) ∧
          a0.push_back (trainedEntry label new_vec w.now) = .ok a1)) := by
  unfold trainBody at h
  dsimp only at h
  cases hcap : ac.cam.capture with
  | none => rw [hcap] at h; exact absurd h (by simp)
  | some frame =>
    rw [hcap] at h
    simp only at h
    cases hfaces : frame.faces with
    | nil => rw [hfaces] at h; exact absurd h (by simp)
    | cons new_vec tl =>
      cases tl with
      | cons f2 tl2 => rw [hfaces] at h; exact absurd h (by simp)
      | nil =>
        rw [hfaces] at h
        simp only at h
        cases hinit : initArray j w.now ac.config.type with
        | error err => rw [hinit] at h; exact absurd h (by simp)
        | ok j1 =>
          rw [hinit] at h
          simp only at h
          cases create_new with
          | true =>
            simp only [if_true] at h
            generalize (if label.isEmpty = true then "trained_" ++ toString w.now else label)
              = lbl at h ⊢
            split_ifs at h with hcapacity
            cases hpush : (j1.getKey ("embeddings_" ++ ac.config.type)).push_back
                (trainedEntry lbl new_vec w.now) with
            | error err => rw [hpush] at h; exact absurd h (by simp)
            | ok a1 =>
              rw [hpush] at h
              simp only at h
              cases hassign : j1.assign ("embeddings_" ++ ac.config.type) a1 with
              | error err => rw [hassign] at h; exact absurd h (by simp)
              | ok j3 =>
                rw [hassign] at h
                simp only [StoreStep.update.injEq] at h
                subst h
                refine ⟨frame, new_vec, j1, a1, rfl, hfaces, rfl, hassign, Or.inl ⟨rfl, ?_, hpush⟩⟩
                simpa using hcapacity
          | false =>
            simp only [Bool.false_eq_true, if_false] at h
            cases hfind : findAndUpdate label (refineEntry w new_vec)
                (j1.getKey ("embeddings_" ++ ac.config.type)) with
            | error err => rw [hfind] at h; exact absurd h (by simp)
            | ok r =>
              obtain ⟨found, a0⟩ := r
              rw [hfind] at h
              cases found with
              | true =>
                simp only at h
                cases hassign : j1.assign ("embeddings_" ++ ac.config.type) a0 with
                | error err => rw [hassign] at h; exact absurd h (by simp)
                | ok j3 =>
                  rw [hassign] at h
                  simp only [StoreStep.update.injEq] at h
                  subst h
                  exact ⟨frame, new_vec, j1, a0, rfl, hfaces, rfl, hassign,
                    Or.inr (Or.inl ⟨rfl, hfind⟩)⟩
              | false =>
                simp only at h
                cases hpush : a0.push_back (trainedEntry label new_vec w.now) with
                | error err => rw [hpush] at h; exact absurd h (by simp)
                | ok a1 =>
                  rw [hpush] at h
                  simp only at h
                  cases hassign : j1.assign ("embeddings_" ++ ac.config.type) a1 with
                  | error err => rw [hassign] at h; exact absurd h (by simp)
                  | ok j3 =>
                    rw [hassign] at h
                    simp only [StoreStep.update.injEq] at h
                    subst h
                    exact ⟨frame, new_vec, j1, a1, rfl, hfaces, rfl, hassign,
                      Or.inr (Or.inr ⟨rfl, a0, hfind, hpush⟩)⟩

/-- What a pass of the loop of `setLabel` that changes the document has done: the
document is an object with a pending vector for the type, the array was initialised,
the entry with the label was overwritten or, below capacity, a new entry appended, and
the array stored back with the pending vector erased. -/
theorem setLabelBody_update_inv (cfg : Config) (now : Int) (ver label t : String)
    (j j2 : Json) (h : setLabelBody cfg now ver label t j = .update j2) :
    ∃ fs p j1 a1, j = .obj fs ∧ Fields.find fs ("_pending_" ++ t) = some p ∧
      initArray j now t = .ok j1 ∧ finishCommit j1 t a1 = .ok j2 ∧
      (findAndUpdate label (overwriteEntry p now ver) (j1.getKey ("embeddings_" ++ t))
          = .ok (true, a1) ∨
        (¬ (cfg.max_embeddings > 0 ∧
            (j1.getKey ("embeddings_" ++ t)).size ≥ cfg.max_embeddings.toNat) ∧
          ∃ a0, findAndUpdate label (overwriteEntry p now ver)
              (j1.getKey ("embeddings_" ++ t)) = .ok (false, a0) ∧
            a0.push_back (newLabelledEntry label p now ver) = .ok a1)) := by
  unfold setLabelBody at h
  dsimp only at h
  split_ifs at h with hpend
  obtain ⟨fs, hj⟩ : ∃ fs, j = .obj fs := by
    cases j with
    | obj fs => exact ⟨fs, rfl⟩
    | _ => exact absurd hpend (by simp [Json.contains])
  subst hj
  obtain ⟨p, hp⟩ : ∃ p, Fields.find fs ("_pending_" ++ t) = some p := by
    rw [Json.contains_obj] at hpend
    exact Option.isSome_iff_exists.1 hpend
  have hg : (Json.obj fs).getKey ("_pending_" ++ t) = p := by
    rw [Json.getKey_obj, hp]; rfl
  rw [hg] at h
  cases hinit : initArray (.obj fs) now t with
  | error err => rw [hinit] at h; exact absurd h (by simp)
  | ok j1 =>
    rw [hinit] at h
    simp only at h
    cases hfind : findAndUpdate label (overwriteEntry p now ver)
        (j1.getKey ("embeddings_" ++ t)) with
    | error err => rw [hfind] at h; exact absurd h (by simp)
    | ok r =>
      obtain ⟨found, a0⟩ := r
      rw [hfind] at h
      cases found with
      | true =>
        simp only [ite_self] at h
        cases hfin : finishCommit j1 t a0 with
        | error err => rw [hfin] at h; exact absurd h (by simp)
        | ok j3 =>
          rw [hfin] at h
          simp only [StoreStep.update.injEq] at h
          subst h
          exact ⟨fs, p, j1, a0, rfl, hp, rfl, hfin, Or.inl hfind⟩
      | false =>
        simp only at h
        split_ifs at h with hcapacity
        cases hpush : a0.push_back (newLabelledEntry label p now ver) with
        | error err => rw [hpush] at h; exact absurd h (by simp)
        | ok a1 =>
          rw [hpush] at h
          simp only at h
          cases hfin : finishCommit j1 t a1 with
          | error err => rw [hfin] at h; exact absurd h (by simp)
          | ok j3 =>
            rw [hfin] at h
            simp only [StoreStep.update.injEq] at h
            subst h
            exact ⟨fs, p, j1, a1, rfl, hp, rfl, hfin,
              Or.inr ⟨by simpa using hcapacity, a0, hfind, hpush⟩⟩

theorem legacyEntry_labelled (legacy : Json) (c : Int) :
    IsLabelled (legacyEntry legacy c) "default" := ⟨_, rfl, rfl⟩

theorem legacyEntry_data (legacy : Json) (c : Int) :
    (legacyEntry legacy c).getKey "data" = legacy := rfl

theorem not_labelled_of_map (s : String) (l l1 : List Json)
    (hmap : l1.map (entryHasLabel s) = l.map (entryHasLabel s))
    (h : ∀ en ∈ l, ¬ IsLabelled en s) : ∀ en ∈ l1, ¬ IsLabelled en s := by
  intro en hen hlab
  have hmem : entryHasLabel s en ∈ l1.map (entryHasLabel s) := List.mem_map_of_mem _ hen
  rw [hmap, List.mem_map] at hmem
  obtain ⟨en0, hen0, heq⟩ := hmem
  rw [(entryHasLabel_iff s en).2 hlab] at heq
  exact h en0 hen0 ((entryHasLabel_iff s en0).1 heq)

/-- On an array that starts with the migrated entry, the search for a label other than
"default" leaves that entry in place, and keeps which of the other entries are
labelled "default". -/
theorem findAndUpdate_migrated (label : String) (upd : Json → Except Err Json)
    (hupd : ∀ en en2, upd en = .ok en2 →
      entryHasLabel "default" en2 = entryHasLabel "default" en)
    (hlabel : label ≠ "default") (legacy : Json) (c : Int) (rest : List Json) (b : Bool)
    (a1 : Json)
    (h : findAndUpdate label upd (.arr (legacyEntry legacy c :: rest)) = .ok (b, a1)) :
    ∃ rest1, a1 = .arr (legacyEntry legacy c :: rest1) ∧
      rest1.map (entryHasLabel "default") = rest.map (entryHasLabel "default") := by
  have hne : ¬ "default" = label := fun he => hlabel he.symm
  simp only [findAndUpdate, updateFirstLabelled,
    entryLabelIs_labelled _ "default" label (legacyEntry_labelled legacy c), hne,
    decide_False] at h
  cases h2 : updateFirstLabelled label upd rest with
  | error err => rw [h2] at h; exact absurd h (by simp)
  | ok r =>
    obtain ⟨found, rest1⟩ := r
    rw [h2] at h
    simp only [Except.ok.injEq, Prod.mk.injEq] at h
    exact ⟨rest1, h.2.symm, (updateFirstLabelled_inv label "default" upd hupd rest rest1 found h2).2⟩

/-- The initialisation of the array migrates a legacy field. -/
theorem initArray_migrates (t : String) (legacy : Json) (j j1 : Json) (now : Int)
    (hleg : HasLegacy t legacy j) (h : initArray j now t = .ok j1) :
    IsMigrated t legacy True j1 := by
  obtain ⟨fs, rfl, hA, hL⟩ := hleg
  obtain ⟨fs1, rfl, -, -, hnew⟩ := initArray_inv fs now t j1 h
  obtain ⟨hL1, hcase⟩ := hnew hA
  rcases hcase with ⟨hL0, -⟩ | ⟨legacy1, c, hL0, hA1⟩
  · rw [hL] at hL0; exact absurd hL0 (by simp)
  · rw [hL] at hL0
    simp only [Option.some.injEq] at hL0
    subst hL0
    exact ⟨fs1, c, [], rfl, hL1, hA1, fun _ en hen => absurd hen (List.not_mem_nil _)⟩

/-- A migrated document is left alone by the initialisation of the array. -/
theorem initArray_migrated (t : String) (legacy : Json) (once : Prop) (j : Json) (now : Int)
    (hmig : IsMigrated t legacy once j) : initArray j now t = .ok j := by
  obtain ⟨fs, c, rest, rfl, -, hA, -⟩ := hmig
  exact initArray_present _ _ _ (by rw [Json.contains_obj, hA]; rfl)

/-- The initialisation of the array of another type keeps the legacy state and the
migrated state of a type. -/
theorem initArray_other (t t1 : String) (ht : t1 ≠ t) (fs : Fields) (j1 : Json) (now : Int)
    (h : initArray (.obj fs) now t1 = .ok j1) :
    ∃ fs1, j1 = .obj fs1 ∧ (∀ k, k ≠ "embeddings_" ++ t1 → k ≠ "embedding_" ++ t1 →
        Fields.find fs1 k = Fields.find fs k) ∧
      Fields.find fs1 ("embeddings_" ++ t) = Fields.find fs ("embeddings_" ++ t) ∧
      Fields.find fs1 ("embedding_" ++ t) = Fields.find fs ("embedding_" ++ t) ∧
      Fields.find fs1 ("_pending_" ++ t) = Fields.find fs ("_pending_" ++ t) := by
  obtain ⟨fs1, rfl, hframe, -, -⟩ := initArray_inv fs now t1 j1 h
  exact ⟨fs1, rfl, hframe,
    hframe _ (embeddings_inj _ _ ht.symm) (embedding_ne_embeddings t1 t).symm,
    hframe _ (embedding_ne_embeddings t t1) (embedding_inj _ _ ht.symm),
    hframe _ (pending_ne_embeddings t t1) (pending_ne_embedding t t1)⟩

theorem trainedEntry_label (lbl s : String) (v : Vec) (now : Int)
    (h : IsLabelled (trainedEntry lbl v now) s) : lbl = s :=
  isLabelled_unique _ _ _
    ⟨[("created", .num now), ("data", Json.ofVec v), ("label", .str lbl)], rfl, rfl⟩ h

theorem newLabelledEntry_label (lbl s ver : String) (p : Json) (now : Int)
    (h : IsLabelled (newLabelledEntry lbl p now ver) s) : lbl = s :=
  isLabelled_unique _ _ _
    ⟨[("created", .num now), ("data", p), ("label", .str lbl), ("model_version", .str ver)],
      rfl, rfl⟩ h

theorem trained_ne_default (x : String) : "trained_" ++ x ≠ "default" := by
  intro h
  have := congrArg String.data h
  simp [String.data_append] at this

theorem isMigrated_weaken (t : String) (legacy : Json) (once : Prop) (j : Json)
    (h : IsMigrated t legacy True j) : IsMigrated t legacy once j := by
  obtain ⟨fs, c, rest, hj, hL, hA, hrest⟩ := h
  exact ⟨fs, c, rest, hj, hL, hA, fun _ => hrest trivial⟩

/-- The state of a type after the initialisation of its array, from either state
before it. -/
theorem initArray_state (t : String) (legacy : Json) (once : Prop) (j j1 : Json) (now : Int)
    (hstate : HasLegacy t legacy j ∨ IsMigrated t legacy once j)
    (h : initArray j now t = .ok j1) : IsMigrated t legacy once j1 := by
  rcases hstate with hleg | hmig
  · exact isMigrated_weaken _ _ _ _ (initArray_migrates t legacy j j1 now hleg h)
  · rw [initArray_migrated t legacy once j now hmig] at h
    simp only [Except.ok.injEq] at h
    rw [← h]
    exact hmig

/-- Storing an array that still starts with the migrated entry keeps the document
migrated. -/
theorem isMigrated_store (t : String) (legacy : Json) (once : Prop) (fs1 : Fields) (c : Int)
    (rest2 : List Json) (hL : Fields.find fs1 ("embedding_" ++ t) = none)
    (hrest : once → ∀ en ∈ rest2, ¬ IsLabelled en "default") :
    IsMigrated t legacy once
      (.obj (Fields.set fs1 ("embeddings_" ++ t) (.arr (legacyEntry legacy c :: rest2)))) :=
  ⟨_, c, rest2, rfl, by rw [Fields.find_set_ne _ _ _ _ (embedding_ne_embeddings t t), hL],
    Fields.find_set_eq _ _ _, hrest⟩

/-- A pass of the loop of `trainUser` for a camera of the type, on a document in the
legacy or in the migrated state, leaves the document migrated; the label must differ
from "default" in refine mode, and when other entries are to stay free of it. -/
theorem trainBody_same (cfg : Config) (w : World) (label : String) (create_new : Bool)
    (ac : ActiveCamera) (j j2 : Json) (legacy : Json) (once : Prop)
    (h : trainBody cfg w label create_new ac j = .update j2)
    (hstate : HasLegacy ac.config.type legacy j ∨ IsMigrated ac.config.type legacy once j)
    (hrefine : create_new = false → label ≠ "default")
    (honce : once → label ≠ "default") :
    IsMigrated ac.config.type legacy once j2 := by
  obtain ⟨frame, new_vec, j1, a1, -, -, hinit, hassign, hrel⟩ :=
    trainBody_update_inv cfg w label create_new ac j j2 h
  obtain ⟨fs1, c, rest, rfl, hL, hA, hrest⟩ :=
    initArray_state ac.config.type legacy once j j1 w.now hstate hinit
  have hg : (Json.obj fs1).getKey ("embeddings_" ++ ac.config.type)
      = .arr (legacyEntry legacy c :: rest) := by rw [Json.getKey_obj, hA]; rfl
  rw [hg] at hrel
  simp only [Json.assign, Except.ok.injEq] at hassign
  subst hassign
  rcases hrel with ⟨-, -, hpush⟩ | ⟨hcn, hfind⟩ | ⟨hcn, a0, hfind, hpush⟩
  · simp only [Json.push_back, Except.ok.injEq] at hpush
    subst hpush
    refine isMigrated_store _ legacy once fs1 c _ hL ?_
    intro ho en hen hlab
    rcases List.mem_append.1 hen with hin | hin
    · exact hrest ho en hin hlab
    · rw [List.mem_singleton.1 hin] at hlab
      have hl := trainedEntry_label _ _ _ _ hlab
      split_ifs at hl
      · exact trained_ne_default _ hl
      · exact honce ho hl
  · obtain ⟨rest1, rfl, hmap⟩ := findAndUpdate_migrated label _
      (fun en en2 => refineEntry_hasLabel w new_vec "default" en en2) (hrefine hcn)
      legacy c rest true a1 hfind
    exact isMigrated_store _ legacy once fs1 c _ hL
      (fun ho => not_labelled_of_map "default" rest rest1 hmap (hrest ho))
  · obtain ⟨rest1, rfl, hmap⟩ := findAndUpdate_migrated label _
      (fun en en2 => refineEntry_hasLabel w new_vec "default" en en2) (hrefine hcn)
      legacy c rest false a0 hfind
    simp only [Json.push_back, Except.ok.injEq] at hpush
    subst hpush
    refine isMigrated_store _ legacy once fs1 c _ hL ?_
    intro ho en hen hlab
    rcases List.mem_append.1 hen with hin | hin
    · exact not_labelled_of_map "default" rest rest1 hmap (hrest ho) en hin hlab
    · rw [List.mem_singleton.1 hin] at hlab
      exact hrefine hcn (trainedEntry_label _ _ _ _ hlab)

theorem hasLegacy_congr (t : String) (legacy : Json) (fs fs2 : Fields)
    (hA : Fields.find fs2 ("embeddings_" ++ t) = Fields.find fs ("embeddings_" ++ t))
    (hL : Fields.find fs2 ("embedding_" ++ t) = Fields.find fs ("embedding_" ++ t))
    (h : HasLegacy t legacy (.obj fs)) : HasLegacy t legacy (.obj fs2) := by
  obtain ⟨fs0, h0, hA0, hL0⟩ := h
  simp only [Json.obj.injEq] at h0
  subst h0
  exact ⟨fs2, rfl, hA.trans hA0, hL.trans hL0⟩

theorem isMigrated_congr (t : String) (legacy : Json) (once : Prop) (fs fs2 : Fields)
    (hA : Fields.find fs2 ("embeddings_" ++ t) = Fields.find fs ("embeddings_" ++ t))
    (hL : Fields.find fs2 ("embedding_" ++ t) = Fields.find fs ("embedding_" ++ t))
    (h : IsMigrated t legacy once (.obj fs)) : IsMigrated t legacy once (.obj fs2) := by
  obtain ⟨fs0, c, rest, h0, hL0, hA0, hrest⟩ := h
  simp only [Json.obj.injEq] at h0
  subst h0
  exact ⟨fs2, c, rest, rfl, hL.trans hL0, hA.trans hA0, hrest⟩

/-- A pass of the loop of `trainUser` for a camera of another type leaves the fields
of a type as they are. -/
theorem trainBody_other (cfg : Config) (w : World) (label : String) (create_new : Bool)
    (ac : ActiveCamera) (fs : Fields) (j2 : Json) (t : String)
    (h : trainBody cfg w label create_new ac (.obj fs) = .update j2)
    (ht : ac.config.type ≠ t) :
    ∃ fs2, j2 = .obj fs2 ∧
      Fields.find fs2 ("embeddings_" ++ t) = Fields.find fs ("embeddings_" ++ t) ∧
      Fields.find fs2 ("embedding_" ++ t) = Fields.find fs ("embedding_" ++ t) ∧
      Fields.find fs2 ("_pending_" ++ t) = Fields.find fs ("_pending_" ++ t) := by
  obtain ⟨frame, new_vec, j1, a1, -, -, hinit, hassign, -⟩ :=
    trainBody_update_inv cfg w label create_new ac _ j2 h
  obtain ⟨fs1, rfl, -, hA, hL, hP⟩ := initArray_other t ac.config.type ht fs j1 w.now hinit
  simp only [Json.assign, Except.ok.injEq] at hassign
  subst hassign
  refine ⟨_, rfl, ?_, ?_, ?_⟩
  · rw [Fields.find_set_ne _ _ _ _ (embeddings_inj _ _ (Ne.symm ht)), hA]
  · rw [Fields.find_set_ne _ _ _ _ (embedding_ne_embeddings t _), hL]
  · rw [Fields.find_set_ne _ _ _ _ (pending_ne_embeddings t _), hP]

/-- A pass of the loop of `setLabel` for another type leaves the fields of a type as
they are. -/
theorem setLabelBody_other (cfg : Config) (now : Int) (ver label t1 t : String)
    (j j2 : Json) (h : setLabelBody cfg now ver label t1 j = .update j2) (ht : t1 ≠ t) :
    ∃ fs fs2, j = .obj fs ∧ j2 = .obj fs2 ∧
      Fields.find fs2 ("embeddings_" ++ t) = Fields.find fs ("embeddings_" ++ t) ∧
      Fields.find fs2 ("embedding_" ++ t) = Fields.find fs ("embedding_" ++ t) ∧
      Fields.find fs2 ("_pending_" ++ t) = Fields.find fs ("_pending_" ++ t) := by
  obtain ⟨fs, p, j1, a1, rfl, -, hinit, hfin, -⟩ :=
    setLabelBody_update_inv cfg now ver label t1 j j2 h
  obtain ⟨fs1, rfl, -, hA, hL, hP⟩ := initArray_other t t1 ht fs j1 now hinit
  simp only [finishCommit, Json.assign, Json.erase, Except.ok.injEq] at hfin
  subst hfin
  refine ⟨fs, _, rfl, rfl, ?_, ?_, ?_⟩
  · rw [Fields.find_erase_ne _ _ _ (pending_ne_embeddings t1 t).symm,
      Fields.find_set_ne _ _ _ _ (embeddings_inj _ _ (Ne.symm ht)), hA]
  · rw [Fields.find_erase_ne _ _ _ (pending_ne_embedding t1 t).symm,
      Fields.find_set_ne _ _ _ _ (embedding_ne_embeddings t _), hL]
  · rw [Fields.find_erase_ne _ _ _ (pending_inj _ _ (Ne.symm ht)),
      Fields.find_set_ne _ _ _ _ (pending_ne_embeddings t _), hP]

/-- A pass of the loop of `setLabel` for the type, with a label other than "default",
on a document in the legacy or in the migrated state, leaves the document migrated. -/
theorem setLabelBody_same (cfg : Config) (now : Int) (ver label t : String)
    (j j2 : Json) (legacy : Json) (once : Prop)
    (h : setLabelBody cfg now ver label t j = .update j2)
    (hstate : HasLegacy t legacy j ∨ IsMigrated t legacy once j)
    (hlabel : label ≠ "default") :
    IsMigrated t legacy once j2 := by
  obtain ⟨fs, p, j1, a1, hj, -, hinit, hfin, hrel⟩ :=
    setLabelBody_update_inv cfg now ver label t j j2 h
  obtain ⟨fs1, c, rest, rfl, hL, hA, hrest⟩ :=
    initArray_state t legacy once j j1 now hstate hinit
  have hg : (Json.obj fs1).getKey ("embeddings_" ++ t)
      = .arr (legacyEntry legacy c :: rest) := by rw [Json.getKey_obj, hA]; rfl
  rw [hg] at hrel
  simp only [finishCommit, Json.assign, Json.erase, Except.ok.injEq] at hfin
  subst hfin
  have hstore : ∀ rest2, (once → ∀ en ∈ rest2, ¬ IsLabelled en "default") →
      IsMigrated t legacy once (.obj (Fields.erase
        (Fields.set fs1 ("embeddings_" ++ t) (.arr (legacyEntry legacy c :: rest2)))
        ("_pending_" ++ t))) := by
    intro rest2 h2
    refine ⟨_, c, rest2, rfl, ?_, ?_, h2⟩
    · rw [Fields.find_erase_ne _ _ _ (pending_ne_embedding t t).symm,
        Fields.find_set_ne _ _ _ _ (embedding_ne_embeddings t t), hL]
    · rw [Fields.find_erase_ne _ _ _ (pending_ne_embeddings t t).symm, Fields.find_set_eq]
  rcases hrel with hfind | ⟨-, a0, hfind, hpush⟩
  · obtain ⟨rest1, rfl, hmap⟩ := findAndUpdate_migrated label _
      (fun en en2 => overwriteEntry_hasLabel p now ver "default" en en2) hlabel
      legacy c rest true a1 hfind
    exact hstore rest1 (fun ho => not_labelled_of_map "default" rest rest1 hmap (hrest ho))
  · obtain ⟨rest1, rfl, hmap⟩ := findAndUpdate_migrated label _
      (fun en en2 => overwriteEntry_hasLabel p now ver "default" en en2) hlabel
      legacy c rest false a0 hfind
    simp only [Json.push_back, Except.ok.injEq] at hpush
    subst hpush
    refine hstore _ ?_
    intro ho en hen hlab
    rcases List.mem_append.1 hen with hin | hin
    · exact not_labelled_of_map "default" rest rest1 hmap (hrest ho) en hin hlab
    · rw [List.mem_singleton.1 hin] at hlab
      exact hlabel (newLabelledEntry_label _ _ _ _ _ hlab)

theorem trainBody_skip (cfg : Config) (w : World) (label : String) (create_new : Bool)
    (ac : ActiveCamera) (j : Json) (frame : Frame) (v : Vec)
    (hcap : ac.cam.capture = some frame) (hface : frame.faces = [v]) :
    trainBody cfg w label create_new ac j ≠ .skip := by
  intro h
  unfold trainBody at h
  simp only [hcap, hface] at h
  repeat' split at h
  all_goals exact absurd h (by simp)

theorem setLabelBody_skip (cfg : Config) (now : Int) (ver label t : String) (j : Json)
    (hpend : j.contains ("_pending_" ++ t) = true) :
    setLabelBody cfg now ver label t j ≠ .skip := by
  intro h
  unfold setLabelBody at h
  simp only [hpend, if_true] at h
  repeat' split at h
  all_goals exact absurd h (by simp)

/-- The loop of `trainUser`, when it runs through all cameras: a migrated document
stays migrated, and a document in the legacy state is migrated once a camera of the
type gives exactly one face. -/
theorem trainLoop_migrates (cfg : Config) (w : World) (label : String) (create_new : Bool)
    (t : String) (legacy : Json) (once : Prop)
    (hrefine : create_new = false → label ≠ "default") (honce : once → label ≠ "default")
    (cams : List ActiveCamera) (j : Json) (updated : Bool) (log : List Effect)
    (j1 : Json) (updated1 : Bool) (log1 : List Effect)
    (h : trainLoop cfg w label create_new cams j updated log = .finished j1 updated1 log1) :
    (IsMigrated t legacy once j → IsMigrated t legacy once j1) ∧
    (HasLegacy t legacy j →
      (∃ ac ∈ cams, ac.config.type = t ∧
        ∃ frame v, ac.cam.capture = some frame ∧ frame.faces = [v]) →
      IsMigrated t legacy once j1) := by
  induction cams generalizing j updated log with
  | nil =>
    simp only [trainLoop, StoreLoopEnd.finished.injEq] at h
    refine ⟨fun hm => h.1 ▸ hm, ?_⟩
    rintro - ⟨ac, hac, -⟩
    exact absurd hac (List.not_mem_nil _)
  | cons ac rest ih =>
    rw [trainLoop_cons] at h
    cases hb : trainBody cfg w label create_new ac j with
    | skip =>
      rw [hb] at h
      obtain ⟨ih1, ih2⟩ := ih j updated _ h
      refine ⟨ih1, ?_⟩
      rintro hleg ⟨a, ha, hat, frame, v, hcap, hface⟩
      rcases List.mem_cons.1 ha with heq | hin
      · subst heq
        exact absurd hb (trainBody_skip cfg w label create_new a j frame v hcap hface)
      · exact ih2 hleg ⟨a, hin, hat, frame, v, hcap, hface⟩
    | update j2 =>
      rw [hb] at h
      obtain ⟨ih1, ih2⟩ := ih j2 true _ h
      by_cases ht : ac.config.type = t
      · subst ht
        exact ⟨fun hm => ih1 (trainBody_same cfg w label create_new ac j j2 legacy once hb
            (Or.inr hm) hrefine honce),
          fun hleg _ => ih1 (trainBody_same cfg w label create_new ac j j2 legacy once hb
            (Or.inl hleg) hrefine honce)⟩
      · constructor
        · intro hm
          obtain ⟨fs, c, r, rfl, -⟩ := id hm
          obtain ⟨fs2, rfl, hA, hL, -⟩ :=
            trainBody_other cfg w label create_new ac fs j2 t hb ht
          exact ih1 (isMigrated_congr t legacy once fs fs2 hA hL hm)
        · rintro hleg ⟨a, ha, hat, hface⟩
          obtain ⟨fs, rfl, -⟩ := id hleg
          obtain ⟨fs2, rfl, hA, hL, -⟩ :=
            trainBody_other cfg w label create_new ac fs j2 t hb ht
          rcases List.mem_cons.1 ha with heq | hin
          · subst heq
            exact absurd hat ht
          · exact ih2 (hasLegacy_congr t legacy fs fs2 hA hL hleg) ⟨a, hin, hat, hface⟩
    | stop b => rw [hb] at h; exact absurd h (by simp)
    | raise err => rw [hb] at h; exact absurd h (by simp)

/-- The loop of `setLabel` with a label other than "default", when it runs through all
cameras: a migrated document stays migrated, and a document in the legacy state that
has a pending vector for the type is migrated once a camera of the type is reached. -/
theorem setLabelLoop_migrates (cfg : Config) (now : Int) (ver label : String)
    (t : String) (legacy : Json) (once : Prop) (hlabel : label ≠ "default")
    (cams : List ActiveCamera) (j : Json) (updated : Bool)
    (j1 : Json) (updated1 : Bool) (log1 : List Effect)
    (h : setLabelLoop cfg now ver label cams j updated = .finished j1 updated1 log1) :
    (IsMigrated t legacy once j → IsMigrated t legacy once j1) ∧
    (HasLegacy t legacy j → j.contains ("_pending_" ++ t) = true →
      (∃ ac ∈ cams, ac.config.type = t) → IsMigrated t legacy once j1) := by
  induction cams generalizing j updated with
  | nil =>
    simp only [setLabelLoop, StoreLoopEnd.finished.injEq] at h
    refine ⟨fun hm => h.1 ▸ hm, ?_⟩
    rintro - - ⟨ac, hac, -⟩
    exact absurd hac (List.not_mem_nil _)
  | cons ac rest ih =>
    rw [setLabelLoop_cons] at h
    cases hb : setLabelBody cfg now ver label ac.config.type j with
    | skip =>
      rw [hb] at h
      obtain ⟨ih1, ih2⟩ := ih j updated h
      refine ⟨ih1, ?_⟩
      rintro hleg hpend ⟨a, ha, hat⟩
      rcases List.mem_cons.1 ha with heq | hin
      · subst heq
        rw [hat] at hb
        exact absurd hb (setLabelBody_skip cfg now ver label t j hpend)
      · exact ih2 hleg hpend ⟨a, hin, hat⟩
    | update j2 =>
      rw [hb] at h
      obtain ⟨ih1, ih2⟩ := ih j2 true h
      by_cases ht : ac.config.type = t
      · rw [ht] at hb
        exact ⟨fun hm => ih1 (setLabelBody_same cfg now ver label t j j2 legacy once hb
            (Or.inr hm) hlabel),
          fun hleg _ _ => ih1 (setLabelBody_same cfg now ver label t j j2 legacy once hb
            (Or.inl hleg) hlabel)⟩
      · obtain ⟨fs, fs2, rfl, rfl, hA, hL, hP⟩ :=
          setLabelBody_other cfg now ver label ac.config.type t j j2 hb ht
        constructor
        · intro hm
          exact ih1 (isMigrated_congr t legacy once fs fs2 hA hL hm)
        · rintro hleg hpend ⟨a, ha, hat⟩
          rcases List.mem_cons.1 ha with heq | hin
          · subst heq
            exact absurd hat ht
          · refine ih2 (hasLegacy_congr t legacy fs fs2 hA hL hleg) ?_ ⟨a, hin, hat⟩
            rw [Json.contains_obj, hP, ← Json.contains_obj]
            exact hpend
    | stop b => rw [hb] at h; exact absurd h (by simp)
    | raise err => rw [hb] at h; exact absurd h (by simp)

/-- The migration succeeds when the document's `created` can be read. -/
theorem initArray_legacy_ok (fs : Fields) (now : Int) (t : String) (legacy : Json) (c : Int)
    (hA : Fields.find fs ("embeddings_" ++ t) = none)
    (hL : Fields.find fs ("embedding_" ++ t) = some legacy)
    (hc : (Json.obj fs).valueInt "created" now = .ok c) :
    ∃ fs1, initArray (.obj fs) now t = .ok (.obj fs1) ∧
      Fields.find fs1 ("embeddings_" ++ t) = some (.arr [legacyEntry legacy c]) ∧
      Fields.find fs1 ("embedding_" ++ t) = none ∧
      ∀ k, k ≠ "embeddings_" ++ t → k ≠ "embedding_" ++ t →
        Fields.find fs1 k = Fields.find fs k := by
  refine ⟨_, by rw [initArray_legacy fs now t legacy hA hL, hc], ?_, ?_, ?_⟩
  · rw [Fields.find_erase_ne _ _ _ (embedding_ne_embeddings t t).symm, Fields.find_set_eq]
  · exact Fields.find_erase_eq _ _
  · intro k hk hk2
    rw [Fields.find_erase_ne _ _ _ hk2, Fields.find_set_ne _ _ _ _ hk,
      Fields.find_set_ne _ _ _ _ hk]

/-- Committing the label "default" on a document in the legacy state: the migrated
entry is the one that is overwritten, so the array holds one entry, labelled "default",
whose data is the pending vector. -/
theorem setLabelBody_legacy_default (cfg : Config) (now : Int) (ver t : String)
    (fs : Fields) (legacy p : Json) (c : Int)
    (hA : Fields.find fs ("embeddings_" ++ t) = none)
    (hL : Fields.find fs ("embedding_" ++ t) = some legacy)
    (hP : Fields.find fs ("_pending_" ++ t) = some p)
    (hc : (Json.obj fs).valueInt "created" now = .ok c) :
    ∃ fs2 en1, setLabelBody cfg now ver "default" t (.obj fs) = .update (.obj fs2) ∧
      Fields.find fs2 ("embeddings_" ++ t) = some (.arr [en1]) ∧
      IsLabelled en1 "default" ∧ en1.getKey "data" = p ∧
      Fields.find fs2 ("_pending_" ++ t) = none ∧
      ∀ k, k ≠ "embeddings_" ++ t → k ≠ "embedding_" ++ t → k ≠ "_pending_" ++ t →
        Fields.find fs2 k = Fields.find fs k := by
  obtain ⟨fs1, hinit, hA1, -, hframe⟩ := initArray_legacy_ok fs now t legacy c hA hL hc
  obtain ⟨en1, hupd, hlab, hdata⟩ :=
    overwriteEntry_labelled p now ver _ "default" (legacyEntry_labelled legacy c)
  have hfu : findAndUpdate "default" (overwriteEntry p now ver) (.arr [legacyEntry legacy c])
      = .ok (true, .arr [en1]) := by
    have := updateFirstLabelled_found "default" (overwriteEntry p now ver) [] []
      (legacyEntry legacy c) en1 (fun e he => absurd he (List.not_mem_nil _))
      (legacyEntry_labelled legacy c) hupd
    simp only [List.nil_append] at this
    simp only [findAndUpdate, this]
  refine ⟨Fields.erase (Fields.set fs1 ("embeddings_" ++ t) (.arr [en1])) ("_pending_" ++ t),
    en1, ?_, ?_, hlab, hdata, Fields.find_erase_eq _ _, ?_⟩
  · simp only [setLabelBody, Json.contains_obj, hP, Option.isSome_some, if_true, hinit,
      Json.getKey_obj, hA1, Option.getD_some, hfu, finishCommit, Json.assign, Json.erase,
      ite_self]
  · rw [Fields.find_erase_ne _ _ _ (pending_ne_embeddings t t).symm, Fields.find_set_eq]
  · intro k hk hk2 hk3
    rw [Fields.find_erase_ne _ _ _ hk3, Fields.find_set_ne _ _ _ _ hk, hframe k hk hk2]

/-- Committing a label other than "default" on a document in the legacy state, with
room for a second entry: the new entry is appended after the migrated one. -/
theorem setLabelBody_legacy_append (cfg : Config) (now : Int) (ver label t : String)
    (fs : Fields) (legacy p : Json) (c : Int) (hlabel : label ≠ "default")
    (hroom : cfg.max_embeddings ≤ 0 ∨ 2 ≤ cfg.max_embeddings)
    (hA : Fields.find fs ("embeddings_" ++ t) = none)
    (hL : Fields.find fs ("embedding_" ++ t) = some legacy)
    (hP : Fields.find fs ("_pending_" ++ t) = some p)
    (hc : (Json.obj fs).valueInt "created" now = .ok c) :
    ∃ fs2, setLabelBody cfg now ver label t (.obj fs) = .update (.obj fs2) ∧
      Fields.find fs2 ("embeddings_" ++ t) =
        some (.arr [legacyEntry legacy c, newLabelledEntry label p now ver]) ∧
      Fields.find fs2 ("_pending_" ++ t) = none ∧
      ∀ k, k ≠ "embeddings_" ++ t → k ≠ "embedding_" ++ t → k ≠ "_pending_" ++ t →
        Fields.find fs2 k = Fields.find fs k := by
  obtain ⟨fs1, hinit, hA1, -, hframe⟩ := initArray_legacy_ok fs now t legacy c hA hL hc
  have hfu : findAndUpdate label (overwriteEntry p now ver) (.arr [legacyEntry legacy c])
      = .ok (false, .arr [legacyEntry legacy c]) := by
    have := updateFirstLabelled_absent label (overwriteEntry p now ver)
      [legacyEntry legacy c] (fun en hen => by
        rw [List.mem_singleton.1 hen]
        exact ⟨"default", legacyEntry_labelled legacy c, hlabel.symm⟩)
    simp only [findAndUpdate, this]
  have hcap : (decide (cfg.max_embeddings > 0) &&
      decide ((Json.arr [legacyEntry legacy c]).size ≥ cfg.max_embeddings.toNat)) = false := by
    rcases hroom with h | h
    · have : ¬ cfg.max_embeddings > 0 := by omega
      simp [this]
    · have : ¬ (1 ≥ cfg.max_embeddings.toNat) := by omega
      simp [Json.size, this]
  refine ⟨Fields.erase (Fields.set fs1 ("embeddings_" ++ t)
      (.arr [legacyEntry legacy c, newLabelledEntry label p now ver])) ("_pending_" ++ t),
    ?_, ?_, Fields.find_erase_eq _ _, ?_⟩
  · simp only [setLabelBody, Json.contains_obj, hP, Option.isSome_some, if_true, hinit,
      Json.getKey_obj, hA1, Option.getD_some, hfu, hcap, Bool.false_eq_true, if_false,
      Json.push_back, List.singleton_append, finishCommit, Json.assign, Json.erase]
  · rw [Fields.find_erase_ne _ _ _ (pending_ne_embeddings t t).symm, Fields.find_set_eq]
  · intro k hk hk2 hk3
    rw [Fields.find_erase_ne _ _ _ hk3, Fields.find_set_ne _ _ _ _ hk, hframe k hk hk2]

/-- The loop of `setLabel` when one camera type has a pending vector: the pass for
that type decides the outcome. -/
theorem setLabelLoop_single (cfg : Config) (now : Int) (ver label t : String)
    (fs fs2 : Fields) (cams : List ActiveCamera) (updated : Bool)
    (hcam : ∃ ac ∈ cams, ac.config.type = t)
    (hother : ∀ ac ∈ cams, ac.config.type ≠ t →
      Fields.find fs ("_pending_" ++ ac.config.type) = none)
    (hbody : setLabelBody cfg now ver label t (.obj fs) = .update (.obj fs2))
    (hframe : ∀ k, k ≠ "embeddings_" ++ t → k ≠ "embedding_" ++ t → k ≠ "_pending_" ++ t →
      Fields.find fs2 k = Fields.find fs k)
    (hdone : Fields.find fs2 ("_pending_" ++ t) = none) :
    setLabelLoop cfg now ver label cams (.obj fs) updated = .finished (.obj fs2) true [] := by
  induction cams with
  | nil =>
    obtain ⟨ac, hmem, -⟩ := hcam
    exact absurd hmem (List.not_mem_nil _)
  | cons ac rest ih =>
    by_cases ht : ac.config.type = t
    · rw [setLabelLoop_cons, ht, hbody]
      refine setLabelLoop_no_pending cfg now ver label rest _ true ?_
      intro a ha
      rw [Json.contains_obj]
      by_cases hat : a.config.type = t
      · rw [hat, hdone]; rfl
      · rw [hframe _ (pending_ne_embeddings _ t) (pending_ne_embedding _ t)
          (pending_inj _ _ hat), hother a (List.mem_cons_of_mem _ ha) hat]
        rfl
    · rw [setLabelLoop_skip cfg now ver label ac rest _ updated
        (by rw [Json.contains_obj, hother ac (List.mem_cons_self _ _) ht]; rfl)]
      obtain ⟨a, hmem, ha⟩ := hcam
      rcases List.mem_cons.1 hmem with heq | hin
      · exact absurd (heq ▸ ha) ht
      · exact ih ⟨a, hin, ha⟩ (fun x hx => hother x (List.mem_cons_of_mem _ hx))

theorem setLabelBody_stop (cfg : Config) (now : Int) (ver label t : String) (j : Json)
    (b : Bool) (h : setLabelBody cfg now ver label t j = .stop b) : b = false := by
  unfold setLabelBody at h
  dsimp only at h
  repeat' split at h
  all_goals first
    | (simp only [StoreStep.stop.injEq] at h; exact h.symm)
    | exact absurd h (by simp)

theorem trainBody_stop (cfg : Config) (w : World) (label : String) (create_new : Bool)
    (ac : ActiveCamera) (j : Json) (b : Bool)
    (h : trainBody cfg w label create_new ac j = .stop b) : b = false := by
  unfold trainBody at h
  dsimp only at h
  repeat' split at h
  all_goals first
    | (simp only [StoreStep.stop.injEq] at h; exact h.symm)
    | exact absurd h (by simp)

/-- The loop of `setLabel` returns early only with false. -/
theorem setLabelLoop_returned (cfg : Config) (now : Int) (ver label : String)
    (cams : List ActiveCamera) (j : Json) (updated : Bool) (b : Bool) (log : List Effect)
    (h : setLabelLoop cfg now ver label cams j updated = .returned b log) : b = false := by
  induction cams generalizing j updated with
  | nil => exact absurd h (by simp [setLabelLoop])
  | cons ac rest ih =>
    rw [setLabelLoop_cons] at h
    cases hb : setLabelBody cfg now ver label ac.config.type j with
    | skip => rw [hb] at h; exact ih j updated h
    | update j2 => rw [hb] at h; exact ih j2 true h
    | stop b1 =>
      rw [hb] at h
      simp only [StoreLoopEnd.returned.injEq] at h
      rw [← h.1]
      exact setLabelBody_stop cfg now ver label _ j b1 hb
    | raise err => rw [hb] at h; exact absurd h (by simp)

/-- The loop of `trainUser` returns early only with false. -/
theorem trainLoop_returned (cfg : Config) (w : World) (label : String) (create_new : Bool)
    (cams : List ActiveCamera) (j : Json) (updated : Bool) (log0 : List Effect) (b : Bool)
    (log : List Effect)
    (h : trainLoop cfg w label create_new cams j updated log0 = .returned b log) :
    b = false := by
  induction cams generalizing j updated log0 with
  | nil => exact absurd h (by simp [trainLoop])
  | cons ac rest ih =>
    rw [trainLoop_cons] at h
    cases hb : trainBody cfg w label create_new ac j with
    | skip => rw [hb] at h; exact ih j updated _ h
    | update j2 => rw [hb] at h; exact ih j2 true _ h
    | stop b1 =>
      rw [hb] at h
      simp only [StoreLoopEnd.returned.injEq] at h
      rw [← h.1]
      exact trainBody_stop cfg w label create_new ac j b1 hb
    | raise err => rw [hb] at h; exact absurd h (by simp)

theorem setLabel_of_finished (e : AuthEngine) (w : World) (fs : FS) (u label : String)
    (j j1 : Json) (log : List Effect) (hvalid : isValidUsername u = true)
    (hj : fs (userFile e.config u) = some j)
    (hloop : setLabelLoop e.config w.now (getModelVersion e.recognition_model_path) label
      e.active_cameras j false = .finished j1 true log) :
    (setLabel e w fs u label).result = .ok true ∧
    (setLabel e w fs u label).fs = fs.write (userFile e.config u) j1 := by
  unfold setLabel
  simp only [hvalid, Bool.not_true, Bool.false_eq_true, if_false, hj, hloop, if_true, and_self]

theorem setLabel_true_inv (e : AuthEngine) (w : World) (fs : FS) (u label : String)
    (h : (setLabel e w fs u label).result = .ok true) :
    ∃ j j1 log, fs (userFile e.config u) = some j ∧
      setLabelLoop e.config w.now (getModelVersion e.recognition_model_path) label
        e.active_cameras j false = .finished j1 true log ∧
      (setLabel e w fs u label).fs = fs.write (userFile e.config u) j1 := by
  unfold setLabel at h ⊢
  split_ifs at h ⊢ with hv
  · exact absurd h (by simp)
  · dsimp only at h ⊢
    cases hj : fs (userFile e.config u) with
    | none => rw [hj] at h; exact absurd h (by simp)
    | some j =>
      rw [hj] at h
      simp only at h ⊢
      cases hloop : setLabelLoop e.config w.now (getModelVersion e.recognition_model_path)
          label e.active_cameras j false with
      | returned b log =>
        rw [setLabelLoop_returned _ _ _ _ _ _ _ b log hloop] at hloop
        rw [hloop] at h
        exact absurd h (by simp)
      | thrown err log => rw [hloop] at h; exact absurd h (by simp)
      | finished j1 updated log =>
        rw [hloop] at h
        simp only at h ⊢
        cases updated with
        | false => exact absurd h (by simp)
        | true => exact ⟨j, j1, log, rfl, hloop, rfl⟩

theorem trainUser_of_finished (e : AuthEngine) (w : World) (fs : FS) (u label : String)
    (create_new : Bool) (j j1 : Json) (log : List Effect)
    (hload : (ensureModelsLoaded e w).1 = true) (hvalid : isValidUsername u = true)
    (hj : fs (userFile e.config u) = some j)
    (hloop : trainLoop e.config w label create_new (camerasInUse e w) j false
      [.fsExists (userFile e.config u), .fsRead (userFile e.config u)]
        = .finished j1 true log) :
    (trainUser e w fs u label create_new).result = .ok true ∧
    (trainUser e w fs u label create_new).fs = fs.write (userFile e.config u) j1 := by
  unfold trainUser
  unfold camerasInUse at hloop
  simp only [hload, hvalid, Bool.not_true, Bool.false_eq_true, if_false,
    ensureModelsLoaded_config, hj, hloop, if_true, and_self]

theorem trainUser_true_inv (e : AuthEngine) (w : World) (fs : FS) (u label : String)
    (create_new : Bool) (h : (trainUser e w fs u label create_new).result = .ok true) :
    ∃ j j1 log, fs (userFile e.config u) = some j ∧
      trainLoop e.config w label create_new (camerasInUse e w) j false
        [.fsExists (userFile e.config u), .fsRead (userFile e.config u)]
          = .finished j1 true log ∧
      (trainUser e w fs u label create_new).fs = fs.write (userFile e.config u) j1 := by
  unfold trainUser at h ⊢
  unfold camerasInUse
  simp only [ensureModelsLoaded_config] at h ⊢
  split_ifs at h ⊢ with hl hv
  · exact absurd h (by simp)
  · exact absurd h (by simp)
  · cases hj : fs (userFile e.config u) with
    | none => rw [hj] at h; exact absurd h (by simp)
    | some j =>
      rw [hj] at h
      simp only at h ⊢
      cases hloop : trainLoop e.config w label create_new
          (ensureModelsLoaded e w).2.active_cameras j false
          [.fsExists (userFile e.config u), .fsRead (userFile e.config u)] with
      | returned b log =>
        rw [trainLoop_returned _ _ _ _ _ _ _ _ b log hloop] at hloop
        rw [hloop] at h
        exact absurd h (by simp)
      | thrown err log => rw [hloop] at h; exact absurd h (by simp)
      | finished j1 updated log =>
        rw [hloop] at h
        simp only at h ⊢
        cases updated with
        | false => exact absurd h (by simp)
        | true => exact ⟨j, j1, log, rfl, hloop, rfl⟩

/-- Refine-mode training with a label other than "default" on a document in the legacy
state: the trained entry is appended after the migrated one. -/
theorem trainBody_legacy_refine (cfg : Config) (w : World) (label : String)
    (ac : ActiveCamera) (fs : Fields) (legacy : Json) (c : Int) (frame : Frame) (v : Vec)
    (hlabel : label ≠ "default")
    (hcap : ac.cam.capture = some frame) (hface : frame.faces = [v])
    (hA : Fields.find fs ("embeddings_" ++ ac.config.type) = none)
    (hL : Fields.find fs ("embedding_" ++ ac.config.type) = some legacy)
    (hc : (Json.obj fs).valueInt "created" w.now = .ok c) :
    ∃ fs2, trainBody cfg w label false ac (.obj fs) = .update (.obj fs2) ∧
      Fields.find fs2 ("embeddings_" ++ ac.config.type) =
        some (.arr [legacyEntry legacy c, trainedEntry label v w.now]) := by
  obtain ⟨fs1, hinit, hA1, -, -⟩ :=
    initArray_legacy_ok fs w.now ac.config.type legacy c hA hL hc
  have hfu : findAndUpdate label (refineEntry w v) (.arr [legacyEntry legacy c])
      = .ok (false, .arr [legacyEntry legacy c]) := by
    have := updateFirstLabelled_absent label (refineEntry w v)
      [legacyEntry legacy c] (fun en hen => by
        rw [List.mem_singleton.1 hen]
        exact ⟨"default", legacyEntry_labelled legacy c, hlabel.symm⟩)
    simp only [findAndUpdate, this]
  refine ⟨Fields.set fs1 ("embeddings_" ++ ac.config.type)
      (.arr [legacyEntry legacy c, trainedEntry label v w.now]), ?_, Fields.find_set_eq _ _ _⟩
  simp only [trainBody, hcap, hface, hinit, Json.getKey_obj, hA1, Option.getD_some,
    Bool.false_eq_true, if_false, hfu, Json.push_back, List.singleton_append, Json.assign]

/-- C12, for the labels that leave the migrated entry alone. Let the stored document
have the legacy field `embedding_<t>`, holding `legacy`, and no `embeddings_<t>`
array. If `setLabel` with a label other than "default" returns true, the document has
a pending vector for `t` and a camera of type `t` is configured, then the written
document has no field `embedding_<t>` and its `embeddings_<t>` array starts with the
migrated entry (label "default", data `legacy`), which is its only entry labelled
"default". If `trainUser` returns true and a camera of type `t` captured exactly one
face, the same holds in create-new mode with any label and in refine mode with a label
other than "default" (in create-new mode with the label "default" the appended entry
is a second one with that label). In both cases the initialisation of the array
leaves the written document as it is: there is no legacy field left to migrate. -/
theorem C12_legacy_migration (e : AuthEngine) (w : World) (fs : FS) (u label t : String)
    (legacy j : Json)
    (hj : fs (userFile e.config u) = some j) (hleg : HasLegacy t legacy j) :
    (label ≠ "default" → j.contains ("_pending_" ++ t) = true →
      (∃ ac ∈ e.active_cameras, ac.config.type = t) →
      (setLabel e w fs u label).result = .ok true →
      ∃ j1, (setLabel e w fs u label).fs = fs.write (userFile e.config u) j1 ∧
        IsMigrated t legacy True j1 ∧ ∀ now, initArray j1 now t = .ok j1) ∧
    (∀ create_new, (create_new = false → label ≠ "default") →
      (∃ ac ∈ camerasInUse e w, ac.config.type = t ∧
        ∃ frame v, ac.cam.capture = some frame ∧ frame.faces = [v]) →
      (trainUser e w fs u label create_new).result = .ok true →
      ∃ j1, (trainUser e w fs u label create_new).fs = fs.write (userFile e.config u) j1 ∧
        IsMigrated t legacy (label ≠ "default") j1 ∧ ∀ now, initArray j1 now t = .ok j1) := by
  constructor
  · intro hlabel hpend hcam hres
    obtain ⟨j0, j1, log, hj0, hloop, hfs⟩ := setLabel_true_inv e w fs u label hres
    rw [hj] at hj0
    simp only [Option.some.injEq] at hj0
    subst hj0
    have hm := (setLabelLoop_migrates _ _ _ label t legacy True hlabel _ j false j1 true log
      hloop).2 hleg hpend hcam
    exact ⟨j1, hfs, hm, fun now => initArray_migrated t legacy True j1 now hm⟩
  · intro create_new hrefine hcam hres
    obtain ⟨j0, j1, log, hj0, hloop, hfs⟩ := trainUser_true_inv e w fs u label create_new hres
    rw [hj] at hj0
    simp only [Option.some.injEq] at hj0
    subst hj0
    have hm := (trainLoop_migrates _ w label create_new t legacy (label ≠ "default") hrefine
      id _ j false _ j1 true log hloop).2 hleg hcam
    exact ⟨j1, hfs, hm, fun now => initArray_migrated t legacy _ j1 now hm⟩

/-- C12 at a concrete input: a legacy document with a pending vector for "rgb", one
color camera, and the label "A" committed by `setLabel` or trained in refine mode. -/
theorem C12_legacy_migration_witness :
    (∃ j1, (setLabel (Scenario.engine .ADAPTIVE [Scenario.rgbMatching]) Scenario.world
          Scenario.legacyPendingFiles "vlad" "A").fs =
        Scenario.legacyPendingFiles.write "/etc/linuxcampam/users/vlad.json" j1 ∧
      IsMigrated "rgb" (.arr [.num 2]) True j1 ∧ ∀ now, initArray j1 now "rgb" = .ok j1) ∧
    (∃ j1, (trainUser (Scenario.engine .ADAPTIVE [Scenario.rgbMatching]) Scenario.world
          Scenario.legacyPendingFiles "vlad" "A" false).fs =
        Scenario.legacyPendingFiles.write "/etc/linuxcampam/users/vlad.json" j1 ∧
      IsMigrated "rgb" (.arr [.num 2]) ("A" ≠ "default") j1 ∧
      ∀ now, initArray j1 now "rgb" = .ok j1) := by
  have h := C12_legacy_migration (Scenario.engine .ADAPTIVE [Scenario.rgbMatching])
    Scenario.world Scenario.legacyPendingFiles "vlad" "A" "rgb" (.arr [.num 2])
    (.obj Scenario.legacyPendingFields) rfl ⟨_, rfl, rfl, rfl⟩
  have hcam : ∃ ac ∈ [Scenario.rgbMatching], ac.config.type = "rgb" :=
    ⟨Scenario.rgbMatching, List.mem_cons_self _ _, rfl⟩
  have hother : ∀ ac ∈ [Scenario.rgbMatching], ac.config.type ≠ "rgb" →
      Fields.find Scenario.legacyPendingFields ("_pending_" ++ ac.config.type) = none := by
    intro ac hac hne
    rw [List.mem_singleton.1 hac] at hne
    exact absurd rfl hne
  have hres1 : (setLabel (Scenario.engine .ADAPTIVE [Scenario.rgbMatching]) Scenario.world
      Scenario.legacyPendingFiles "vlad" "A").result = .ok true := by
    obtain ⟨fs2, hbody, -, hdone, hframe⟩ := setLabelBody_legacy_append
      (Scenario.engine .ADAPTIVE [Scenario.rgbMatching]).config Scenario.world.now
      (getModelVersion (Scenario.engine .ADAPTIVE [Scenario.rgbMatching]).recognition_model_path)
      "A" "rgb" Scenario.legacyPendingFields (.arr [.num 2]) (.arr [.num 7]) _ (by decide)
      (Or.inr (by decide)) rfl rfl rfl rfl
    exact (setLabel_of_finished _ _ _ "vlad" "A" _ _ [] (by decide) rfl
      (setLabelLoop_single _ _ _ "A" "rgb" _ fs2 _ false hcam hother hbody hframe hdone)).1
  have hres2 : (trainUser (Scenario.engine .ADAPTIVE [Scenario.rgbMatching]) Scenario.world
      Scenario.legacyPendingFiles "vlad" "A" false).result = .ok true := by
    obtain ⟨fs2, hbody, -⟩ := trainBody_legacy_refine
      (Scenario.engine .ADAPTIVE [Scenario.rgbMatching]).config Scenario.world "A"
      Scenario.rgbMatching Scenario.legacyPendingFields (.arr [.num 2]) _
      { brightness := 100, faces := [[1]] } [1] (by decide) rfl rfl rfl rfl rfl
    refine (trainUser_of_finished (Scenario.engine .ADAPTIVE [Scenario.rgbMatching])
      Scenario.world Scenario.legacyPendingFiles "vlad" "A" false
      (.obj Scenario.legacyPendingFields) (.obj fs2) ?_ rfl (by decide) rfl ?_).1
    · exact [.fsExists "/etc/linuxcampam/users/vlad.json",
        .fsRead "/etc/linuxcampam/users/vlad.json", .capture "rgb"]
    · show trainLoop _ _ _ _ [Scenario.rgbMatching] _ _ _ = _
      rw [trainLoop_cons, hbody]
      rfl
  exact ⟨h.1 (by decide) rfl hcam hres1,
    h.2 false (fun _ => by decide)
      ⟨Scenario.rgbMatching, List.mem_cons_self _ _, rfl, _, _, rfl, rfl⟩ hres2⟩

/-- C12 as stated fails for the label "default": on a legacy document with the vector
[2] and a pending vector [7] for "rgb", `setLabel` with the label "default" returns
true, and the one entry of the written `embeddings_rgb` array has the pending vector
as its data, so no entry holds the legacy vector. -/
theorem C12_counterexample_default_label :
    HasLegacy "rgb" (.arr [.num 2]) (.obj Scenario.legacyPendingFields) ∧
    (setLabel (Scenario.engine .ADAPTIVE [Scenario.rgbMatching]) Scenario.world
      Scenario.legacyPendingFiles "vlad" "default").result = .ok true ∧
    ∃ j1 en, (setLabel (Scenario.engine .ADAPTIVE [Scenario.rgbMatching]) Scenario.world
          Scenario.legacyPendingFiles "vlad" "default").fs
          "/etc/linuxcampam/users/vlad.json" = some j1 ∧
      j1.getKey "embeddings_rgb" = .arr [en] ∧ en.getKey "data" = .arr [.num 7] ∧
      en.getKey "data" ≠ .arr [.num 2] := by
  have hcam : ∃ ac ∈ [Scenario.rgbMatching], ac.config.type = "rgb" :=
    ⟨Scenario.rgbMatching, List.mem_cons_self _ _, rfl⟩
  have hother : ∀ ac ∈ [Scenario.rgbMatching], ac.config.type ≠ "rgb" →
      Fields.find Scenario.legacyPendingFields ("_pending_" ++ ac.config.type) = none := by
    intro ac hac hne
    rw [List.mem_singleton.1 hac] at hne
    exact absurd rfl hne
  obtain ⟨fs2, en1, hbody, hA2, -, hdata, hdone, hframe⟩ := setLabelBody_legacy_default
    (Scenario.engine .ADAPTIVE [Scenario.rgbMatching]).config Scenario.world.now
    (getModelVersion (Scenario.engine .ADAPTIVE [Scenario.rgbMatching]).recognition_model_path)
    "rgb" Scenario.legacyPendingFields (.arr [.num 2]) (.arr [.num 7]) _ rfl rfl rfl rfl
  obtain ⟨hres, hfs⟩ := setLabel_of_finished
    (Scenario.engine .ADAPTIVE [Scenario.rgbMatching]) Scenario.world
    Scenario.legacyPendingFiles "vlad" "default" _ _ [] (by decide) rfl
    (setLabelLoop_single _ _ _ "default" "rgb" _ fs2 _ false hcam hother hbody hframe hdone)
  refine ⟨⟨_, rfl, rfl, rfl⟩, hres, .obj fs2, en1, ?_, ?_, hdata, ?_⟩
  · rw [hfs]
    rfl
  · rw [Json.getKey_obj]
    exact (congrArg (fun o => Option.getD o Json.null) hA2 : _)
  · rw [hdata]
    intro h
    simp only [Json.arr.injEq, List.cons.injEq, Json.num.injEq, and_true] at h
    norm_num at h

/-! ## The round trip of a first enrollment -/

theorem Fields.isSome_find_set (fs : Fields) (key k : String) (v : Json)
    (h : (Fields.find fs k).isSome = true) :
    (Fields.find (Fields.set fs key v) k).isSome = true := by
  by_cases hk : k = key
  · rw [hk, Fields.find_set_eq]; rfl
  · rw [Fields.find_set_ne _ _ _ _ hk]; exact h

/-- When every camera gives exactly one face, the loop of `enrollUser` runs through
all of them: every camera type has a pending vector afterwards, and no other key is
touched. -/
theorem enrollLoop_succeeds (cfg : Config) (u : String) (cams : List ActiveCamera)
    (f : Fields) (log : List Effect) (hall : ∀ a ∈ cams, EnrollsOneFace cfg a) :
    ∃ f1 log1, enrollLoop cfg u cams (.obj f) log = .finished (.obj f1) log1 ∧
      (∀ k, (Fields.find f k).isSome = true → (Fields.find f1 k).isSome = true) ∧
      (∀ ac ∈ cams, (Fields.find f1 ("_pending_" ++ ac.config.type)).isSome = true) ∧
      (∀ k, (∀ ac ∈ cams, k ≠ "_pending_" ++ ac.config.type) →
        Fields.find f1 k = Fields.find f k) := by
  induction cams generalizing f log with
  | nil =>
    exact ⟨f, log, rfl, fun _ h => h, fun ac hac => absurd hac (List.not_mem_nil _),
      fun _ _ => rfl⟩
  | cons a rest ih =>
    obtain ⟨frame, face, hc, hf⟩ := hall a (List.mem_cons_self _ _)
    obtain ⟨f1, log1, hloop, hmono, hpend, hframe⟩ :=
      ih (Fields.set f ("_pending_" ++ a.config.type) (Json.ofVec face))
        (log ++ [(enrollCapture cfg a).2]) (fun b hb => hall b (List.mem_cons_of_mem _ hb))
    refine ⟨f1, log1, ?_, ?_, ?_, ?_⟩
    · simp only [enrollLoop, hc, hf, Json.assign]
      exact hloop
    · intro k hk
      exact hmono k (Fields.isSome_find_set f _ k _ hk)
    · intro ac hac
      rcases List.mem_cons.1 hac with heq | hin
      · subst heq
        apply hmono
        rw [Fields.find_set_eq]
        rfl
      · exact hpend ac hin
    · intro k hk
      rw [hframe k (fun ac hac => hk ac (List.mem_cons_of_mem _ hac)),
        Fields.find_set_ne _ _ _ _ (hk a (List.mem_cons_self _ _))]

/-- The first commit for a type: an array with the one new entry is stored and the
pending vector erased. -/
theorem setLabelBody_fresh (cfg : Config) (now : Int) (ver label t : String)
    (f : Fields) (p : Json)
    (hA : Fields.find f ("embeddings_" ++ t) = none)
    (hL : Fields.find f ("embedding_" ++ t) = none)
    (hP : Fields.find f ("_pending_" ++ t) = some p) :
    ∃ f2, setLabelBody cfg now ver label t (.obj f) = .update (.obj f2) ∧
      Fields.find f2 ("embeddings_" ++ t) = some (.arr [newLabelledEntry label p now ver]) ∧
      Fields.find f2 ("_pending_" ++ t) = none ∧
      ∀ k, k ≠ "embeddings_" ++ t → k ≠ "_pending_" ++ t →
        Fields.find f2 k = Fields.find f k := by
  have hcap : (decide (cfg.max_embeddings > 0) &&
      decide ((Json.arr []).size ≥ cfg.max_embeddings.toNat)) = false := by
    by_cases h : cfg.max_embeddings > 0
    · have : ¬ (0 ≥ cfg.max_embeddings.toNat) := by omega
      simp [Json.size, this]
    · simp [h]
  refine ⟨Fields.erase (Fields.set (Fields.set f ("embeddings_" ++ t) (.arr []))
      ("embeddings_" ++ t) (.arr [newLabelledEntry label p now ver])) ("_pending_" ++ t),
    ?_, ?_, Fields.find_erase_eq _ _, ?_⟩
  · simp only [setLabelBody, Json.contains_obj, hP, Option.isSome_some, if_true,
      initArray_fresh f now t hA hL, Json.getKey_obj, Fields.find_set_eq, Option.getD_some,
      hcap, Bool.false_eq_true, if_false, findAndUpdate, updateFirstLabelled, Json.push_back,
      List.nil_append, finishCommit, Json.assign, Json.erase]
  · rw [Fields.find_erase_ne _ _ _ (pending_ne_embeddings t t).symm, Fields.find_set_eq]
  · intro k hk hk2
    rw [Fields.find_erase_ne _ _ _ hk2, Fields.find_set_ne _ _ _ _ hk,
      Fields.find_set_ne _ _ _ _ hk]

/-- The loop of `setLabel` on a document in the course of its first commit: it runs
through all cameras, every configured type that had a pending vector ends with its
array, and the flag is raised when there was a pending vector. -/
theorem setLabelLoop_fresh (cfg : Config) (now : Int) (ver label : String)
    (cams : List ActiveCamera) (f : Fields) (updated : Bool) (hfresh : FreshFor label f) :
    ∃ f2 updated2, setLabelLoop cfg now ver label cams (.obj f) updated
        = .finished (.obj f2) updated2 [] ∧
      FreshFor label f2 ∧
      ((updated = true ∨
          ∃ ac ∈ cams, (Fields.find f ("_pending_" ++ ac.config.type)).isSome = true) →
        updated2 = true) ∧
      (∀ t, (Fields.find f ("embeddings_" ++ t)).isSome = true →
        (Fields.find f2 ("embeddings_" ++ t)).isSome = true) ∧
      (∀ ac ∈ cams, (Fields.find f ("_pending_" ++ ac.config.type)).isSome = true →
        (Fields.find f2 ("embeddings_" ++ ac.config.type)).isSome = true) := by
  induction cams generalizing f updated with
  | nil =>
    refine ⟨f, updated, rfl, hfresh, ?_, fun _ h => h, fun ac hac => absurd hac (List.not_mem_nil _)⟩
    rintro (h | ⟨ac, hac, -⟩)
    · exact h
    · exact absurd hac (List.not_mem_nil _)
  | cons ac rest ih =>
    cases hP : Fields.find f ("_pending_" ++ ac.config.type) with
    | none =>
      obtain ⟨f2, updated2, hloop, hfresh2, hflag, hmono, hcams⟩ := ih f updated hfresh
      refine ⟨f2, updated2, ?_, hfresh2, ?_, hmono, ?_⟩
      · rw [setLabelLoop_skip cfg now ver label ac rest _ updated
          (by rw [Json.contains_obj, hP]; rfl)]
        exact hloop
      · rintro (h | ⟨a, ha, hp⟩)
        · exact hflag (Or.inl h)
        · rcases List.mem_cons.1 ha with heq | hin
          · rw [heq, hP] at hp
            exact absurd hp (by simp)
          · exact hflag (Or.inr ⟨a, hin, hp⟩)
      · intro a ha hp
        rcases List.mem_cons.1 ha with heq | hin
        · rw [heq, hP] at hp
          exact absurd hp (by simp)
        · exact hcams a hin hp
    | some p =>
      obtain ⟨hL, hA⟩ := hfresh ac.config.type
      have hA : Fields.find f ("embeddings_" ++ ac.config.type) = none := by
        rcases hA with h | ⟨h, -⟩
        · exact h
        · rw [hP] at h; exact absurd h (by simp)
      obtain ⟨f1, hbody, hA1, hP1, hframe⟩ :=
        setLabelBody_fresh cfg now ver label ac.config.type f p hA hL hP
      have hfresh1 : FreshFor label f1 := by
        intro t
        by_cases ht : t = ac.config.type
        · subst ht
          refine ⟨?_, Or.inr ⟨hP1, _, hA1, ?_⟩⟩
          · rw [hframe _ (embedding_ne_embeddings _ _) (pending_ne_embedding _ _).symm]
            exact hL
          · exact ⟨[("created", .num now), ("data", p), ("label", .str label),
              ("model_version", .str ver)], rfl, rfl⟩
        · rw [hframe _ (embedding_ne_embeddings _ _) (pending_ne_embedding _ _).symm,
            hframe _ (embeddings_inj _ _ ht) (pending_ne_embeddings _ _).symm,
            hframe _ (pending_ne_embeddings _ _) (pending_inj _ _ ht)]
          exact hfresh t
      obtain ⟨f2, updated2, hloop, hfresh2, hflag, hmono, hcams⟩ := ih f1 true hfresh1
      have hmono1 : ∀ t, (Fields.find f ("embeddings_" ++ t)).isSome = true →
          (Fields.find f1 ("embeddings_" ++ t)).isSome = true := by
        intro t h
        by_cases ht : t = ac.config.type
        · rw [ht, hA1]; rfl
        · rw [hframe _ (embeddings_inj _ _ ht) (pending_ne_embeddings _ _).symm]
          exact h
      refine ⟨f2, updated2, ?_, hfresh2, fun _ => hflag (Or.inl rfl),
        fun t h => hmono t (hmono1 t h), ?_⟩
      · rw [setLabelLoop_cons, hbody]
        exact hloop
      · intro a ha hp
        by_cases hat : a.config.type = ac.config.type
        · rw [hat]
          exact hmono _ (by rw [hA1]; rfl)
        · rcases List.mem_cons.1 ha with heq | hin
          · exact absurd (by rw [heq]) hat
          · refine hcams a hin ?_
            rw [hframe _ (pending_ne_embeddings _ _) (pending_inj _ _ hat)]
            exact hp

theorem collectLabels_single (en : Json) (label : String) (labels : List String)
    (h : IsLabelled en label) :
    collectLabels [en] labels
      = .ok (if labels.contains label then labels else labels ++ [label]) := by
  obtain ⟨efs, rfl, hf⟩ := h
  simp only [collectLabels, Json.contains_obj, hf, Option.isSome_some, if_true,
    Json.getKey_obj, Option.getD_some, Json.getString]

/-- Listing a document in which every configured type has an array with one entry
carrying the label, and no legacy field. -/
theorem listLoop_single_label (label : String) (f : Fields) (cams : List ActiveCamera)
    (h : ∀ ac ∈ cams, Fields.find f ("embedding_" ++ ac.config.type) = none ∧
      ∃ en, Fields.find f ("embeddings_" ++ ac.config.type) = some (.arr [en]) ∧
        IsLabelled en label) :
    listLoop (.obj f) cams [label] = .ok [label] ∧
    (cams ≠ [] → listLoop (.obj f) cams [] = .ok [label]) := by
  induction cams with
  | nil => exact ⟨rfl, fun h0 => absurd rfl h0⟩
  | cons ac rest ih =>
    obtain ⟨hL, en, hA, hlab⟩ := h ac (List.mem_cons_self _ _)
    obtain ⟨ih1, -⟩ := ih (fun a ha => h a (List.mem_cons_of_mem _ ha))
    constructor
    · simp only [listLoop, Json.contains_obj, hA, hL, Option.isSome_some, Json.getKey_obj,
        Option.getD_some, Json.is_array, Bool.and_self, if_true, Json.items,
        collectLabels_single en label _ hlab, List.contains_cons, beq_self_eq_true,
        Bool.true_or, Option.isSome_none, Bool.false_eq_true, if_false]
      exact ih1
    · intro _
      simp only [listLoop, Json.contains_obj, hA, hL, Option.isSome_some, Json.getKey_obj,
        Option.getD_some, Json.is_array, Bool.and_self, if_true, Json.items,
        collectLabels_single en label _ hlab, List.contains_nil, Bool.false_eq_true,
        if_false, List.nil_append, Option.isSome_none]
      exact ih1

/-- Listing a document in which every configured type has an empty array and no
legacy field. -/
theorem listLoop_empty_arrays (f : Fields) (cams : List ActiveCamera)
    (h : ∀ ac ∈ cams, Fields.find f ("embedding_" ++ ac.config.type) = none ∧
      Fields.find f ("embeddings_" ++ ac.config.type) = some (.arr [])) :
    listLoop (.obj f) cams [] = .ok [] := by
  induction cams with
  | nil => rfl
  | cons ac rest ih =>
    obtain ⟨hL, hA⟩ := h ac (List.mem_cons_self _ _)
    simp only [listLoop, Json.contains_obj, hA, hL, Option.isSome_some, Json.getKey_obj,
      Option.getD_some, Json.is_array, Bool.and_self, if_true, Json.items, collectLabels,
      Option.isSome_none, Bool.false_eq_true, if_false]
    exact ih (fun a ha => h a (List.mem_cons_of_mem _ ha))

theorem username_ne_embeddings (a : String) : "username" ≠ "embeddings_" ++ a := by
  intro h
  have := congrArg String.data h
  simp [String.data_append] at this

theorem username_ne_embedding (a : String) : "username" ≠ "embedding_" ++ a := by
  intro h
  have := congrArg String.data h
  simp [String.data_append] at this

theorem enrollUser_of_finished (e : AuthEngine) (w : World) (fs : FS) (u : String)
    (j1 : Json) (log1 : List Effect)
    (hload : (ensureModelsLoaded e w).1 = true) (hvalid : isValidUsername u = true)
    (hnew : fs (userFile e.config u) = none)
    (hloop : enrollLoop e.config u (camerasInUse e w)
      (.obj (Fields.set (Fields.set [] "username" (.str u)) "created" (.num w.now)))
      [.fsExists (userFile e.config u)] = .finished j1 log1) :
    (enrollUser e w fs u).result = .ok (true, "Success") ∧
    (enrollUser e w fs u).engine = (ensureModelsLoaded e w).2 ∧
    (enrollUser e w fs u).fs = fs.write (userFile e.config u) j1 := by
  unfold enrollUser
  unfold camerasInUse at hloop
  simp only [hload, hvalid, Bool.not_true, Bool.false_eq_true, if_false,
    ensureModelsLoaded_config, hnew, hloop, and_self]

theorem setLabel_engine (e : AuthEngine) (w : World) (fs : FS) (u label : String) :
    (setLabel e w fs u label).engine = e := by
  unfold setLabel
  split_ifs
  · rfl
  · dsimp only
    cases fs (userFile e.config u) with
    | none => rfl
    | some j =>
      simp only
      cases setLabelLoop e.config w.now (getModelVersion e.recognition_model_path) label
          e.active_cameras j false with
      | returned b log => rfl
      | thrown err log => rfl
      | finished j1 updated log => cases updated <;> rfl

theorem removeEmbedding_engine (e : AuthEngine) (fs : FS) (u label : String) :
    (removeEmbedding e fs u label).engine = e := by
  unfold removeEmbedding
  split_ifs
  · rfl
  · dsimp only
    cases fs (userFile e.config u) with
    | none => rfl
    | some j =>
      simp only
      split_ifs <;> rfl

theorem listEmbeddings_of_doc (e : AuthEngine) (fs : FS) (u : String) (j : Json)
    (hvalid : isValidUsername u = true) (hj : fs (userFile e.config u) = some j) :
    (listEmbeddings e fs u).result = listLoop j e.active_cameras [] := by
  unfold listEmbeddings
  simp only [hvalid, Bool.not_true, Bool.false_eq_true, if_false, hj]

theorem removeEmbedding_of_loop (e : AuthEngine) (fs : FS) (u label : String) (j j3 : Json)
    (hvalid : isValidUsername u = true) (hj : fs (userFile e.config u) = some j)
    (hloop : removeLoop label e.active_cameras j false = (j3, true)) :
    (removeEmbedding e fs u label).result = .ok true ∧
    (removeEmbedding e fs u label).fs = fs.write (userFile e.config u) j3 := by
  unfold removeEmbedding
  simp only [hvalid, Bool.not_true, Bool.false_eq_true, if_false, hj, hloop, if_true, and_self]

theorem FS.write_same (fs : FS) (path : String) (j : Json) :
    (fs.write path j) path = some j := by
  simp [FS.write]

/-- C15: round trip on a user without a document. When the engine loads its models, the
list of configured cameras is non-empty (any number of cameras and camera types) and
the enrollment capture of every camera gives exactly one face, then `enrollUser(u)`
succeeds; on the engine and the file system it leaves, `setLabel(u, l)` returns true
and `listEmbeddings(u)` returns exactly `[l]`; `removeEmbedding(u, l)` then returns
true, and `listEmbeddings(u)` returns the empty list. The claim is the case l = "A". -/
theorem C15_round_trip (e : AuthEngine) (w w2 : World) (fs : FS) (u label : String)
    (hload : (ensureModelsLoaded e w).1 = true) (hvalid : isValidUsername u = true)
    (hnew : fs (userFile e.config u) = none)
    (hcams : camerasInUse e w ≠ [])
    (hface : ∀ ac ∈ camerasInUse e w, EnrollsOneFace e.config ac) :
    ∃ e1 fs1 fs2 fs3,
      (enrollUser e w fs u).result = .ok (true, "Success") ∧
      (enrollUser e w fs u).engine = e1 ∧ (enrollUser e w fs u).fs = fs1 ∧
      (setLabel e1 w2 fs1 u label).result = .ok true ∧
      (setLabel e1 w2 fs1 u label).engine = e1 ∧ (setLabel e1 w2 fs1 u label).fs = fs2 ∧
      (listEmbeddings e1 fs2 u).result = .ok [label] ∧
      (removeEmbedding e1 fs2 u label).result = .ok true ∧
      (removeEmbedding e1 fs2 u label).engine = e1 ∧
      (removeEmbedding e1 fs2 u label).fs = fs3 ∧
      (listEmbeddings e1 fs3 u).result = .ok [] := by
  obtain ⟨f1, log1, hloop1, -, hpend1, hframe1⟩ := enrollLoop_succeeds e.config u
    (camerasInUse e w)
    (Fields.set (Fields.set [] "username" (.str u)) "created" (.num w.now))
    [.fsExists (userFile e.config u)] hface
  obtain ⟨hr1, he1, hfs1⟩ := enrollUser_of_finished e w fs u _ _ hload hvalid hnew hloop1
  have hcfg : (ensureModelsLoaded e w).2.config = e.config := ensureModelsLoaded_config e w
  have hcam1 : (ensureModelsLoaded e w).2.active_cameras = camerasInUse e w := rfl
  have hfresh1 : FreshFor label f1 := by
    intro t
    constructor
    · rw [hframe1 _ (fun ac _ => (pending_ne_embedding _ _).symm),
        Fields.find_set_ne _ _ _ _ (created_ne_embedding t).symm,
        Fields.find_set_ne _ _ _ _ (username_ne_embedding t).symm]
      rfl
    · left
      rw [hframe1 _ (fun ac _ => (pending_ne_embeddings _ _).symm),
        Fields.find_set_ne _ _ _ _ (created_ne_embeddings t).symm,
        Fields.find_set_ne _ _ _ _ (username_ne_embeddings t).symm]
      rfl
  obtain ⟨ac0, rest0, hc0⟩ := List.exists_cons_of_ne_nil hcams
  have hac0 : ac0 ∈ camerasInUse e w := by rw [hc0]; exact List.mem_cons_self _ _
  obtain ⟨f2, updated2, hloop2, hfresh2, hflag2, -, hcams2⟩ := setLabelLoop_fresh
    (ensureModelsLoaded e w).2.config w2.now
    (getModelVersion (ensureModelsLoaded e w).2.recognition_model_path) label
    (camerasInUse e w) f1 false hfresh1
  have hupd2 : updated2 = true := hflag2 (Or.inr ⟨ac0, hac0, hpend1 ac0 hac0⟩)
  subst hupd2
  have hfile : userFile (ensureModelsLoaded e w).2.config u = userFile e.config u := by
    rw [hcfg]
  obtain ⟨hr2, hfs2⟩ := setLabel_of_finished (ensureModelsLoaded e w).2 w2
    (fs.write (userFile e.config u) (.obj f1)) u label (.obj f1) (.obj f2) [] hvalid
    (by rw [hfile]; exact FS.write_same _ _ _) (by rw [hcam1]; exact hloop2)
  have hdoc2 : ∀ ac ∈ camerasInUse e w,
      Fields.find f2 ("embedding_" ++ ac.config.type) = none ∧
      ∃ en, Fields.find f2 ("embeddings_" ++ ac.config.type) = some (.arr [en]) ∧
        IsLabelled en label := by
    intro ac hac
    obtain ⟨hL, hA⟩ := hfresh2 ac.config.type
    refine ⟨hL, ?_⟩
    rcases hA with h | ⟨-, h⟩
    · have := hcams2 ac hac (hpend1 ac hac)
      rw [h] at this
      exact absurd this (by simp)
    · exact h
  have hlist2 := (listLoop_single_label label f2 (camerasInUse e w) hdoc2).2 hcams
  obtain ⟨f3, r, hloop3, -, hin3, hout3, hflag3⟩ :=
    removeLoop_spec label (camerasInUse e w) f2 false
  obtain ⟨hL0, en0, hA0, hlab0⟩ := hdoc2 ac0 hac0
  have hr : r = true := hflag3.2 (Or.inr ⟨ac0, hac0, [en0], hA0, en0,
    List.mem_singleton.2 rfl, (entryHasLabel_iff label en0).2 hlab0⟩)
  subst hr
  obtain ⟨hr3, hfs3⟩ := removeEmbedding_of_loop (ensureModelsLoaded e w).2
    ((fs.write (userFile e.config u) (.obj f1)).write (userFile e.config u) (.obj f2))
    u label (.obj f2) (.obj f3) hvalid
    (by rw [hfile]; exact FS.write_same _ _ _) (by rw [hcam1]; exact hloop3)
  have hdoc3 : ∀ ac ∈ camerasInUse e w,
      Fields.find f3 ("embedding_" ++ ac.config.type) = none ∧
      Fields.find f3 ("embeddings_" ++ ac.config.type) = some (.arr []) := by
    intro ac hac
    obtain ⟨hL, en, hA, hlab⟩ := hdoc2 ac hac
    constructor
    · rw [hout3 _ (fun a _ => embedding_ne_embeddings _ _), hL]
    · rw [hin3 _ ⟨ac, hac, rfl⟩, hA]
      simp [withoutLabel, (entryHasLabel_iff label en).2 hlab]
  have hlist3 := listLoop_empty_arrays f3 (camerasInUse e w) hdoc3
  rw [hfile] at hfs2 hfs3
  refine ⟨(ensureModelsLoaded e w).2, fs.write (userFile e.config u) (.obj f1),
    (fs.write (userFile e.config u) (.obj f1)).write (userFile e.config u) (.obj f2),
    ((fs.write (userFile e.config u) (.obj f1)).write (userFile e.config u) (.obj f2)).write
      (userFile e.config u) (.obj f3),
    hr1, he1, hfs1, hr2, setLabel_engine _ _ _ _ _, hfs2, ?_, hr3,
    removeEmbedding_engine _ _ _ _, hfs3, ?_⟩
  · rw [listEmbeddings_of_doc _ _ u (.obj f2) hvalid
      (by rw [hfile]; exact FS.write_same _ _ _), hcam1]
    exact hlist2
  · rw [listEmbeddings_of_doc _ _ u (.obj f3) hvalid
      (by rw [hfile]; exact FS.write_same _ _ _), hcam1]
    exact hlist3

/-- C15 at a concrete input: a color and an infrared camera that each give one face, no
stored document, and the label "A". -/
theorem C15_round_trip_witness :
    ∃ e1 fs1 fs2 fs3,
      (enrollUser (Scenario.engine .ADAPTIVE [Scenario.rgbEnroll, Scenario.irEnroll])
        Scenario.world Scenario.noFiles "vlad").result = .ok (true, "Success") ∧
      (enrollUser (Scenario.engine .ADAPTIVE [Scenario.rgbEnroll, Scenario.irEnroll])
        Scenario.world Scenario.noFiles "vlad").engine = e1 ∧
      (enrollUser (Scenario.engine .ADAPTIVE [Scenario.rgbEnroll, Scenario.irEnroll])
        Scenario.world Scenario.noFiles "vlad").fs = fs1 ∧
      (setLabel e1 Scenario.world fs1 "vlad" "A").result = .ok true ∧
      (setLabel e1 Scenario.world fs1 "vlad" "A").engine = e1 ∧
      (setLabel e1 Scenario.world fs1 "vlad" "A").fs = fs2 ∧
      (listEmbeddings e1 fs2 "vlad").result = .ok ["A"] ∧
      (removeEmbedding e1 fs2 "vlad" "A").result = .ok true ∧
      (removeEmbedding e1 fs2 "vlad" "A").engine = e1 ∧
      (removeEmbedding e1 fs2 "vlad" "A").fs = fs3 ∧
      (listEmbeddings e1 fs3 "vlad").result = .ok [] :=
  C15_round_trip (Scenario.engine .ADAPTIVE [Scenario.rgbEnroll, Scenario.irEnroll])
    Scenario.world Scenario.world Scenario.noFiles "vlad" "A" rfl (by decide) rfl
    (List.cons_ne_nil Scenario.rgbEnroll [Scenario.irEnroll])
    (by
      intro ac hac
      rcases List.mem_cons.1 hac with h | h
      · rw [h]
        exact ⟨Scenario.oneFace, [1], rfl, rfl⟩
      · rw [List.mem_singleton.1 h]
        exact ⟨{ brightness := 90, faces := [[3]] }, [3], rfl, rfl⟩)

/-! ## Verification with details -/

theorem notTooDark_cond (ac : ActiveCamera) (frame : Frame)
    (hcap : ac.cam.capture = some frame) (h : ¬ TooDark ac) :
    (decide (ac.config.min_brightness > 0) &&
      decide (frame.brightness < ac.config.min_brightness)) = false := by
  rw [Bool.eq_false_iff]
  intro hc
  simp only [Bool.and_eq_true, decide_eq_true_eq] at hc
  exact h ⟨frame, hcap, hc.1, hc.2⟩

/-- On a camera that is not too dark, the bodies of the two verification loops take
the same step: both go on with the same counters, both return a refusal, or both raise
the same exception. -/
theorem detailCamera_simulates (cfg : Config) (w : World) (j : Json) (u : String)
    (ac : ActiveCamera) (st : VerifyState) (dst : DetailState)
    (hR : SameCounters st dst) (hbright : ¬ TooDark ac) :
    EndsAlike (verifyCamera cfg w j u ac st) (detailCamera cfg w j ac dst) := by
  obtain ⟨hp, hs, hf⟩ := hR
  cases hcap : ac.cam.capture with
  | none =>
    by_cases h1 : cfg.policy = .STRICT_ALL
    · simp [verifyCamera, detailCamera, hcap, h1, EndsAlike]
    · by_cases h2 : (decide (cfg.policy = .ADAPTIVE) && ac.config.mandatory) = true
      · simp only [verifyCamera, detailCamera, hcap, h1, if_false, h2, if_true, Bool.or_true,
          EndsAlike]
      · simp only [verifyCamera, detailCamera, hcap, h1, if_false, h2, decide_False,
          Bool.or_self, Bool.false_eq_true, EndsAlike, SameCounters, VerifyState.emit]
        exact ⟨hp, hs, hf⟩
  | some frame =>
    have hb := notTooDark_cond ac frame hcap hbright
    cases hload : loadEmbeddings j ac.config.type with
    | error err =>
      simp only [verifyCamera, detailCamera, hcap, hb, Bool.false_eq_true, if_false, hload,
        EndsAlike]
    | ok embs =>
      by_cases hempty : embs.isEmpty = true
      · simp only [verifyCamera, detailCamera, hcap, hb, Bool.false_eq_true, if_false, hload,
          hempty, if_true, EndsAlike, SameCounters, emitIf_participants, emitIf_successes,
          emitIf_failures, VerifyState.emit]
        omega
      · by_cases hfaces : frame.faces.length ≥ 1
        · cases hbest : bestOverFaces w embs frame.faces (.val 0) with
          | error err =>
            simp only [verifyCamera, detailCamera, hcap, hb, Bool.false_eq_true, if_false,
              hload, hempty, cameraMatch, hfaces, if_true, hbest, EndsAlike]
          | ok best =>
            cases hge : best.ge cfg.threshold with
            | true =>
              simp only [verifyCamera, detailCamera, hcap, hb, Bool.false_eq_true, if_false,
                hload, hempty, cameraMatch, hfaces, if_true, hbest, hge, EndsAlike,
                SameCounters, emitIf_participants, emitIf_successes, emitIf_failures,
                VerifyState.emit]
              split_ifs <;> simp only [] <;> omega
            | false =>
              simp only [verifyCamera, detailCamera, hcap, hb, Bool.false_eq_true, if_false,
                hload, hempty, cameraMatch, hfaces, if_true, hbest, hge, EndsAlike,
                SameCounters, emitIf_participants, emitIf_successes, emitIf_failures,
                VerifyState.emit]
              split_ifs <;> simp only [] <;> omega
        · simp only [verifyCamera, detailCamera, hcap, hb, Bool.false_eq_true, if_false,
            hload, hempty, cameraMatch, hfaces, EndsAlike, SameCounters, emitIf_participants,
            emitIf_successes, emitIf_failures, VerifyState.emit]
          omega

/-- The two verification loops end alike when no camera is too dark. -/
theorem detailLoop_simulates (cfg : Config) (w : World) (j : Json) (u : String)
    (cams : List ActiveCamera) (st : VerifyState) (dst : DetailState)
    (hR : SameCounters st dst) (hbright : ∀ ac ∈ cams, ¬ TooDark ac) :
    EndsAlike (verifyLoop cfg w j u cams st) (detailLoop cfg w j cams dst) := by
  induction cams generalizing st dst with
  | nil => exact hR
  | cons ac rest ih =>
    have h := detailCamera_simulates cfg w j u ac st dst hR
      (hbright ac (List.mem_cons_self _ _))
    have ih1 := fun st1 dst1 h1 =>
      ih st1 dst1 h1 (fun a ha => hbright a (List.mem_cons_of_mem _ ha))
    cases hv : verifyCamera cfg w j u ac st <;> cases hd : detailCamera cfg w j ac dst <;>
      rw [hv, hd] at h <;> simp only [verifyLoop, detailLoop, hv, hd] <;>
      first | exact ih1 _ _ h | exact h | exact False.elim h

/-- With the same counters, the two verdicts are the same decision. -/
theorem detailVerdict_success (cfg : Config) (st : VerifyState) (dst : DetailState)
    (hR : SameCounters st dst) : (detailVerdict cfg dst).success = verdict cfg st := by
  obtain ⟨hp, hs, hf⟩ := hR
  simp only [detailVerdict, verdict, hp, hs, hf]
  split_ifs <;> simp_all

/-- Plain verification when no camera participates. -/
theorem verifyUser_no_participant (e : AuthEngine) (w : World) (fs : FS) (u : String)
    (hnone : ∀ ac ∈ camerasInUse e w, CaptureFails ac ∨ TooDark ac) :
    (verifyUser e w fs u).result = .ok false := by
  unfold verifyUser
  dsimp only
  split_ifs
  · rfl
  · rfl
  · cases hj : fs (userFile (ensureModelsLoaded e w).2.config u) with
    | none => rfl
    | some j =>
      obtain ⟨st1, h1, hp⟩ := verifyLoop_no_participant (ensureModelsLoaded e w).2.config
        w j u (camerasInUse e w) { log := [.fsExists
          (userFile (ensureModelsLoaded e w).2.config u),
          .fsRead (userFile (ensureModelsLoaded e w).2.config u)] } hnone
      unfold camerasInUse at h1
      rcases h1 with h1 | h1
      · simp only [h1]
      · simp only [h1, verdict, hp]
        rfl

/-- The two verifications reach the same decision when no camera is too dark. -/
theorem verifyUserWithDetails_agrees (e : AuthEngine) (w : World) (fs : FS) (u : String)
    (hbright : ∀ ac ∈ camerasInUse e w, ¬ TooDark ac) :
    (verifyUserWithDetails e w fs u).result.map AuthResult.success
      = (verifyUser e w fs u).result := by
  unfold verifyUserWithDetails verifyUser
  dsimp only
  split_ifs
  · rfl
  · rfl
  · cases hj : fs (userFile (ensureModelsLoaded e w).2.config u) with
    | none => rfl
    | some j =>
      have h := detailLoop_simulates (ensureModelsLoaded e w).2.config w j u
        (camerasInUse e w)
        { log := [.fsExists (userFile (ensureModelsLoaded e w).2.config u),
            .fsRead (userFile (ensureModelsLoaded e w).2.config u)] }
        { log := [.fsExists (userFile (ensureModelsLoaded e w).2.config u),
            .fsRead (userFile (ensureModelsLoaded e w).2.config u)] }
        ⟨rfl, rfl, rfl⟩ hbright
      unfold camerasInUse at h
      simp only
      cases hv : verifyLoop (ensureModelsLoaded e w).2.config w j u
          (ensureModelsLoaded e w).2.active_cameras
          { log := [.fsExists (userFile (ensureModelsLoaded e w).2.config u),
            .fsRead (userFile (ensureModelsLoaded e w).2.config u)] } <;>
        cases hd : detailLoop (ensureModelsLoaded e w).2.config w j
          (ensureModelsLoaded e w).2.active_cameras
          { log := [.fsExists (userFile (ensureModelsLoaded e w).2.config u),
            .fsRead (userFile (ensureModelsLoaded e w).2.config u)] } <;>
        rw [hv, hd] at h <;> simp only [EndsAlike] at h
      · simp only [Except.map, detailVerdict_success _ _ _ h]
      · simp only [Except.map, h]
      · simp only [Except.map, h]

theorem verifyUserWithDetails_of_loop (e : AuthEngine) (w : World) (fs : FS) (u : String)
    (j : Json) (st : DetailState)
    (hload : (ensureModelsLoaded e w).1 = true) (hvalid : isValidUsername u = true)
    (hj : fs (userFile e.config u) = some j)
    (hloop : detailLoop e.config w j (camerasInUse e w)
      { log := [.fsExists (userFile e.config u), .fsRead (userFile e.config u)] }
        = .finished st) :
    (verifyUserWithDetails e w fs u).result = .ok (detailVerdict e.config st) := by
  unfold verifyUserWithDetails
  unfold camerasInUse at hloop
  simp only [hload, hvalid, Bool.not_true, Bool.false_eq_true, if_false,
    ensureModelsLoaded_config, hj, hloop]

/-- C19, evaluated: under the policy ADAPTIVE, with one color camera that is not
mandatory, has a brightness floor of 40 and captures a frame of brightness 10 showing
the enrolled face, `verifyUser` returns false (the camera is skipped, so no camera
participates) while `verifyUserWithDetails` reports success with best score 1: the
variant has no brightness check. When no camera is too dark, the two reach the same
decision. -/
theorem C19_details_ignore_brightness_floor :
    TooDark Scenario.rgbDark ∧
    (verifyUser (Scenario.engine .ADAPTIVE [Scenario.rgbDark]) Scenario.world
      Scenario.files "vlad").result = .ok false ∧
    (verifyUserWithDetails (Scenario.engine .ADAPTIVE [Scenario.rgbDark]) Scenario.world
      Scenario.files "vlad").result
      = .ok { success := true, reason := "", best_score := .val 1 } ∧
    ∀ (e : AuthEngine) (w : World) (fs : FS) (u : String),
      (∀ ac ∈ camerasInUse e w, ¬ TooDark ac) →
      (verifyUserWithDetails e w fs u).result.map AuthResult.success
        = (verifyUser e w fs u).result := by
  have hdark : TooDark Scenario.rgbDark :=
    ⟨{ brightness := 10, faces := [[1]] }, rfl, by decide, by norm_num [Scenario.rgbDark]⟩
  refine ⟨hdark, ?_, ?_, verifyUserWithDetails_agrees⟩
  · apply verifyUser_no_participant
    intro ac hac
    have hac' : ac = Scenario.rgbDark := by
      simpa [camerasInUse, ensureModelsLoaded, Scenario.engine] using hac
    rw [hac']
    exact Or.inr hdark
  · have hload : loadEmbeddings Scenario.doc "rgb" = .ok [[1]] := rfl
    have hbest : bestOverFaces Scenario.world [[1]] [[1]] (.val 0) = .ok (.val 1) := rfl
    have hge : (FloatV.val 1).ge
        (Scenario.engine .ADAPTIVE [Scenario.rgbDark]).config.threshold = true := by
      norm_num [FloatV.ge, Scenario.engine]
    have hgt : (FloatV.val 1).gt (.val 0) = true := by norm_num [FloatV.gt]
    rw [verifyUserWithDetails_of_loop (Scenario.engine .ADAPTIVE [Scenario.rgbDark])
      Scenario.world Scenario.files "vlad" Scenario.doc
      { participants := 1, successes := 1, overall_best_score := .val 1,
        log := [.fsExists "/etc/linuxcampam/users/vlad.json",
          .fsRead "/etc/linuxcampam/users/vlad.json", .capture "rgb"] }
      rfl (by decide) rfl ?_]
    · rfl
    · show detailLoop _ _ _ [Scenario.rgbDark] _ = _
      have hcap : Scenario.rgbDark.cam.capture = some { brightness := 10, faces := [[1]] } :=
        rfl
      have htype : Scenario.rgbDark.config.type = "rgb" := rfl
      simp only [detailLoop, detailCamera, hcap, htype, hload, List.isEmpty_cons,
        Bool.false_eq_true, if_false, List.length_singleton, ge_iff_le, le_refl, if_true,
        hbest, hgt, hge]
      rfl

/-! ## Cosine similarity -/

theorem dotFrom_zero {α : Type} (A : Arith α) (hadd : A.add A.zero A.zero = A.zero)
    (hmul : A.mul A.zero A.zero = A.zero) (n : Nat) :
    A.dotFrom A.zero (List.replicate n A.zero) (List.replicate n A.zero) = A.zero := by
  induction n with
  | zero => rfl
  | succ n ih =>
    simp only [List.replicate_succ, Arith.dotFrom, hmul, hadd]
    exact ih

/-- In every arithmetic in which 0 + 0, 0 · 0 and the square root of 0 are 0, the
similarity the engine computes for two all-zero vectors of the same length (also of
length 0) is the quotient of zero by zero. -/
theorem cosine_similarity_zero {α : Type} (A : Arith α)
    (hadd : A.add A.zero A.zero = A.zero) (hmul : A.mul A.zero A.zero = A.zero)
    (hsqrt : A.sqrt A.zero = A.zero) (n : Nat) :
    cosine_similarity A (List.replicate n A.zero) (List.replicate n A.zero)
      = .ok (A.div A.zero A.zero) := by
  simp only [cosine_similarity, if_true, Arith.norm, Arith.dot, dotFrom_zero A hadd hmul n,
    hsqrt, hmul]

theorem cosine_similarity_mismatch {α : Type} (A : Arith α) (a b : List α)
    (h : a.length ≠ b.length) : cosine_similarity A a b = .error .cv_assert := by
  simp only [cosine_similarity, h, if_false]

theorem root_zero : Scenario.root 0 = 0 := by
  simp [Scenario.root]

/-- C17, evaluated in floating-point arithmetic by class: for two all-zero vectors and
for two empty vectors the engine's `cosine_similarity` computes zero divided by zero,
which is NaN, and for vectors of different lengths it raises the exception of
`cv::Mat::dot`; the test suite's copy returns 0 in all three cases. The first two
facts hold in every arithmetic with 0 + 0 = 0 · 0 = √0 = 0, the third in every
arithmetic. -/
theorem C17_cosine_similarity_edge_cases :
    cosine_similarity (ieee Scenario.root) [.num 0, .num 0] [.num 0, .num 0] = .ok .nan ∧
    cosine_similarity (ieee Scenario.root) [] [] = .ok .nan ∧
    cosine_similarity (ieee Scenario.root) [.num 1] [.num 1, .num 2] = .error .cv_assert ∧
    Tests.cosine_similarity (ieee Scenario.root) Flt.isZero [.num 0, .num 0]
      [.num 0, .num 0] = .num 0 ∧
    Tests.cosine_similarity (ieee Scenario.root) Flt.isZero [] [] = .num 0 ∧
    Tests.cosine_similarity (ieee Scenario.root) Flt.isZero [.num 1] [.num 1, .num 2]
      = .num 0 ∧
    (∀ (α : Type) (A : Arith α) (a b : List α), a.length ≠ b.length →
      cosine_similarity A a b = .error .cv_assert) ∧
    (∀ (α : Type) (A : Arith α), A.add A.zero A.zero = A.zero →
      A.mul A.zero A.zero = A.zero → A.sqrt A.zero = A.zero → ∀ n : Nat,
      cosine_similarity A (List.replicate n A.zero) (List.replicate n A.zero)
        = .ok (A.div A.zero A.zero)) ∧
    (∀ root : ℚ → ℚ, (ieee root).div (ieee root).zero (ieee root).zero = .nan) := by
  have hadd : (ieee Scenario.root).add (ieee Scenario.root).zero (ieee Scenario.root).zero
      = (ieee Scenario.root).zero := by simp [ieee, Flt.add]
  have hmul : (ieee Scenario.root).mul (ieee Scenario.root).zero (ieee Scenario.root).zero
      = (ieee Scenario.root).zero := by simp [ieee, Flt.mul]
  have hsqrt : (ieee Scenario.root).sqrt (ieee Scenario.root).zero
      = (ieee Scenario.root).zero := by simp [ieee, Flt.sqrt, root_zero]
  have hdiv : ∀ root : ℚ → ℚ, (ieee root).div (ieee root).zero (ieee root).zero = .nan := by
    intro root
    simp [ieee, Flt.div]
  have hzero := cosine_similarity_zero (ieee Scenario.root) hadd hmul hsqrt
  refine ⟨?_, ?_, cosine_similarity_mismatch _ _ _ (by decide), ?_, rfl, rfl,
    fun α A a b h => cosine_similarity_mismatch A a b h,
    fun α A h1 h2 h3 n => cosine_similarity_zero A h1 h2 h3 n, hdiv⟩
  · have := hzero 2
    rw [hdiv] at this
    exact this
  · have := hzero 0
    rw [hdiv] at this
    exact this
  · have h0 : (ieee Scenario.root).dotFrom (ieee Scenario.root).zero
        (List.replicate 2 (ieee Scenario.root).zero)
        (List.replicate 2 (ieee Scenario.root).zero) = (ieee Scenario.root).zero :=
      dotFrom_zero _ hadd hmul 2
    have h1 : Flt.isZero (ieee Scenario.root).zero = true := by simp [ieee, Flt.isZero]
    show Tests.cosine_similarity (ieee Scenario.root) Flt.isZero
      (List.replicate 2 (ieee Scenario.root).zero)
      (List.replicate 2 (ieee Scenario.root).zero) = (ieee Scenario.root).zero
    simp only [Tests.cosine_similarity, Arith.dot, h0, hsqrt, hmul, h1, if_true, ite_self]

/-- A quotient of a perturbed sum of squares by the perturbed square of its perturbed
root stays within one thousandth of 1 when every relative error is at most one ten
thousandth. -/
theorem quotient_near_one (S s d n m r ε : ℝ) (hε0 : 0 ≤ ε) (hε : ε ≤ 1 / 10000)
    (hS : 0 < S) (hs : 0 < s) (hss : s * s = S)
    (hd : |d - S| ≤ ε * S) (hn : |n - s| ≤ ε * s)
    (hm : |m - n * n| ≤ ε * |n * n|) (hr0 : m ≠ 0 → |r - d / m| ≤ ε * |d / m|) :
    |r - 1| ≤ 1 / 1000 := by
  rw [abs_le] at hd hn
  have hn1 : (1 - ε) * s ≤ n := by linarith [hn.1]
  have hn2 : n ≤ (1 + ε) * s := by linarith [hn.2]
  have h1ε : 0 < 1 - ε := by linarith
  have hnpos : 0 < n := lt_of_lt_of_le (mul_pos h1ε hs) hn1
  have hnn1 : (1 - ε) ^ 2 * S ≤ n * n := by
    have := mul_le_mul hn1 hn1 (le_of_lt (mul_pos h1ε hs)) (le_of_lt hnpos)
    calc (1 - ε) ^ 2 * S = (1 - ε) * s * ((1 - ε) * s) := by rw [← hss]; ring
      _ ≤ n * n := this
  have hnn2 : n * n ≤ (1 + ε) ^ 2 * S := by
    have := mul_le_mul hn2 hn2 (le_of_lt hnpos) (by positivity : (0:ℝ) ≤ (1 + ε) * s)
    calc n * n ≤ (1 + ε) * s * ((1 + ε) * s) := this
      _ = (1 + ε) ^ 2 * S := by rw [← hss]; ring
  have hnnpos : 0 < n * n := mul_pos hnpos hnpos
  rw [abs_of_pos hnnpos, abs_le] at hm
  have hm1 : (1 - ε) ^ 3 * S ≤ m := by
    have : (1 - ε) * ((1 - ε) ^ 2 * S) ≤ (1 - ε) * (n * n) :=
      mul_le_mul_of_nonneg_left hnn1 (le_of_lt h1ε)
    nlinarith [hm.1]
  have hm2 : m ≤ (1 + ε) ^ 3 * S := by
    have : (1 + ε) * (n * n) ≤ (1 + ε) * ((1 + ε) ^ 2 * S) :=
      mul_le_mul_of_nonneg_left hnn2 (by linarith)
    nlinarith [hm.2]
  have hmpos : 0 < m := lt_of_lt_of_le (by positivity) hm1
  have hdpos : 0 < d := by nlinarith [hd.1]
  have hqpos : 0 < d / m := div_pos hdpos hmpos
  have hr := hr0 (ne_of_gt hmpos)
  rw [abs_of_pos hqpos, abs_le] at hr
  have hqm : d / m * m = d := div_mul_cancel₀ d (ne_of_gt hmpos)
  have hr1 : (1 - ε) * d ≤ r * m := by
    have := mul_le_mul_of_nonneg_right (by linarith [hr.1] : (1 - ε) * (d / m) ≤ r)
      (le_of_lt hmpos)
    calc (1 - ε) * d = (1 - ε) * (d / m) * m := by rw [mul_assoc, hqm]
      _ ≤ r * m := this
  have hr2 : r * m ≤ (1 + ε) * d := by
    have := mul_le_mul_of_nonneg_right (by linarith [hr.2] : r ≤ (1 + ε) * (d / m))
      (le_of_lt hmpos)
    calc r * m ≤ (1 + ε) * (d / m) * m := this
      _ = (1 + ε) * d := by rw [mul_assoc, hqm]
  have hp2 : (1 + ε) ^ 2 ≤ (1 + 1 / 10000) ^ 2 := by gcongr
  have hp3 : (1 + ε) ^ 3 ≤ (1 + 1 / 10000) ^ 3 := by gcongr
  have hq2 : (1 - 1 / 10000 : ℝ) ^ 2 ≤ (1 - ε) ^ 2 := by gcongr
  have hq3 : (1 - 1 / 10000 : ℝ) ^ 3 ≤ (1 - ε) ^ 3 := by gcongr
  rw [abs_le]
  constructor
  · -- lower bound
    have hlow : (1 - 1 / 1000) * m ≤ r * m := by
      have h1 : (1 - 1 / 1000) * m ≤ (1 - 1 / 1000) * ((1 + ε) ^ 3 * S) :=
        mul_le_mul_of_nonneg_left hm2 (by norm_num)
      have h2 : (1 - ε) * ((1 - ε) * S) ≤ (1 - ε) * d :=
        mul_le_mul_of_nonneg_left (by linarith [hd.1]) (le_of_lt h1ε)
      have h3 : (1 - 1 / 1000 : ℝ) * (1 + 1 / 10000) ^ 3 ≤ (1 - 1 / 10000) ^ 2 := by norm_num
      have h4 : (1 - 1 / 1000) * ((1 + ε) ^ 3 * S) ≤ (1 - ε) ^ 2 * S := by
        have : (1 - 1 / 1000) * (1 + ε) ^ 3 ≤ (1 - ε) ^ 2 := by
          calc (1 - 1 / 1000) * (1 + ε) ^ 3 ≤ (1 - 1 / 1000) * (1 + 1 / 10000) ^ 3 :=
                mul_le_mul_of_nonneg_left hp3 (by norm_num)
            _ ≤ (1 - 1 / 10000) ^ 2 := h3
            _ ≤ (1 - ε) ^ 2 := hq2
        calc (1 - 1 / 1000) * ((1 + ε) ^ 3 * S) = (1 - 1 / 1000) * (1 + ε) ^ 3 * S := by ring
          _ ≤ (1 - ε) ^ 2 * S := mul_le_mul_of_nonneg_right this (le_of_lt hS)
      calc (1 - 1 / 1000) * m ≤ (1 - 1 / 1000) * ((1 + ε) ^ 3 * S) := h1
        _ ≤ (1 - ε) ^ 2 * S := h4
        _ = (1 - ε) * ((1 - ε) * S) := by ring
        _ ≤ (1 - ε) * d := h2
        _ ≤ r * m := hr1
    have := le_of_mul_le_mul_right hlow hmpos
    linarith
  · have hup : r * m ≤ (1 + 1 / 1000) * m := by
      have h1 : (1 + 1 / 1000) * ((1 - ε) ^ 3 * S) ≤ (1 + 1 / 1000) * m :=
        mul_le_mul_of_nonneg_left hm1 (by norm_num)
      have h2 : (1 + ε) * d ≤ (1 + ε) * ((1 + ε) * S) :=
        mul_le_mul_of_nonneg_left (by linarith [hd.2]) (by linarith)
      have h3 : (1 + 1 / 10000 : ℝ) ^ 2 ≤ (1 + 1 / 1000) * (1 - 1 / 10000) ^ 3 := by norm_num
      have h4 : (1 + ε) ^ 2 * S ≤ (1 + 1 / 1000) * ((1 - ε) ^ 3 * S) := by
        have : (1 + ε) ^ 2 ≤ (1 + 1 / 1000) * (1 - ε) ^ 3 := by
          calc (1 + ε) ^ 2 ≤ (1 + 1 / 10000) ^ 2 := hp2
            _ ≤ (1 + 1 / 1000) * (1 - 1 / 10000) ^ 3 := h3
            _ ≤ (1 + 1 / 1000) * (1 - ε) ^ 3 :=
                mul_le_mul_of_nonneg_left hq3 (by norm_num)
        calc (1 + ε) ^ 2 * S ≤ (1 + 1 / 1000) * (1 - ε) ^ 3 * S :=
              mul_le_mul_of_nonneg_right this (le_of_lt hS)
          _ = (1 + 1 / 1000) * ((1 - ε) ^ 3 * S) := by ring
      calc r * m ≤ (1 + ε) * d := hr2
        _ ≤ (1 + ε) * ((1 + ε) * S) := h2
        _ = (1 + ε) ^ 2 * S := by ring
        _ ≤ (1 + 1 / 1000) * ((1 - ε) ^ 3 * S) := h4
        _ ≤ (1 + 1 / 1000) * m := h1
    have := le_of_mul_le_mul_right hup hmpos
    linarith

theorem dotFrom_ofField {K : Type} [Field K] (s : K → K) (acc : K) (v : List K) :
    (Arith.ofField s).dotFrom acc v v = acc + sumSquares v := by
  induction v generalizing acc with
  | nil => simp [Arith.dotFrom, sumSquares]
  | cons x rest ih =>
    show (Arith.ofField s).dotFrom
      ((Arith.ofField s).add acc ((Arith.ofField s).mul x x)) rest rest = _
    rw [ih]
    simp only [sumSquares, List.map_cons, List.sum_cons, Arith.ofField]
    ring

theorem dot_self_ofField {K : Type} [Field K] (s : K → K) (v : List K) :
    (Arith.ofField s).dot v v = sumSquares v := by
  simp only [Arith.dot, dotFrom_ofField]
  simp [Arith.ofField]

theorem sumSquares_nonneg (v : List ℝ) : 0 ≤ sumSquares v := by
  induction v with
  | nil => simp [sumSquares]
  | cons x rest ih =>
    have : sumSquares (x :: rest) = x * x + sumSquares rest := by simp [sumSquares]
    rw [this]
    nlinarith [mul_self_nonneg x]

theorem sumSquares_pos (v : List ℝ) (hv : ∃ x ∈ v, x ≠ 0) : 0 < sumSquares v := by
  induction v with
  | nil =>
    obtain ⟨x, hx, -⟩ := hv
    exact absurd hx (List.not_mem_nil _)
  | cons y rest ih =>
    have hcons : sumSquares (y :: rest) = y * y + sumSquares rest := by simp [sumSquares]
    rw [hcons]
    obtain ⟨x, hx, hne⟩ := hv
    rcases List.mem_cons.1 hx with h | h
    · subst h
      have : 0 < x * x := mul_self_pos.2 hne
      linarith [sumSquares_nonneg rest]
    · have := ih ⟨x, h, hne⟩
      nlinarith [mul_self_nonneg y]

/-- C18: for every vector of real numbers with a non-zero component, the engine's
`cosine_similarity(v, v)` and the test suite's copy equal 1 in exact real arithmetic;
and in every arithmetic that computes the dot product and the norm of `v`, products
and quotients with relative error at most 1/10000, both lie within 1/1000 of 1. -/
theorem C18_cosine_similarity_self (v : List ℝ) (hv : ∃ x ∈ v, x ≠ 0) :
    cosine_similarity (Arith.ofField Real.sqrt) v v = .ok 1 ∧
    Tests.cosine_similarity (Arith.ofField Real.sqrt) (fun x => decide (x = 0)) v v = 1 ∧
    ∀ (A : Arith ℝ) (ε : ℝ), 0 ≤ ε → ε ≤ 1 / 10000 → AccurateOn A ε v →
      (∃ r, cosine_similarity A v v = .ok r ∧ |r - 1| ≤ 1 / 1000) ∧
      ∀ isZero : ℝ → Bool, (∀ x, isZero x = true ↔ x = 0) →
        |Tests.cosine_similarity A isZero v v - 1| ≤ 1 / 1000 := by
  have hS := sumSquares_pos v hv
  have hsq : Real.sqrt (sumSquares v) * Real.sqrt (sumSquares v) = sumSquares v :=
    Real.mul_self_sqrt (le_of_lt hS)
  have hspos : 0 < Real.sqrt (sumSquares v) := Real.sqrt_pos.2 hS
  have hne : v.isEmpty = false := by
    obtain ⟨x, hx, -⟩ := hv
    cases v with
    | nil => exact absurd hx (List.not_mem_nil _)
    | cons y rest => rfl
  refine ⟨?_, ?_, ?_⟩
  · have h1 : (Arith.ofField Real.sqrt).div (sumSquares v)
        ((Arith.ofField Real.sqrt).mul (Real.sqrt (sumSquares v))
          (Real.sqrt (sumSquares v))) = 1 := by
      show sumSquares v / (Real.sqrt (sumSquares v) * Real.sqrt (sumSquares v)) = 1
      rw [hsq, div_self (ne_of_gt hS)]
    have h2 : (Arith.ofField Real.sqrt).sqrt (sumSquares v) = Real.sqrt (sumSquares v) := rfl
    simp only [cosine_similarity, if_true, Arith.norm, dot_self_ofField, h2, h1]
  · have h2 : (Arith.ofField Real.sqrt).sqrt (sumSquares v) = Real.sqrt (sumSquares v) := rfl
    have h3 : (Arith.ofField Real.sqrt).mul (Real.sqrt (sumSquares v))
        (Real.sqrt (sumSquares v)) = sumSquares v := hsq
    have h4 : (Arith.ofField Real.sqrt).div (sumSquares v) (sumSquares v) = 1 :=
      div_self (ne_of_gt hS)
    simp only [Tests.cosine_similarity, bne_self_eq_false, hne, Bool.or_self,
      Bool.false_eq_true, if_false, dot_self_ofField, h2, h3, h4, decide_eq_true_eq,
      ne_of_gt hS]
  · intro A ε hε0 hε hacc
    obtain ⟨hd, hn, hmul, hdiv⟩ := hacc
    have hnear := quotient_near_one (sumSquares v) (Real.sqrt (sumSquares v)) (A.dot v v)
      (A.norm v) (A.mul (A.norm v) (A.norm v))
      (A.div (A.dot v v) (A.mul (A.norm v) (A.norm v))) ε hε0 hε hS hspos hsq hd hn
      (hmul _ _) (hdiv _ _)
    refine ⟨⟨_, by simp only [cosine_similarity, if_true], hnear⟩, ?_⟩
    intro isZero hz
    have hm0 : A.mul (A.norm v) (A.norm v) ≠ 0 := by
      have hn1 := (abs_le.1 hn).1
      have h1ε : 0 < 1 - ε := by linarith
      have hnpos : 0 < A.norm v := by
        have : 0 < (1 - ε) * Real.sqrt (sumSquares v) := mul_pos h1ε hspos
        linarith
      have hnn : 0 < A.norm v * A.norm v := mul_pos hnpos hnpos
      have hmz := hmul (A.norm v) (A.norm v)
      rw [abs_of_pos hnn] at hmz
      have hm1 := (abs_le.1 hmz).1
      have : 0 < (1 - ε) * (A.norm v * A.norm v) := mul_pos h1ε hnn
      intro h0
      rw [h0] at hm1
      linarith
    have hzf : isZero (A.mul (A.sqrt (A.dot v v)) (A.sqrt (A.dot v v))) = false := by
      rw [Bool.eq_false_iff]
      intro h
      exact hm0 ((hz _).1 h)
    simp only [Tests.cosine_similarity, bne_self_eq_false, hne, Bool.or_self,
      Bool.false_eq_true, if_false, hzf]
    exact hnear

/-- C18 at the vector of the test: 128 components equal to 0.5. -/
theorem C18_cosine_similarity_self_witness :
    cosine_similarity (Arith.ofField Real.sqrt) (List.replicate 128 (1 / 2 : ℝ))
      (List.replicate 128 (1 / 2 : ℝ)) = .ok 1 ∧
    Tests.cosine_similarity (Arith.ofField Real.sqrt) (fun x => decide (x = 0))
      (List.replicate 128 (1 / 2 : ℝ)) (List.replicate 128 (1 / 2 : ℝ)) = 1 ∧
    ∀ (A : Arith ℝ) (ε : ℝ), 0 ≤ ε → ε ≤ 1 / 10000 →
      AccurateOn A ε (List.replicate 128 (1 / 2 : ℝ)) →
      (∃ r, cosine_similarity A (List.replicate 128 (1 / 2 : ℝ))
          (List.replicate 128 (1 / 2 : ℝ)) = .ok r ∧ |r - 1| ≤ 1 / 1000) ∧
      ∀ isZero : ℝ → Bool, (∀ x, isZero x = true ↔ x = 0) →
        |Tests.cosine_similarity A isZero (List.replicate 128 (1 / 2 : ℝ))
          (List.replicate 128 (1 / 2 : ℝ)) - 1| ≤ 1 / 1000 :=
  C18_cosine_similarity_self (List.replicate 128 (1 / 2 : ℝ))
    ⟨1 / 2, List.mem_replicate.2 ⟨by decide, rfl⟩, by norm_num⟩

/-! ## The capacity invariant on the paths that keep it -/

theorem findAndUpdate_arr (label : String) (upd : Json → Except Err Json) (a a1 : Json)
    (b : Bool) (l1 : List Json) (h : findAndUpdate label upd a = .ok (b, a1))
    (h1 : a1 = .arr l1) :
    (∃ l, a = .arr l ∧ l.length = l1.length) := by
  subst h1
  cases a with
  | arr l =>
    simp only [findAndUpdate] at h
    cases h2 : updateFirstLabelled label upd l with
    | error err => rw [h2] at h; exact absurd h (by simp)
    | ok r =>
      obtain ⟨found, l2⟩ := r
      rw [h2] at h
      simp only [Except.ok.injEq, Prod.mk.injEq, Json.arr.injEq] at h
      refine ⟨l, rfl, ?_⟩
      rw [← h.2]
      clear h
      induction l generalizing l2 found with
      | nil =>
        simp only [updateFirstLabelled, Except.ok.injEq, Prod.mk.injEq] at h2
        rw [← h2.2]
      | cons en rest ih =>
        simp only [updateFirstLabelled] at h2
        cases h3 : entryLabelIs en label with
        | error err => rw [h3] at h2; exact absurd h2 (by simp)
        | ok r3 =>
          obtain ⟨c, en1⟩ := r3
          rw [h3] at h2
          cases c with
          | true =>
            simp only at h2
            cases h4 : upd en1 with
            | error err => rw [h4] at h2; exact absurd h2 (by simp)
            | ok en2 =>
              rw [h4] at h2
              simp only [Except.ok.injEq, Prod.mk.injEq] at h2
              rw [← h2.2]
              rfl
          | false =>
            simp only at h2
            cases h4 : updateFirstLabelled label upd rest with
            | error err => rw [h4] at h2; exact absurd h2 (by simp)
            | ok r4 =>
              obtain ⟨f4, rest1⟩ := r4
              rw [h4] at h2
              simp only [Except.ok.injEq, Prod.mk.injEq] at h2
              rw [← h2.2, List.length_cons, List.length_cons, ih f4 rest1 h4]
  | null =>
    simp only [findAndUpdate, Except.ok.injEq, Prod.mk.injEq] at h
    exact absurd h.2 (by simp)
  | obj fs =>
    simp only [findAndUpdate] at h
    cases h2 : updateFirstLabelled label upd (fs.map Prod.snd) with
    | error err => rw [h2] at h; exact absurd h (by simp)
    | ok r =>
      rw [h2] at h
      simp only [Except.ok.injEq, Prod.mk.injEq] at h
      exact absurd h.2 (by simp)
  | bool x => exact absurd h (by simp [findAndUpdate])
  | num x => exact absurd h (by simp [findAndUpdate])
  | str x => exact absurd h (by simp [findAndUpdate])

theorem findAndUpdate_null (label : String) (upd : Json → Except Err Json) (a : Json)
    (b : Bool) (h : findAndUpdate label upd a = .ok (b, .null)) : a = .null := by
  cases a with
  | null => rfl
  | arr l =>
    simp only [findAndUpdate] at h
    cases h2 : updateFirstLabelled label upd l with
    | error err => rw [h2] at h; exact absurd h (by simp)
    | ok r => rw [h2] at h; exact absurd h (by simp)
  | obj fs =>
    simp only [findAndUpdate] at h
    cases h2 : updateFirstLabelled label upd (fs.map Prod.snd) with
    | error err => rw [h2] at h; exact absurd h (by simp)
    | ok r => rw [h2] at h; exact absurd h (by simp)
  | bool x => exact absurd h (by simp [findAndUpdate])
  | num x => exact absurd h (by simp [findAndUpdate])
  | str x => exact absurd h (by simp [findAndUpdate])

/-- After the initialisation of the array of a type, the array of that type is within
the capacity when the arrays of the document were. -/
theorem initArray_within (m : Nat) (hm : 0 < m) (fs fs1 : Fields) (now : Int) (t : String)
    (h : initArray (.obj fs) now t = .ok (.obj fs1)) (hcap : WithinCapacity m (.obj fs))
    (l : List Json) (hl : (Json.obj fs1).getKey ("embeddings_" ++ t) = .arr l) :
    l.length ≤ m := by
  obtain ⟨fs0, h0, -, hsame, hnew⟩ := initArray_inv fs now t _ h
  simp only [Json.obj.injEq] at h0
  subst h0
  cases hA : Fields.find fs ("embeddings_" ++ t) with
  | some a =>
    rw [hsame (by rw [hA]; rfl)] at hl
    exact hcap t l hl
  | none =>
    rcases (hnew hA).2 with ⟨-, h2⟩ | ⟨legacy, c, -, h2⟩
    · rw [Json.getKey_obj, h2] at hl
      simp only [Option.getD_some, Json.arr.injEq] at hl
      rw [← hl]
      exact Nat.zero_le _
    · rw [Json.getKey_obj, h2] at hl
      simp only [Option.getD_some, Json.arr.injEq] at hl
      rw [← hl]
      exact hm

theorem not_at_capacity (cfg : Config) (m : Nat) (a : Json) (l : List Json)
    (hmax : cfg.max_embeddings = (m : Int)) (hm : 0 < m) (ha : a = .arr l)
    (h : ¬ (cfg.max_embeddings > 0 ∧ a.size ≥ cfg.max_embeddings.toNat)) : l.length < m := by
  have h1 : cfg.max_embeddings > 0 := by rw [hmax]; exact_mod_cast hm
  have h2 : cfg.max_embeddings.toNat = m := by rw [hmax]; exact Int.toNat_natCast m
  rw [ha, h2] at h
  simp only [Json.size] at h
  by_contra hc
  exact h ⟨h1, by omega⟩

/-- Appending one entry below the capacity, or to a null value, stays within the
capacity. -/
theorem push_back_within (cfg : Config) (m : Nat) (hmax : cfg.max_embeddings = (m : Int))
    (hm : 0 < m) (a a0 : Json) (entry : Json) (l : List Json)
    (ha : a0 = .null → a = .null)
    (hlen : ∀ l0, a0 = .arr l0 → ∃ la, a = .arr la ∧ la.length = l0.length)
    (hnot : ¬ (cfg.max_embeddings > 0 ∧ a.size ≥ cfg.max_embeddings.toNat))
    (hpush : a0.push_back entry = .ok (.arr l)) : l.length ≤ m := by
  cases a0 with
  | null =>
    simp only [Json.push_back, Except.ok.injEq, Json.arr.injEq] at hpush
    rw [← hpush]
    exact hm
  | arr l0 =>
    simp only [Json.push_back, Except.ok.injEq, Json.arr.injEq] at hpush
    obtain ⟨la, hla, hlen1⟩ := hlen l0 rfl
    have := not_at_capacity cfg m a la hmax hm hla hnot
    rw [← hpush, List.length_append, List.length_singleton]
    omega
  | bool x => exact absurd hpush (by simp [Json.push_back])
  | num x => exact absurd hpush (by simp [Json.push_back])
  | str x => exact absurd hpush (by simp [Json.push_back])
  | obj x => exact absurd hpush (by simp [Json.push_back])

/-- A pass of the loop of `setLabel` that changes the document keeps every array
within the capacity. -/
theorem setLabelBody_within (cfg : Config) (now : Int) (ver label t1 : String)
    (j j2 : Json) (m : Nat) (hmax : cfg.max_embeddings = (m : Int)) (hm : 0 < m)
    (h : setLabelBody cfg now ver label t1 j = .update j2) (hcap : WithinCapacity m j) :
    WithinCapacity m j2 := by
  intro t l hl
  by_cases ht : t1 = t
  · subst ht
    obtain ⟨fs, p, j1, a1, rfl, -, hinit, hfin, hrel⟩ :=
      setLabelBody_update_inv cfg now ver label t1 j j2 h
    obtain ⟨fs1, rfl, -⟩ := initArray_inv fs now t1 j1 hinit
    have hbound := initArray_within m hm fs fs1 now t1 hinit hcap
    simp only [finishCommit, Json.assign, Json.erase, Except.ok.injEq] at hfin
    subst hfin
    rw [Json.getKey_obj, Fields.find_erase_ne _ _ _ (pending_ne_embeddings t1 t1).symm,
      Fields.find_set_eq] at hl
    simp only [Option.getD_some] at hl
    subst hl
    rcases hrel with hfind | ⟨hnot, a0, hfind, hpush⟩
    · obtain ⟨l0, ha, hlen⟩ := findAndUpdate_arr label _ _ _ true l hfind rfl
      rw [← hlen]
      exact hbound l0 ha
    · exact push_back_within cfg m hmax hm _ a0 _ l
        (fun h0 => findAndUpdate_null label _ _ false (h0 ▸ hfind))
        (fun l0 h0 => by
          obtain ⟨la, hla, hlen⟩ := findAndUpdate_arr label _ _ _ false l0 hfind h0
          exact ⟨la, hla, hlen⟩)
        hnot hpush
  · obtain ⟨fs, fs2, rfl, rfl, hA, -, -⟩ :=
      setLabelBody_other cfg now ver label t1 t j j2 h ht
    rw [Json.getKey_obj, hA, ← Json.getKey_obj] at hl
    exact hcap t l hl

/-- A pass of the loop of `trainUser` in create-new mode that changes an object keeps
every array within the capacity. -/
theorem trainBody_within (cfg : Config) (w : World) (label : String) (ac : ActiveCamera)
    (fs : Fields) (j2 : Json) (m : Nat) (hmax : cfg.max_embeddings = (m : Int)) (hm : 0 < m)
    (h : trainBody cfg w label true ac (.obj fs) = .update j2)
    (hcap : WithinCapacity m (.obj fs)) :
    ∃ fs2, j2 = .obj fs2 ∧ WithinCapacity m (.obj fs2) := by
  obtain ⟨frame, new_vec, j1, a1, -, -, hinit, hassign, hrel⟩ :=
    trainBody_update_inv cfg w label true ac _ j2 h
  obtain ⟨fs1, rfl, -⟩ := initArray_inv fs w.now ac.config.type j1 hinit
  have hbound := initArray_within m hm fs fs1 w.now ac.config.type hinit hcap
  simp only [Json.assign, Except.ok.injEq] at hassign
  subst hassign
  refine ⟨_, rfl, ?_⟩
  intro t l hl
  by_cases ht : ac.config.type = t
  · subst ht
    rw [Json.getKey_obj, Fields.find_set_eq] at hl
    simp only [Option.getD_some] at hl
    subst hl
    rcases hrel with ⟨-, hnot, hpush⟩ | ⟨hcn, -⟩ | ⟨hcn, -⟩
    · exact push_back_within cfg m hmax hm _ _ _ l (fun h0 => h0)
        (fun l0 h0 => ⟨l0, h0, rfl⟩) hnot hpush
    · exact absurd hcn (by simp)
    · exact absurd hcn (by simp)
  · obtain ⟨fs2, h2, hA, -, -⟩ := trainBody_other cfg w label true ac fs _ t h ht
    simp only [Json.obj.injEq] at h2
    rw [Json.getKey_obj, h2, hA, ← Json.getKey_obj] at hl
    exact hcap t l hl

theorem setLabelLoop_within (cfg : Config) (now : Int) (ver label : String) (m : Nat)
    (hmax : cfg.max_embeddings = (m : Int)) (hm : 0 < m)
    (cams : List ActiveCamera) (j : Json) (updated : Bool)
    (j1 : Json) (updated1 : Bool) (log1 : List Effect)
    (h : setLabelLoop cfg now ver label cams j updated = .finished j1 updated1 log1)
    (hcap : WithinCapacity m j) : WithinCapacity m j1 := by
  induction cams generalizing j updated with
  | nil =>
    simp only [setLabelLoop, StoreLoopEnd.finished.injEq] at h
    exact h.1 ▸ hcap
  | cons ac rest ih =>
    rw [setLabelLoop_cons] at h
    cases hb : setLabelBody cfg now ver label ac.config.type j with
    | skip => rw [hb] at h; exact ih j updated h hcap
    | update j2 =>
      rw [hb] at h
      exact ih j2 true h (setLabelBody_within cfg now ver label _ j j2 m hmax hm hb hcap)
    | stop b => rw [hb] at h; exact absurd h (by simp)
    | raise err => rw [hb] at h; exact absurd h (by simp)

theorem trainLoop_within (cfg : Config) (w : World) (label : String) (m : Nat)
    (hmax : cfg.max_embeddings = (m : Int)) (hm : 0 < m)
    (cams : List ActiveCamera) (fs : Fields) (updated : Bool) (log : List Effect)
    (j1 : Json) (updated1 : Bool) (log1 : List Effect)
    (h : trainLoop cfg w label true cams (.obj fs) updated log = .finished j1 updated1 log1)
    (hcap : WithinCapacity m (.obj fs)) : WithinCapacity m j1 := by
  induction cams generalizing fs updated log with
  | nil =>
    simp only [trainLoop, StoreLoopEnd.finished.injEq] at h
    exact h.1 ▸ hcap
  | cons ac rest ih =>
    rw [trainLoop_cons] at h
    cases hb : trainBody cfg w label true ac (.obj fs) with
    | skip => rw [hb] at h; exact ih fs updated _ h hcap
    | update j2 =>
      rw [hb] at h
      obtain ⟨fs2, rfl, hcap2⟩ := trainBody_within cfg w label ac fs j2 m hmax hm hb hcap
      exact ih fs2 true _ h hcap2
    | stop b => rw [hb] at h; exact absurd h (by simp)
    | raise err => rw [hb] at h; exact absurd h (by simp)

theorem setLabel_fs_unchanged (e : AuthEngine) (w : World) (fs : FS) (u label : String)
    (h : (setLabel e w fs u label).result ≠ .ok true) : (setLabel e w fs u label).fs = fs := by
  unfold setLabel at h ⊢
  split_ifs at h ⊢ with hv
  · rfl
  · dsimp only at h ⊢
    cases hj : fs (userFile e.config u) with
    | none => rfl
    | some j =>
      rw [hj] at h
      simp only at h ⊢
      cases hloop : setLabelLoop e.config w.now (getModelVersion e.recognition_model_path)
          label e.active_cameras j false with
      | returned b log => rfl
      | thrown err log => rfl
      | finished j1 updated log =>
        rw [hloop] at h
        cases updated with
        | false => rfl
        | true => exact absurd rfl h

theorem trainUser_fs_unchanged (e : AuthEngine) (w : World) (fs : FS) (u label : String)
    (create_new : Bool) (h : (trainUser e w fs u label create_new).result ≠ .ok true) :
    (trainUser e w fs u label create_new).fs = fs := by
  unfold trainUser at h ⊢
  dsimp only at h ⊢
  split_ifs at h ⊢ with hl hv
  · rfl
  · rfl
  · cases hj : fs (userFile (ensureModelsLoaded e w).2.config u) with
    | none => rfl
    | some j =>
      rw [hj] at h
      simp only at h ⊢
      cases hloop : trainLoop (ensureModelsLoaded e w).2.config w label create_new
          (ensureModelsLoaded e w).2.active_cameras j false
          [.fsExists (userFile (ensureModelsLoaded e w).2.config u),
            .fsRead (userFile (ensureModelsLoaded e w).2.config u)] with
      | returned b log => rfl
      | thrown err log => rfl
      | finished j1 updated log =>
        rw [hloop] at h
        cases updated with
        | false => rfl
        | true => exact absurd rfl h

/-- What `removeEmbedding` leaves in the file system: nothing new, or the document
with the arrays of the configured types filtered. -/
theorem removeEmbedding_fs (e : AuthEngine) (fs : FS) (u label : String) :
    (removeEmbedding e fs u label).fs = fs ∨
    ∃ fields fields1, fs (userFile e.config u) = some (.obj fields) ∧
      (removeEmbedding e fs u label).fs = fs.write (userFile e.config u) (.obj fields1) ∧
      ∀ key, Fields.find fields1 key = (Fields.find fields key).map (withoutLabel label) ∨
        Fields.find fields1 key = Fields.find fields key := by
  unfold removeEmbedding
  split_ifs with hv
  · exact Or.inl rfl
  · dsimp only
    cases hj : fs (userFile e.config u) with
    | none => exact Or.inl rfl
    | some j =>
      simp only
      split_ifs with hr
      · right
        cases j with
        | obj fields =>
          obtain ⟨fields1, r, hloop, -, hin, hout, -⟩ :=
            removeLoop_spec label e.active_cameras fields false
          refine ⟨fields, fields1, rfl, by rw [hloop], ?_⟩
          intro key
          by_cases hc : ∃ ac ∈ e.active_cameras, key = "embeddings_" ++ ac.config.type
          · exact Or.inl (hin key hc)
          · exact Or.inr (hout key (fun ac hac hk => hc ⟨ac, hac, hk⟩))
        | _ =>
          rw [removeLoop_labelAbsent label _ _ false
            (fun ac _ l hl => absurd hl (by simp [Json.getKey]))] at hr
          exact absurd hr (by simp)
      · exact Or.inl rfl

theorem withoutLabel_within (label : String) (m : Nat) (v : Json) (l : List Json)
    (hv : ∀ l0, v = .arr l0 → l0.length ≤ m) (h : withoutLabel label v = .arr l) :
    l.length ≤ m := by
  cases v with
  | arr l0 =>
    simp only [withoutLabel, Json.arr.injEq] at h
    rw [← h]
    exact le_trans (List.length_filter_le _ _) (hv l0 rfl)
  | null => exact absurd h (by simp [withoutLabel])
  | bool x => exact absurd h (by simp [withoutLabel])
  | num x => exact absurd h (by simp [withoutLabel])
  | str x => exact absurd h (by simp [withoutLabel])
  | obj x => exact absurd h (by simp [withoutLabel])

/-- The operations that keep the capacity invariant: after `setLabel`, after
`trainUser` in create-new mode on a document that is an object, and after
`removeEmbedding`, the stored document has every array within the capacity when it had
before. -/
theorem capacity_kept (e : AuthEngine) (w : World) (fs : FS) (u label : String) (m : Nat)
    (j j1 : Json) (hmax : e.config.max_embeddings = (m : Int)) (hm : 0 < m)
    (hj : fs (userFile e.config u) = some j) (hcap : WithinCapacity m j) :
    ((setLabel e w fs u label).fs (userFile e.config u) = some j1 → WithinCapacity m j1) ∧
    ((∃ fields, j = .obj fields) →
      (trainUser e w fs u label true).fs (userFile e.config u) = some j1 →
      WithinCapacity m j1) ∧
    ((removeEmbedding e fs u label).fs (userFile e.config u) = some j1 →
      WithinCapacity m j1) := by
  refine ⟨?_, ?_, ?_⟩
  · intro h1
    by_cases hres : (setLabel e w fs u label).result = .ok true
    · obtain ⟨j0, jw, log, hj0, hloop, hfs⟩ := setLabel_true_inv e w fs u label hres
      rw [hj] at hj0
      simp only [Option.some.injEq] at hj0
      subst hj0
      rw [hfs, FS.write_same] at h1
      simp only [Option.some.injEq] at h1
      rw [← h1]
      exact setLabelLoop_within _ _ _ label m hmax hm _ j false jw true log hloop hcap
    · rw [setLabel_fs_unchanged e w fs u label hres, hj] at h1
      simp only [Option.some.injEq] at h1
      exact h1 ▸ hcap
  · rintro ⟨fields, rfl⟩ h1
    by_cases hres : (trainUser e w fs u label true).result = .ok true
    · obtain ⟨j0, jw, log, hj0, hloop, hfs⟩ := trainUser_true_inv e w fs u label true hres
      rw [hj] at hj0
      simp only [Option.some.injEq] at hj0
      subst hj0
      rw [hfs, FS.write_same] at h1
      simp only [Option.some.injEq] at h1
      rw [← h1]
      exact trainLoop_within _ w label m hmax hm _ fields false _ jw true log hloop hcap
    · rw [trainUser_fs_unchanged e w fs u label true hres, hj] at h1
      simp only [Option.some.injEq] at h1
      exact h1 ▸ hcap
  · intro h1
    rcases removeEmbedding_fs e fs u label with h0 | ⟨fields, fields1, hj0, hfs, hfind⟩
    · rw [h0, hj] at h1
      simp only [Option.some.injEq] at h1
      exact h1 ▸ hcap
    · rw [hj] at hj0
      simp only [Option.some.injEq] at hj0
      subst hj0
      rw [hfs, FS.write_same] at h1
      simp only [Option.some.injEq] at h1
      subst h1
      intro t l hl
      rw [Json.getKey_obj] at hl
      rcases hfind ("embeddings_" ++ t) with h2 | h2
      · rw [h2] at hl
        cases hf : Fields.find fields ("embeddings_" ++ t) with
        | none => rw [hf] at hl; exact absurd hl (by simp)
        | some v =>
          rw [hf] at hl
          simp only [Option.map_some', Option.getD_some] at hl
          refine withoutLabel_within label m v l ?_ hl
          intro l0 hv
          exact hcap t l0 (by rw [Json.getKey_obj, hf, hv]; rfl)
      · rw [h2, ← Json.getKey_obj] at hl
        exact hcap t l hl

/-- C11, evaluated: with `max_embeddings = 2`, one color camera that sees one face and
a document whose `embeddings_rgb` array holds the two labels "default" and "glasses",
`trainUser` in refine mode with the new label "hat" returns true and writes a document
whose `embeddings_rgb` array has three entries. Training in create-new mode with the
same label is refused at the same input and writes nothing. The other operations keep
the invariant: after `setLabel`, after `trainUser` in create-new mode (on a document
that is an object) and after `removeEmbedding`, every array of the stored document has
at most m entries when this held before and `max_embeddings = m > 0`. -/
theorem C11_refine_mode_exceeds_capacity :
    Scenario.smallEngine.config.max_embeddings = 2 ∧
    WithinCapacity 2 (.obj Scenario.fullFields) ∧
    (trainUser Scenario.smallEngine Scenario.world Scenario.fullFiles "vlad" "hat"
      false).result = .ok true ∧
    (∃ j1, (trainUser Scenario.smallEngine Scenario.world Scenario.fullFiles "vlad" "hat"
        false).fs "/etc/linuxcampam/users/vlad.json" = some j1 ∧
      j1.getKey "embeddings_rgb" =
        .arr [Scenario.entry "default" 1, Scenario.entry "glasses" 2,
          trainedEntry "hat" [1] 1700000000] ∧
      ¬ WithinCapacity 2 j1) ∧
    (trainUser Scenario.smallEngine Scenario.world Scenario.fullFiles "vlad" "hat"
      true).result = .ok false ∧
    (trainUser Scenario.smallEngine Scenario.world Scenario.fullFiles "vlad" "hat"
      true).fs = Scenario.fullFiles ∧
    ∀ (e : AuthEngine) (w : World) (fs : FS) (u label : String) (m : Nat) (j j1 : Json),
      e.config.max_embeddings = (m : Int) → 0 < m →
      fs (userFile e.config u) = some j → WithinCapacity m j →
      ((setLabel e w fs u label).fs (userFile e.config u) = some j1 →
        WithinCapacity m j1) ∧
      ((∃ fields, j = .obj fields) →
        (trainUser e w fs u label true).fs (userFile e.config u) = some j1 →
        WithinCapacity m j1) ∧
      ((removeEmbedding e fs u label).fs (userFile e.config u) = some j1 →
        WithinCapacity m j1) := by
  have hwritten : (trainUser Scenario.smallEngine Scenario.world Scenario.fullFiles "vlad"
      "hat" false).fs "/etc/linuxcampam/users/vlad.json" =
      some (.obj [("_pending_rgb", .arr [.num 7]), ("created", .num 1700000000),
        ("embeddings_rgb", .arr [Scenario.entry "default" 1, Scenario.entry "glasses" 2,
          trainedEntry "hat" [1] 1700000000]),
        ("username", .str "vlad")]) := by rfl
  refine ⟨rfl, ?_, by rfl, ⟨_, hwritten, by rfl, ?_⟩, by rfl, by rfl, ?_⟩
  · intro t l hl
    by_cases ht : t = "rgb"
    · subst ht
      have : Json.arr [Scenario.entry "default" 1, Scenario.entry "glasses" 2] = Json.arr l :=
        hl
      simp only [Json.arr.injEq] at this
      rw [← this]
      exact le_refl 2
    · have hne : ("embeddings_" ++ t : String) ≠ "embeddings_rgb" :=
        fun he => ht (key_append_inj "embeddings_" t "rgb" he)
      have h1 : ("_pending_rgb" : String) ≠ "embeddings_" ++ t := pending_ne_embeddings "rgb" t
      have h2 : ("created" : String) ≠ "embeddings_" ++ t := created_ne_embeddings t
      have h3 : ("username" : String) ≠ "embeddings_" ++ t := username_ne_embeddings t
      simp [Json.getKey, Scenario.fullFields, Fields.find, h1, h2, h3, Ne.symm hne] at hl
  · intro hcap
    have := hcap "rgb" _ rfl
    simp at this
  · intro e w fs u label m j j1 hmax hm hj hcap
    exact capacity_kept e w fs u label m j j1 hmax hm hj hcap


/-! ## The model version -/

theorem takeWhile_append_dropWhile_rev (l : List Char) (p : Char → Bool) :
    (l.reverse.dropWhile p).reverse ++ (l.reverse.takeWhile p).reverse = l := by
  rw [← List.reverse_append, List.takeWhile_append_dropWhile, List.reverse_reverse]

/-- A path is its directory part followed by its file name; the file name holds no
separator, and the directory part is empty or ends with one. -/
theorem pathFilename_spec (path : String) :
    ∃ dir : List Char, path.toList = dir ++ pathFilename path ∧
      '/' ∉ pathFilename path ∧ (dir = [] ∨ dir.getLast? = some '/') := by
  refine ⟨(path.toList.reverse.dropWhile (fun c => c != '/')).reverse, ?_, ?_, ?_⟩
  · exact (takeWhile_append_dropWhile_rev _ _).symm
  · intro h
    have h1 := List.mem_reverse.mp h
    have h2 := List.mem_takeWhile_imp h1
    simp at h2
  · cases hd : path.toList.reverse.dropWhile (fun c => c != '/') with
    | nil => left; rfl
    | cons c rest =>
      right
      have h0 : (c :: rest).head? = some c := rfl
      rw [← hd] at h0
      have := List.head?_dropWhile_not (fun c => c != '/') path.toList.reverse
      rw [hd] at this
      simp at this
      simp [this]

/-- The stem and the extension make up the file name: the extension is empty, or it is
the last period of the file name with what follows it. -/
theorem pathStem_spec (path : String) :
    ∃ ext : List Char, pathFilename path = pathStem path ++ ext ∧
      (ext = [] ∨ ∃ rest, ext = '.' :: rest ∧ '.' ∉ rest) := by
  unfold pathStem
  simp only []
  split_ifs with h1 h2
  · exact ⟨[], by simp, Or.inl rfl⟩
  · exact ⟨[], by simp, Or.inl rfl⟩
  · set f := pathFilename path with hf
    have hmem : '.' ∈ f := by
      have : '.' ∈ f.drop 1 := by simpa using h2
      exact List.mem_of_mem_drop this
    cases hd : f.reverse.dropWhile (fun c => c != '.') with
    | nil =>
      exfalso
      have := List.dropWhile_eq_nil_iff.mp hd '.' (List.mem_reverse.mpr hmem)
      simp at this
    | cons c rest =>
      have hc : c = '.' := by
        have := List.head?_dropWhile_not (fun c => c != '.') f.reverse
        rw [hd] at this
        simpa using this
      refine ⟨'.' :: (f.reverse.takeWhile (fun c => c != '.')).reverse, ?_, Or.inr ⟨_, rfl, ?_⟩⟩
      · have h := takeWhile_append_dropWhile_rev f (fun c => c != '.')
        rw [hd, hc] at h
        simp only [List.drop_succ_cons, List.drop_zero]
        rw [List.reverse_cons, List.append_assoc] at h
        simpa using h.symm
      · intro h
        have h2 := List.mem_takeWhile_imp (List.mem_reverse.mp h)
        simp at h2

/-- The extension is empty exactly for the file names "." and ".." and for those
without a period after their first character. -/
theorem pathStem_eq_filename_iff (path : String) :
    pathStem path = pathFilename path ↔
      (pathFilename path = ['.'] ∨ pathFilename path = ['.', '.'] ∨
        '.' ∉ (pathFilename path).drop 1) := by
  unfold pathStem
  simp only []
  split_ifs with h1 h2
  · simp only [true_iff]
    rcases h1 with h | h
    · exact Or.inl h
    · exact Or.inr (Or.inl h)
  · simp only [true_iff]
    right; right
    simpa using h2
  · constructor
    · intro h
      exfalso
      have hlen := congrArg List.length h
      simp only [List.length_reverse, List.length_drop] at hlen
      have hle := (List.dropWhile_sublist (l := (pathFilename path).reverse) (fun c => c != '.')).length_le
      simp only [List.length_reverse] at hle
      have hpos : 0 < (pathFilename path).length := by
        cases hf : pathFilename path with
        | nil => rw [hf] at h2; simp at h2
        | cons _ _ => simp
      omega
    · rintro (h | h | h)
      · exact absurd (Or.inl h) h1
      · exact absurd (Or.inr h) h1
      · exfalso; apply h2; simpa using h

/-- C23: for every model path, `getModelVersion` returns the stem of the path without
the prefix "face_recognition_" when the stem starts with it, and the stem itself
otherwise. The stem is the file name (what follows the last separator of the path)
without its extension, the extension being the last period of the file name with what
follows it, and empty for the names "." and ".." and for names without a period after
their first character. The two example paths give "sface_2021dec" and
"custom_recognizer_v2". -/
theorem C23_getModelVersion_stem_without_prefix :
    (∀ path : String,
      (∀ rest, pathStem path = "face_recognition_".toList ++ rest →
        getModelVersion path = String.mk rest) ∧
      (¬ "face_recognition_".toList.isPrefixOf (pathStem path) = true →
        getModelVersion path = String.mk (pathStem path)) ∧
      (∃ dir ext : List Char,
        path.toList = dir ++ (pathStem path ++ ext) ∧
        (dir = [] ∨ dir.getLast? = some '/') ∧
        '/' ∉ pathStem path ++ ext ∧
        (ext = [] ∨ ∃ rest, ext = '.' :: rest ∧ '.' ∉ rest) ∧
        (ext = [] ↔ (pathFilename path = ['.'] ∨ pathFilename path = ['.', '.'] ∨
          '.' ∉ (pathFilename path).drop 1)))) ∧
    getModelVersion "/etc/linuxcampam/models/face_recognition_sface_2021dec.onnx" =
      "sface_2021dec" ∧
    getModelVersion "/models/custom_recognizer_v2.onnx" = "custom_recognizer_v2" ∧
    getModelVersion "/path/face_recognition_test" = "test" := by
  refine ⟨fun path => ⟨?_, ?_, ?_⟩, by decide, by decide, by decide⟩
  · intro rest h
    unfold getModelVersion
    simp only [h]
    rw [if_pos (by simp [List.isPrefixOf_iff_prefix])]
    simp
  · intro h
    unfold getModelVersion
    simp only []
    rw [if_neg h]
  · obtain ⟨dir, hdir, hsep, hd⟩ := pathFilename_spec path
    obtain ⟨ext, hext, he⟩ := pathStem_spec path
    refine ⟨dir, ext, by rw [← hext]; exact hdir, hd, by rw [← hext]; exact hsep, he, ?_⟩
    rw [← pathStem_eq_filename_iff]
    constructor
    · intro h; rw [hext, h]; simp
    · intro h
      have := congrArg List.length hext
      rw [h] at this
      simp at this
      exact this


/-! ## The selection of the inference backend -/

theorem selectBackend_passed_over (w : World) (pre rest : List String)
    (h : ∀ q ∈ pre, ¬ EndsWalk w q) :
    selectBackend w (pre ++ rest) = selectBackend w rest := by
  induction pre with
  | nil => rfl
  | cons q pre ih =>
    have hq := h q (List.mem_cons_self _ _)
    have ih1 := ih fun x hx => h x (List.mem_cons_of_mem _ hx)
    simp only [EndsWalk, not_or, not_and] at hq
    simp only [List.cons_append, selectBackend, if_neg hq.1, if_neg hq.2.1]
    split_ifs with h1 h2
    · exact absurd h2 (hq.2.2 h1)
    · exact ih1
    · exact ih1

theorem selectBackend_ends (w : World) (p : String) (rest : List String)
    (h : EndsWalk w p) : selectBackend w (p :: rest) = chosenBy w p := by
  rcases h with h | h | ⟨h, hc⟩
  · subst h; simp [selectBackend, chosenBy, backendOf]
  · subst h
    cases hw : w.haveOpenCL <;> simp [selectBackend, chosenBy, backendOf, hw]
  · subst h; simp [selectBackend, chosenBy, backendOf, hc]

theorem selectBackend_none (w : World) (priority : List String)
    (h : ∀ q ∈ priority, ¬ EndsWalk w q) :
    selectBackend w priority = (.DNN_BACKEND_OPENCV, .DNN_TARGET_CPU) := by
  have := selectBackend_passed_over w priority [] h
  rw [List.append_nil] at this
  rw [this]; rfl

theorem endsWalk_split (w : World) (priority : List String) :
    (∀ q ∈ priority, ¬ EndsWalk w q) ∨
    ∃ pre p post, priority = pre ++ p :: post ∧ (∀ q ∈ pre, ¬ EndsWalk w q) ∧ EndsWalk w p := by
  induction priority with
  | nil => left; simp
  | cons q rest ih =>
    by_cases hq : EndsWalk w q
    · exact Or.inr ⟨[], q, rest, rfl, by simp, hq⟩
    · rcases ih with h | ⟨pre, p, post, hsplit, hpre, hp⟩
      · left
        intro x hx
        rcases List.mem_cons.mp hx with rfl | hx
        · exact hq
        · exact h x hx
      · refine Or.inr ⟨q :: pre, p, post, by rw [hsplit]; rfl, ?_, hp⟩
        intro x hx
        rcases List.mem_cons.mp hx with rfl | hx
        · exact hq
        · exact hpre x hx

theorem selectBackend_firstAvailable (w : World) (priority : List String)
    (hcl : w.haveOpenCL = true) (hcpu : "CPU" ∉ priority) :
    selectBackend w priority = firstAvailable w priority := by
  induction priority with
  | nil => rfl
  | cons q rest ih =>
    have hq : q ≠ "CPU" := fun h => hcpu (h ▸ List.mem_cons_self _ _)
    have ih1 := ih fun h => hcpu (List.mem_cons_of_mem _ h)
    unfold firstAvailable at ih1 ⊢
    simp only [selectBackend, List.find?_cons, BackendAvailable, hcl]
    by_cases h1 : q = "CUDA"
    · subst h1
      by_cases hc : 0 < w.cudaDeviceCount
      · simp [hc, backendOf]
      · simp only [hc, if_true, if_false, gt_iff_lt]
        simpa [BackendAvailable, hcl] using ih1
    · by_cases h2 : q = "OpenVINO"
      · subst h2; simp [backendOf]
      · by_cases h3 : q = "OpenCL"
        · subst h3; simp [backendOf]
        · simp only [if_neg h1, if_neg h2, if_neg h3]
          have : ((q == "CUDA" && decide (0 < w.cudaDeviceCount)) || q == "OpenVINO" ||
              (q == "OpenCL" && true) || q == "CPU") = false := by
            simp [h1, h2, h3, hq]
          rw [this]
          simpa [BackendAvailable, hcl] using ih1

/-- C24 as stated fails: with the priority list OpenCL, CUDA on a host that has
a CUDA device and no OpenCL, the walk does not pass over the unavailable entry "OpenCL"
to try "CUDA": the entry ends the walk with the CPU backend, where the first available
entry of the list is "CUDA". On a host where only the CUDA backend can create the
models, `loadModels` therefore fails. An entry "CPU" does not end the walk either: with
the list CPU, CUDA the CUDA backend is selected. -/
theorem C24_counterexample_opencl_ends_walk :
    selectBackend Scenario.cudaHost ["OpenCL", "CUDA"] =
      (.DNN_BACKEND_OPENCV, .DNN_TARGET_CPU) ∧
    firstAvailable Scenario.cudaHost ["OpenCL", "CUDA"] =
      (.DNN_BACKEND_CUDA, .DNN_TARGET_CUDA) ∧
    (loadModels (Scenario.coldEngine ["OpenCL", "CUDA"]) Scenario.cudaHost).1 = false ∧
    (loadModels (Scenario.coldEngine ["CUDA", "OpenCL"]) Scenario.cudaHost).1 = true ∧
    selectBackend Scenario.cudaHost ["CPU", "CUDA"] =
      (.DNN_BACKEND_CUDA, .DNN_TARGET_CUDA) ∧
    firstAvailable Scenario.cudaHost ["CPU", "CUDA"] =
      (.DNN_BACKEND_OPENCV, .DNN_TARGET_CPU) := by
  refine ⟨by decide, by decide, by decide, by decide, by decide, by decide⟩

/-- C24, amended: `loadModels` walks `config.provider_priority` in order and creates both
models for the selection of the first entry that ends the walk. "CUDA" ends it when a
CUDA device is present and is passed over otherwise; "OpenVINO" ends it without any
test; "OpenCL" ends it in every case, selecting OpenCL when it is detected and the CPU
backend when it is not; every other entry, "CPU" included, is passed over. When no
entry ends the walk the CPU backend is selected. On a host with OpenCL and for a list
without the entry "CPU" this is the backend of the first available entry. -/
theorem C24_selectBackend_walk (e : AuthEngine) (w : World) :
    (((∀ q ∈ e.config.provider_priority, ¬ EndsWalk w q) ∧
        selectBackend w e.config.provider_priority =
          (.DNN_BACKEND_OPENCV, .DNN_TARGET_CPU)) ∨
      ∃ pre p post, e.config.provider_priority = pre ++ p :: post ∧
        (∀ q ∈ pre, ¬ EndsWalk w q) ∧ EndsWalk w p ∧
        selectBackend w e.config.provider_priority = chosenBy w p) ∧
    ((e.detector && e.recognizer) = false →
      (loadModels e w).1 =
        (w.createDetector (selectBackend w e.config.provider_priority).1
            (selectBackend w e.config.provider_priority).2 &&
          w.createRecognizer (selectBackend w e.config.provider_priority).1
            (selectBackend w e.config.provider_priority).2)) ∧
    (w.haveOpenCL = true → "CPU" ∉ e.config.provider_priority →
      selectBackend w e.config.provider_priority =
        firstAvailable w e.config.provider_priority) := by
  refine ⟨?_, ?_, selectBackend_firstAvailable w _⟩
  · rcases endsWalk_split w e.config.provider_priority with h | ⟨pre, p, post, hs, hpre, hp⟩
    · exact Or.inl ⟨h, selectBackend_none w _ h⟩
    · refine Or.inr ⟨pre, p, post, hs, hpre, hp, ?_⟩
      rw [hs, selectBackend_passed_over w pre _ hpre, selectBackend_ends w p post hp]
  · intro h
    unfold loadModels
    simp only [h, Bool.false_eq_true, if_false]
    cases h1 : w.createDetector (selectBackend w e.config.provider_priority).1
        (selectBackend w e.config.provider_priority).2 <;>
      cases h2 : w.createRecognizer (selectBackend w e.config.provider_priority).1
        (selectBackend w e.config.provider_priority).2 <;> simp

/-- C24, as amended, at a concrete input: on the host with a CUDA device and
without OpenCL, the list CUDA, OpenCL loads the models on the CUDA backend. -/
theorem C24_selectBackend_walk_witness :
    (loadModels (Scenario.coldEngine ["CUDA", "OpenCL"]) Scenario.cudaHost).1 =
      (Scenario.cudaHost.createDetector .DNN_BACKEND_CUDA .DNN_TARGET_CUDA &&
        Scenario.cudaHost.createRecognizer .DNN_BACKEND_CUDA .DNN_TARGET_CUDA) :=
  (C24_selectBackend_walk (Scenario.coldEngine ["CUDA", "OpenCL"]) Scenario.cudaHost).2.1 rfl


/-! ## The capture mode of enrollment -/

theorem enrollCapture_usedMode (cfg : Config) (ac : ActiveCamera) :
    (enrollCapture cfg ac).1 = (usedMode cfg ac).run ac.cam := by
  have hE : ∀ s : String, (!s.isEmpty) = !decide (s = "") := by
    intro s
    by_cases h : s = ""
    · subst h; rfl
    · have : s.isEmpty = false := by
        rw [Bool.eq_false_iff]
        intro hh
        exact h ((String.isEmpty_iff s).1 hh)
      simp [this, h]
  unfold enrollCapture usedMode HdrEnabled effectiveHdr effectiveAveraging effectiveFrames
  simp only [hE]
  by_cases hh : ac.config.enroll_hdr = "" <;> by_cases ha : ac.config.enroll_averaging = "" <;>
    by_cases hf : 0 < ac.config.enroll_average_frames <;>
    cases hs : ac.cam.supports_manual_exposure_ <;>
    simp only [hh, ha, hf, hs, decide_True, decide_False, Bool.not_true, Bool.not_false,
      if_true, if_false, gt_iff_lt, Bool.and_true, Bool.and_false, Bool.or_false,
      Bool.false_eq_true, and_false, and_true, beq_iff_eq, Bool.or_eq_true, Bool.and_eq_true,
      decide_eq_true_eq] <;>
    split_ifs <;> simp_all [CaptureMode.run, Camera.captureHDR]

/-- C26 as stated fails: for a camera without manual exposure whose effective HDR
setting is "on" and whose averaging is switched off, the rule as stated names the single
capture, but `enrollUser` calls `captureHDR`, which falls back to an averaged capture
of 5 frames. Here the single capture shows one face and the averaged capture none, so
the enrollment is refused with "Found 0 faces". -/
theorem C26_counterexample_forced_hdr :
    statedMode {} Scenario.rgbForcedHdr = .single ∧
    (enrollCapture {} Scenario.rgbForcedHdr).1 =
      (CaptureMode.averaged 5).run Scenario.rgbForcedHdr.cam ∧
    (enrollCapture {} Scenario.rgbForcedHdr).1 ≠
      (statedMode {} Scenario.rgbForcedHdr).run Scenario.rgbForcedHdr.cam ∧
    (enrollUser (Scenario.engine .ADAPTIVE [Scenario.rgbForcedHdr]) Scenario.world
        Scenario.noFiles "vlad").result =
      .ok (false, "Found 0 faces in rgb. Expecting exactly 1.") := by
  refine ⟨by decide, rfl, ?_, ?_⟩
  · intro h
    have h1 : (some { brightness := 100, faces := [] } : Option Frame) = some Scenario.oneFace := h
    have h2 := congrArg (fun o : Option Frame => o.map fun f => f.faces.length) h1
    exact absurd h2 (by decide)
  · rfl

/-- C26, amended: for every configured camera, the image `enrollUser` works with is the
one of the fused multi-exposure capture if the effective HDR setting is "on" or "auto"
and the camera supports manual exposure; of an averaged capture of 5 frames if the
setting is "on" and the camera does not support manual exposure (the fallback inside
`captureHDR`, whatever the averaging settings); otherwise of an averaged capture with
the effective frame count if averaging is enabled; otherwise of a single capture. The
effective HDR and averaging settings are the camera's own when not empty, the effective
frame count is the camera's own when positive, and the global ones otherwise. It is
the mode C26 states whenever the setting is not "on" or the camera supports manual
exposure, and the camera's frame count is not negative. -/
theorem C26_enrollCapture_mode (cfg : Config) (ac : ActiveCamera) :
    (enrollCapture cfg ac).1 = (usedMode cfg ac).run ac.cam ∧
    (effectiveHdr cfg ac ≠ "on" ∨ ac.cam.supports_manual_exposure_ = true →
      0 ≤ ac.config.enroll_average_frames → usedMode cfg ac = statedMode cfg ac) := by
  refine ⟨enrollCapture_usedMode cfg ac, ?_⟩
  intro h hf
  unfold usedMode statedMode
  have hfr : effectiveFrames cfg ac = effectiveFramesNonZero cfg ac := by
    unfold effectiveFrames effectiveFramesNonZero
    by_cases h0 : ac.config.enroll_average_frames = 0
    · simp [h0]
    · have : 0 < ac.config.enroll_average_frames := lt_of_le_of_ne hf (Ne.symm h0)
      simp [h0, this]
  rw [hfr]
  by_cases hc : HdrEnabled cfg ac ∧ ac.cam.supports_manual_exposure_ = true
  · simp only [if_pos hc]
  · simp only [if_neg hc]
    rcases h with h | h
    · simp only [if_neg h]
    · have hne : effectiveHdr cfg ac ≠ "on" := fun hon => hc ⟨Or.inl hon, h⟩
      simp only [if_neg hne]

/-- C26, as amended, at a concrete input: a camera with manual exposure under the
default settings is enrolled from the fused capture. -/
theorem C26_enrollCapture_mode_witness :
    usedMode {} Scenario.rgbManual = statedMode {} Scenario.rgbManual ∧
    (enrollCapture {} Scenario.rgbManual).1 = some Scenario.oneFace :=
  ⟨(C26_enrollCapture_mode {} Scenario.rgbManual).2 (Or.inr rfl) (by decide),
   (C26_enrollCapture_mode {} Scenario.rgbManual).1⟩


/-! ## Maintenance -/

theorem tdiv_gt_iff (d k : Int) (hk : 0 < k) :
    k < d.tdiv steadyTicksPerSecond ↔ (k + 1) * steadyTicksPerSecond ≤ d := by
  have hT : (0 : Int) < steadyTicksPerSecond := by decide
  by_cases hd : 0 ≤ d
  · rw [Int.tdiv_eq_ediv hd (le_of_lt hT), Int.lt_iff_add_one_le, Int.le_ediv_iff_mul_le hT]
  · have hd1 : d < 0 := lt_of_not_le hd
    constructor
    · intro h
      exfalso
      have h1 : (-d).tdiv steadyTicksPerSecond = -(d.tdiv steadyTicksPerSecond) :=
        Int.neg_tdiv ..
      have h2 : 0 ≤ (-d).tdiv steadyTicksPerSecond :=
        Int.tdiv_nonneg (by omega) (le_of_lt hT)
      omega
    · intro h
      exfalso
      have : 0 < (k + 1) * steadyTicksPerSecond := mul_pos (by omega) hT
      omega

theorem performMaintenance_unloads (e : AuthEngine) (w : World)
    (hk : 0 < e.config.model_keep_alive_sec) (hd : e.detector = true)
    (ht : TimeoutExceeded e w) :
    performMaintenance e w = (true, unloaded e) := by
  have := (tdiv_gt_iff (w.clock - e.last_activity_) _ hk).2 ht
  simp only [performMaintenance, unloadModels, unloaded, hk, hd, gt_iff_lt, decide_True,
    Bool.and_self, if_true, this]

theorem performMaintenance_idle (e : AuthEngine) (w : World)
    (h : ¬ (0 < e.config.model_keep_alive_sec ∧ e.detector = true ∧ TimeoutExceeded e w)) :
    performMaintenance e w = (false, e) := by
  unfold performMaintenance
  by_cases hk : 0 < e.config.model_keep_alive_sec
  · cases hd : e.detector
    · simp [hk]
    · have ht : ¬ TimeoutExceeded e w := fun ht => h ⟨hk, hd, ht⟩
      have := (not_congr (tdiv_gt_iff (w.clock - e.last_activity_) _ hk)).2 ht
      simp only [hk, gt_iff_lt, decide_True, Bool.and_self, if_true, this, if_false]
  · simp [hk]

/-- C25 as stated fails: with an idle timeout of 1 second and both models
loaded, `performMaintenance` returns false and changes nothing 1 second and also 1.9
seconds after the last activity, although the timeout has elapsed: the elapsed time is
truncated to whole seconds and must exceed the timeout. After 2 seconds the models are
unloaded. -/
theorem C25_counterexample_timeout_just_elapsed :
    ModelsLoaded Scenario.idleEngine ∧
    TimeoutElapsed Scenario.idleEngine (Scenario.worldAt 1000000000) ∧
    (performMaintenance Scenario.idleEngine (Scenario.worldAt 1000000000)).1 = false ∧
    TimeoutElapsed Scenario.idleEngine (Scenario.worldAt 1900000000) ∧
    (performMaintenance Scenario.idleEngine (Scenario.worldAt 1900000000)).1 = false ∧
    (performMaintenance Scenario.idleEngine (Scenario.worldAt 1900000000)).2.detector = true ∧
    (performMaintenance Scenario.idleEngine (Scenario.worldAt 2000000000)).1 = true := by
  refine ⟨⟨rfl, rfl⟩, ?_, by decide, ?_, by decide, by decide, by decide⟩
  · show (1 : Int) * 1000000000 ≤ 1000000000 - 0
    decide
  · show (1 : Int) * 1000000000 ≤ 1900000000 - 0
    decide

/-- C25, amended: `performMaintenance` releases both model handles, leaves the rest of
the engine as it is and returns true when an idle timeout is configured
(`model_keep_alive_sec > 0`), the detector is loaded and the time since the last
activity, in whole seconds, exceeds the timeout (at least `model_keep_alive_sec + 1`
seconds have passed); in every other case it changes nothing and returns false. With
`model_keep_alive_sec = 0` it never unloads, and when the timeout has not elapsed it
does not unload either. -/
theorem C25_performMaintenance (e : AuthEngine) (w : World) :
    (0 < e.config.model_keep_alive_sec → e.detector = true → TimeoutExceeded e w →
      performMaintenance e w = (true, unloaded e)) ∧
    (¬ (0 < e.config.model_keep_alive_sec ∧ e.detector = true ∧ TimeoutExceeded e w) →
      performMaintenance e w = (false, e)) ∧
    (e.config.model_keep_alive_sec = 0 → performMaintenance e w = (false, e)) ∧
    (¬ TimeoutElapsed e w → performMaintenance e w = (false, e)) ∧
    (ModelsLoaded e → 0 < e.config.model_keep_alive_sec → TimeoutExceeded e w →
      (performMaintenance e w).1 = true ∧ ¬ ModelsLoaded (performMaintenance e w).2 ∧
      (performMaintenance e w).2.detector = false ∧
      (performMaintenance e w).2.recognizer = false) := by
  refine ⟨performMaintenance_unloads e w, performMaintenance_idle e w, ?_, ?_, ?_⟩
  · intro h0
    apply performMaintenance_idle
    rintro ⟨hk, -, -⟩
    omega
  · intro hn
    apply performMaintenance_idle
    rintro ⟨hk, -, ht⟩
    apply hn
    unfold TimeoutElapsed
    unfold TimeoutExceeded at ht
    have hT : (0 : Int) < steadyTicksPerSecond := by decide
    nlinarith
  · intro hl hk ht
    rw [performMaintenance_unloads e w hk hl.1 ht]
    refine ⟨rfl, ?_, rfl, rfl⟩
    rintro ⟨h, -⟩
    exact absurd h (by simp [unloaded])

/-- C25, as amended, at a concrete input: two seconds after the last activity the
engine with a timeout of one second is unloaded. -/
theorem C25_performMaintenance_witness :
    performMaintenance Scenario.idleEngine (Scenario.worldAt 2000000000) =
      (true, unloaded Scenario.idleEngine) :=
  (C25_performMaintenance Scenario.idleEngine (Scenario.worldAt 2000000000)).1
    (by decide) rfl (show ((1 : Int) + 1) * 1000000000 ≤ 2000000000 - 0 by decide)


/-! ## The threshold after initialization -/

theorem loadModels_config (e : AuthEngine) (w : World) :
    (loadModels e w).2.config = e.config := by
  unfold loadModels
  dsimp only
  split_ifs <;> rfl

theorem init_threshold (e : AuthEngine) (w : World) (file : Option (List String))
    (b : Bool) (e1 : AuthEngine) (h : init e w file = .ok (b, e1)) :
    w.stof ((parse_ini file).get "Auth.threshold" "0.4") = .ok e1.config.threshold := by
  unfold init at h
  simp only [bind, Except.bind, pure, Except.pure] at h
  split at h
  · cases h
  · rename_i t ht
    rw [ht]
    repeat (split at h; (· cases h))
    have h1 := congrArg (fun r => r.2.config.threshold) (Except.ok.inj h)
    simp only [loadModels_config] at h1
    rw [← h1]

theorem readFloat_default : readFloat "0.4" = .ok (.val (2 / 5)) := by
  have h : readFloat "0.4" = .ok (.val (((0 : ℕ) : ℚ) + ((4 : ℕ) : ℚ) / (10 : ℚ) ^ 1)) := rfl
  rw [h]; norm_num

theorem readFloat_detection : readFloat "0.6" = .ok (.val (3 / 5)) := by
  have h : readFloat "0.6" = .ok (.val (((0 : ℕ) : ℚ) + ((6 : ℕ) : ℚ) / (10 : ℚ) ^ 1)) := rfl
  rw [h]; norm_num

theorem readFloat_exponent : readFloat "4e-1" = .ok (.val (2 / 5)) := by
  have h : readFloat "4e-1" =
      .ok (.val ((((4 : ℕ) : ℚ) + ((0 : ℕ) : ℚ) / (10 : ℚ) ^ 0) / (10 : ℚ) ^ 1)) := rfl
  rw [h]; norm_num

theorem readFloat_header : readFloat "0.363" = .ok (.val (363 / 1000)) := by
  have h : readFloat "0.363" =
      .ok (.val (((0 : ℕ) : ℚ) + ((363 : ℕ) : ℚ) / (10 : ℚ) ^ 3)) := rfl
  rw [h]; norm_num

theorem init_fallback_threshold (e : AuthEngine) (w : World) (file : Option (List String))
    (hunset : (parse_ini file).find "Auth.threshold" = none)
    (hread : w.stof "0.4" = .ok (.val (2 / 5)))
    (b : Bool) (e1 : AuthEngine) (h : init e w file = .ok (b, e1)) :
    e1.config.threshold = .val (2 / 5) := by
  have h1 := init_threshold e w file b e1 h
  simp only [Ini.get, hunset, hread] at h1
  exact (Except.ok.inj h1).symm

/-- C22, the code departs from its own declared default: when the configuration does not
set `Auth.threshold`, `init` assigns the threshold its fallback "0.4", so the threshold
in effect after `init` is 0.4 and not the 0.363 that `Config` declares as its default.
This holds for every engine, host and configuration file without the key (given that
the conversion reads "0.4" as 0.4), in particular for a file that cannot be opened and
for a file that only chooses the policy; a file that sets the threshold to 0.363 gives
0.363. -/
theorem C22_init_threshold_fallback :
    (∀ (e : AuthEngine) (w : World) (file : Option (List String)),
      (parse_ini file).find "Auth.threshold" = none →
      w.stof "0.4" = .ok (.val (2 / 5)) →
      ∀ b e1, init e w file = .ok (b, e1) → e1.config.threshold = .val (2 / 5)) ∧
    Scenario.freshEngine.config.threshold = .val (363 / 1000) ∧
    (parse_ini none).find "Auth.threshold" = none ∧
    (∃ e1, init Scenario.freshEngine Scenario.world none = .ok (true, e1) ∧
      e1.config.threshold = .val (2 / 5) ∧
      e1.config.threshold ≠ Scenario.freshEngine.config.threshold) ∧
    (parse_ini (some Scenario.policyOnly)).find "Auth.threshold" = none ∧
    (∃ e1, init Scenario.freshEngine Scenario.world (some Scenario.policyOnly) =
        .ok (true, e1) ∧
      e1.config.threshold = .val (2 / 5) ∧ e1.config.policy = .STRICT_ALL) ∧
    (∃ e1, init Scenario.freshEngine Scenario.world (some Scenario.thresholdSet) =
        .ok (true, e1) ∧
      e1.config.threshold = .val (363 / 1000)) := by
  have hne : (FloatV.val (2 / 5)) ≠ FloatV.val (363 / 1000) := by
    intro h
    have := FloatV.val.inj h
    norm_num at this
  refine ⟨init_fallback_threshold, rfl, rfl, ⟨_, rfl, ?_, ?_⟩, rfl, ⟨_, rfl, ?_, rfl⟩,
    ⟨_, rfl, ?_⟩⟩
  · have h := init_threshold Scenario.freshEngine Scenario.world none true _ rfl
    exact Except.ok.inj (h.symm.trans readFloat_default)
  · have h := init_threshold Scenario.freshEngine Scenario.world none true _ rfl
    have h1 := Except.ok.inj (h.symm.trans readFloat_default)
    rw [h1]
    exact hne
  · have h := init_threshold Scenario.freshEngine Scenario.world (some Scenario.policyOnly)
      true _ rfl
    exact Except.ok.inj (h.symm.trans readFloat_default)
  · have h := init_threshold Scenario.freshEngine Scenario.world (some Scenario.thresholdSet)
      true _ rfl
    exact Except.ok.inj (h.symm.trans readFloat_header)


/-! ## No acceptance without a match -/

/-- When the body of the loop moves on to the next camera, it has skipped the camera,
counted it as a participant that failed, or counted it as a participant that matched;
in the last case the camera captured a frame, detected a face and reached the
threshold. -/
theorem verifyCamera_finished_inv (cfg : Config) (w : World) (j : Json) (u : String)
    (ac : ActiveCamera) (st st1 : VerifyState)
    (h : verifyCamera cfg w j u ac st = .finished st1) :
    (st1.participants = st.participants ∧ st1.successes = st.successes ∧
      st1.failures = st.failures) ∨
    (st1.participants = st.participants + 1 ∧ st1.successes = st.successes ∧
      st1.failures = st.failures + 1) ∨
    (st1.participants = st.participants + 1 ∧ st1.successes = st.successes + 1 ∧
      st1.failures = st.failures ∧ Matches cfg w j ac) := by
  rcases camera_cases ac with hc | hc | ⟨frame, hc⟩
  · rw [verifyCamera_captureFails cfg w j u ac st hc] at h
    split_ifs at h
    injection h with h
    subst h
    exact Or.inl ⟨rfl, rfl, rfl⟩
  · rw [verifyCamera_tooDark cfg w j u ac st hc] at h
    split_ifs at h
    injection h with h
    subst h
    exact Or.inl ⟨rfl, rfl, rfl⟩
  · rw [verifyCamera_participates cfg w j u ac st frame hc] at h
    cases hl : loadEmbeddings j ac.config.type with
    | error err => rw [hl] at h; exact LoopEnd.noConfusion h
    | ok embs =>
      rw [hl] at h
      simp only at h
      by_cases he : embs.isEmpty = true
      · rw [if_pos he] at h
        injection h with h
        subst h
        exact Or.inr (Or.inl ⟨by simp [emitIf_participants],
          by simp [emitIf_successes, emit_successes], by simp [emitIf_failures]⟩)
      · rw [if_neg he] at h
        cases hm : cameraMatch cfg w frame.faces embs with
        | error err => rw [hm] at h; exact LoopEnd.noConfusion h
        | ok m =>
          rw [hm] at h
          cases m with
          | false =>
            injection h with h
            subst h
            exact Or.inr (Or.inl ⟨by simp [emitIf_participants],
              by simp [emitIf_successes, emit_successes], by simp [emitIf_failures]⟩)
          | true =>
            injection h with h
            subst h
            refine Or.inr (Or.inr ⟨by simp [emitIf_participants], by simp [emitIf_successes],
              by simp [emitIf_failures, emit_failures], frame, hc, embs, hl, ?_, ?_⟩)
            · intro h0; apply he; rw [h0]; rfl
            · unfold cameraMatch at hm
              by_cases hlen : frame.faces.length ≥ 1
              · rw [if_pos hlen] at hm
                cases hb : bestOverFaces w embs frame.faces (.val 0) with
                | error err => rw [hb] at hm; exact Except.noConfusion hm
                | ok best =>
                  rw [hb] at hm
                  refine ⟨?_, best, rfl, Except.ok.inj hm⟩
                  intro h0; rw [h0] at hlen; exact absurd hlen (by decide)
              · rw [if_neg hlen] at hm
                exact absurd (Except.ok.inj hm) (by decide)

/-- The loop of `verifyUser` returns only false. -/
theorem verifyLoop_returned (cfg : Config) (w : World) (j : Json) (u : String)
    (cams : List ActiveCamera) (st st1 : VerifyState) (b : Bool)
    (h : verifyLoop cfg w j u cams st = .returned b st1) : b = false := by
  induction cams generalizing st with
  | nil => exact LoopEnd.noConfusion h
  | cons ac rest ih =>
    unfold verifyLoop at h
    cases hc : verifyCamera cfg w j u ac st with
    | finished s => rw [hc] at h; exact ih s h
    | returned b1 s =>
      rw [hc] at h
      injection h with hb _
      rw [← hb]
      exact (verifyCamera_returned cfg w j u ac st s b1 hc).1
    | thrown err s => rw [hc] at h; exact LoopEnd.noConfusion h

/-- When the loop runs to its end, the participants it has added are the successes plus
the failures it has added, and every success it has added comes from a camera that
matched. -/
theorem verifyLoop_finished_inv (cfg : Config) (w : World) (j : Json) (u : String)
    (cams : List ActiveCamera) (st st1 : VerifyState)
    (h : verifyLoop cfg w j u cams st = .finished st1) :
    st1.participants + (st.successes + st.failures) =
        st.participants + (st1.successes + st1.failures) ∧
      st.successes ≤ st1.successes ∧
      (st.successes < st1.successes → ∃ ac ∈ cams, Matches cfg w j ac) := by
  induction cams generalizing st with
  | nil =>
    injection h with h
    subst h
    exact ⟨rfl, le_refl _, fun hlt => absurd hlt (lt_irrefl _)⟩
  | cons ac rest ih =>
    unfold verifyLoop at h
    cases hc : verifyCamera cfg w j u ac st with
    | returned b s => rw [hc] at h; exact LoopEnd.noConfusion h
    | thrown err s => rw [hc] at h; exact LoopEnd.noConfusion h
    | finished s =>
      rw [hc] at h
      obtain ⟨h1, h2, h3⟩ := ih s h
      rcases verifyCamera_finished_inv cfg w j u ac st s hc with
        ⟨a, b, c⟩ | ⟨a, b, c⟩ | ⟨a, b, c, hm⟩
      · refine ⟨by omega, by omega, fun hlt => ?_⟩
        obtain ⟨x, hx, hmx⟩ := h3 (by omega)
        exact ⟨x, List.mem_cons_of_mem _ hx, hmx⟩
      · refine ⟨by omega, by omega, fun hlt => ?_⟩
        obtain ⟨x, hx, hmx⟩ := h3 (by omega)
        exact ⟨x, List.mem_cons_of_mem _ hx, hmx⟩
      · exact ⟨by omega, by omega, fun _ => ⟨ac, List.mem_cons_self _ _, hm⟩⟩

/-- The result of `verifyUser` once the models are loaded, the username is valid and the
document exists: the end of the camera loop decides. -/
theorem verifyUser_of_doc (e : AuthEngine) (w : World) (fs : FS) (u : String) (j : Json)
    (hl : (ensureModelsLoaded e w).1 = true) (hv : isValidUsername u = true)
    (hj : fs (userFile (ensureModelsLoaded e w).2.config u) = some j) :
    (verifyUser e w fs u).result =
      match verifyLoop (ensureModelsLoaded e w).2.config w j u (camerasInUse e w)
          { log := [.fsExists (userFile (ensureModelsLoaded e w).2.config u),
                    .fsRead (userFile (ensureModelsLoaded e w).2.config u)] } with
      | .returned b _ => .ok b
      | .thrown err _ => .error err
      | .finished st => .ok (verdict (ensureModelsLoaded e w).2.config st) := by
  unfold verifyUser camerasInUse
  dsimp only
  simp only [hl, hv, Bool.not_true, Bool.false_eq_true, if_false, hj]
  split <;> rfl

/-- Without loaded models, a valid username or a stored document `verifyUser` returns
false. -/
theorem verifyUser_early (e : AuthEngine) (w : World) (fs : FS) (u : String)
    (h : (ensureModelsLoaded e w).1 = false ∨ isValidUsername u = false ∨
      fs (userFile (ensureModelsLoaded e w).2.config u) = none) :
    (verifyUser e w fs u).result = .ok false := by
  unfold verifyUser
  dsimp only
  cases hl : (ensureModelsLoaded e w).1
  · rfl
  · cases hv : isValidUsername u
    · rfl
    · rcases h with h | h | h
      · rw [hl] at h; exact absurd h (by decide)
      · rw [hv] at h; exact absurd h (by decide)
      · simp only [Bool.not_true, Bool.false_eq_true, if_false, h]

/-- An acceptance comes from a loop that ran to its end with a verdict of true. -/
theorem verifyUser_true_inv (e : AuthEngine) (w : World) (fs : FS) (u : String)
    (h : (verifyUser e w fs u).result = .ok true) :
    ∃ j st, fs (userFile (ensureModelsLoaded e w).2.config u) = some j ∧
      verifyLoop (ensureModelsLoaded e w).2.config w j u (camerasInUse e w)
          { log := [.fsExists (userFile (ensureModelsLoaded e w).2.config u),
                    .fsRead (userFile (ensureModelsLoaded e w).2.config u)] } =
        .finished st ∧
      verdict (ensureModelsLoaded e w).2.config st = true := by
  cases hl : (ensureModelsLoaded e w).1 with
  | false =>
    rw [verifyUser_early e w fs u (Or.inl hl)] at h
    exact absurd (Except.ok.inj h) (by decide)
  | true =>
    cases hv : isValidUsername u with
    | false =>
      rw [verifyUser_early e w fs u (Or.inr (Or.inl hv))] at h
      exact absurd (Except.ok.inj h) (by decide)
    | true =>
      cases hj : fs (userFile (ensureModelsLoaded e w).2.config u) with
      | none =>
        rw [verifyUser_early e w fs u (Or.inr (Or.inr hj))] at h
        exact absurd (Except.ok.inj h) (by decide)
      | some j =>
        rw [verifyUser_of_doc e w fs u j hl hv hj] at h
        cases hloop : verifyLoop (ensureModelsLoaded e w).2.config w j u (camerasInUse e w)
            { log := [.fsExists (userFile (ensureModelsLoaded e w).2.config u),
                      .fsRead (userFile (ensureModelsLoaded e w).2.config u)] } with
        | returned b st =>
          rw [hloop] at h
          have hb := verifyLoop_returned _ w j u _ _ st b hloop
          rw [hb] at h
          exact absurd (Except.ok.inj h) (by decide)
        | thrown err st => rw [hloop] at h; exact Except.noConfusion h
        | finished st =>
          rw [hloop] at h
          exact ⟨j, st, rfl, hloop, Except.ok.inj h⟩

/-- A verdict of true needs a participant and, with the participants being the
successes plus the failures, at least one success. -/
theorem verdict_true_inv (cfg : Config) (st : VerifyState)
    (hinv : st.participants = st.successes + st.failures) (h : verdict cfg st = true) :
    0 < st.participants ∧ 1 ≤ st.successes := by
  unfold verdict at h
  by_cases hp : st.participants = 0
  · simp [hp] at h
  · have hp1 : (st.participants == 0) = false := by simpa using hp
    simp only [hp1, Bool.false_eq_true, if_false] at h
    refine ⟨Nat.pos_of_ne_zero hp, ?_⟩
    split_ifs at h
    · have : st.failures = 0 := by simpa using h
      omega
    · simpa using h
    · have : st.failures = 0 := by simpa using h
      omega

/-- The verification of the enrolled user on one matching color camera succeeds. -/
theorem verifyUser_rgbMatching :
    (verifyUser (Scenario.engine .ADAPTIVE [Scenario.rgbMatching]) Scenario.world
      Scenario.files "vlad").result = .ok true := by
  have hm : Matches (Scenario.engine .ADAPTIVE [Scenario.rgbMatching]).config
      Scenario.world Scenario.doc Scenario.rgbMatching :=
    ⟨{ brightness := 100, faces := [[1]] }, ⟨rfl, by norm_num [Scenario.rgbMatching]⟩,
      [[1]], rfl, by simp, by simp, .val 1, rfl, by norm_num [FloatV.ge, Scenario.engine]⟩
  rw [verifyUser_of_doc (Scenario.engine .ADAPTIVE [Scenario.rgbMatching]) Scenario.world
    Scenario.files "vlad" Scenario.doc rfl (by decide) rfl]
  obtain ⟨st1, h1, hp, hs, hf⟩ := verifyCamera_matches
    (Scenario.engine .ADAPTIVE [Scenario.rgbMatching]).config Scenario.world Scenario.doc "vlad"
    Scenario.rgbMatching
    { log := [.fsExists (userFile (Scenario.engine .ADAPTIVE [Scenario.rgbMatching]).config
                "vlad"),
              .fsRead (userFile (Scenario.engine .ADAPTIVE [Scenario.rgbMatching]).config
                "vlad")] } hm
  have hloop : verifyLoop (Scenario.engine .ADAPTIVE [Scenario.rgbMatching]).config
      Scenario.world Scenario.doc "vlad" [Scenario.rgbMatching]
      { log := [.fsExists (userFile (Scenario.engine .ADAPTIVE [Scenario.rgbMatching]).config
                  "vlad"),
                .fsRead (userFile (Scenario.engine .ADAPTIVE [Scenario.rgbMatching]).config
                  "vlad")] } = .finished st1 := by
    simp only [verifyLoop, h1]
  have hcams : camerasInUse (Scenario.engine .ADAPTIVE [Scenario.rgbMatching]) Scenario.world =
      [Scenario.rgbMatching] := rfl
  have hcfg : (ensureModelsLoaded (Scenario.engine .ADAPTIVE [Scenario.rgbMatching])
      Scenario.world).2.config = (Scenario.engine .ADAPTIVE [Scenario.rgbMatching]).config := rfl
  rw [hcams, hcfg, hloop]
  simp only [verdict]
  have h1p : st1.participants = 1 := by simpa using hp
  have h1f : st1.failures = 0 := by simpa using hf
  simp [h1p, h1f, Scenario.engine]

/-- C27. No acceptance without a match: under every policy, when `verifyUser` returns
true, the camera loop has run to its end over the stored document with
`participants = successes + failures`, at least one participant and at least one
success, and at least one camera in use captured a frame that passed its brightness
floor, detected at least one face, found stored embeddings and reached a best score at
or above the threshold. Whenever the loop runs to its end the counters satisfy
`participants = successes + failures`. -/
theorem C27_no_acceptance_without_match (e : AuthEngine) (w : World) (fs : FS) (u : String)
    (h : (verifyUser e w fs u).result = .ok true) :
    ∃ j st, fs (userFile (ensureModelsLoaded e w).2.config u) = some j ∧
      verifyLoop (ensureModelsLoaded e w).2.config w j u (camerasInUse e w)
          { log := [.fsExists (userFile (ensureModelsLoaded e w).2.config u),
                    .fsRead (userFile (ensureModelsLoaded e w).2.config u)] } =
        .finished st ∧
      st.participants = st.successes + st.failures ∧
      0 < st.participants ∧ 1 ≤ st.successes ∧
      (∃ ac ∈ camerasInUse e w, ∃ frame embs best,
        ac.cam.capture = some frame ∧ frame.faces ≠ [] ∧
        loadEmbeddings j ac.config.type = .ok embs ∧ embs ≠ [] ∧
        bestOverFaces w embs frame.faces (.val 0) = .ok best ∧
        best.ge (ensureModelsLoaded e w).2.config.threshold = true) ∧
      (∀ (cams : List ActiveCamera) (st1 : VerifyState),
        verifyLoop (ensureModelsLoaded e w).2.config w j u cams
            { log := [.fsExists (userFile (ensureModelsLoaded e w).2.config u),
                      .fsRead (userFile (ensureModelsLoaded e w).2.config u)] } =
          .finished st1 →
        st1.participants = st1.successes + st1.failures) := by
  obtain ⟨j, st, hj, hloop, hv⟩ := verifyUser_true_inv e w fs u h
  obtain ⟨h1, -, h3⟩ := verifyLoop_finished_inv _ w j u _ _ st hloop
  have hinv : st.participants = st.successes + st.failures := by
    simpa using h1
  obtain ⟨hp, hs⟩ := verdict_true_inv _ st hinv hv
  obtain ⟨ac, hac, frame, hpart, embs, hl, he, hf, best, hb, hge⟩ := h3 (by simpa using hs)
  refine ⟨j, st, hj, hloop, hinv, hp, hs,
    ⟨ac, hac, frame, embs, best, hpart.1, hf, hl, he, hb, hge⟩, ?_⟩
  intro cams st1 hfin
  have := (verifyLoop_finished_inv _ w j u cams _ st1 hfin).1
  simpa using this

/-- C27 at a concrete input: the accepted verification on one matching color camera
ends with one participant, one success and no failure. -/
theorem C27_no_acceptance_without_match_witness :
    ∃ j st, Scenario.files (userFile (ensureModelsLoaded
        (Scenario.engine .ADAPTIVE [Scenario.rgbMatching]) Scenario.world).2.config "vlad") =
        some j ∧
      verifyLoop (ensureModelsLoaded (Scenario.engine .ADAPTIVE [Scenario.rgbMatching])
          Scenario.world).2.config Scenario.world j "vlad"
          (camerasInUse (Scenario.engine .ADAPTIVE [Scenario.rgbMatching]) Scenario.world)
          { log := [.fsExists (userFile (ensureModelsLoaded
                      (Scenario.engine .ADAPTIVE [Scenario.rgbMatching])
                      Scenario.world).2.config "vlad"),
                    .fsRead (userFile (ensureModelsLoaded
                      (Scenario.engine .ADAPTIVE [Scenario.rgbMatching])
                      Scenario.world).2.config "vlad")] } =
        .finished st ∧
      st.participants = st.successes + st.failures ∧ 1 ≤ st.successes := by
  obtain ⟨j, st, hj, hloop, hinv, -, hs, -, -⟩ :=
    C27_no_acceptance_without_match (Scenario.engine .ADAPTIVE [Scenario.rgbMatching])
      Scenario.world Scenario.files "vlad" verifyUser_rgbMatching
  exact ⟨j, st, hj, hloop, hinv, hs⟩


/-! ## The order of the cameras -/

/-- What the body of the loop does with a camera does not depend on the counters it
starts from. -/
theorem verifyCamera_shifted (cfg : Config) (w : World) (j : Json) (u : String)
    (ac : ActiveCamera) (st st1 : VerifyState) :
    EndsShifted st st1 (verifyCamera cfg w j u ac st) (verifyCamera cfg w j u ac st1) := by
  rcases camera_cases ac with hc | hc | ⟨frame, hc⟩
  · rw [verifyCamera_captureFails cfg w j u ac st hc,
      verifyCamera_captureFails cfg w j u ac st1 hc]
    split_ifs <;> (simp only [EndsShifted, VerifyState.emit]; try omega)
  · rw [verifyCamera_tooDark cfg w j u ac st hc, verifyCamera_tooDark cfg w j u ac st1 hc]
    split_ifs <;> (simp only [EndsShifted, VerifyState.emit]; try omega)
  · rw [verifyCamera_participates cfg w j u ac st frame hc,
      verifyCamera_participates cfg w j u ac st1 frame hc]
    cases hl : loadEmbeddings j ac.config.type with
    | error err => simp [EndsShifted]
    | ok embs =>
      simp only
      by_cases he : embs.isEmpty = true
      · simp only [if_pos he, EndsShifted, emitIf_participants, emitIf_successes,
          emitIf_failures, VerifyState.emit]
        omega
      · simp only [if_neg he]
        cases hm : cameraMatch cfg w frame.faces embs with
        | error err => simp [EndsShifted]
        | ok m =>
          cases m <;>
            simp only [EndsShifted, emitIf_participants, emitIf_successes,
              emitIf_failures, VerifyState.emit] <;> omega

/-- How the loop ends does not depend on the counters it starts from. -/
theorem verifyLoop_shifted (cfg : Config) (w : World) (j : Json) (u : String)
    (cams : List ActiveCamera) (st st1 : VerifyState) :
    EndsShifted st st1 (verifyLoop cfg w j u cams st) (verifyLoop cfg w j u cams st1) := by
  induction cams generalizing st st1 with
  | nil =>
    simp only [verifyLoop, EndsShifted]
    omega
  | cons ac rest ih =>
    have hcam := verifyCamera_shifted cfg w j u ac st st1
    unfold verifyLoop
    cases h : verifyCamera cfg w j u ac st with
    | finished s =>
      cases h1 : verifyCamera cfg w j u ac st1 with
      | finished s1 =>
        rw [h, h1] at hcam
        have hrest := ih s s1
        simp only
        cases h2 : verifyLoop cfg w j u rest s with
        | finished t =>
          cases h3 : verifyLoop cfg w j u rest s1 with
          | finished t1 =>
            rw [h2, h3] at hrest
            simp only [EndsShifted] at hcam hrest ⊢
            omega
          | returned b t1 => rw [h2, h3] at hrest; exact False.elim hrest
          | thrown err t1 => rw [h2, h3] at hrest; exact False.elim hrest
        | returned b t =>
          cases h3 : verifyLoop cfg w j u rest s1 with
          | finished t1 => rw [h2, h3] at hrest; exact False.elim hrest
          | returned b1 t1 => rw [h2, h3] at hrest; exact hrest
          | thrown err t1 => rw [h2, h3] at hrest; exact False.elim hrest
        | thrown err t =>
          cases h3 : verifyLoop cfg w j u rest s1 with
          | finished t1 => rw [h2, h3] at hrest; exact False.elim hrest
          | returned b1 t1 => rw [h2, h3] at hrest; exact False.elim hrest
          | thrown err1 t1 => rw [h2, h3] at hrest; exact hrest
      | returned b s1 => rw [h, h1] at hcam; exact False.elim hcam
      | thrown err s1 => rw [h, h1] at hcam; exact False.elim hcam
    | returned b s =>
      cases h1 : verifyCamera cfg w j u ac st1 with
      | finished s1 => rw [h, h1] at hcam; exact False.elim hcam
      | returned b1 s1 => rw [h, h1] at hcam; exact hcam
      | thrown err s1 => rw [h, h1] at hcam; exact False.elim hcam
    | thrown err s =>
      cases h1 : verifyCamera cfg w j u ac st1 with
      | finished s1 => rw [h, h1] at hcam; exact False.elim hcam
      | returned b1 s1 => rw [h, h1] at hcam; exact False.elim hcam
      | thrown err1 s1 => rw [h, h1] at hcam; exact hcam

/-- A loop that runs to its end has passed every camera, and has added to each counter
the sum of what the cameras add on their own. -/
theorem verifyLoop_finished_sum (cfg : Config) (w : World) (j : Json) (u : String)
    (cams : List ActiveCamera) (st st1 : VerifyState)
    (h : verifyLoop cfg w j u cams st = .finished st1) :
    (∀ ac ∈ cams, ∃ s0, cameraStep cfg w j u ac = .finished s0) ∧
    st1.participants =
      st.participants + (cams.map fun ac => (cameraStep cfg w j u ac).state.participants).sum ∧
    st1.successes =
      st.successes + (cams.map fun ac => (cameraStep cfg w j u ac).state.successes).sum ∧
    st1.failures =
      st.failures + (cams.map fun ac => (cameraStep cfg w j u ac).state.failures).sum := by
  induction cams generalizing st with
  | nil =>
    injection h with h
    subst h
    simp
  | cons ac rest ih =>
    unfold verifyLoop at h
    cases hc : verifyCamera cfg w j u ac st with
    | returned b s => rw [hc] at h; exact LoopEnd.noConfusion h
    | thrown err s => rw [hc] at h; exact LoopEnd.noConfusion h
    | finished s =>
      rw [hc] at h
      obtain ⟨hall, hp, hs, hf⟩ := ih s h
      have hsh := verifyCamera_shifted cfg w j u ac st {}
      rw [hc] at hsh
      cases h0 : verifyCamera cfg w j u ac {} with
      | returned b s0 => rw [h0] at hsh; exact False.elim hsh
      | thrown err s0 => rw [h0] at hsh; exact False.elim hsh
      | finished s0 =>
        rw [h0] at hsh
        have hz : s.participants + 0 = s0.participants + st.participants ∧
            s.successes + 0 = s0.successes + st.successes ∧
            s.failures + 0 = s0.failures + st.failures := hsh
        have hhead : (cameraStep cfg w j u ac).state = s0 := by
          simp only [cameraStep, h0, LoopEnd.state]
        refine ⟨?_, ?_, ?_, ?_⟩
        · intro x hx
          rcases List.mem_cons.mp hx with rfl | hx
          · exact ⟨s0, h0⟩
          · exact hall x hx
        · simp only [List.map_cons, List.sum_cons, hhead]
          omega
        · simp only [List.map_cons, List.sum_cons, hhead]
          omega
        · simp only [List.map_cons, List.sum_cons, hhead]
          omega

/-- A loop that returns has met a camera that makes the loop body return, whatever
the counters. -/
theorem verifyLoop_returned_some (cfg : Config) (w : World) (j : Json) (u : String)
    (cams : List ActiveCamera) (st st1 : VerifyState) (b : Bool)
    (h : verifyLoop cfg w j u cams st = .returned b st1) :
    ∃ ac ∈ cams, ∃ s0, cameraStep cfg w j u ac = .returned b s0 := by
  induction cams generalizing st with
  | nil => exact LoopEnd.noConfusion h
  | cons ac rest ih =>
    unfold verifyLoop at h
    cases hc : verifyCamera cfg w j u ac st with
    | finished s =>
      rw [hc] at h
      obtain ⟨x, hx, hs⟩ := ih s h
      exact ⟨x, List.mem_cons_of_mem _ hx, hs⟩
    | thrown err s => rw [hc] at h; exact LoopEnd.noConfusion h
    | returned b1 s =>
      rw [hc] at h
      injection h with hb _
      subst hb
      have hsh := verifyCamera_shifted cfg w j u ac st {}
      rw [hc] at hsh
      cases h0 : verifyCamera cfg w j u ac {} with
      | finished s0 => rw [h0] at hsh; exact False.elim hsh
      | thrown err s0 => rw [h0] at hsh; exact False.elim hsh
      | returned b0 s0 =>
        rw [h0] at hsh
        simp only [EndsShifted] at hsh
        subst hsh
        exact ⟨ac, List.mem_cons_self _ _, s0, h0⟩

/-- The verdict depends on the counters only. -/
theorem verdict_congr (cfg : Config) (st st1 : VerifyState)
    (hp : st.participants = st1.participants) (hs : st.successes = st1.successes)
    (hf : st.failures = st1.failures) : verdict cfg st = verdict cfg st1 := by
  unfold verdict
  rw [hp, hs, hf]

/-- Two loops over the same cameras in different orders: when both end without an
exception, both return false or both run to their end with equal verdicts. -/
theorem verifyLoop_perm (cfg : Config) (w : World) (j : Json) (u : String)
    (cams cams1 : List ActiveCamera) (hperm : cams1.Perm cams) (st : VerifyState)
    (r r1 : Except Err Bool)
    (hr : r = match verifyLoop cfg w j u cams st with
      | .returned b _ => .ok b
      | .thrown err _ => .error err
      | .finished s => .ok (verdict cfg s))
    (hr1 : r1 = match verifyLoop cfg w j u cams1 st with
      | .returned b _ => .ok b
      | .thrown err _ => .error err
      | .finished s => .ok (verdict cfg s))
    (b b1 : Bool) (hb : r = .ok b) (hb1 : r1 = .ok b1) : b = b1 := by
  cases h : verifyLoop cfg w j u cams st with
  | thrown err s => rw [h] at hr; rw [hr] at hb; exact Except.noConfusion hb
  | returned c s =>
    rw [h] at hr
    have hc := verifyLoop_returned cfg w j u cams st s c h
    have hbf : b = false := by
      rw [hr] at hb; rw [← Except.ok.inj hb]; exact hc
    cases h1 : verifyLoop cfg w j u cams1 st with
    | thrown err s1 => rw [h1] at hr1; rw [hr1] at hb1; exact Except.noConfusion hb1
    | returned c1 s1 =>
      rw [h1] at hr1
      have hc1 := verifyLoop_returned cfg w j u cams1 st s1 c1 h1
      rw [hr1] at hb1
      rw [hbf, ← Except.ok.inj hb1]
      exact hc1.symm
    | finished s1 =>
      exfalso
      obtain ⟨x, hx, s0, hs0⟩ := verifyLoop_returned_some cfg w j u cams st s c h
      obtain ⟨hall, -⟩ := verifyLoop_finished_sum cfg w j u cams1 st s1 h1
      obtain ⟨t, ht⟩ := hall x (hperm.mem_iff.mpr hx)
      rw [hs0] at ht
      exact LoopEnd.noConfusion ht
  | finished s =>
    rw [h] at hr
    obtain ⟨hall, hp, hs, hf⟩ := verifyLoop_finished_sum cfg w j u cams st s h
    cases h1 : verifyLoop cfg w j u cams1 st with
    | thrown err s1 => rw [h1] at hr1; rw [hr1] at hb1; exact Except.noConfusion hb1
    | returned c1 s1 =>
      exfalso
      obtain ⟨x, hx, s0, hs0⟩ := verifyLoop_returned_some cfg w j u cams1 st s1 c1 h1
      obtain ⟨t, ht⟩ := hall x (hperm.mem_iff.mp hx)
      rw [hs0] at ht
      exact LoopEnd.noConfusion ht
    | finished s1 =>
      rw [h1] at hr1
      obtain ⟨-, hp1, hs1, hf1⟩ := verifyLoop_finished_sum cfg w j u cams1 st s1 h1
      have e1 := (hperm.map fun ac => (cameraStep cfg w j u ac).state.participants).sum_eq
      have e2 := (hperm.map fun ac => (cameraStep cfg w j u ac).state.successes).sum_eq
      have e3 := (hperm.map fun ac => (cameraStep cfg w j u ac).state.failures).sum_eq
      rw [hr] at hb
      rw [hr1] at hb1
      rw [← Except.ok.inj hb, ← Except.ok.inj hb1]
      exact verdict_congr cfg s s1 (by omega) (by omega) (by omega)

/-- Reordering the active cameras of an engine changes neither whether its models
load nor its configuration, and reorders the cameras in use. -/
theorem ensureModelsLoaded_perm (e : AuthEngine) (w : World) (cams1 : List ActiveCamera)
    (hperm : cams1.Perm e.active_cameras) :
    (ensureModelsLoaded { e with active_cameras := cams1 } w).1 = (ensureModelsLoaded e w).1 ∧
    (ensureModelsLoaded { e with active_cameras := cams1 } w).2.config =
      (ensureModelsLoaded e w).2.config ∧
    (camerasInUse { e with active_cameras := cams1 } w).Perm (camerasInUse e w) := by
  have hempty : cams1.isEmpty = e.active_cameras.isEmpty := by
    cases h1 : cams1 with
    | nil =>
      rw [h1] at hperm
      rw [List.nil_perm.mp hperm]
    | cons a l =>
      cases h2 : e.active_cameras with
      | nil => rw [h1, h2] at hperm; exact absurd (List.perm_nil.mp hperm) (by simp)
      | cons b m => rfl
  refine ⟨?_, ?_, ?_⟩
  · unfold ensureModelsLoaded loadModels
    dsimp only
    split_ifs <;> rfl
  · rw [ensureModelsLoaded_config, ensureModelsLoaded_config]
  · unfold camerasInUse ensureModelsLoaded loadModels
    dsimp only
    rw [hempty]
    split_ifs <;> first | exact hperm | exact List.Perm.refl _

/-- With readable stored embeddings for every camera, the loop ends without an
exception. -/
theorem verifyLoop_readable (cfg : Config) (w : World) (j : Json) (u : String)
    (cams : List ActiveCamera) (st : VerifyState) (hr : ∀ ac ∈ cams, Readable w j ac) :
    ∃ b, (match verifyLoop cfg w j u cams st with
      | .returned b _ => Except.ok b
      | .thrown err _ => .error err
      | .finished s => .ok (verdict cfg s)) = .ok b := by
  obtain ⟨st1, h | ⟨h, -⟩⟩ := verifyLoop_outcome cfg w j u cams st
    fun ac hac => hasOutcome_of_readable cfg w j ac (hr ac hac)
  · rw [h]; exact ⟨false, rfl⟩
  · rw [h]; exact ⟨_, rfl⟩

/-- Two engines that differ in the order of their cameras only: when both
verifications return a decision, it is the same decision. -/
theorem verifyUser_perm (e : AuthEngine) (w : World) (fs : FS) (u : String)
    (cams1 : List ActiveCamera) (hperm : cams1.Perm e.active_cameras) (b b1 : Bool)
    (hb : (verifyUser e w fs u).result = .ok b)
    (hb1 : (verifyUser { e with active_cameras := cams1 } w fs u).result = .ok b1) :
    b = b1 := by
  obtain ⟨hl, hcfg, hcams⟩ := ensureModelsLoaded_perm e w cams1 hperm
  by_cases hearly : (ensureModelsLoaded e w).1 = false ∨ isValidUsername u = false ∨
      fs (userFile (ensureModelsLoaded e w).2.config u) = none
  · have h1 := verifyUser_early e w fs u hearly
    have h2 := verifyUser_early { e with active_cameras := cams1 } w fs u
      (by rw [hl, hcfg]; exact hearly)
    rw [h1] at hb
    rw [h2] at hb1
    rw [← Except.ok.inj hb, ← Except.ok.inj hb1]
  · simp only [not_or, Bool.not_eq_false] at hearly
    obtain ⟨h1, h2, h3⟩ := hearly
    obtain ⟨j, hj⟩ := Option.ne_none_iff_exists'.mp h3
    have r := verifyUser_of_doc e w fs u j h1 h2 hj
    have r1 := verifyUser_of_doc { e with active_cameras := cams1 } w fs u j
      (by rw [hl]; exact h1) h2 (by rw [hcfg]; exact hj)
    rw [hcfg] at r1
    exact verifyLoop_perm (ensureModelsLoaded e w).2.config w j u (camerasInUse e w)
      (camerasInUse { e with active_cameras := cams1 } w) hcams _ _ _ r r1 b b1 hb hb1

/-- C28. The verdict of `verifyUser` does not depend on the order of the configured
cameras: for every policy, every engine, host, file system and username, and every
reordering of the camera list, two verifications that both return a decision return
the same decision; and when the stored embeddings of every camera in use can be read
and compared (no exception is raised), both orders do return a decision, the same
one. -/
theorem C28_camera_order (e : AuthEngine) (w : World) (fs : FS) (u : String)
    (cams1 : List ActiveCamera) (hperm : cams1.Perm e.active_cameras) :
    (∀ b b1, (verifyUser e w fs u).result = .ok b →
      (verifyUser { e with active_cameras := cams1 } w fs u).result = .ok b1 → b = b1) ∧
    ((∀ j, fs (userFile (ensureModelsLoaded e w).2.config u) = some j →
        ∀ ac ∈ camerasInUse e w, Readable w j ac) →
      ∃ b, (verifyUser e w fs u).result = .ok b ∧
        (verifyUser { e with active_cameras := cams1 } w fs u).result = .ok b) := by
  refine ⟨fun b b1 => verifyUser_perm e w fs u cams1 hperm b b1, fun hread => ?_⟩
  obtain ⟨hl, hcfg, hcams⟩ := ensureModelsLoaded_perm e w cams1 hperm
  have key : ∃ b b1, (verifyUser e w fs u).result = .ok b ∧
      (verifyUser { e with active_cameras := cams1 } w fs u).result = .ok b1 := by
    by_cases hearly : (ensureModelsLoaded e w).1 = false ∨ isValidUsername u = false ∨
        fs (userFile (ensureModelsLoaded e w).2.config u) = none
    · exact ⟨false, false, verifyUser_early e w fs u hearly,
        verifyUser_early { e with active_cameras := cams1 } w fs u
          (by rw [hl, hcfg]; exact hearly)⟩
    · simp only [not_or, Bool.not_eq_false] at hearly
      obtain ⟨h1, h2, h3⟩ := hearly
      obtain ⟨j, hj⟩ := Option.ne_none_iff_exists'.mp h3
      have r := verifyUser_of_doc e w fs u j h1 h2 hj
      have r1 := verifyUser_of_doc { e with active_cameras := cams1 } w fs u j
        (by rw [hl]; exact h1) h2 (by rw [hcfg]; exact hj)
      rw [hcfg] at r1
      obtain ⟨b, hb⟩ := verifyLoop_readable (ensureModelsLoaded e w).2.config w j u
        (camerasInUse e w) _ (hread j hj)
      obtain ⟨b1, hb1⟩ := verifyLoop_readable (ensureModelsLoaded e w).2.config w j u
        (camerasInUse { e with active_cameras := cams1 } w) _
        (fun ac hac => hread j hj ac (hcams.mem_iff.mp hac))
      exact ⟨b, b1, r.trans hb, r1.trans hb1⟩
  obtain ⟨b, b1, hb, hb1⟩ := key
  have := verifyUser_perm e w fs u cams1 hperm b b1 hb hb1
  subst this
  exact ⟨b, hb, hb1⟩

/-- C28 at a concrete input: under ADAPTIVE, a failing mandatory infrared camera and a
matching color camera give the same decision in both orders. -/
theorem C28_camera_order_witness :
    ∃ b, (verifyUser (Scenario.engine .ADAPTIVE [Scenario.irFailing, Scenario.rgbMatching])
        Scenario.world Scenario.files "vlad").result = .ok b ∧
      (verifyUser { Scenario.engine .ADAPTIVE [Scenario.irFailing, Scenario.rgbMatching] with
          active_cameras := [Scenario.rgbMatching, Scenario.irFailing] }
        Scenario.world Scenario.files "vlad").result = .ok b := by
  refine (C28_camera_order (Scenario.engine .ADAPTIVE [Scenario.irFailing, Scenario.rgbMatching])
    Scenario.world Scenario.files "vlad" [Scenario.rgbMatching, Scenario.irFailing]
    (List.Perm.swap _ _ _)).2 ?_
  intro j hj ac hac
  have hj1 : j = Scenario.doc := by
    have : Scenario.files "/etc/linuxcampam/users/vlad.json" = some j := hj
    simpa [Scenario.files] using this.symm
  subst hj1
  have hac1 : ac = Scenario.irFailing ∨ ac = Scenario.rgbMatching := by
    simpa [camerasInUse, ensureModelsLoaded, Scenario.engine] using hac
  rcases hac1 with h | h
  · subst h
    exact ⟨[], rfl, fun frame hf => absurd hf (by simp [Scenario.irFailing])⟩
  · subst h
    exact ⟨[[1]], rfl, fun frame _ f _ s _ => ⟨_, rfl⟩⟩


/-! ## Committing a label: all or nothing -/

/-- A pass of the loop of `setLabel` that changes the document leaves no pending vector
of its type. -/
theorem setLabelBody_update_pending (cfg : Config) (now : Int) (ver label t : String)
    (j j2 : Json) (h : setLabelBody cfg now ver label t j = .update j2) :
    j2.contains ("_pending_" ++ t) = false := by
  obtain ⟨fs, p, j1, a1, hj, -, hinit, hfin, -⟩ :=
    setLabelBody_update_inv cfg now ver label t j j2 h
  subst hj
  obtain ⟨fs1, hj1, -⟩ := initArray_inv fs now t j1 hinit
  subst hj1
  have : j2 = .obj (Fields.erase (Fields.set fs1 ("embeddings_" ++ t) a1) ("_pending_" ++ t)) := by
    simp only [finishCommit, Json.assign, Json.erase] at hfin
    exact (Except.ok.inj hfin).symm
  rw [this, Json.contains_obj, Fields.find_erase_eq]
  rfl

/-- A pass of the loop of `setLabel` does not bring back a pending vector. -/
theorem setLabelBody_pending_kept_absent (cfg : Config) (now : Int) (ver label t1 t : String)
    (j j2 : Json) (h : setLabelBody cfg now ver label t1 j = .update j2)
    (habs : j.contains ("_pending_" ++ t) = false) :
    j2.contains ("_pending_" ++ t) = false := by
  by_cases ht : t1 = t
  · subst ht
    exact setLabelBody_update_pending cfg now ver label t1 j j2 h
  · obtain ⟨fs, fs2, hj, hj2, -, -, hp⟩ := setLabelBody_other cfg now ver label t1 t j j2 h ht
    subst hj
    subst hj2
    rw [Json.contains_obj] at habs ⊢
    rw [hp]
    exact habs

/-- A pass of the loop of `setLabel` passes a camera over only when the document has no
pending vector of its type. -/
theorem setLabelBody_skip_inv (cfg : Config) (now : Int) (ver label t : String) (j : Json)
    (h : setLabelBody cfg now ver label t j = .skip) :
    j.contains ("_pending_" ++ t) = false := by
  cases hc : j.contains ("_pending_" ++ t)
  · rfl
  · exact absurd h (setLabelBody_skip cfg now ver label t j hc)

/-- When the loop of `setLabel` runs to its end, the document has no pending vector of
a configured camera type, nor of a type that had none before. -/
theorem setLabelLoop_no_pending_left (cfg : Config) (now : Int) (ver label : String)
    (cams : List ActiveCamera) (j j1 : Json) (updated updated1 : Bool) (log : List Effect)
    (h : setLabelLoop cfg now ver label cams j updated = .finished j1 updated1 log) :
    (∀ ac ∈ cams, j1.contains ("_pending_" ++ ac.config.type) = false) ∧
    (∀ t, j.contains ("_pending_" ++ t) = false → j1.contains ("_pending_" ++ t) = false) := by
  induction cams generalizing j updated with
  | nil =>
    simp only [setLabelLoop] at h
    injection h with hj _ _
    subst hj
    exact ⟨fun ac hac => absurd hac (List.not_mem_nil _), fun t ht => ht⟩
  | cons ac rest ih =>
    rw [setLabelLoop_cons] at h
    cases hb : setLabelBody cfg now ver label ac.config.type j with
    | stop b => rw [hb] at h; exact StoreLoopEnd.noConfusion h
    | raise err => rw [hb] at h; exact StoreLoopEnd.noConfusion h
    | skip =>
      rw [hb] at h
      obtain ⟨h1, h2⟩ := ih j updated h
      have habs := setLabelBody_skip_inv cfg now ver label ac.config.type j hb
      refine ⟨fun x hx => ?_, h2⟩
      rcases List.mem_cons.mp hx with rfl | hx
      · exact h2 _ habs
      · exact h1 x hx
    | update j2 =>
      rw [hb] at h
      obtain ⟨h1, h2⟩ := ih j2 true h
      have hgone := setLabelBody_update_pending cfg now ver label ac.config.type j j2 hb
      refine ⟨fun x hx => ?_, fun t ht => ?_⟩
      · rcases List.mem_cons.mp hx with rfl | hx
        · exact h2 _ hgone
        · exact h1 x hx
      · exact h2 t (setLabelBody_pending_kept_absent cfg now ver label ac.config.type t j j2
          hb ht)

/-- C29. `setLabel` is all-or-nothing on the stored document. Whenever it does not
return true (it returns false, or an exception escapes) the file system is unchanged;
it returns false for an invalid username, for a missing document and when the document
has no pending vector of a configured camera type. Whenever it returns true the user's
document is the only one written, and the written document has no `_pending_<type>`
key of a configured camera type. -/
theorem C29_setLabel_all_or_nothing (e : AuthEngine) (w : World) (fs : FS)
    (u label : String) :
    ((setLabel e w fs u label).result ≠ .ok true → (setLabel e w fs u label).fs = fs) ∧
    ((setLabel e w fs u label).result = .ok true →
      ∃ j j1, fs (userFile e.config u) = some j ∧
        (setLabel e w fs u label).fs = fs.write (userFile e.config u) j1 ∧
        ∀ ac ∈ e.active_cameras, j1.contains ("_pending_" ++ ac.config.type) = false) ∧
    (isValidUsername u = false → (setLabel e w fs u label).result = .ok false) ∧
    (fs (userFile e.config u) = none → (setLabel e w fs u label).result = .ok false) ∧
    (∀ j, fs (userFile e.config u) = some j →
      (∀ ac ∈ e.active_cameras, j.contains ("_pending_" ++ ac.config.type) = false) →
      (setLabel e w fs u label).result = .ok false) := by
  refine ⟨setLabel_fs_unchanged e w fs u label, ?_, ?_, ?_, ?_⟩
  · intro h
    obtain ⟨j, j1, log, hj, hloop, hfs⟩ := setLabel_true_inv e w fs u label h
    exact ⟨j, j1, hj, hfs,
      (setLabelLoop_no_pending_left _ _ _ _ _ j j1 false true log hloop).1⟩
  · intro hv
    simp [setLabel, hv]
  · intro hj
    unfold setLabel
    cases hv : isValidUsername u
    · rfl
    · simp only [Bool.not_true, Bool.false_eq_true, if_false, hj]
  · intro j hj hnone
    unfold setLabel
    cases hv : isValidUsername u
    · rfl
    · simp only [Bool.not_true, Bool.false_eq_true, if_false, hj,
        setLabelLoop_no_pending _ _ _ _ _ j false hnone]

/-- C29 at a concrete input, with `max_embeddings = 2` and pending vectors for the types
"ir" and "rgb": the new label "hat" is appended for "ir" in memory and then rejected
for "rgb", whose array is full, so `setLabel` returns false and the file system is
unchanged; the label "default" is overwritten for both types, `setLabel` returns true
and the written document has no pending vector left. -/
theorem C29_setLabel_all_or_nothing_witness :
    ((setLabel Scenario.twoTypeEngine Scenario.world Scenario.twoPendingFiles "vlad"
        "hat").result = .ok false ∧
      (setLabel Scenario.twoTypeEngine Scenario.world Scenario.twoPendingFiles "vlad"
        "hat").fs = Scenario.twoPendingFiles) ∧
    ((setLabel Scenario.twoTypeEngine Scenario.world Scenario.twoPendingFiles "vlad"
        "default").result = .ok true ∧
      ∃ j j1, Scenario.twoPendingFiles (userFile Scenario.twoTypeEngine.config "vlad") =
          some j ∧
        (setLabel Scenario.twoTypeEngine Scenario.world Scenario.twoPendingFiles "vlad"
          "default").fs =
          Scenario.twoPendingFiles.write (userFile Scenario.twoTypeEngine.config "vlad") j1 ∧
        ∀ ac ∈ Scenario.twoTypeEngine.active_cameras,
          j1.contains ("_pending_" ++ ac.config.type) = false) := by
  have h1 : (setLabel Scenario.twoTypeEngine Scenario.world Scenario.twoPendingFiles "vlad"
      "hat").result = .ok false := rfl
  have h2 : (setLabel Scenario.twoTypeEngine Scenario.world Scenario.twoPendingFiles "vlad"
      "default").result = .ok true := rfl
  exact ⟨⟨h1, (C29_setLabel_all_or_nothing Scenario.twoTypeEngine Scenario.world
      Scenario.twoPendingFiles "vlad" "hat").1
        (by rw [h1]; exact fun h => absurd (Except.ok.inj h) (by decide))⟩,
    h2, (C29_setLabel_all_or_nothing Scenario.twoTypeEngine Scenario.world
      Scenario.twoPendingFiles "vlad" "default").2.1 h2⟩


/-! ## What enrollment leaves of an existing document -/

/-- An assignment `j[key] = v` that does not raise: the key is present with the value
afterwards, and every other key is as before. -/
theorem Json.assign_frame (j j1 : Json) (key : String) (v : Json)
    (h : j.assign key v = .ok j1) :
    j1.contains key = true ∧ j1.getKey key = v ∧
    ∀ k, k ≠ key → j1.getKey k = j.getKey k ∧ j1.contains k = j.contains k := by
  cases j with
  | null =>
    simp only [Json.assign] at h
    have hj1 := (Except.ok.inj h).symm
    subst hj1
    refine ⟨by simp [Json.contains, Fields.find], by simp [Json.getKey, Fields.find], ?_⟩
    intro k hk
    have hk1 : ¬ key = k := fun hh => hk hh.symm
    simp [Json.getKey, Json.contains, Fields.find, hk1]
  | obj fs =>
    simp only [Json.assign] at h
    have hj1 := (Except.ok.inj h).symm
    subst hj1
    refine ⟨?_, ?_, ?_⟩
    · rw [Json.contains_obj, Fields.find_set_eq]; rfl
    · rw [Json.getKey_obj, Fields.find_set_eq]; rfl
    · intro k hk
      rw [Json.getKey_obj, Json.getKey_obj, Json.contains_obj, Json.contains_obj,
        Fields.find_set_ne fs key k v hk]
      exact ⟨rfl, rfl⟩
  | bool b => exact Except.noConfusion h
  | num q => exact Except.noConfusion h
  | str s => exact Except.noConfusion h
  | arr l => exact Except.noConfusion h

/-- The loop of `enrollUser` returns only a refusal. -/
theorem enrollLoop_returned (cfg : Config) (u : String) (cams : List ActiveCamera)
    (j : Json) (log log1 : List Effect) (r : Bool × String)
    (h : enrollLoop cfg u cams j log = .returned r log1) : r.1 = false := by
  induction cams generalizing j log with
  | nil => exact DocLoopEnd.noConfusion h
  | cons ac rest ih =>
    unfold enrollLoop at h
    simp only at h
    cases hc : (enrollCapture cfg ac).1 with
    | none =>
      rw [hc] at h
      injection h with hr _
      rw [← hr]
    | some frame =>
      rw [hc] at h
      simp only at h
      cases hf : frame.faces with
      | nil =>
        rw [hf] at h
        injection h with hr _
        rw [← hr]
      | cons face more =>
        cases more with
        | nil =>
          rw [hf] at h
          simp only at h
          cases ha : j.assign ("_pending_" ++ ac.config.type) (Json.ofVec face) with
          | error err => rw [ha] at h; exact DocLoopEnd.noConfusion h
          | ok j2 => rw [ha] at h; exact ih j2 _ h
        | cons face2 more2 =>
          rw [hf] at h
          injection h with hr _
          rw [← hr]

/-- When the loop of `enrollUser` runs to its end, the document holds a pending vector
for the type of every camera, and every key other than these pending keys is as
before. -/
theorem enrollLoop_finished_inv (cfg : Config) (u : String) (cams : List ActiveCamera)
    (j j1 : Json) (log log1 : List Effect)
    (h : enrollLoop cfg u cams j log = .finished j1 log1) :
    (∀ ac ∈ cams, j1.contains ("_pending_" ++ ac.config.type) = true) ∧
    (∀ k, j.contains k = true → j1.contains k = true) ∧
    (∀ k, (∀ ac ∈ cams, k ≠ "_pending_" ++ ac.config.type) →
      j1.getKey k = j.getKey k ∧ j1.contains k = j.contains k) := by
  induction cams generalizing j log with
  | nil =>
    simp only [enrollLoop] at h
    injection h with hj _
    subst hj
    exact ⟨fun ac hac => absurd hac (List.not_mem_nil _), fun k hk => hk,
      fun k _ => ⟨rfl, rfl⟩⟩
  | cons ac rest ih =>
    unfold enrollLoop at h
    simp only at h
    cases hc : (enrollCapture cfg ac).1 with
    | none => rw [hc] at h; exact DocLoopEnd.noConfusion h
    | some frame =>
      rw [hc] at h
      simp only at h
      cases hf : frame.faces with
      | nil => rw [hf] at h; exact DocLoopEnd.noConfusion h
      | cons face more =>
        cases more with
        | cons face2 more2 => rw [hf] at h; exact DocLoopEnd.noConfusion h
        | nil =>
          rw [hf] at h
          simp only at h
          cases ha : j.assign ("_pending_" ++ ac.config.type) (Json.ofVec face) with
          | error err => rw [ha] at h; exact DocLoopEnd.noConfusion h
          | ok j2 =>
            rw [ha] at h
            obtain ⟨h1, h2, h3⟩ := ih j2 _ h
            obtain ⟨a1, -, a3⟩ := Json.assign_frame j j2 _ _ ha
            refine ⟨?_, ?_, ?_⟩
            · intro x hx
              rcases List.mem_cons.mp hx with rfl | hx
              · exact h2 _ a1
              · exact h1 x hx
            · intro k hk
              apply h2
              by_cases hkey : k = "_pending_" ++ ac.config.type
              · rw [hkey]; exact a1
              · rw [(a3 k hkey).2]; exact hk
            · intro k hk
              have hk1 := hk ac (List.mem_cons_self _ _)
              obtain ⟨g1, g2⟩ := h3 k fun x hx => hk x (List.mem_cons_of_mem _ hx)
              exact ⟨g1.trans (a3 k hk1).1, g2.trans (a3 k hk1).2⟩

/-- A successful enrollment on an existing document comes from a loop that ran to its
end on that document, and writes the document the loop built. -/
theorem enrollUser_true_inv (e : AuthEngine) (w : World) (fs : FS) (u : String) (j : Json)
    (msg : String) (hj : fs (userFile e.config u) = some j)
    (h : (enrollUser e w fs u).result = .ok (true, msg)) :
    ∃ j1 log1, enrollLoop e.config u (camerasInUse e w) j
        [.fsExists (userFile e.config u), .fsRead (userFile e.config u)] =
        .finished j1 log1 ∧
      (enrollUser e w fs u).fs = fs.write (userFile e.config u) j1 := by
  unfold enrollUser at h ⊢
  unfold camerasInUse
  simp only [ensureModelsLoaded_config, hj] at h ⊢
  cases hl : (ensureModelsLoaded e w).1
  · simp only [hl, Bool.not_false, if_true] at h
    exact absurd (congrArg Prod.fst (Except.ok.inj h)) (by simp)
  · cases hv : isValidUsername u
    · simp only [hl, hv, Bool.not_true, Bool.not_false, Bool.false_eq_true, if_false,
        if_true] at h
      exact absurd (congrArg Prod.fst (Except.ok.inj h)) (by simp)
    · simp only [hl, hv, Bool.not_true, Bool.false_eq_true, if_false] at h ⊢
      cases hloop : enrollLoop e.config u (ensureModelsLoaded e w).2.active_cameras j
          [.fsExists (userFile e.config u), .fsRead (userFile e.config u)] with
      | returned r log1 =>
        rw [hloop] at h
        have hr := enrollLoop_returned _ _ _ _ _ _ r hloop
        have := congrArg Prod.fst (Except.ok.inj h)
        rw [hr] at this
        exact absurd this (by simp)
      | thrown err log1 => rw [hloop] at h; exact Except.noConfusion h
      | finished j1 log1 => exact ⟨j1, log1, rfl, rfl⟩

/-- C30. Enrollment never alters committed embeddings: after a successful `enrollUser`
on an existing document, the user's document is the only one written; in the written
document every key other than the `_pending_<type>` keys of the cameras in use is
present exactly when it was before and holds the value it held, in particular every
`embeddings_<type>` array and every legacy `embedding_<type>` field of every type; and
the written document holds a `_pending_<type>` entry for the type of every camera in
use. -/
theorem C30_enrollUser_frame (e : AuthEngine) (w : World) (fs : FS) (u : String)
    (j : Json) (msg : String) (hj : fs (userFile e.config u) = some j)
    (h : (enrollUser e w fs u).result = .ok (true, msg)) :
    ∃ j1, (enrollUser e w fs u).fs = fs.write (userFile e.config u) j1 ∧
      (∀ k, (∀ ac ∈ camerasInUse e w, k ≠ "_pending_" ++ ac.config.type) →
        j1.getKey k = j.getKey k ∧ j1.contains k = j.contains k) ∧
      (∀ t, j1.getKey ("embeddings_" ++ t) = j.getKey ("embeddings_" ++ t) ∧
        j1.contains ("embeddings_" ++ t) = j.contains ("embeddings_" ++ t) ∧
        j1.getKey ("embedding_" ++ t) = j.getKey ("embedding_" ++ t) ∧
        j1.contains ("embedding_" ++ t) = j.contains ("embedding_" ++ t)) ∧
      (∀ ac ∈ camerasInUse e w, j1.contains ("_pending_" ++ ac.config.type) = true) := by
  obtain ⟨j1, log1, hloop, hfs⟩ := enrollUser_true_inv e w fs u j msg hj h
  obtain ⟨h1, -, h3⟩ := enrollLoop_finished_inv _ _ _ _ _ _ _ hloop
  refine ⟨j1, hfs, h3, fun t => ?_, h1⟩
  have ha := h3 ("embeddings_" ++ t) fun ac _ hh => pending_ne_embeddings _ _ hh.symm
  have hb := h3 ("embedding_" ++ t) fun ac _ hh => pending_ne_embedding _ _ hh.symm
  exact ⟨ha.1, ha.2, hb.1, hb.2⟩

/-- C30 at a concrete input: enrolling the user "vlad", who has one stored embedding
for the type "rgb", on a color camera keeps the array `embeddings_rgb` and adds the
pending vector. -/
theorem C30_enrollUser_frame_witness :
    ∃ j1, (enrollUser (Scenario.engine .ADAPTIVE [Scenario.rgbEnroll]) Scenario.world
        Scenario.files "vlad").fs =
        Scenario.files.write "/etc/linuxcampam/users/vlad.json" j1 ∧
      j1.getKey "embeddings_rgb" = Scenario.doc.getKey "embeddings_rgb" ∧
      j1.contains "_pending_rgb" = true := by
  obtain ⟨j1, hfs, -, h2, h3⟩ := C30_enrollUser_frame
    (Scenario.engine .ADAPTIVE [Scenario.rgbEnroll]) Scenario.world Scenario.files "vlad"
    Scenario.doc "Success" rfl rfl
  exact ⟨j1, hfs, (h2 "rgb").1, h3 Scenario.rgbEnroll (List.mem_cons_self _ _)⟩


/-! ## When training succeeds -/

theorem mapM_getFloat_num (v : Vec) : (v.map Json.num).mapM Json.getFloat = .ok v := by
  induction v with
  | nil => rfl
  | cons x rest ih =>
    simp only [List.map_cons, List.mapM_cons, ih, Json.getFloat, bind, Except.bind, pure,
      Except.pure]

theorem getVec_ofVec (v : Vec) : (Json.ofVec v).getVec = .ok v :=
  mapM_getFloat_num v

theorem trainedEntry_readable (lbl : String) (v : Vec) (now : Int) :
    EntryReadable (trainedEntry lbl v now) :=
  ⟨_, Json.ofVec v, v, rfl, rfl, getVec_ofVec v⟩

theorem legacyEntry_readable (legacy : Json) (c : Int) (vec : Vec)
    (h : legacy.getVec = .ok vec) : EntryReadable (legacyEntry legacy c) :=
  ⟨_, legacy, vec, rfl, rfl, h⟩

theorem data_ne_label : "data" ≠ "label" := by decide

theorem data_ne_created : "data" ≠ "created" := by decide

/-- The label test leaves an entry that can be refined as such. -/
theorem entryLabelIs_readable (en : Json) (label : String) (h : EntryReadable en) :
    ∃ b en1, entryLabelIs en label = .ok (b, en1) ∧ EntryReadable en1 := by
  obtain ⟨efs, d, vec, hen, hd, hv⟩ := h
  subst hen
  cases hl : Fields.find efs "label" with
  | some v =>
    refine ⟨v.eqStr label, .obj efs, ?_, efs, d, vec, rfl, hd, hv⟩
    simp only [entryLabelIs, Json.index, hl]
  | none =>
    refine ⟨Json.null.eqStr label, .obj (Fields.set efs "label" .null), ?_, _, d, vec, rfl,
      ?_, hv⟩
    · simp only [entryLabelIs, Json.index, hl]
    · rw [Fields.find_set_ne _ _ _ _ data_ne_label]
      exact hd

/-- Refining an entry that can be refined does not raise and leaves such an entry. -/
theorem refineEntry_readable (w : World) (new_vec : Vec) (en : Json) (hw : SumsNormalize w)
    (h : EntryReadable en) :
    ∃ en2, refineEntry w new_vec en = .ok en2 ∧ EntryReadable en2 := by
  obtain ⟨efs, d, vec, hen, hd, hv⟩ := h
  subst hen
  obtain ⟨avg, havg⟩ := hw vec new_vec
  unfold refineEntry
  simp only [Json.index, hd, hv, havg, Json.assign]
  refine ⟨_, rfl, _, Json.ofVec avg, avg, rfl, ?_, getVec_ofVec avg⟩
  rw [Fields.find_set_ne _ _ _ _ data_ne_created, Fields.find_set_eq]

/-- The search for the label in an array of entries that can be refined does not
raise and leaves such an array. -/
theorem updateFirstLabelled_readable (w : World) (label : String) (new_vec : Vec)
    (hw : SumsNormalize w) (l : List Json) (h : ∀ en ∈ l, EntryReadable en) :
    ∃ found l1, updateFirstLabelled label (refineEntry w new_vec) l = .ok (found, l1) ∧
      ∀ en ∈ l1, EntryReadable en := by
  induction l with
  | nil => exact ⟨false, [], rfl, fun en hen => absurd hen (List.not_mem_nil _)⟩
  | cons en rest ih =>
    obtain ⟨b, en1, h1, hr1⟩ := entryLabelIs_readable en label (h en (List.mem_cons_self _ _))
    have hrest : ∀ x ∈ rest, EntryReadable x := fun x hx => h x (List.mem_cons_of_mem _ hx)
    unfold updateFirstLabelled
    rw [h1]
    cases b with
    | true =>
      obtain ⟨en2, h2, hr2⟩ := refineEntry_readable w new_vec en1 hw hr1
      simp only [h2]
      refine ⟨true, en2 :: rest, rfl, fun x hx => ?_⟩
      rcases List.mem_cons.mp hx with rfl | hx
      · exact hr2
      · exact hrest x hx
    | false =>
      obtain ⟨found, l1, h2, hr2⟩ := ih hrest
      simp only [h2]
      refine ⟨found, en1 :: l1, rfl, fun x hx => ?_⟩
      rcases List.mem_cons.mp hx with rfl | hx
      · exact hr1
      · exact hr2 x hx

/-- Storing an array of entries that can be refined under `embeddings_<type>` keeps the
document well formed. -/
theorem storeWellFormed_set (fs : Fields) (t : String) (l : List Json)
    (h : StoreWellFormed (.obj fs)) (hl : ∀ en ∈ l, EntryReadable en) :
    StoreWellFormed (.obj (Fields.set fs ("embeddings_" ++ t) (.arr l))) := by
  obtain ⟨fs0, hfs, hc, ha, hleg⟩ := h
  injection hfs with hfs
  subst hfs
  refine ⟨_, rfl, ?_, ?_, ?_⟩
  · rw [Fields.find_set_ne _ _ _ _ (created_ne_embeddings t)]
    exact hc
  · intro t1 v hv
    by_cases ht : t1 = t
    · subst ht
      rw [Fields.find_set_eq] at hv
      injection hv with hv
      exact ⟨l, hv.symm, hl⟩
    · rw [Fields.find_set_ne _ _ _ _ (embeddings_inj t1 t ht)] at hv
      exact ha t1 v hv
  · intro t1 v hv
    rw [Fields.find_set_ne _ _ _ _ (embedding_ne_embeddings t1 t)] at hv
    exact hleg t1 v hv

/-- On a well-formed document the initialisation of the array does not raise: it
leaves a well-formed document whose `embeddings_<type>` is an array of entries that can
be refined. -/
theorem initArray_wellFormed (fs : Fields) (now : Int) (t : String)
    (h : StoreWellFormed (.obj fs)) :
    ∃ fs1 l, initArray (.obj fs) now t = .ok (.obj fs1) ∧ StoreWellFormed (.obj fs1) ∧
      Fields.find fs1 ("embeddings_" ++ t) = some (.arr l) ∧ ∀ en ∈ l, EntryReadable en := by
  have h0 := h
  obtain ⟨fs0, hfs, hc, ha, hleg⟩ := h
  injection hfs with hfs
  subst hfs
  cases hA : Fields.find fs ("embeddings_" ++ t) with
  | some v =>
    obtain ⟨l, hv, hl⟩ := ha t v hA
    subst hv
    refine ⟨fs, l, ?_, h0, hA, hl⟩
    apply initArray_present
    rw [Json.contains_obj, hA]
    rfl
  | none =>
    cases hL : Fields.find fs ("embedding_" ++ t) with
    | none =>
      refine ⟨_, [], initArray_fresh fs now t hA hL,
        storeWellFormed_set fs t [] h0 (fun en hen => absurd hen (List.not_mem_nil _)),
        Fields.find_set_eq _ _ _, fun en hen => absurd hen (List.not_mem_nil _)⟩
    | some legacy =>
      obtain ⟨vec, hvec⟩ := hleg t legacy hL
      have hcr : ∃ c, (Json.obj fs).valueInt "created" now = .ok c := by
        rcases hc with hc | ⟨c, hc⟩
        · exact ⟨now, by simp only [Json.valueInt, hc]⟩
        · exact ⟨Int.tdiv c.num c.den, by simp only [Json.valueInt, hc]⟩
      obtain ⟨c, hcv⟩ := hcr
      obtain ⟨fs1, hinit, hA1, hL1, hother⟩ :=
        initArray_legacy_ok fs now t legacy c hA hL hcv
      have hread : ∀ en ∈ [legacyEntry legacy c], EntryReadable en := by
        intro en hen
        rw [List.mem_singleton.mp hen]
        exact legacyEntry_readable legacy c vec hvec
      refine ⟨fs1, [legacyEntry legacy c], hinit, ⟨fs1, rfl, ?_, ?_, ?_⟩, hA1, hread⟩
      · rw [hother "created" (created_ne_embeddings t) (created_ne_embedding t)]
        exact hc
      · intro t1 v hv
        by_cases ht : t1 = t
        · subst ht
          rw [hA1] at hv
          injection hv with hv
          exact ⟨_, hv.symm, hread⟩
        · rw [hother _ (embeddings_inj t1 t ht)
            (fun hh => embedding_ne_embeddings t t1 hh.symm)] at hv
          exact ha t1 v hv
      · intro t1 v hv
        by_cases ht : t1 = t
        · subst ht
          rw [hL1] at hv
          exact Option.noConfusion hv
        · rw [hother _ (embedding_ne_embeddings t1 t) (embedding_inj t1 t ht)] at hv
          exact hleg t1 v hv

/-- On a well-formed document a pass of the loop of `trainUser` never raises: it passes
over a camera that did not capture exactly one face, and for a camera that did it
changes the document, keeping it well formed, unless in create-new mode the array of
the camera's type is full, which makes `trainUser` return false. -/
theorem trainBody_wellFormed (cfg : Config) (w : World) (label : String) (create_new : Bool)
    (ac : ActiveCamera) (j : Json) (hwf : StoreWellFormed j) (hw : SumsNormalize w) :
    (trainBody cfg w label create_new ac j = .skip ∧ ¬ CapturesOneFace ac) ∨
    (∃ j2, trainBody cfg w label create_new ac j = .update j2 ∧ StoreWellFormed j2 ∧
      CapturesOneFace ac) ∨
    (trainBody cfg w label create_new ac j = .stop false ∧ create_new = true ∧
      CapturesOneFace ac ∧ ArrayFull cfg w.now ac j) := by
  have hwf0 := hwf
  obtain ⟨fs, hj, -⟩ := hwf
  subst hj
  cases hcap : ac.cam.capture with
  | none =>
    left
    refine ⟨by simp only [trainBody, hcap], ?_⟩
    rintro ⟨frame, v, hc, -⟩
    rw [hcap] at hc
    exact Option.noConfusion hc
  | some frame =>
    have hnot : (∀ v, frame.faces ≠ [v]) → ¬ CapturesOneFace ac := by
      rintro hne ⟨frame1, v, hc, hf⟩
      rw [hcap] at hc
      injection hc with hc
      subst hc
      exact hne v hf
    cases hfaces : frame.faces with
    | nil =>
      left
      refine ⟨by simp only [trainBody, hcap, hfaces], hnot fun v hv => ?_⟩
      rw [hfaces] at hv
      exact List.noConfusion hv
    | cons v more =>
      cases more with
      | cons v2 more2 =>
        left
        refine ⟨by simp only [trainBody, hcap, hfaces], hnot fun x hx => ?_⟩
        rw [hfaces] at hx
        injection hx with _ hx
        exact List.noConfusion hx
      | nil =>
        right
        have hone : CapturesOneFace ac := ⟨frame, v, hcap, hfaces⟩
        obtain ⟨fs1, l, hinit, hwf1, hA1, hl1⟩ := initArray_wellFormed fs w.now ac.config.type hwf0
        have hget : (Json.obj fs1).getKey ("embeddings_" ++ ac.config.type) = .arr l := by
          rw [Json.getKey_obj, hA1]
          rfl
        unfold trainBody
        simp only [hcap, hfaces, hinit, hget]
        cases create_new with
        | true =>
          simp only [if_true]
          by_cases hfull : (decide (cfg.max_embeddings > 0) &&
              decide ((Json.arr l).size ≥ cfg.max_embeddings.toNat)) = true
          · right
            rw [if_pos hfull]
            simp only [Bool.and_eq_true, decide_eq_true_eq] at hfull
            exact ⟨rfl, trivial, hone, hfull.1, _, hinit, by rw [hget]; exact hfull.2⟩
          · left
            rw [if_neg hfull]
            simp only [Json.push_back, Json.assign]
            refine ⟨_, rfl, storeWellFormed_set fs1 _ _ hwf1 ?_, hone⟩
            intro en hen
            rcases List.mem_append.mp hen with hen | hen
            · exact hl1 en hen
            · rw [List.mem_singleton.mp hen]
              exact trainedEntry_readable _ _ _
        | false =>
          left
          obtain ⟨found, l1, hupd, hl2⟩ :=
            updateFirstLabelled_readable w label v hw l hl1
          simp only [Bool.false_eq_true, if_false, findAndUpdate, hupd]
          cases found with
          | true =>
            simp only [Json.assign]
            exact ⟨_, rfl, storeWellFormed_set fs1 _ _ hwf1 hl2, hone⟩
          | false =>
            simp only [Json.push_back, Json.assign]
            refine ⟨_, rfl, storeWellFormed_set fs1 _ _ hwf1 ?_, hone⟩
            intro en hen
            rcases List.mem_append.mp hen with hen | hen
            · exact hl2 en hen
            · rw [List.mem_singleton.mp hen]
              exact trainedEntry_readable _ _ _

/-- On a well-formed document the loop of `trainUser` never raises. It runs to its end
with a well-formed document, and with the flag `updated_any` set exactly when it was
set before or a camera captured exactly one face; or, in create-new mode, it returns
false at the first camera that captured exactly one face and finds the array of its
type full in the document as the cameras before it left it. -/
theorem trainLoop_wellFormed (cfg : Config) (w : World) (label : String) (create_new : Bool)
    (hw : SumsNormalize w) (cams : List ActiveCamera) (j : Json) (updated : Bool)
    (log : List Effect) (hwf : StoreWellFormed j) :
    (∃ j1 updated1 log1,
      trainLoop cfg w label create_new cams j updated log = .finished j1 updated1 log1 ∧
      StoreWellFormed j1 ∧
      (updated1 = true ↔ (updated = true ∨ ∃ ac ∈ cams, CapturesOneFace ac))) ∨
    (create_new = true ∧ ∃ log1 pre ac post j1 updated1 log2,
      trainLoop cfg w label create_new cams j updated log = .returned false log1 ∧
      cams = pre ++ ac :: post ∧
      trainLoop cfg w label create_new pre j updated log = .finished j1 updated1 log2 ∧
      CapturesOneFace ac ∧ ArrayFull cfg w.now ac j1) := by
  induction cams generalizing j updated log with
  | nil =>
    left
    refine ⟨j, updated, log, rfl, hwf, ?_⟩
    constructor
    · intro h; exact Or.inl h
    · rintro (h | ⟨ac, hac, -⟩)
      · exact h
      · exact absurd hac (List.not_mem_nil _)
  | cons ac rest ih =>
    rcases trainBody_wellFormed cfg w label create_new ac j hwf hw with
      ⟨hb, hnone⟩ | ⟨j2, hb, hwf2, hone⟩ | ⟨hb, hcn, hone, hfull⟩
    · have hstep : ∀ l : List ActiveCamera,
          trainLoop cfg w label create_new (ac :: l) j updated log =
            trainLoop cfg w label create_new l j updated (log ++ [.capture ac.config.id]) := by
        intro l
        rw [trainLoop_cons, hb]
      rcases ih j updated (log ++ [.capture ac.config.id]) hwf with
        ⟨j1, u1, log1, hloop, hwf1, hiff⟩ | ⟨hcn, log1, pre, x, post, j1, u1, log2, hloop,
          hsplit, hpre, hx, hfull⟩
      · left
        refine ⟨j1, u1, log1, by rw [hstep, hloop], hwf1, ?_⟩
        rw [hiff]
        constructor
        · rintro (h | ⟨y, hy, hcy⟩)
          · exact Or.inl h
          · exact Or.inr ⟨y, List.mem_cons_of_mem _ hy, hcy⟩
        · rintro (h | ⟨y, hy, hcy⟩)
          · exact Or.inl h
          · rcases List.mem_cons.mp hy with rfl | hy
            · exact absurd hcy hnone
            · exact Or.inr ⟨y, hy, hcy⟩
      · right
        exact ⟨hcn, log1, ac :: pre, x, post, j1, u1, log2, by rw [hstep, hloop],
          by rw [hsplit]; rfl, by rw [hstep, hpre], hx, hfull⟩
    · have hstep : ∀ l : List ActiveCamera,
          trainLoop cfg w label create_new (ac :: l) j updated log =
            trainLoop cfg w label create_new l j2 true (log ++ [.capture ac.config.id]) := by
        intro l
        rw [trainLoop_cons, hb]
      rcases ih j2 true (log ++ [.capture ac.config.id]) hwf2 with
        ⟨j1, u1, log1, hloop, hwf1, hiff⟩ | ⟨hcn, log1, pre, x, post, j1, u1, log2, hloop,
          hsplit, hpre, hx, hfull⟩
      · left
        refine ⟨j1, u1, log1, by rw [hstep, hloop], hwf1, ?_⟩
        constructor
        · intro _
          exact Or.inr ⟨ac, List.mem_cons_self _ _, hone⟩
        · intro _
          exact hiff.mpr (Or.inl rfl)
      · right
        exact ⟨hcn, log1, ac :: pre, x, post, j1, u1, log2, by rw [hstep, hloop],
          by rw [hsplit]; rfl, by rw [hstep, hpre], hx, hfull⟩
    · right
      refine ⟨hcn, log ++ [.capture ac.config.id], [], ac, rest, j, updated, log, ?_, rfl, rfl,
        hone, hfull⟩
      rw [trainLoop_cons, hb]

/-- The result of `trainUser` when its loop returns. -/
theorem trainUser_of_returned (e : AuthEngine) (w : World) (fs : FS) (u label : String)
    (create_new : Bool) (j : Json) (b : Bool) (log : List Effect)
    (hload : (ensureModelsLoaded e w).1 = true) (hvalid : isValidUsername u = true)
    (hj : fs (userFile e.config u) = some j)
    (hloop : trainLoop e.config w label create_new (camerasInUse e w) j false
      [.fsExists (userFile e.config u), .fsRead (userFile e.config u)] = .returned b log) :
    (trainUser e w fs u label create_new).result = .ok b ∧
    (trainUser e w fs u label create_new).fs = fs := by
  unfold trainUser
  unfold camerasInUse at hloop
  simp only [hload, hvalid, Bool.not_true, Bool.false_eq_true, if_false,
    ensureModelsLoaded_config, hj, hloop, and_self]

/-- The document of the scenarios is well formed. -/
theorem storeWellFormed_doc : StoreWellFormed Scenario.doc := by
  refine ⟨_, rfl, Or.inr ⟨1700000000, rfl⟩, ?_, ?_⟩
  · intro t v hv
    simp only [Fields.find] at hv
    rw [if_neg (created_ne_embeddings t)] at hv
    split_ifs at hv with h1 h2
    · injection hv with hv
      refine ⟨_, hv.symm, fun en hen => ?_⟩
      rw [List.mem_singleton.mp hen]
      exact ⟨_, .arr [.num 1], [1], rfl, rfl, rfl⟩
    · exact absurd h2 (username_ne_embeddings t)
  · intro t v hv
    simp only [Fields.find] at hv
    rw [if_neg (created_ne_embedding t)] at hv
    split_ifs at hv with h1 h2
    · exact absurd h1.symm (embedding_ne_embeddings t "rgb")
    · exact absurd h2 (username_ne_embedding t)

/-- C21 as stated fails: with `max_embeddings = 2`, the infrared camera captures
exactly one face and its array has room, so that on its own it contributes an appended
entry and `trainUser` returns true in create-new mode; with a color camera configured
after it whose array is full, the same call returns false and nothing is written, the
entry appended for the infrared camera included. -/
theorem C21_counterexample_capacity_on_later_camera :
    CapturesOneFace Scenario.irEnroll ∧
    (trainUser { Scenario.twoTypeEngine with active_cameras := [Scenario.irEnroll] }
      Scenario.world Scenario.twoPendingFiles "vlad" "hat" true).result = .ok true ∧
    (trainUser Scenario.twoTypeEngine Scenario.world Scenario.twoPendingFiles "vlad" "hat"
      true).result = .ok false ∧
    (trainUser Scenario.twoTypeEngine Scenario.world Scenario.twoPendingFiles "vlad" "hat"
      true).fs = Scenario.twoPendingFiles :=
  ⟨⟨_, _, rfl, rfl⟩, rfl, rfl, rfl⟩

/-- C21, amended: with the models loaded, a valid username, a well-formed stored
document and an addition routine that does not raise, whenever at least one camera in
use captured exactly one face, `trainUser` returns true and writes the user's document,
in refine mode always (every such camera refines or appends its entry) and in create-new
mode unless a camera that captured exactly one face finds the array of its type full
(after a legacy migration, in the document as the cameras before it left it): then
`trainUser` returns false at that camera and writes nothing, also when an earlier
camera had contributed an update. Without a limit (`max_embeddings <= 0`) it returns
true in both modes. -/
theorem C21_trainUser_succeeds (e : AuthEngine) (w : World) (fs : FS) (u label : String)
    (create_new : Bool) (j : Json)
    (hload : (ensureModelsLoaded e w).1 = true) (hvalid : isValidUsername u = true)
    (hj : fs (userFile e.config u) = some j) (hwf : StoreWellFormed j)
    (hw : SumsNormalize w) (hone : ∃ ac ∈ camerasInUse e w, CapturesOneFace ac) :
    (((trainUser e w fs u label create_new).result = .ok true ∧
        ∃ j1, (trainUser e w fs u label create_new).fs = fs.write (userFile e.config u) j1) ∨
      (create_new = true ∧ (trainUser e w fs u label create_new).result = .ok false ∧
        (trainUser e w fs u label create_new).fs = fs ∧
        ∃ pre ac post j1 updated1 log1, camerasInUse e w = pre ++ ac :: post ∧
          trainLoop e.config w label create_new pre j false
            [.fsExists (userFile e.config u), .fsRead (userFile e.config u)] =
            .finished j1 updated1 log1 ∧
          CapturesOneFace ac ∧ ArrayFull e.config w.now ac j1)) ∧
    (create_new = false → (trainUser e w fs u label create_new).result = .ok true) ∧
    (e.config.max_embeddings ≤ 0 →
      (trainUser e w fs u label create_new).result = .ok true) := by
  have key : (((trainUser e w fs u label create_new).result = .ok true ∧
        ∃ j1, (trainUser e w fs u label create_new).fs = fs.write (userFile e.config u) j1) ∨
      (create_new = true ∧ (trainUser e w fs u label create_new).result = .ok false ∧
        (trainUser e w fs u label create_new).fs = fs ∧
        ∃ pre ac post j1 updated1 log1, camerasInUse e w = pre ++ ac :: post ∧
          trainLoop e.config w label create_new pre j false
            [.fsExists (userFile e.config u), .fsRead (userFile e.config u)] =
            .finished j1 updated1 log1 ∧
          CapturesOneFace ac ∧ ArrayFull e.config w.now ac j1)) := by
    rcases trainLoop_wellFormed e.config w label create_new hw (camerasInUse e w) j false
        [.fsExists (userFile e.config u), .fsRead (userFile e.config u)] hwf with
      ⟨j1, u1, log1, hloop, -, hiff⟩ | ⟨hcn, log1, pre, x, post, j1, u1, log2, hloop, hsplit,
        hpre, hx, hfull⟩
    · left
      have hu : u1 = true := hiff.mpr (Or.inr hone)
      subst hu
      obtain ⟨h1, h2⟩ := trainUser_of_finished e w fs u label create_new j j1 log1 hload
        hvalid hj hloop
      exact ⟨h1, j1, h2⟩
    · right
      obtain ⟨h1, h2⟩ := trainUser_of_returned e w fs u label create_new j false log1 hload
        hvalid hj hloop
      exact ⟨hcn, h1, h2, pre, x, post, j1, u1, log2, hsplit, hpre, hx, hfull⟩
  refine ⟨key, ?_, ?_⟩
  · intro hcn
    rcases key with ⟨h, -⟩ | ⟨h, -⟩
    · exact h
    · rw [hcn] at h
      exact absurd h (by decide)
  · intro hmax
    rcases key with ⟨h, -⟩ | ⟨-, -, -, pre, x, post, j1, u1, log1, -, -, -, hfull, -⟩
    · exact h
    · exact absurd hfull (not_lt.mpr hmax)

/-- C21, as amended, at a concrete input: refining the label "default" of user
"vlad" on a color camera that captures one face returns true. -/
theorem C21_trainUser_succeeds_witness :
    (trainUser Scenario.smallEngine Scenario.world Scenario.files "vlad" "default"
      false).result = .ok true :=
  (C21_trainUser_succeeds Scenario.smallEngine Scenario.world Scenario.files "vlad" "default"
    false Scenario.doc rfl (by decide) rfl storeWellFormed_doc (fun a _ => ⟨a, rfl⟩)
    ⟨Scenario.rgbMatching, List.mem_cons_self _ _, _, _, rfl, rfl⟩).2.1 rfl


/-! ## Committing a label at capacity, for several camera types -/

/-- The search for the label in an array of labelled entries, with the update of
`setLabel`, does not raise, and finds the label exactly when an entry carries it. -/
theorem updateFirstLabelled_overwrite (label : String) (p : Json) (now : Int) (ver : String)
    (l : List Json) (h : ∀ en ∈ l, ∃ s, IsLabelled en s) :
    ∃ found l1, updateFirstLabelled label (overwriteEntry p now ver) l = .ok (found, l1) ∧
      (found = true ↔ ∃ en ∈ l, IsLabelled en label) := by
  induction l with
  | nil =>
    refine ⟨false, [], rfl, ?_⟩
    constructor
    · intro hf; exact absurd hf (by decide)
    · rintro ⟨en, hen, -⟩; exact absurd hen (List.not_mem_nil _)
  | cons en rest ih =>
    obtain ⟨s, hs⟩ := h en (List.mem_cons_self _ _)
    by_cases hsl : s = label
    · subst hsl
      obtain ⟨en1, hupd, -, -⟩ := overwriteEntry_labelled p now ver en s hs
      refine ⟨true, en1 :: rest, ?_, ?_⟩
      · simp only [updateFirstLabelled, entryLabelIs_labelled en s s hs, decide_True, hupd]
      · exact ⟨fun _ => ⟨en, List.mem_cons_self _ _, hs⟩, fun _ => rfl⟩
    · obtain ⟨found, l1, hrec, hiff⟩ := ih fun x hx => h x (List.mem_cons_of_mem _ hx)
      refine ⟨found, en :: l1, ?_, ?_⟩
      · simp only [updateFirstLabelled, entryLabelIs_labelled en s label hs, hsl,
          decide_False, hrec]
      · rw [hiff]
        constructor
        · rintro ⟨x, hx, hxl⟩
          exact ⟨x, List.mem_cons_of_mem _ hx, hxl⟩
        · rintro ⟨x, hx, hxl⟩
          rcases List.mem_cons.mp hx with rfl | hx
          · exact absurd (isLabelled_unique _ _ _ hs hxl) hsl
          · exact ⟨x, hx, hxl⟩

/-- A pass of the loop of `setLabel` that changes the document leaves an object without
a pending vector of its type. -/
theorem setLabelBody_update_obj (cfg : Config) (now : Int) (ver label t : String)
    (j j2 : Json) (h : setLabelBody cfg now ver label t j = .update j2) :
    ∃ fs2, j2 = .obj fs2 ∧ Fields.find fs2 ("_pending_" ++ t) = none := by
  obtain ⟨fs, p, j1, a1, hj, -, hinit, hfin, -⟩ :=
    setLabelBody_update_inv cfg now ver label t j j2 h
  subst hj
  obtain ⟨fs1, hj1, -⟩ := initArray_inv fs now t j1 hinit
  subst hj1
  simp only [finishCommit, Json.assign, Json.erase] at hfin
  exact ⟨_, (Except.ok.inj hfin).symm, Fields.find_erase_eq _ _⟩

/-- A camera type that takes the label is passed over, when it has no pending vector,
or its pass changes the document. -/
theorem setLabelBody_takes (cfg : Config) (now : Int) (ver label t : String)
    (fields : Fields) (h : TakesLabel cfg label fields t) :
    (setLabelBody cfg now ver label t (.obj fields) = .skip ∧
      Fields.find fields ("_pending_" ++ t) = none) ∨
    ∃ j2, setLabelBody cfg now ver label t (.obj fields) = .update j2 := by
  cases hp : Fields.find fields ("_pending_" ++ t) with
  | none =>
    left
    refine ⟨?_, rfl⟩
    simp only [setLabelBody, Json.contains_obj, hp, Option.isSome_none, Bool.false_eq_true,
      if_false]
  | some p =>
    right
    rcases h with h | ⟨l, hA, hwf, hor⟩
    · rw [hp] at h; exact Option.noConfusion h
    · have hc : (Json.obj fields).contains ("_pending_" ++ t) = true := by
        rw [Json.contains_obj, hp]; rfl
      have hi : initArray (.obj fields) now t = .ok (.obj fields) :=
        initArray_present _ _ _ (by rw [Json.contains_obj, hA]; rfl)
      have hg : (Json.obj fields).getKey ("embeddings_" ++ t) = .arr l := by
        rw [Json.getKey_obj, hA]; rfl
      obtain ⟨found, l1, hupd, hiff⟩ := updateFirstLabelled_overwrite label
        ((Json.obj fields).getKey ("_pending_" ++ t)) now ver l hwf
      have hfu : findAndUpdate label
          (overwriteEntry ((Json.obj fields).getKey ("_pending_" ++ t)) now ver) (.arr l) =
          .ok (found, .arr l1) := by
        simp only [findAndUpdate, hupd]
      unfold setLabelBody
      simp only [hc, if_true, hi, hg, hfu]
      cases found with
      | true =>
        simp only [finishCommit, Json.assign, Json.erase]
        split_ifs <;> exact ⟨_, rfl⟩
      | false =>
        have hroom : ¬ (0 < cfg.max_embeddings ∧ cfg.max_embeddings.toNat ≤ l.length) := by
          rcases hor with hor | hor
          · exact absurd (hiff.mpr hor) (by decide)
          · exact hor
        have hcond : (decide (cfg.max_embeddings > 0) &&
            decide ((Json.arr l).size ≥ cfg.max_embeddings.toNat)) = false := by
          rw [Bool.eq_false_iff]
          intro hh
          simp only [Bool.and_eq_true, decide_eq_true_eq, Json.size] at hh
          exact hroom ⟨hh.1, hh.2⟩
        simp only [hcond, Bool.false_eq_true, if_false, Json.push_back, finishCommit,
          Json.assign, Json.erase]
        exact ⟨_, rfl⟩

/-- A camera type that refuses the label makes `setLabel` return false. -/
theorem setLabelBody_refuses (cfg : Config) (now : Int) (ver label t : String)
    (fields : Fields) (h : RefusesLabel cfg label fields t) :
    setLabelBody cfg now ver label t (.obj fields) = .stop false := by
  obtain ⟨⟨p, hp⟩, l, hA, habs, hpos, hfull⟩ := h
  have hc : (Json.obj fields).contains ("_pending_" ++ t) = true := by
    rw [Json.contains_obj, hp]; rfl
  have hi : initArray (.obj fields) now t = .ok (.obj fields) :=
    initArray_present _ _ _ (by rw [Json.contains_obj, hA]; rfl)
  have hg : (Json.obj fields).getKey ("embeddings_" ++ t) = .arr l := by
    rw [Json.getKey_obj, hA]; rfl
  have hfu : findAndUpdate label
      (overwriteEntry ((Json.obj fields).getKey ("_pending_" ++ t)) now ver) (.arr l) =
      .ok (false, .arr l) := by
    simp only [findAndUpdate, updateFirstLabelled_absent label _ l habs]
  have hcond : (decide (cfg.max_embeddings > 0) &&
      decide ((Json.arr l).size ≥ cfg.max_embeddings.toNat)) = true := by
    simp only [Bool.and_eq_true, decide_eq_true_eq, Json.size]
    exact ⟨hpos, hfull⟩
  unfold setLabelBody
  simp only [hc, if_true, hi, hg, hcond, hfu]

/-- The pass for a camera type whose full array holds the label: the entry that
carries the label is overwritten in place and the pending vector is erased. -/
theorem setLabelBody_overwrites (cfg : Config) (now : Int) (ver label t : String) (m : Nat)
    (fields : Fields) (pre post : List Json) (en en1 p : Json)
    (hmax : cfg.max_embeddings = (m : Int)) (hpos : 0 < m)
    (hlen : (pre ++ en :: post).length = m)
    (hA : Fields.find fields ("embeddings_" ++ t) = some (.arr (pre ++ en :: post)))
    (hP : Fields.find fields ("_pending_" ++ t) = some p)
    (hpre : ∀ e ∈ pre, ∃ s, IsLabelled e s ∧ s ≠ label)
    (hen : IsLabelled en label) (hupd : overwriteEntry p now ver en = .ok en1) :
    setLabelBody cfg now ver label t (.obj fields) =
      .update (.obj (Fields.erase (Fields.set fields ("embeddings_" ++ t)
        (.arr (pre ++ en1 :: post))) ("_pending_" ++ t))) := by
  have hc : (Json.obj fields).contains ("_pending_" ++ t) = true := by
    rw [Json.contains_obj, hP]; rfl
  have hi : initArray (.obj fields) now t = .ok (.obj fields) :=
    initArray_present _ _ _ (by rw [Json.contains_obj, hA]; rfl)
  have hg : (Json.obj fields).getKey ("embeddings_" ++ t) = .arr (pre ++ en :: post) := by
    rw [Json.getKey_obj, hA]; rfl
  have hgp : (Json.obj fields).getKey ("_pending_" ++ t) = p := by
    rw [Json.getKey_obj, hP]; rfl
  have hfu : findAndUpdate label (overwriteEntry p now ver) (.arr (pre ++ en :: post)) =
      .ok (true, .arr (pre ++ en1 :: post)) := by
    simp only [findAndUpdate, updateFirstLabelled_found label _ pre post en en1 hpre hen hupd]
  unfold setLabelBody
  simp only [hc, if_true, hi, hg, hgp,
    capacity_reached cfg m (pre ++ en :: post) hmax hpos hlen, hfu, finishCommit,
    Json.assign, Json.erase]

/-- A pass that changes the document for one camera type leaves the other types as
they were: a type that took the label still takes it, a type that refused it still
refuses it, and the type of the pass now takes it. -/
theorem setLabelBody_keeps (cfg : Config) (now : Int) (ver label t1 : String)
    (fields : Fields) (j2 : Json)
    (h : setLabelBody cfg now ver label t1 (.obj fields) = .update j2) :
    ∃ fs2, j2 = .obj fs2 ∧
      (∀ t, TakesLabel cfg label fields t → TakesLabel cfg label fs2 t) ∧
      (∀ t, t ≠ t1 → RefusesLabel cfg label fields t → RefusesLabel cfg label fs2 t) ∧
      (∀ t, t ≠ t1 →
        Fields.find fs2 ("embeddings_" ++ t) = Fields.find fields ("embeddings_" ++ t) ∧
        Fields.find fs2 ("_pending_" ++ t) = Fields.find fields ("_pending_" ++ t)) ∧
      Fields.find fs2 ("_pending_" ++ t1) = none := by
  obtain ⟨fs2, hj2, hgone⟩ := setLabelBody_update_obj cfg now ver label t1 _ j2 h
  subst hj2
  have hframe : ∀ t, t ≠ t1 →
      Fields.find fs2 ("embeddings_" ++ t) = Fields.find fields ("embeddings_" ++ t) ∧
      Fields.find fs2 ("_pending_" ++ t) = Fields.find fields ("_pending_" ++ t) := by
    intro t ht
    obtain ⟨fa, fb, ha, hb, h1, -, h3⟩ :=
      setLabelBody_other cfg now ver label t1 t _ _ h (fun hh => ht hh.symm)
    injection ha with ha
    injection hb with hb
    subst ha
    subst hb
    exact ⟨h1, h3⟩
  refine ⟨fs2, rfl, ?_, ?_, hframe, hgone⟩
  · intro t ht
    by_cases htt : t = t1
    · subst htt
      exact Or.inl hgone
    · obtain ⟨h1, h3⟩ := hframe t htt
      rcases ht with ht | ⟨l, hA, hrest⟩
      · exact Or.inl (h3.trans ht)
      · exact Or.inr ⟨l, h1.trans hA, hrest⟩
  · intro t htt ht
    obtain ⟨h1, h3⟩ := hframe t htt
    obtain ⟨⟨p, hp⟩, l, hA, hrest⟩ := ht
    exact ⟨⟨p, h3.trans hp⟩, l, h1.trans hA, hrest⟩

/-- When every configured camera type takes the label, the loop of `setLabel` runs to
its end, and it has set the flag `updated` when a configured type has a pending
vector. -/
theorem setLabelLoop_takes (cfg : Config) (now : Int) (ver label : String)
    (cams : List ActiveCamera) (fields : Fields) (updated : Bool)
    (h : ∀ ac ∈ cams, TakesLabel cfg label fields ac.config.type) :
    ∃ fields1 updated1,
      setLabelLoop cfg now ver label cams (.obj fields) updated =
        .finished (.obj fields1) updated1 [] ∧
      ((updated = true ∨ ∃ ac ∈ cams,
          (Fields.find fields ("_pending_" ++ ac.config.type)).isSome = true) →
        updated1 = true) := by
  induction cams generalizing fields updated with
  | nil =>
    refine ⟨fields, updated, rfl, ?_⟩
    rintro (hu | ⟨ac, hac, -⟩)
    · exact hu
    · exact absurd hac (List.not_mem_nil _)
  | cons ac rest ih =>
    rw [setLabelLoop_cons]
    rcases setLabelBody_takes cfg now ver label ac.config.type fields
        (h ac (List.mem_cons_self _ _)) with ⟨hb, hnone⟩ | ⟨j2, hb⟩
    · rw [hb]
      obtain ⟨fields1, u1, hloop, hu⟩ := ih fields updated
        fun x hx => h x (List.mem_cons_of_mem _ hx)
      refine ⟨fields1, u1, hloop, ?_⟩
      rintro (hup | ⟨x, hx, hxp⟩)
      · exact hu (Or.inl hup)
      · rcases List.mem_cons.mp hx with rfl | hx
        · rw [hnone] at hxp
          exact absurd hxp (by decide)
        · exact hu (Or.inr ⟨x, hx, hxp⟩)
    · rw [hb]
      obtain ⟨fs2, hj2, hkeep, -, -, -⟩ :=
        setLabelBody_keeps cfg now ver label ac.config.type fields j2 hb
      subst hj2
      obtain ⟨fields1, u1, hloop, hu⟩ := ih fs2 true
        fun x hx => hkeep _ (h x (List.mem_cons_of_mem _ hx))
      exact ⟨fields1, u1, hloop, fun _ => hu (Or.inl rfl)⟩

/-- When a configured camera type refuses the label, the loop of `setLabel` does not
run to its end. -/
theorem setLabelLoop_refused (cfg : Config) (now : Int) (ver label : String)
    (cams : List ActiveCamera) (fields : Fields) (updated : Bool)
    (h : ∃ ac ∈ cams, RefusesLabel cfg label fields ac.config.type)
    (j1 : Json) (updated1 : Bool) (log : List Effect) :
    setLabelLoop cfg now ver label cams (.obj fields) updated ≠
      .finished j1 updated1 log := by
  induction cams generalizing fields updated with
  | nil =>
    obtain ⟨ac, hac, -⟩ := h
    exact absurd hac (List.not_mem_nil _)
  | cons ac rest ih =>
    rw [setLabelLoop_cons]
    by_cases hac : RefusesLabel cfg label fields ac.config.type
    · rw [setLabelBody_refuses cfg now ver label _ fields hac]
      exact fun hh => StoreLoopEnd.noConfusion hh
    · obtain ⟨x, hx, hxr⟩ := h
      have hxrest : x ∈ rest := by
        rcases List.mem_cons.mp hx with rfl | hx
        · exact absurd hxr hac
        · exact hx
      have hne : x.config.type ≠ ac.config.type := fun hh => hac (hh ▸ hxr)
      cases hb : setLabelBody cfg now ver label ac.config.type (.obj fields) with
      | stop b => exact fun hh => StoreLoopEnd.noConfusion hh
      | raise err => exact fun hh => StoreLoopEnd.noConfusion hh
      | skip => exact ih fields updated ⟨x, hxrest, hxr⟩
      | update j2 =>
        obtain ⟨fs2, hj2, -, hkeep, -, -⟩ :=
          setLabelBody_keeps cfg now ver label ac.config.type fields j2 hb
        subst hj2
        exact ih fs2 true ⟨x, hxrest, hkeep _ hne hxr⟩

/-- When every configured camera type takes or refuses the label and one refuses it,
the loop of `setLabel` returns false. -/
theorem setLabelLoop_settles (cfg : Config) (now : Int) (ver label : String)
    (cams : List ActiveCamera) (fields : Fields) (updated : Bool)
    (hall : ∀ ac ∈ cams, TakesLabel cfg label fields ac.config.type ∨
      RefusesLabel cfg label fields ac.config.type)
    (h : ∃ ac ∈ cams, RefusesLabel cfg label fields ac.config.type) :
    setLabelLoop cfg now ver label cams (.obj fields) updated = .returned false [] := by
  induction cams generalizing fields updated with
  | nil =>
    obtain ⟨ac, hac, -⟩ := h
    exact absurd hac (List.not_mem_nil _)
  | cons ac rest ih =>
    rw [setLabelLoop_cons]
    by_cases hac : RefusesLabel cfg label fields ac.config.type
    · rw [setLabelBody_refuses cfg now ver label _ fields hac]
    · obtain ⟨x, hx, hxr⟩ := h
      have hxrest : x ∈ rest := by
        rcases List.mem_cons.mp hx with rfl | hx
        · exact absurd hxr hac
        · exact hx
      have hne : x.config.type ≠ ac.config.type := fun hh => hac (hh ▸ hxr)
      have htakes : TakesLabel cfg label fields ac.config.type := by
        rcases hall ac (List.mem_cons_self _ _) with ht | hr
        · exact ht
        · exact absurd hr hac
      rcases setLabelBody_takes cfg now ver label ac.config.type fields htakes with
        ⟨hb, -⟩ | ⟨j2, hb⟩
      · rw [hb]
        exact ih fields updated (fun y hy => hall y (List.mem_cons_of_mem _ hy))
          ⟨x, hxrest, hxr⟩
      · rw [hb]
        obtain ⟨fs2, hj2, hkt, hkr, -, hgone⟩ :=
          setLabelBody_keeps cfg now ver label ac.config.type fields j2 hb
        subst hj2
        refine ih fs2 true (fun y hy => ?_) ⟨x, hxrest, hkr _ hne hxr⟩
        rcases hall y (List.mem_cons_of_mem _ hy) with ht | hr
        · exact Or.inl (hkt _ ht)
        · by_cases hyt : y.config.type = ac.config.type
          · exact Or.inl (Or.inl (hyt ▸ hgone))
          · exact Or.inr (hkr _ hyt hr)

/-- Where the loop of `setLabel` runs to its end on a document whose full array of the
type `t` holds the label: once a camera of that type has been visited, the array has
the entry that carries the label overwritten in place, and the pending vector is
gone. -/
theorem setLabelLoop_overwrites (cfg : Config) (now : Int) (ver label t : String) (m : Nat)
    (pre post : List Json) (en en1 p : Json)
    (hmax : cfg.max_embeddings = (m : Int)) (hpos : 0 < m)
    (hlen : (pre ++ en :: post).length = m)
    (hpre : ∀ e ∈ pre, ∃ s, IsLabelled e s ∧ s ≠ label)
    (hen : IsLabelled en label) (hupd : overwriteEntry p now ver en = .ok en1)
    (cams : List ActiveCamera) (fields : Fields) (updated : Bool)
    (j1 : Json) (updated1 : Bool) (log : List Effect)
    (hloop : setLabelLoop cfg now ver label cams (.obj fields) updated =
      .finished j1 updated1 log)
    (hstate : (Fields.find fields ("embeddings_" ++ t) = some (.arr (pre ++ en :: post)) ∧
        Fields.find fields ("_pending_" ++ t) = some p) ∨
      (Fields.find fields ("embeddings_" ++ t) = some (.arr (pre ++ en1 :: post)) ∧
        Fields.find fields ("_pending_" ++ t) = none)) :
    ∃ fields1, j1 = .obj fields1 ∧
      ((Fields.find fields ("_pending_" ++ t) = some p ∧ ∀ ac ∈ cams, ac.config.type ≠ t) ∨
        (Fields.find fields1 ("embeddings_" ++ t) = some (.arr (pre ++ en1 :: post)) ∧
          Fields.find fields1 ("_pending_" ++ t) = none)) := by
  induction cams generalizing fields updated with
  | nil =>
    simp only [setLabelLoop] at hloop
    injection hloop with hj _ _
    subst hj
    refine ⟨fields, rfl, ?_⟩
    rcases hstate with ⟨-, hP⟩ | hB
    · exact Or.inl ⟨hP, fun ac hac => absurd hac (List.not_mem_nil _)⟩
    · exact Or.inr hB
  | cons ac rest ih =>
    rw [setLabelLoop_cons] at hloop
    by_cases hat : ac.config.type = t
    · rcases hstate with ⟨hA, hP⟩ | ⟨hA, hP⟩
      · rw [hat, setLabelBody_overwrites cfg now ver label t m fields pre post en en1 p hmax
          hpos hlen hA hP hpre hen hupd] at hloop
        obtain ⟨fields1, hj1, hfin⟩ := ih _ true hloop (Or.inr
          ⟨by rw [Fields.find_erase_ne _ _ _ (fun hh => pending_ne_embeddings _ _ hh.symm),
              Fields.find_set_eq],
           Fields.find_erase_eq _ _⟩)
        refine ⟨fields1, hj1, ?_⟩
        rcases hfin with ⟨hP1, -⟩ | hB
        · rw [Fields.find_erase_eq] at hP1
          exact Option.noConfusion hP1
        · exact Or.inr hB
      · have hskip : setLabelBody cfg now ver label ac.config.type (.obj fields) = .skip := by
          rw [hat]
          simp only [setLabelBody, Json.contains_obj, hP, Option.isSome_none,
            Bool.false_eq_true, if_false]
        rw [hskip] at hloop
        obtain ⟨fields1, hj1, hfin⟩ := ih fields updated hloop (Or.inr ⟨hA, hP⟩)
        refine ⟨fields1, hj1, ?_⟩
        rcases hfin with ⟨hP1, -⟩ | hB
        · rw [hP] at hP1
          exact Option.noConfusion hP1
        · exact Or.inr hB
    · cases hb : setLabelBody cfg now ver label ac.config.type (.obj fields) with
      | stop b => rw [hb] at hloop; exact StoreLoopEnd.noConfusion hloop
      | raise err => rw [hb] at hloop; exact StoreLoopEnd.noConfusion hloop
      | skip =>
        rw [hb] at hloop
        obtain ⟨fields1, hj1, hfin⟩ := ih fields updated hloop hstate
        refine ⟨fields1, hj1, ?_⟩
        rcases hfin with ⟨hP1, hno⟩ | hB
        · exact Or.inl ⟨hP1, fun x hx => by
            rcases List.mem_cons.mp hx with rfl | hx
            · exact hat
            · exact hno x hx⟩
        · exact Or.inr hB
      | update j2 =>
        rw [hb] at hloop
        obtain ⟨fs2, hj2, -, -, hframe, -⟩ :=
          setLabelBody_keeps cfg now ver label ac.config.type fields j2 hb
        subst hj2
        obtain ⟨h1, h3⟩ := hframe t (fun hh => hat hh.symm)
        obtain ⟨fields1, hj1, hfin⟩ := ih fs2 true hloop (by rw [h1, h3]; exact hstate)
        refine ⟨fields1, hj1, ?_⟩
        rcases hfin with ⟨hP1, hno⟩ | hB
        · exact Or.inl ⟨h3 ▸ hP1, fun x hx => by
            rcases List.mem_cons.mp hx with rfl | hx
            · exact hat
            · exact hno x hx⟩
        · exact Or.inr hB

/-- The result of `setLabel` when its loop returns. -/
theorem setLabel_of_returned (e : AuthEngine) (w : World) (fs : FS) (u label : String)
    (j : Json) (b : Bool) (log : List Effect) (hvalid : isValidUsername u = true)
    (hj : fs (userFile e.config u) = some j)
    (hloop : setLabelLoop e.config w.now (getModelVersion e.recognition_model_path) label
      e.active_cameras j false = .returned b log) :
    (setLabel e w fs u label).result = .ok b ∧ (setLabel e w fs u label).fs = fs := by
  constructor <;>
    simp only [setLabel, hvalid, Bool.not_true, Bool.false_eq_true, if_false, hj, hloop]

/-- When a configured camera type refuses the label, `setLabel` does not return true
and writes nothing. -/
theorem setLabel_refused (e : AuthEngine) (w : World) (fs : FS) (u label : String)
    (fields : Fields) (hj : fs (userFile e.config u) = some (.obj fields))
    (h : ∃ ac ∈ e.active_cameras, RefusesLabel e.config label fields ac.config.type) :
    (setLabel e w fs u label).result ≠ .ok true ∧ (setLabel e w fs u label).fs = fs := by
  have hne : (setLabel e w fs u label).result ≠ .ok true := by
    intro htrue
    obtain ⟨j, j1, log, hj1, hloop, -⟩ := setLabel_true_inv e w fs u label htrue
    rw [hj] at hj1
    injection hj1 with hj1
    subst hj1
    exact setLabelLoop_refused _ _ _ _ _ fields false h j1 true log hloop
  exact ⟨hne, setLabel_fs_unchanged e w fs u label hne⟩

/-- C10 as stated fails when another configured camera type has a pending vector, as it
has after every enrollment on two cameras: with `max_embeddings = 2`, the cameras "ir"
and "rgb", the array of "ir" holding the labels "default" and "hat" and the array of
"rgb" the labels "default" and "glasses", `setLabel` with the existing label "glasses"
of the full array of "rgb" returns false and writes nothing, because the array of "ir"
is full and lacks the label; with the color camera alone the same call returns true. -/
theorem C10_counterexample_other_type_full :
    (setLabel Scenario.twoTypeEngine Scenario.world Scenario.twoFullFiles "vlad"
      "glasses").result = .ok false ∧
    (setLabel Scenario.twoTypeEngine Scenario.world Scenario.twoFullFiles "vlad"
      "glasses").fs = Scenario.twoFullFiles ∧
    (setLabel { Scenario.twoTypeEngine with active_cameras := [Scenario.rgbMatching] }
      Scenario.world Scenario.twoFullFiles "vlad" "glasses").result = .ok true :=
  ⟨rfl, rfl, rfl⟩

/-- C10, amended. With `max_embeddings = m > 0`, a configured camera of type `t`, an
`embeddings_<t>` array that holds m entries with distinct labels and a pending vector
for `t`: under a label that is not in the array `setLabel` never returns true and
leaves the stored document unchanged, and it returns false when every other
configured type takes or refuses the label (so that no exception is raised). Under a
label of the array, whenever `setLabel` returns true the written document has that
entry's `data` replaced by the pending vector, the other entries of the array as
before, the array still at m entries and the pending vector gone; it returns true
when every other configured type takes the label (it has no pending vector, or its
array holds the label or has room); and when another configured type refuses the label
(pending vector, full array without the label) it does not return true and leaves the
stored document unchanged, returning false when every other type takes or refuses the
label. -/
theorem C10_setLabel_at_capacity (e : AuthEngine) (w : World) (fs : FS)
    (u label t : String) (m : Nat) (fields : Fields) (entries : List Json) (p : Json)
    (hvalid : isValidUsername u = true)
    (hj : fs (userFile e.config u) = some (.obj fields))
    (hmax : e.config.max_embeddings = (m : Int)) (hpos : 0 < m)
    (hA : Fields.find fields ("embeddings_" ++ t) = some (.arr entries))
    (hlen : entries.length = m)
    (hwf : ∀ en ∈ entries, ∃ s, IsLabelled en s)
    (hdist : (entries.map fun en => en.getKey "label").Nodup)
    (hP : Fields.find fields ("_pending_" ++ t) = some p)
    (hcam : ∃ ac ∈ e.active_cameras, ac.config.type = t) :
    ((∀ en ∈ entries, ¬ IsLabelled en label) →
      (setLabel e w fs u label).result ≠ .ok true ∧ (setLabel e w fs u label).fs = fs ∧
      ((∀ ac ∈ e.active_cameras, ac.config.type ≠ t →
          TakesLabel e.config label fields ac.config.type ∨
            RefusesLabel e.config label fields ac.config.type) →
        (setLabel e w fs u label).result = .ok false)) ∧
    (∀ pre en post, entries = pre ++ en :: post → IsLabelled en label →
      ∃ en1, IsLabelled en1 label ∧ en1.getKey "data" = p ∧
        ((setLabel e w fs u label).result = .ok true →
          ∃ j1, (setLabel e w fs u label).fs = fs.write (userFile e.config u) j1 ∧
            j1.getKey ("embeddings_" ++ t) = .arr (pre ++ en1 :: post) ∧
            (pre ++ en1 :: post).length = m ∧ j1.contains ("_pending_" ++ t) = false) ∧
        ((∀ ac ∈ e.active_cameras, ac.config.type ≠ t →
            TakesLabel e.config label fields ac.config.type) →
          (setLabel e w fs u label).result = .ok true) ∧
        ((∃ ac ∈ e.active_cameras, RefusesLabel e.config label fields ac.config.type) →
          (setLabel e w fs u label).result ≠ .ok true ∧
          (setLabel e w fs u label).fs = fs ∧
          ((∀ ac ∈ e.active_cameras, ac.config.type ≠ t →
              TakesLabel e.config label fields ac.config.type ∨
                RefusesLabel e.config label fields ac.config.type) →
            (setLabel e w fs u label).result = .ok false))) := by
  have hm1 : 0 < e.config.max_embeddings := by rw [hmax]; exact_mod_cast hpos
  have hm2 : e.config.max_embeddings.toNat = m := by rw [hmax]; exact Int.toNat_natCast m
  obtain ⟨act, hact, hactt⟩ := hcam
  constructor
  · intro habs
    have href : RefusesLabel e.config label fields t := by
      refine ⟨⟨p, hP⟩, entries, hA, ?_, hm1, by rw [hm2, hlen]⟩
      intro en hen
      obtain ⟨s, hs⟩ := hwf en hen
      exact ⟨s, hs, fun h => habs en hen (h ▸ hs)⟩
    have hex : ∃ ac ∈ e.active_cameras, RefusesLabel e.config label fields ac.config.type :=
      ⟨act, hact, by rw [hactt]; exact href⟩
    obtain ⟨h1, h2⟩ := setLabel_refused e w fs u label fields hj hex
    refine ⟨h1, h2, fun hall => ?_⟩
    have hloop := setLabelLoop_settles e.config w.now
      (getModelVersion e.recognition_model_path) label e.active_cameras fields false
      (fun ac hac => by
        by_cases hat : ac.config.type = t
        · exact Or.inr (by rw [hat]; exact href)
        · exact hall ac hac hat) hex
    exact (setLabel_of_returned e w fs u label _ false [] hvalid hj hloop).1
  · intro pre en post hsplit hen
    subst hsplit
    have hpre : ∀ e0 ∈ pre, ∃ s, IsLabelled e0 s ∧ s ≠ label := by
      intro e0 he0
      obtain ⟨s, hs⟩ := hwf e0 (List.mem_append_left _ he0)
      refine ⟨s, hs, fun h => ?_⟩
      subst h
      rw [List.map_append, List.map_cons, List.nodup_append] at hdist
      have hmem : e0.getKey "label" ∈
          en.getKey "label" :: List.map (fun en => en.getKey "label") post := by
        rw [getKey_label_of_isLabelled e0 s hs, ← getKey_label_of_isLabelled en s hen]
        exact List.mem_cons_self _ _
      exact hdist.2.2 (List.mem_map.2 ⟨e0, he0, rfl⟩) hmem
    obtain ⟨en1, hupd, hlab1, hdata1⟩ :=
      overwriteEntry_labelled p w.now (getModelVersion e.recognition_model_path) en label hen
    have htakes : TakesLabel e.config label fields t :=
      Or.inr ⟨_, hA, hwf, Or.inl ⟨en, List.mem_append_right _ (List.mem_cons_self _ _), hen⟩⟩
    refine ⟨en1, hlab1, hdata1, ?_, ?_, ?_⟩
    · intro htrue
      obtain ⟨j, j1, log, hj1, hloop, hfs⟩ := setLabel_true_inv e w fs u label htrue
      rw [hj] at hj1
      injection hj1 with hj1
      subst hj1
      obtain ⟨fields1, hj1, hfin⟩ := setLabelLoop_overwrites e.config w.now
        (getModelVersion e.recognition_model_path) label t m pre post en en1 p hmax hpos hlen
        hpre hen hupd e.active_cameras fields false j1 true log hloop (Or.inl ⟨hA, hP⟩)
      subst hj1
      rcases hfin with ⟨-, hno⟩ | ⟨hA1, hP1⟩
      · exact absurd hactt (hno act hact)
      · refine ⟨_, hfs, ?_, ?_, ?_⟩
        · rw [Json.getKey_obj, hA1]; rfl
        · rw [← hlen]; simp
        · rw [Json.contains_obj, hP1]; rfl
    · intro hall
      obtain ⟨fields1, u1, hloop, hu⟩ := setLabelLoop_takes e.config w.now
        (getModelVersion e.recognition_model_path) label e.active_cameras fields false
        (fun ac hac => by
          by_cases hat : ac.config.type = t
          · rw [hat]; exact htakes
          · exact hall ac hac hat)
      have hu1 : u1 = true := hu (Or.inr ⟨act, hact, by rw [hactt, hP]; rfl⟩)
      subst hu1
      exact (setLabel_of_finished e w fs u label _ _ [] hvalid hj hloop).1
    · intro hex
      obtain ⟨h1, h2⟩ := setLabel_refused e w fs u label fields hj hex
      refine ⟨h1, h2, fun hall => ?_⟩
      have hloop := setLabelLoop_settles e.config w.now
        (getModelVersion e.recognition_model_path) label e.active_cameras fields false
        (fun ac hac => by
          by_cases hat : ac.config.type = t
          · exact Or.inl (by rw [hat]; exact htakes)
          · exact hall ac hac hat) hex
      exact (setLabel_of_returned e w fs u label _ false [] hvalid hj hloop).1

/-- C10, as amended, at the concrete case m = 2 with two camera types, both with a
pending vector: the array of "rgb" holds "default" and "glasses" and is full, the array
of "ir" holds "default" alone. The third label "hat" is rejected and nothing is
written; the label "glasses" is accepted, since "ir" has room for it, and the entry of
the written `embeddings_rgb` array that carries "glasses" has the pending vector as its
data. -/
theorem C10_setLabel_at_capacity_witness :
    ((setLabel Scenario.twoTypeEngine Scenario.world Scenario.twoPendingFiles "vlad"
        "hat").result = .ok false ∧
      (setLabel Scenario.twoTypeEngine Scenario.world Scenario.twoPendingFiles "vlad"
        "hat").fs = Scenario.twoPendingFiles) ∧
    (setLabel Scenario.twoTypeEngine Scenario.world Scenario.twoPendingFiles "vlad"
      "glasses").result = .ok true ∧
    ∃ en1 j1, en1.getKey "data" = .arr [.num 7] ∧
      (setLabel Scenario.twoTypeEngine Scenario.world Scenario.twoPendingFiles "vlad"
        "glasses").fs =
        Scenario.twoPendingFiles.write (userFile Scenario.twoTypeEngine.config "vlad") j1 ∧
      j1.getKey "embeddings_rgb" = .arr [Scenario.versionedEntry "default" 1, en1] := by
  have hwf : ∀ en ∈ [Scenario.versionedEntry "default" 1, Scenario.versionedEntry "glasses" 2],
      ∃ s, IsLabelled en s := by
    intro en hen
    rcases List.mem_cons.1 hen with h | h
    · exact ⟨"default", _, h, rfl⟩
    · rw [List.mem_singleton.1 h]
      exact ⟨"glasses", _, rfl, rfl⟩
  have hdist : ([Scenario.versionedEntry "default" 1,
      Scenario.versionedEntry "glasses" 2].map fun en => en.getKey "label").Nodup := by
    simp [Scenario.versionedEntry, Json.getKey, Fields.find]
  have hcam : ∃ ac ∈ Scenario.twoTypeEngine.active_cameras, ac.config.type = "rgb" :=
    ⟨Scenario.rgbMatching, List.mem_cons_of_mem _ (List.mem_cons_self _ _), rfl⟩
  have hir : ∀ label, TakesLabel Scenario.twoTypeEngine.config label Scenario.twoPendingFields
      "ir" := fun label =>
    Or.inr ⟨[Scenario.versionedEntry "default" 1], rfl,
      fun en hen => ⟨"default", _, List.mem_singleton.1 hen, rfl⟩,
      Or.inr (by rintro ⟨-, h⟩; exact absurd h (by decide))⟩
  have hother : ∀ label, ∀ ac ∈ Scenario.twoTypeEngine.active_cameras,
      ac.config.type ≠ "rgb" →
      TakesLabel Scenario.twoTypeEngine.config label Scenario.twoPendingFields
        ac.config.type := by
    intro label ac hac hne
    rcases List.mem_cons.1 hac with h | h
    · rw [h]; exact hir label
    · rw [List.mem_singleton.1 h] at hne
      exact absurd rfl hne
  have h1 := (C10_setLabel_at_capacity Scenario.twoTypeEngine Scenario.world
    Scenario.twoPendingFiles "vlad" "hat" "rgb" 2 Scenario.twoPendingFields
    [Scenario.versionedEntry "default" 1, Scenario.versionedEntry "glasses" 2] (.arr [.num 7])
    (by decide) rfl rfl (by decide) rfl rfl hwf hdist rfl hcam).1
  have h2 := (C10_setLabel_at_capacity Scenario.twoTypeEngine Scenario.world
    Scenario.twoPendingFiles "vlad" "glasses" "rgb" 2 Scenario.twoPendingFields
    [Scenario.versionedEntry "default" 1, Scenario.versionedEntry "glasses" 2] (.arr [.num 7])
    (by decide) rfl rfl (by decide) rfl rfl hwf hdist rfl hcam).2
  obtain ⟨-, hfs1, hfalse⟩ := h1 (by
    intro en hen hl
    rcases List.mem_cons.1 hen with h | h
    · subst h
      exact absurd (isLabelled_unique _ _ _ hl ⟨_, rfl, rfl⟩) (by decide)
    · rw [List.mem_singleton.1 h] at hl
      exact absurd (isLabelled_unique _ _ _ hl ⟨_, rfl, rfl⟩) (by decide))
  obtain ⟨en1, -, hdata, hwritten, htrue, -⟩ := h2 [Scenario.versionedEntry "default" 1]
    (Scenario.versionedEntry "glasses" 2) [] rfl ⟨_, rfl, rfl⟩
  have hres := htrue (hother "glasses")
  obtain ⟨j1, hfs, hget, -, -⟩ := hwritten hres
  exact ⟨⟨hfalse fun ac hac hne => Or.inl (hother "hat" ac hac hne), hfs1⟩, hres,
    en1, j1, hdata, hfs, hget⟩

end LinuxCamPAM
